import Mathlib

/-!
# dnstrace: a shallow embedding of the tracer, the ladder, the client and the classifier

Go values are embedded as follows.  `int` and `time.Duration` are `Int`,
`uint16` record types and rcodes are `Nat`, `error` is `Option GoError`
(`none` is `nil`), a `*dns.Msg` is `Option Msg`, Go maps are association
lists, and the effect of talking to the network is explicit state passing
over a world type `W`.
-/

set_option autoImplicit false

namespace Dnstrace

/-! ## Standard-library case mapping (package `unicode`) -/

namespace unicode

/-- The lower-case mapping that `unicode.CaseRanges` tabulates: the simple lowercase
mappings of the Unicode character database (15.0.0, whose case pairs are those of
14.0.0), as rows `(lo, hi, stride, delta)`.  A code point `r` with `lo ≤ r ≤ hi` and
`r - lo` a multiple of the stride maps to `r + delta`. -/
def lowerRanges : List (Nat × Nat × Nat × Int) :=
  [(0x41, 0x5A, 1, 32), (0xC0, 0xD6, 1, 32), (0xD8, 0xDE, 1, 32), (0x100, 0x12E, 2, 1),
   (0x130, 0x130, 1, -199), (0x132, 0x136, 2, 1), (0x139, 0x147, 2, 1), (0x14A, 0x176, 2, 1),
   (0x178, 0x178, 1, -121), (0x179, 0x17D, 2, 1), (0x181, 0x181, 1, 210), (0x182, 0x184, 2, 1),
   (0x186, 0x186, 1, 206), (0x187, 0x187, 1, 1), (0x189, 0x18A, 1, 205), (0x18B, 0x18B, 1, 1),
   (0x18E, 0x18E, 1, 79), (0x18F, 0x18F, 1, 202), (0x190, 0x190, 1, 203), (0x191, 0x191, 1, 1),
   (0x193, 0x193, 1, 205), (0x194, 0x194, 1, 207), (0x196, 0x196, 1, 211),
   (0x197, 0x197, 1, 209), (0x198, 0x198, 1, 1), (0x19C, 0x19C, 1, 211), (0x19D, 0x19D, 1, 213),
   (0x19F, 0x19F, 1, 214), (0x1A0, 0x1A4, 2, 1), (0x1A6, 0x1A6, 1, 218), (0x1A7, 0x1A7, 1, 1),
   (0x1A9, 0x1A9, 1, 218), (0x1AC, 0x1AC, 1, 1), (0x1AE, 0x1AE, 1, 218), (0x1AF, 0x1AF, 1, 1),
   (0x1B1, 0x1B2, 1, 217), (0x1B3, 0x1B5, 2, 1), (0x1B7, 0x1B7, 1, 219), (0x1B8, 0x1B8, 1, 1),
   (0x1BC, 0x1BC, 1, 1), (0x1C4, 0x1C4, 1, 2), (0x1C5, 0x1C5, 1, 1), (0x1C7, 0x1C7, 1, 2),
   (0x1C8, 0x1C8, 1, 1), (0x1CA, 0x1CA, 1, 2), (0x1CB, 0x1DB, 2, 1), (0x1DE, 0x1EE, 2, 1),
   (0x1F1, 0x1F1, 1, 2), (0x1F2, 0x1F4, 2, 1), (0x1F6, 0x1F6, 1, -97), (0x1F7, 0x1F7, 1, -56),
   (0x1F8, 0x21E, 2, 1), (0x220, 0x220, 1, -130), (0x222, 0x232, 2, 1), (0x23A, 0x23A, 1, 10795),
   (0x23B, 0x23B, 1, 1), (0x23D, 0x23D, 1, -163), (0x23E, 0x23E, 1, 10792), (0x241, 0x241, 1, 1),
   (0x243, 0x243, 1, -195), (0x244, 0x244, 1, 69), (0x245, 0x245, 1, 71), (0x246, 0x24E, 2, 1),
   (0x370, 0x372, 2, 1), (0x376, 0x376, 1, 1), (0x37F, 0x37F, 1, 116), (0x386, 0x386, 1, 38),
   (0x388, 0x38A, 1, 37), (0x38C, 0x38C, 1, 64), (0x38E, 0x38F, 1, 63), (0x391, 0x3A1, 1, 32),
   (0x3A3, 0x3AB, 1, 32), (0x3CF, 0x3CF, 1, 8), (0x3D8, 0x3EE, 2, 1), (0x3F4, 0x3F4, 1, -60),
   (0x3F7, 0x3F7, 1, 1), (0x3F9, 0x3F9, 1, -7), (0x3FA, 0x3FA, 1, 1), (0x3FD, 0x3FF, 1, -130),
   (0x400, 0x40F, 1, 80), (0x410, 0x42F, 1, 32), (0x460, 0x480, 2, 1), (0x48A, 0x4BE, 2, 1),
   (0x4C0, 0x4C0, 1, 15), (0x4C1, 0x4CD, 2, 1), (0x4D0, 0x52E, 2, 1), (0x531, 0x556, 1, 48),
   (0x10A0, 0x10C5, 1, 7264), (0x10C7, 0x10C7, 1, 7264), (0x10CD, 0x10CD, 1, 7264),
   (0x13A0, 0x13EF, 1, 38864), (0x13F0, 0x13F5, 1, 8), (0x1C90, 0x1CBA, 1, -3008),
   (0x1CBD, 0x1CBF, 1, -3008), (0x1E00, 0x1E94, 2, 1), (0x1E9E, 0x1E9E, 1, -7615),
   (0x1EA0, 0x1EFE, 2, 1), (0x1F08, 0x1F0F, 1, -8), (0x1F18, 0x1F1D, 1, -8),
   (0x1F28, 0x1F2F, 1, -8), (0x1F38, 0x1F3F, 1, -8), (0x1F48, 0x1F4D, 1, -8),
   (0x1F59, 0x1F5F, 2, -8), (0x1F68, 0x1F6F, 1, -8), (0x1F88, 0x1F8F, 1, -8),
   (0x1F98, 0x1F9F, 1, -8), (0x1FA8, 0x1FAF, 1, -8), (0x1FB8, 0x1FB9, 1, -8),
   (0x1FBA, 0x1FBB, 1, -74), (0x1FBC, 0x1FBC, 1, -9), (0x1FC8, 0x1FCB, 1, -86),
   (0x1FCC, 0x1FCC, 1, -9), (0x1FD8, 0x1FD9, 1, -8), (0x1FDA, 0x1FDB, 1, -100),
   (0x1FE8, 0x1FE9, 1, -8), (0x1FEA, 0x1FEB, 1, -112), (0x1FEC, 0x1FEC, 1, -7),
   (0x1FF8, 0x1FF9, 1, -128), (0x1FFA, 0x1FFB, 1, -126), (0x1FFC, 0x1FFC, 1, -9),
   (0x2126, 0x2126, 1, -7517), (0x212A, 0x212A, 1, -8383), (0x212B, 0x212B, 1, -8262),
   (0x2132, 0x2132, 1, 28), (0x2160, 0x216F, 1, 16), (0x2183, 0x2183, 1, 1),
   (0x24B6, 0x24CF, 1, 26), (0x2C00, 0x2C2F, 1, 48), (0x2C60, 0x2C60, 1, 1),
   (0x2C62, 0x2C62, 1, -10743), (0x2C63, 0x2C63, 1, -3814), (0x2C64, 0x2C64, 1, -10727),
   (0x2C67, 0x2C6B, 2, 1), (0x2C6D, 0x2C6D, 1, -10780), (0x2C6E, 0x2C6E, 1, -10749),
   (0x2C6F, 0x2C6F, 1, -10783), (0x2C70, 0x2C70, 1, -10782), (0x2C72, 0x2C72, 1, 1),
   (0x2C75, 0x2C75, 1, 1), (0x2C7E, 0x2C7F, 1, -10815), (0x2C80, 0x2CE2, 2, 1),
   (0x2CEB, 0x2CED, 2, 1), (0x2CF2, 0x2CF2, 1, 1), (0xA640, 0xA66C, 2, 1),
   (0xA680, 0xA69A, 2, 1), (0xA722, 0xA72E, 2, 1), (0xA732, 0xA76E, 2, 1),
   (0xA779, 0xA77B, 2, 1), (0xA77D, 0xA77D, 1, -35332), (0xA77E, 0xA786, 2, 1),
   (0xA78B, 0xA78B, 1, 1), (0xA78D, 0xA78D, 1, -42280), (0xA790, 0xA792, 2, 1),
   (0xA796, 0xA7A8, 2, 1), (0xA7AA, 0xA7AA, 1, -42308), (0xA7AB, 0xA7AB, 1, -42319),
   (0xA7AC, 0xA7AC, 1, -42315), (0xA7AD, 0xA7AD, 1, -42305), (0xA7AE, 0xA7AE, 1, -42308),
   (0xA7B0, 0xA7B0, 1, -42258), (0xA7B1, 0xA7B1, 1, -42282), (0xA7B2, 0xA7B2, 1, -42261),
   (0xA7B3, 0xA7B3, 1, 928), (0xA7B4, 0xA7C2, 2, 1), (0xA7C4, 0xA7C4, 1, -48),
   (0xA7C5, 0xA7C5, 1, -42307), (0xA7C6, 0xA7C6, 1, -35384), (0xA7C7, 0xA7C9, 2, 1),
   (0xA7D0, 0xA7D0, 1, 1), (0xA7D6, 0xA7D8, 2, 1), (0xA7F5, 0xA7F5, 1, 1),
   (0xFF21, 0xFF3A, 1, 32), (0x10400, 0x10427, 1, 40), (0x104B0, 0x104D3, 1, 40),
   (0x10570, 0x1057A, 1, 39), (0x1057C, 0x1058A, 1, 39), (0x1058C, 0x10592, 1, 39),
   (0x10594, 0x10595, 1, 39), (0x10C80, 0x10CB2, 1, 64), (0x118A0, 0x118BF, 1, 32),
   (0x16E40, 0x16E5F, 1, 32), (0x1E900, 0x1E921, 1, 34)]

/-- The upper-case mapping that `unicode.CaseRanges` tabulates: the simple uppercase
mappings of the same database, in the same layout. -/
def upperRanges : List (Nat × Nat × Nat × Int) :=
  [(0x61, 0x7A, 1, -32), (0xB5, 0xB5, 1, 743), (0xE0, 0xF6, 1, -32), (0xF8, 0xFE, 1, -32),
   (0xFF, 0xFF, 1, 121), (0x101, 0x12F, 2, -1), (0x131, 0x131, 1, -232), (0x133, 0x137, 2, -1),
   (0x13A, 0x148, 2, -1), (0x14B, 0x177, 2, -1), (0x17A, 0x17E, 2, -1), (0x17F, 0x17F, 1, -300),
   (0x180, 0x180, 1, 195), (0x183, 0x185, 2, -1), (0x188, 0x188, 1, -1), (0x18C, 0x18C, 1, -1),
   (0x192, 0x192, 1, -1), (0x195, 0x195, 1, 97), (0x199, 0x199, 1, -1), (0x19A, 0x19A, 1, 163),
   (0x19E, 0x19E, 1, 130), (0x1A1, 0x1A5, 2, -1), (0x1A8, 0x1A8, 1, -1), (0x1AD, 0x1AD, 1, -1),
   (0x1B0, 0x1B0, 1, -1), (0x1B4, 0x1B6, 2, -1), (0x1B9, 0x1B9, 1, -1), (0x1BD, 0x1BD, 1, -1),
   (0x1BF, 0x1BF, 1, 56), (0x1C5, 0x1C5, 1, -1), (0x1C6, 0x1C6, 1, -2), (0x1C8, 0x1C8, 1, -1),
   (0x1C9, 0x1C9, 1, -2), (0x1CB, 0x1CB, 1, -1), (0x1CC, 0x1CC, 1, -2), (0x1CE, 0x1DC, 2, -1),
   (0x1DD, 0x1DD, 1, -79), (0x1DF, 0x1EF, 2, -1), (0x1F2, 0x1F2, 1, -1), (0x1F3, 0x1F3, 1, -2),
   (0x1F5, 0x1F5, 1, -1), (0x1F9, 0x21F, 2, -1), (0x223, 0x233, 2, -1), (0x23C, 0x23C, 1, -1),
   (0x23F, 0x240, 1, 10815), (0x242, 0x242, 1, -1), (0x247, 0x24F, 2, -1),
   (0x250, 0x250, 1, 10783), (0x251, 0x251, 1, 10780), (0x252, 0x252, 1, 10782),
   (0x253, 0x253, 1, -210), (0x254, 0x254, 1, -206), (0x256, 0x257, 1, -205),
   (0x259, 0x259, 1, -202), (0x25B, 0x25B, 1, -203), (0x25C, 0x25C, 1, 42319),
   (0x260, 0x260, 1, -205), (0x261, 0x261, 1, 42315), (0x263, 0x263, 1, -207),
   (0x265, 0x265, 1, 42280), (0x266, 0x266, 1, 42308), (0x268, 0x268, 1, -209),
   (0x269, 0x269, 1, -211), (0x26A, 0x26A, 1, 42308), (0x26B, 0x26B, 1, 10743),
   (0x26C, 0x26C, 1, 42305), (0x26F, 0x26F, 1, -211), (0x271, 0x271, 1, 10749),
   (0x272, 0x272, 1, -213), (0x275, 0x275, 1, -214), (0x27D, 0x27D, 1, 10727),
   (0x280, 0x280, 1, -218), (0x282, 0x282, 1, 42307), (0x283, 0x283, 1, -218),
   (0x287, 0x287, 1, 42282), (0x288, 0x288, 1, -218), (0x289, 0x289, 1, -69),
   (0x28A, 0x28B, 1, -217), (0x28C, 0x28C, 1, -71), (0x292, 0x292, 1, -219),
   (0x29D, 0x29D, 1, 42261), (0x29E, 0x29E, 1, 42258), (0x345, 0x345, 1, 84),
   (0x371, 0x373, 2, -1), (0x377, 0x377, 1, -1), (0x37B, 0x37D, 1, 130), (0x3AC, 0x3AC, 1, -38),
   (0x3AD, 0x3AF, 1, -37), (0x3B1, 0x3C1, 1, -32), (0x3C2, 0x3C2, 1, -31),
   (0x3C3, 0x3CB, 1, -32), (0x3CC, 0x3CC, 1, -64), (0x3CD, 0x3CE, 1, -63),
   (0x3D0, 0x3D0, 1, -62), (0x3D1, 0x3D1, 1, -57), (0x3D5, 0x3D5, 1, -47),
   (0x3D6, 0x3D6, 1, -54), (0x3D7, 0x3D7, 1, -8), (0x3D9, 0x3EF, 2, -1), (0x3F0, 0x3F0, 1, -86),
   (0x3F1, 0x3F1, 1, -80), (0x3F2, 0x3F2, 1, 7), (0x3F3, 0x3F3, 1, -116), (0x3F5, 0x3F5, 1, -96),
   (0x3F8, 0x3F8, 1, -1), (0x3FB, 0x3FB, 1, -1), (0x430, 0x44F, 1, -32), (0x450, 0x45F, 1, -80),
   (0x461, 0x481, 2, -1), (0x48B, 0x4BF, 2, -1), (0x4C2, 0x4CE, 2, -1), (0x4CF, 0x4CF, 1, -15),
   (0x4D1, 0x52F, 2, -1), (0x561, 0x586, 1, -48), (0x10D0, 0x10FA, 1, 3008),
   (0x10FD, 0x10FF, 1, 3008), (0x13F8, 0x13FD, 1, -8), (0x1C80, 0x1C80, 1, -6254),
   (0x1C81, 0x1C81, 1, -6253), (0x1C82, 0x1C82, 1, -6244), (0x1C83, 0x1C84, 1, -6242),
   (0x1C85, 0x1C85, 1, -6243), (0x1C86, 0x1C86, 1, -6236), (0x1C87, 0x1C87, 1, -6181),
   (0x1C88, 0x1C88, 1, 35266), (0x1D79, 0x1D79, 1, 35332), (0x1D7D, 0x1D7D, 1, 3814),
   (0x1D8E, 0x1D8E, 1, 35384), (0x1E01, 0x1E95, 2, -1), (0x1E9B, 0x1E9B, 1, -59),
   (0x1EA1, 0x1EFF, 2, -1), (0x1F00, 0x1F07, 1, 8), (0x1F10, 0x1F15, 1, 8),
   (0x1F20, 0x1F27, 1, 8), (0x1F30, 0x1F37, 1, 8), (0x1F40, 0x1F45, 1, 8),
   (0x1F51, 0x1F57, 2, 8), (0x1F60, 0x1F67, 1, 8), (0x1F70, 0x1F71, 1, 74),
   (0x1F72, 0x1F75, 1, 86), (0x1F76, 0x1F77, 1, 100), (0x1F78, 0x1F79, 1, 128),
   (0x1F7A, 0x1F7B, 1, 112), (0x1F7C, 0x1F7D, 1, 126), (0x1F80, 0x1F87, 1, 8),
   (0x1F90, 0x1F97, 1, 8), (0x1FA0, 0x1FA7, 1, 8), (0x1FB0, 0x1FB1, 1, 8),
   (0x1FB3, 0x1FB3, 1, 9), (0x1FBE, 0x1FBE, 1, -7205), (0x1FC3, 0x1FC3, 1, 9),
   (0x1FD0, 0x1FD1, 1, 8), (0x1FE0, 0x1FE1, 1, 8), (0x1FE5, 0x1FE5, 1, 7),
   (0x1FF3, 0x1FF3, 1, 9), (0x214E, 0x214E, 1, -28), (0x2170, 0x217F, 1, -16),
   (0x2184, 0x2184, 1, -1), (0x24D0, 0x24E9, 1, -26), (0x2C30, 0x2C5F, 1, -48),
   (0x2C61, 0x2C61, 1, -1), (0x2C65, 0x2C65, 1, -10795), (0x2C66, 0x2C66, 1, -10792),
   (0x2C68, 0x2C6C, 2, -1), (0x2C73, 0x2C73, 1, -1), (0x2C76, 0x2C76, 1, -1),
   (0x2C81, 0x2CE3, 2, -1), (0x2CEC, 0x2CEE, 2, -1), (0x2CF3, 0x2CF3, 1, -1),
   (0x2D00, 0x2D25, 1, -7264), (0x2D27, 0x2D27, 1, -7264), (0x2D2D, 0x2D2D, 1, -7264),
   (0xA641, 0xA66D, 2, -1), (0xA681, 0xA69B, 2, -1), (0xA723, 0xA72F, 2, -1),
   (0xA733, 0xA76F, 2, -1), (0xA77A, 0xA77C, 2, -1), (0xA77F, 0xA787, 2, -1),
   (0xA78C, 0xA78C, 1, -1), (0xA791, 0xA793, 2, -1), (0xA794, 0xA794, 1, 48),
   (0xA797, 0xA7A9, 2, -1), (0xA7B5, 0xA7C3, 2, -1), (0xA7C8, 0xA7CA, 2, -1),
   (0xA7D1, 0xA7D1, 1, -1), (0xA7D7, 0xA7D9, 2, -1), (0xA7F6, 0xA7F6, 1, -1),
   (0xAB53, 0xAB53, 1, -928), (0xAB70, 0xABBF, 1, -38864), (0xFF41, 0xFF5A, 1, -32),
   (0x10428, 0x1044F, 1, -40), (0x104D8, 0x104FB, 1, -40), (0x10597, 0x105A1, 1, -39),
   (0x105A3, 0x105B1, 1, -39), (0x105B3, 0x105B9, 1, -39), (0x105BB, 0x105BC, 1, -39),
   (0x10CC0, 0x10CF2, 1, -64), (0x118C0, 0x118DF, 1, -32), (0x16E60, 0x16E7F, 1, -32),
   (0x1E922, 0x1E943, 1, -34)]

/-- The lookup of `unicode.To` above U+007F: the row that holds the code point moves
it by its delta, and a code point in no row stays as it is. -/
def mapRune (ranges : List (Nat × Nat × Nat × Int)) (r : Nat) : Nat :=
  match ranges.find? (fun e => e.1 ≤ r && r ≤ e.2.1 && (r - e.1) % e.2.2.1 == 0) with
  | some e => ((r : Int) + e.2.2.2).toNat
  | none => r

/-- Go `unicode.ToLower`: `A`-`Z` to `a`-`z` below U+0080, the case table above it. -/
def ToLower (c : Char) : Char :=
  if c.toNat < 128 then c.toLower else Char.ofNat (mapRune lowerRanges c.toNat)

/-- Go `unicode.ToUpper`: `a`-`z` to `A`-`Z` below U+0080, the case table above it. -/
def ToUpper (c : Char) : Char :=
  if c.toNat < 128 then c.toUpper else Char.ofNat (mapRune upperRanges c.toNat)

end unicode

/-! ## Standard-library string helpers -/

namespace strings

/-- Go `strings.HasSuffix`. -/
def HasSuffix (s suffix : String) : Bool :=
  suffix.data.isSuffixOf s.data

/-- Go `strings.TrimSuffix`. -/
def TrimSuffix (s suffix : String) : String :=
  if HasSuffix s suffix then ⟨s.data.take (s.data.length - suffix.data.length)⟩ else s

/-- Go `strings.ToLower`: `unicode.ToLower` on every character of the string. -/
def ToLower (s : String) : String :=
  ⟨s.data.map unicode.ToLower⟩

/-- Go `strings.ToUpper`: `unicode.ToUpper` on every character of the string. -/
def ToUpper (s : String) : String :=
  ⟨s.data.map unicode.ToUpper⟩

/-- The byte-wise order of Go strings on the characters, as a recursive comparison. -/
def ltChars : List Char → List Char → Bool
  | [], [] => false
  | [], _ :: _ => true
  | _ :: _, [] => false
  | a :: as, b :: bs =>
    if a.toNat < b.toNat then true
    else if b.toNat < a.toNat then false
    else ltChars as bs

/-- Go `a < b` on strings. -/
def Less (a b : String) : Bool :=
  ltChars a.data b.data

/-- Insertion of one string into an ascending list. -/
def insertSorted (x : String) : List String → List String
  | [] => [x]
  | y :: ys => if Less y x then y :: insertSorted x ys else x :: y :: ys

/-- Go `sort.Strings`: the ascending rearrangement of the list. -/
def SortStrings (l : List String) : List String :=
  l.foldr insertSorted []

end strings

/-! ## The DNS library (github.com/miekg/dns) as used by the program -/

namespace dns

abbrev TypeA : Nat := 1
abbrev TypeNS : Nat := 2
abbrev TypeCNAME : Nat := 5
abbrev TypeSOA : Nat := 6
abbrev TypePTR : Nat := 12
abbrev TypeMX : Nat := 15
abbrev TypeTXT : Nat := 16
abbrev TypeAAAA : Nat := 28
abbrev TypeSRV : Nat := 33
abbrev TypeDNAME : Nat := 39

abbrev RcodeSuccess : Nat := 0
abbrev RcodeFormatError : Nat := 1
abbrev RcodeServerFailure : Nat := 2
abbrev RcodeNameError : Nat := 3
abbrev RcodeNotImplemented : Nat := 4
abbrev RcodeRefused : Nat := 5

/-- Modelled from the spec: the library table `dns.StringToType`, on the record
types the spec enumerates (A, AAAA, CNAME, DNAME, NS, SOA, TXT, MX, SRV, PTR). -/
def StringToType (s : String) : Option Nat :=
  if s = "A" then some TypeA
  else if s = "NS" then some TypeNS
  else if s = "CNAME" then some TypeCNAME
  else if s = "SOA" then some TypeSOA
  else if s = "PTR" then some TypePTR
  else if s = "MX" then some TypeMX
  else if s = "TXT" then some TypeTXT
  else if s = "AAAA" then some TypeAAAA
  else if s = "SRV" then some TypeSRV
  else if s = "DNAME" then some TypeDNAME
  else none

/-- Modelled from the spec: the library table `dns.TypeToString` on the same
record types; a missing key reads as the empty string, as a Go map does. -/
def TypeToString (t : Nat) : String :=
  if t = TypeA then "A"
  else if t = TypeNS then "NS"
  else if t = TypeCNAME then "CNAME"
  else if t = TypeSOA then "SOA"
  else if t = TypePTR then "PTR"
  else if t = TypeMX then "MX"
  else if t = TypeTXT then "TXT"
  else if t = TypeAAAA then "AAAA"
  else if t = TypeSRV then "SRV"
  else if t = TypeDNAME then "DNAME"
  else ""

/-- Modelled from the spec: the library table `dns.RcodeToString`; a missing key
reads as the empty string. -/
def RcodeToString (r : Nat) : String :=
  if r = 0 then "NOERROR"
  else if r = 1 then "FORMERR"
  else if r = 2 then "SERVFAIL"
  else if r = 3 then "NXDOMAIN"
  else if r = 4 then "NOTIMP"
  else if r = 5 then "REFUSED"
  else if r = 6 then "YXDOMAIN"
  else if r = 7 then "YXRRSET"
  else if r = 8 then "NXRRSET"
  else if r = 9 then "NOTAUTH"
  else if r = 10 then "NOTZONE"
  else if r = 16 then "BADSIG"
  else if r = 17 then "BADKEY"
  else if r = 18 then "BADTIME"
  else if r = 19 then "BADMODE"
  else if r = 20 then "BADNAME"
  else if r = 21 then "BADALG"
  else if r = 22 then "BADTRUNC"
  else if r = 23 then "BADCOOKIE"
  else ""

/-- Library `dns.IsFqdn`: the name ends in a dot that is not escaped, that is,
the dot is preceded by an even number of backslashes. -/
def IsFqdn (s : String) : Bool :=
  match s.data.reverse with
  | '.' :: rest => (rest.takeWhile (fun c => c == '\\')).length % 2 == 0
  | _ => false

/-- Library `dns.Fqdn`: the name itself when fully qualified, else with a dot appended. -/
def Fqdn (s : String) : String :=
  if IsFqdn s then s else s ++ "."

/-- The header every resource record carries (`dns.RR_Header`). -/
structure RR_Header where
  Name : String
  Rrtype : Nat
  Class : Nat
  Ttl : Nat
  deriving DecidableEq, Repr

/-- The concrete Go type of a resource record, which is what a type switch
`rr.(*dns.CNAME)` inspects; addresses are kept in their `net.IP.String()` form. -/
inductive RData where
  | A (A : String)
  | AAAA (AAAA : String)
  | CNAME (Target : String)
  | DNAME (Target : String)
  | NS (Ns : String)
  | SOA (Ns Mbox : String) (Serial Refresh Retry Expire Minttl : Nat)
  | Other (rdata : String)
  deriving DecidableEq, Repr

/-- A resource record: its header and its typed data (`dns.RR`). -/
structure RR where
  Hdr : RR_Header
  Data : RData
  deriving DecidableEq, Repr

/-- The presentation form of a record's data. -/
def RData.String : RData → String
  | .A a => a
  | .AAAA a => a
  | .CNAME t => t
  | .DNAME t => t
  | .NS n => n
  | .SOA n m s rf rt e mt =>
    n ++ " " ++ m ++ " " ++ toString s ++ " " ++ toString rf ++ " " ++ toString rt
      ++ " " ++ toString e ++ " " ++ toString mt
  | .Other d => d

/-- Library `rr.String()`: the tab-separated header (owner, TTL, class, type)
followed by the data. -/
def RR.String (rr : RR) : String :=
  rr.Hdr.Name ++ "\t" ++ toString rr.Hdr.Ttl ++ "\t"
    ++ (if rr.Hdr.Class = 1 then "IN" else "CLASS" ++ toString rr.Hdr.Class) ++ "\t"
    ++ (if TypeToString rr.Hdr.Rrtype = "" then "TYPE" ++ toString rr.Hdr.Rrtype
        else TypeToString rr.Hdr.Rrtype) ++ "\t" ++ rr.Data.String

/-- A parsed DNS message (`dns.Msg`), with the fields the program reads. -/
structure Msg where
  Authoritative : Bool
  Truncated : Bool
  Rcode : Nat
  Answer : List RR
  Ns : List RR
  Extra : List RR
  deriving DecidableEq, Repr

end dns

/-- A Go `error` value: its message and whether `errors.Is(err, context.DeadlineExceeded)`. -/
structure GoError where
  msg : String
  deadlineExceeded : Bool
  deriving DecidableEq, Repr

/-! ## internal/model -/

namespace model

/-- One query and response event; `RTT` keeps the measured duration that the
program renders with `Duration.String`, and the wall-clock timestamp is left out. -/
structure TraceStep where
  Index : Int
  Server : String
  ServerName : String
  QueryName : String
  QueryType : String
  Transport : String
  Rcode : String
  Authoritative : Bool
  Answers : List String
  NS : List String
  SOA : String
  RTT : Int
  Error : String
  Note : String
  deriving DecidableEq, Repr

structure Timing where
  StepIndex : Int
  Server : String
  RTT : Int
  TimedOut : Bool
  Transport : String
  deriving DecidableEq, Repr

structure Diagnosis where
  Classification : String
  Summary : String
  EvidenceSteps : List Int
  Hints : List String
  deriving DecidableEq, Repr

structure TraceResult where
  TraceSteps : List TraceStep
  Diagnosis : Diagnosis
  Timings : List Timing
  deriving DecidableEq, Repr

/-- The zero value `model.TraceResult{}`. -/
def TraceResult.zero : TraceResult :=
  { TraceSteps := [], Diagnosis := { Classification := "", Summary := "", EvidenceSteps := [], Hints := [] },
    Timings := [] }

end model

/-! ## internal/analyze -/

namespace analyze

abbrev OutcomeSuccess : String := "SUCCESS"
abbrev OutcomeNXDOMAIN : String := "NXDOMAIN"
abbrev OutcomeNODATA : String := "NODATA"
abbrev OutcomeBrokenDelegation : String := "BROKEN_DELEGATION"
abbrev OutcomeLameDelegation : String := "LAME_DELEGATION"
abbrev OutcomeServfailTimeout : String := "SERVFAIL_TIMEOUT"

structure Outcome where
  Kind : String
  Summary : String
  EvidenceStep : Int
  Hints : List String
  deriving DecidableEq, Repr

def Diagnose (outcome : Outcome) : model.Diagnosis :=
  let steps : List Int := []
  let steps := if outcome.EvidenceStep ≥ 0 then steps ++ [outcome.EvidenceStep] else steps
  { Classification := outcome.Kind
    Summary := outcome.Summary
    EvidenceSteps := steps
    Hints := outcome.Hints }

end analyze

/-! ## internal/ladder: the classifier -/

namespace ladder

def hasAnswer (step : model.TraceStep) : Bool :=
  step.Answers.length > 0

/-- The four first-seen indices that `diagnoseLadder` keeps while scanning. -/
structure Firsts where
  firstAnswer : Int
  firstNX : Int
  firstNoData : Int
  firstServfail : Int
  deriving DecidableEq, Repr

/-- One iteration of the scanning loop of `diagnoseLadder`. -/
def scanStep (f : Firsts) (step : model.TraceStep) : Firsts :=
  if step.Error ≠ "" then
    if f.firstServfail = -1 then { f with firstServfail := step.Index } else f
  else
    let f := if hasAnswer step then
        (if f.firstAnswer = -1 then { f with firstAnswer := step.Index } else f)
      else f
    if step.Rcode = "NXDOMAIN" then
      if f.firstNX = -1 then { f with firstNX := step.Index } else f
    else if step.Rcode = "NOERROR" then
      if !hasAnswer step && f.firstNoData = -1 then { f with firstNoData := step.Index } else f
    else if step.Rcode = "SERVFAIL" ∨ step.Rcode = "REFUSED" then
      if f.firstServfail = -1 then { f with firstServfail := step.Index } else f
    else f

def diagnoseLadder (result : model.TraceResult) : model.Diagnosis :=
  let f := result.TraceSteps.foldl scanStep
    { firstAnswer := -1, firstNX := -1, firstNoData := -1, firstServfail := -1 }
  if f.firstAnswer ≥ 0 then
    analyze.Diagnose { Kind := analyze.OutcomeSuccess, Summary := "resolver returned answer",
                       EvidenceStep := f.firstAnswer, Hints := [] }
  else if f.firstNX ≥ 0 then
    analyze.Diagnose { Kind := analyze.OutcomeNXDOMAIN, Summary := "resolver returned NXDOMAIN",
                       EvidenceStep := f.firstNX, Hints := [] }
  else if f.firstNoData ≥ 0 then
    analyze.Diagnose { Kind := analyze.OutcomeNODATA, Summary := "resolver returned NOERROR without data",
                       EvidenceStep := f.firstNoData, Hints := [] }
  else if f.firstServfail ≥ 0 then
    analyze.Diagnose { Kind := analyze.OutcomeServfailTimeout, Summary := "resolver failure or timeout",
                       EvidenceStep := f.firstServfail, Hints := [] }
  else
    analyze.Diagnose { Kind := analyze.OutcomeServfailTimeout, Summary := "no resolver responses",
                       EvidenceStep := -1, Hints := [] }

def nsStrings (rrs : List dns.RR) : List String :=
  rrs.filterMap (fun rr =>
    match rr.Data with
    | .NS n => some n
    | _ => none)

def rrStrings (rrs : List dns.RR) : List String :=
  rrs.map dns.RR.String

def soaString (resp : dns.Msg) : String :=
  match resp.Ns.find? (fun rr =>
    match rr.Data with
    | .SOA _ _ _ _ _ _ _ => true
    | _ => false) with
  | some rr => rr.String
  | none => ""

def isReferral (resp : Option dns.Msg) : Bool :=
  match resp with
  | some m => m.Rcode == dns.RcodeSuccess && m.Answer.length == 0 && m.Ns.length > 0
  | none => false

/-- The body of the resolver loop of `ladder.Trace` after the exchange: the step
and the timing appended for resolver `i`, from the normalized resolver address and
what `client.Exchange` returned (response, rtt, transport, error). -/
def ladderStep (i : Int) (resolver fqdn : String) (qtype : Nat)
    (resp : Option dns.Msg) (rtt : Int) (transport : String) (err : Option GoError) :
    model.TraceStep × model.Timing :=
  let step : model.TraceStep :=
    { Index := i
      Server := resolver
      ServerName := ""
      QueryName := dns.Fqdn fqdn
      QueryType := dns.TypeToString qtype
      Transport := transport
      Rcode := ""
      Authoritative := false
      Answers := []
      NS := []
      SOA := ""
      RTT := rtt
      Error := ""
      Note := "" }
  match err with
  | some e =>
    ({ step with Error := e.msg },
     { StepIndex := i, Server := resolver, RTT := rtt, TimedOut := true, Transport := transport })
  | none =>
    let step :=
      match resp with
      | some m =>
        { step with
          Authoritative := m.Authoritative
          Rcode := dns.RcodeToString m.Rcode
          Answers := rrStrings m.Answer
          NS := nsStrings m.Ns
          SOA := soaString m
          Note := if isReferral resp then "referral (expected at delegation level)" else "" }
      | none => step
    (step,
     { StepIndex := i, Server := resolver, RTT := rtt, TimedOut := false, Transport := transport })

end ladder

/-! ## internal/trace: records, helpers and the per-hop selection -/

namespace trace

structure Config where
  MaxHops : Int
  MaxTime : Int
  Parallelism : Int
  Verbose : Bool
  deriving DecidableEq, Repr

/-- What one call of `client.Exchange` hands back: response, rtt, transport, error. -/
structure Exchanged where
  resp : Option dns.Msg
  rtt : Int
  transport : String
  err : Option GoError
  deriving DecidableEq, Repr

structure response where
  server : String
  resp : Option dns.Msg
  rtt : Int
  transport : String
  err : Option GoError
  stepIndex : Int
  deriving DecidableEq, Repr

/-- The tracer: its configuration, its root hints, and its client, which is seen
through the one thing the tracer does with it, `client.Exchange(ctx, srv,
client.BuildQuery(name, qtype))`, as a transition of the world. -/
structure Tracer (W : Type) where
  exchange : W → String → String → Nat → Exchanged × W
  config : Config
  rootHints : List String

def DefaultRootHints : List String :=
  [ "198.41.0.4:53", "199.9.14.201:53", "192.33.4.12:53", "199.7.91.13:53",
    "192.203.230.10:53", "192.5.5.241:53", "192.112.36.4:53", "198.97.190.53:53",
    "192.36.148.17:53", "192.58.128.30:53", "193.0.14.129:53", "199.7.83.42:53",
    "202.12.27.33:53" ]

def DefaultRootHintNames : List (String × String) :=
  [ ("198.41.0.4:53", "a.root-servers.net"), ("199.9.14.201:53", "b.root-servers.net"),
    ("192.33.4.12:53", "c.root-servers.net"), ("199.7.91.13:53", "d.root-servers.net"),
    ("192.203.230.10:53", "e.root-servers.net"), ("192.5.5.241:53", "f.root-servers.net"),
    ("192.112.36.4:53", "g.root-servers.net"), ("198.97.190.53:53", "h.root-servers.net"),
    ("192.36.148.17:53", "i.root-servers.net"), ("192.58.128.30:53", "j.root-servers.net"),
    ("193.0.14.129:53", "k.root-servers.net"), ("199.7.83.42:53", "l.root-servers.net"),
    ("202.12.27.33:53", "m.root-servers.net") ]

def NewTracer {W : Type} (exchange : W → String → String → Nat → Exchanged × W) (cfg : Config) :
    Tracer W :=
  let cfg := if cfg.MaxHops = 0 then { cfg with MaxHops := 32 } else cfg
  let cfg := if cfg.MaxTime = 0 then { cfg with MaxTime := 2000000000 } else cfg
  let cfg := if cfg.Parallelism = 0 then { cfg with Parallelism := 6 } else cfg
  { exchange := exchange, config := cfg, rootHints := DefaultRootHints }

/-- Reading a Go `map[string]string`: the zero value when the key is absent. -/
def mapGet (m : List (String × String)) (k : String) : String :=
  match m.find? (fun p => p.1 == k) with
  | some p => p.2
  | none => ""

/-- The assignment `m[k] = v` on a Go map. -/
def mapSet (m : List (String × String)) (k v : String) : List (String × String) :=
  if m.any (fun p => p.1 == k) then m.map (fun p => if p.1 == k then (k, v) else p)
  else m ++ [(k, v)]

/-- Whether the key is present in a Go map. -/
def mapHas (m : List (String × String)) (k : String) : Bool :=
  m.any (fun p => p.1 == k)

def hasAnswerType (resp : dns.Msg) (qtype : Nat) : Bool :=
  resp.Answer.any (fun rr => rr.Hdr.Rrtype == qtype)

/-- The target and the header of the first CNAME record of the answer section. -/
def firstCNAME (resp : dns.Msg) : Option (dns.RR_Header × String) :=
  resp.Answer.findSome? (fun rr =>
    match rr.Data with
    | .CNAME t => some (rr.Hdr, t)
    | _ => none)

def firstDNAME (resp : dns.Msg) : Option (dns.RR_Header × String) :=
  resp.Answer.findSome? (fun rr =>
    match rr.Data with
    | .DNAME t => some (rr.Hdr, t)
    | _ => none)

def isSOA (rr : dns.RR) : Bool :=
  match rr.Data with
  | .SOA _ _ _ _ _ _ _ => true
  | _ => false

def isNS (rr : dns.RR) : Bool :=
  match rr.Data with
  | .NS _ => true
  | _ => false

def soaString (resp : dns.Msg) : String :=
  match resp.Ns.find? isSOA with
  | some rr => rr.String
  | none => ""

def hasSOA (resp : dns.Msg) : Bool :=
  soaString resp != ""

def nsStrings (rrs : List dns.RR) : List String :=
  rrs.filterMap (fun rr =>
    match rr.Data with
    | .NS n => some n
    | _ => none)

def rrStrings (rrs : List dns.RR) : List String :=
  rrs.map dns.RR.String

def hasDelegation (resp : dns.Msg) : Bool :=
  resp.Ns.any isNS

def uniqueStringsFrom (seen : List String) : List String → List String
  | [] => []
  | v :: values =>
    if seen.contains v then uniqueStringsFrom seen values
    else v :: uniqueStringsFrom (v :: seen) values

def uniqueStrings (values : List String) : List String :=
  uniqueStringsFrom [] values

/-- The `zone` variable of `nsNamesAndZone` along its loop: it takes the owner of
an NS record while it is still empty. -/
def nsZone (zone : String) : List dns.RR → String
  | [] => zone
  | rr :: rest =>
    match rr.Data with
    | .NS _ => nsZone (if zone = "" then dns.Fqdn rr.Hdr.Name else zone) rest
    | _ => nsZone zone rest

def nsNamesAndZone (resp : dns.Msg) : List String × String :=
  (uniqueStrings ((nsStrings resp.Ns).map dns.Fqdn), nsZone "" resp.Ns)

/-- The loop of `splitBailiwick` over the names, `zone` being already lower-cased
and fully qualified: each name is appended to one of the two lists. -/
def splitLoop (zone : String) :
    List String → List String → List String → List String × List String
  | [], inBailiwick, outOfBailiwick => (inBailiwick, outOfBailiwick)
  | ns :: rest, inBailiwick, outOfBailiwick =>
    let nsLower := strings.ToLower (dns.Fqdn ns)
    if strings.HasSuffix nsLower zone then
      splitLoop zone rest (inBailiwick ++ [nsLower]) outOfBailiwick
    else splitLoop zone rest inBailiwick (outOfBailiwick ++ [nsLower])

def splitBailiwick (nsNames : List String) (zone : String) : List String × List String :=
  if zone = "" then ([], nsNames)
  else splitLoop (strings.ToLower (dns.Fqdn zone)) nsNames [] []

def extractAddresses (resp : dns.Msg) (qtype : Nat) : List String :=
  uniqueStrings (resp.Answer.filterMap (fun rr =>
    match rr.Data with
    | .A a => if qtype = dns.TypeA then some (a ++ ":53") else none
    | .AAAA a => if qtype = dns.TypeAAAA then some ("[" ++ a ++ "]:53") else none
    | _ => none))

/-- The endpoint a glue record stands for, when its owner is one of the NS targets. -/
def glueEndpoint (nsNames : List String) (rr : dns.RR) : Option String :=
  match rr.Data with
  | .A a => if nsNames.contains (strings.ToLower rr.Hdr.Name) then some (a ++ ":53") else none
  | .AAAA a =>
    if nsNames.contains (strings.ToLower rr.Hdr.Name) then some ("[" ++ a ++ "]:53") else none
  | _ => none

def extractGlueServers (resp : dns.Msg) : List String :=
  let nsNames := (nsStrings resp.Ns).map strings.ToLower
  let servers := resp.Extra.filterMap (glueEndpoint nsNames)
  strings.SortStrings (uniqueStrings servers)

def extractGlueLabels (resp : dns.Msg) : List (String × String) :=
  let nsNames := (nsStrings resp.Ns).foldl
    (fun m ns => mapSet m (strings.ToLower ns) (dns.Fqdn ns)) []
  resp.Extra.foldl (fun labels rr =>
    match rr.Data with
    | .A a =>
      if mapHas nsNames (strings.ToLower rr.Hdr.Name) then
        mapSet labels (a ++ ":53") (mapGet nsNames (strings.ToLower rr.Hdr.Name))
      else labels
    | .AAAA a =>
      if mapHas nsNames (strings.ToLower rr.Hdr.Name) then
        mapSet labels ("[" ++ a ++ "]:53") (mapGet nsNames (strings.ToLower rr.Hdr.Name))
      else labels
    | _ => labels) []

def applyDNAME (name owner target : String) : Except String String :=
  let name := dns.Fqdn name
  let owner := dns.Fqdn owner
  if !strings.HasSuffix name owner then
    .error ("dname owner " ++ owner ++ " not suffix of " ++ name)
  else
    let rest := strings.TrimSuffix name owner
    .ok (rest ++ dns.Fqdn target)

def latestStepIndex (steps : List model.TraceStep) : Int :=
  match steps.getLast? with
  | none => -1
  | some s => s.Index

def appendNote (note extra : String) : String :=
  if note = "" then extra
  else if extra = "" then note
  else note ++ " " ++ extra

def isOK (r : response) : Bool :=
  r.err.isNone && r.resp.isSome

def isTimeout (r : response) : Bool :=
  match r.err with
  | some e => e.deadlineExceeded
  | none => false

def summarizeResponses (responses : List response) : String :=
  if responses.length = 0 then ""
  else
    let okCount := (responses.filter isOK).length
    let timeoutCount := (responses.filter (fun r => !isOK r && isTimeout r)).length
    let errorCount := (responses.filter (fun r => !isOK r && !isTimeout r && r.err.isSome)).length
    "responses=" ++ toString responses.length ++ " ok=" ++ toString okCount
      ++ " timeout=" ++ toString timeoutCount ++ " error=" ++ toString errorCount

def buildStep (index : Int) (name : String) (qtype : Nat) (resp : response)
    (serverLabels : List (String × String)) : model.TraceStep :=
  let step : model.TraceStep :=
    { Index := index
      Server := resp.server
      ServerName := mapGet serverLabels resp.server
      QueryName := name
      QueryType := dns.TypeToString qtype
      Transport := resp.transport
      Rcode := ""
      Authoritative := match resp.resp with
        | some m => m.Authoritative
        | none => false
      Answers := []
      NS := []
      SOA := ""
      RTT := resp.rtt
      Error := ""
      Note := "" }
  match resp.err with
  | some e => { step with Error := e.msg }
  | none =>
    match resp.resp with
    | none => { step with Error := "empty response" }
    | some m =>
      { step with
        Rcode := dns.RcodeToString m.Rcode
        Answers := rrStrings m.Answer
        NS := nsStrings m.Ns
        SOA := soaString m }

def buildTiming (index : Int) (resp : response) : model.Timing :=
  { StepIndex := index
    Server := resp.server
    RTT := resp.rtt
    TimedOut := isTimeout resp
    Transport := resp.transport }

/-- The rank closure `order` of `selectBest`; it is only applied to responses
that carry a message. -/
def order (qtype : Nat) (r : response) : Nat :=
  match r.resp with
  | none => 5
  | some m =>
    if m.Authoritative && m.Rcode == dns.RcodeSuccess && hasAnswerType m qtype then 0
    else if m.Authoritative && m.Rcode == dns.RcodeSuccess then 1
    else if m.Authoritative then 2
    else if hasDelegation m then 3
    else if m.Rcode == dns.RcodeNameError then 4
    else 5

/-- One iteration of the comparison loop of `selectBest`. -/
def pickBetter (qtype : Nat) (best r : response) : response :=
  if order qtype r < order qtype best then r
  else if order qtype r = order qtype best then
    if r.rtt < best.rtt then r
    else if r.rtt = best.rtt && strings.Less r.server best.server then r
    else best
  else best

def selectBest (responses : List response) (qtype : Nat) : Option response :=
  let valid := responses.filter (fun r => r.err.isNone && r.resp.isSome)
  match valid with
  | [] => none
  | first :: rest => some (rest.foldl (pickBetter qtype) first)

/-! ## internal/trace: the fan-out, the sub-trace and the hop loop -/

/-- What a trace threads through its calls: the result under construction and the world. -/
structure Env (W : Type) where
  result : model.TraceResult
  world : W

/-- The fan-out of `queryServers`.  Each query fills the slot of its server; the
queries are taken in slice order, one of the schedules the semaphore admits. -/
def exchangeAll {W : Type} (t : Tracer W) (name : String) (qtype : Nat) :
    List String → W → List response × W
  | [], w => ([], w)
  | srv :: rest, w =>
    let x := t.exchange w srv (dns.Fqdn name) qtype
    let rs := exchangeAll t name qtype rest x.2
    ({ server := srv, resp := x.1.resp, rtt := x.1.rtt, transport := x.1.transport,
       err := x.1.err, stepIndex := 0 } :: rs.1, rs.2)

/-- The recording loop of `queryServers`: one step and one timing per response. -/
def recordResponses (name : String) (qtype : Nat) (serverLabels : List (String × String)) :
    List response → model.TraceResult → List response × model.TraceResult
  | [], result => ([], result)
  | r :: rest, result =>
    let stepIndex : Int := result.TraceSteps.length
    let step := buildStep stepIndex name qtype r serverLabels
    let result := { result with
      TraceSteps := result.TraceSteps ++ [step]
      Timings := result.Timings ++ [buildTiming stepIndex r] }
    let rs := recordResponses name qtype serverLabels rest result
    ({ r with stepIndex := stepIndex } :: rs.1, rs.2)

/-- How a call of `queryServers` starts.  Its semaphore is made first, with
`make(chan struct{}, t.config.Parallelism)`, and the runtime panics ("makechan: size
out of range") when the capacity is negative.  A semaphore of capacity 0 blocks the
first `sem <- struct{}{}` for ever, no goroutine being started yet that could receive.
With a positive capacity the fan-out runs: every send finds room once an exchange has
returned. -/
inductive Start where
  | runs
  | panics
  | blocks
  deriving DecidableEq, Repr

/-- The start of `queryServers` for a list of servers. -/
def queryServersStart {W : Type} (t : Tracer W) (servers : List String) : Start :=
  if t.config.Parallelism < 0 then .panics
  else if t.config.Parallelism = 0 ∧ servers.length > 0 then .blocks
  else .runs

/-- What a call of `queryServers` returns once it has started (`queryServersStart` is
`runs`): the responses in slice order, recorded in the result when `record` is set.
The semaphore bounds how many exchanges run at once and has no part in the value. -/
def queryServers {W : Type} (t : Tracer W) (servers : List String) (name : String) (qtype : Nat)
    (env : Env W) (record : Bool) (serverLabels : List (String × String)) :
    List response × Env W :=
  let rs := exchangeAll t name qtype servers env.world
  if !record then (rs.1, { env with world := rs.2 })
  else
    let rec_ := recordResponses name qtype serverLabels rs.1 env.result
    (rec_.1, { result := rec_.2, world := rs.2 })

/-- The loop variables of `resolveHost`. -/
structure SubState where
  name : String
  servers : List String
  serverLabels : List (String × String)
  visited : List String
  deriving DecidableEq, Repr

/-- The hop loop of `resolveHost`, with `nested` standing for the call
`t.resolveNameserverAddresses(ctx, ·, result, depth+1, record)`. -/
def resolveHostLoop {W : Type} (t : Tracer W)
    (nested : List String → Env W → Except String (List String) × Env W)
    (qtype : Nat) (record : Bool) :
    Nat → SubState → Env W → Except String (List String) × Env W
  | 0, st, env => (.error ("max hops exceeded for " ++ st.name), env)
  | hops + 1, st, env =>
    let q := queryServers t st.servers st.name qtype env record st.serverLabels
    let env := q.2
    match selectBest q.1 qtype with
    | none => (.error ("no reachable nameservers for " ++ st.name), env)
    | some best =>
      match best.resp with
      | none => (.error ("no reachable nameservers for " ++ st.name), env)
      | some resp =>
        if best.err.isSome then (.error ("no reachable nameservers for " ++ st.name), env)
        else if resp.Rcode == dns.RcodeNameError && resp.Authoritative then
          (.error ("nxdomain for " ++ st.name), env)
        else
          let rest : Except String (List String) × Env W :=
            if resp.Rcode == dns.RcodeServerFailure || resp.Rcode == dns.RcodeRefused then
              (.error ("server failure for " ++ st.name), env)
            else resolveHostLoop t nested qtype record hops st env
          if resp.Rcode == dns.RcodeSuccess then
            if resp.Authoritative && hasAnswerType resp qtype then
              (.ok (extractAddresses resp qtype), env)
            else
              match firstCNAME resp with
              | some cname =>
                if st.visited.contains cname.2 then (.error ("cname loop for " ++ cname.2), env)
                else
                  resolveHostLoop t nested qtype record hops
                    { st with visited := cname.2 :: st.visited, name := dns.Fqdn cname.2 } env
              | none =>
                match firstDNAME resp with
                | some dname =>
                  match applyDNAME st.name dname.1.Name dname.2 with
                  | .error e => (.error e, env)
                  | .ok newName =>
                    if st.visited.contains newName then
                      (.error ("dname loop for " ++ newName), env)
                    else
                      resolveHostLoop t nested qtype record hops
                        { st with visited := newName :: st.visited, name := dns.Fqdn newName } env
                | none =>
                  if hasDelegation resp then
                    let nextServers := extractGlueServers resp
                    let nextLabels := extractGlueLabels resp
                    if nextServers.length == 0 then
                      let nz := nsNamesAndZone resp
                      let split := splitBailiwick nz.1 nz.2
                      if split.2.length == 0 && split.1.length > 0 then
                        (.error ("delegation without glue for " ++ nz.2), env)
                      else
                        let sub := nested split.2 env
                        match sub.1 with
                        | .error e => (.error e, sub.2)
                        | .ok resolved =>
                          resolveHostLoop t nested qtype record hops
                            { st with servers := resolved, serverLabels := nextLabels } sub.2
                    else
                      resolveHostLoop t nested qtype record hops
                        { st with
                          servers := nextServers
                          serverLabels :=
                            if nextLabels.length > 0 then nextLabels else st.serverLabels } env
                  else rest
          else rest

def resolveHost {W : Type} (t : Tracer W)
    (nested : List String → Env W → Except String (List String) × Env W)
    (name : String) (qtype : Nat) (env : Env W) (record : Bool) :
    Except String (List String) × Env W :=
  resolveHostLoop t nested qtype record t.config.MaxHops.toNat
    { name := dns.Fqdn name, servers := t.rootHints, serverLabels := DefaultRootHintNames,
      visited := [] } env

/-- The loop over the names in `resolveNameserverAddresses`: the A endpoints and
then the AAAA endpoints of each name are appended, a failed lookup adding nothing. -/
def gatherAddresses {W : Type}
    (host : String → Nat → Env W → Except String (List String) × Env W) :
    List String → List String → Env W → List String × Env W
  | [], addresses, env => (addresses, env)
  | name :: names, addresses, env =>
    let a := host name dns.TypeA env
    let addresses := match a.1 with
      | .ok aAddrs => addresses ++ aAddrs
      | .error _ => addresses
    let aaaa := host name dns.TypeAAAA a.2
    let addresses := match aaaa.1 with
      | .ok aaaaAddrs => addresses ++ aaaaAddrs
      | .error _ => addresses
    gatherAddresses host names addresses aaaa.2

/-- The function `resolveNameserverAddresses`.  The recursion through
`resolveHost` is on `fuel`, the number of nesting levels still allowed: a call
with `fuel + depth = 5` runs out of fuel exactly where the depth check fails, and
more fuel changes nothing (`resolveNameserverAddresses_fuel`). -/
def resolveNameserverAddresses {W : Type} (t : Tracer W) :
    Nat → List String → Env W → Nat → Bool → Except String (List String) × Env W
  | 0, _, env, _, _ => (.error "nameserver resolution depth exceeded", env)
  | fuel + 1, names, env, depth, record =>
    if depth > 4 then (.error "nameserver resolution depth exceeded", env)
    else
      let g := gatherAddresses
        (fun name qtype e =>
          resolveHost t (fun ns e2 => resolveNameserverAddresses t fuel ns e2 (depth + 1) record)
            name qtype e record)
        names [] env
      let addresses := uniqueStrings g.1
      if addresses.length == 0 then (.error "unable to resolve nameserver addresses", g.2)
      else (.ok addresses, g.2)

/-- The loop variables of `Tracer.Trace` together with the result and the world. -/
structure HopState (W : Type) where
  name : String
  servers : List String
  serverLabels : List (String × String)
  visited : List String
  result : model.TraceResult
  world : W

/-- How one iteration of the hop loop ends: with `return result, nil`, or by
going on to the next iteration. -/
inductive HopOutcome (W : Type) where
  | done (result : model.TraceResult)
  | next (st : HopState W)

/-- The pair `result.Diagnosis = analyze.Diagnose(outcome); return result`. -/
def finish (result : model.TraceResult) (outcome : analyze.Outcome) : model.TraceResult :=
  { result with Diagnosis := analyze.Diagnose outcome }

/-- The non-verbose block of the hop: one aggregated step and timing for the chosen
response, whose `stepIndex` becomes the index of that step. -/
def aggregate (name : String) (qtype : Nat) (serverLabels : List (String × String))
    (responses : List response) (best : response) (result : model.TraceResult) :
    model.TraceResult × response :=
  let stepIndex : Int := result.TraceSteps.length
  let step := buildStep stepIndex name qtype best serverLabels
  let step := { step with Note := summarizeResponses responses }
  let step :=
    match best.resp with
    | some m =>
      if hasDelegation m then
        if (nsNamesAndZone m).2 ≠ "" then
          { step with Note := appendNote step.Note ("referral=" ++ (nsNamesAndZone m).2) }
        else step
      else step
    | none => step
  ({ result with
      TraceSteps := result.TraceSteps ++ [step]
      Timings := result.Timings ++ [buildTiming stepIndex best] },
   { best with stepIndex := stepIndex })

/-- The delegation branch of the hop (`if hasDelegation(resp)`). -/
def followDelegation {W : Type} (t : Tracer W) (st : HopState W) (result : model.TraceResult)
    (w : W) (best : response) (resp : dns.Msg) : HopOutcome W :=
  let nextServers := extractGlueServers resp
  let nextLabels := extractGlueLabels resp
  if nextServers.length == 0 then
    let nz := nsNamesAndZone resp
    let split := splitBailiwick nz.1 nz.2
    let sub : Except String (List String) × Env W :=
      if split.2.length > 0 then
        resolveNameserverAddresses t 5 split.2 { result := result, world := w } 0 t.config.Verbose
      else (.ok [], { result := result, world := w })
    let broken : HopOutcome W :=
      let hints : List String := []
      let hints :=
        if split.1.length > 0 then hints ++ ["missing glue records for in-bailiwick nameservers"]
        else hints
      let hints :=
        if split.2.length > 0 then
          hints ++ ["unable to resolve out-of-bailiwick nameserver addresses"]
        else hints
      .done (finish sub.2.result
        { Kind := analyze.OutcomeBrokenDelegation, Summary := "delegation without glue",
          EvidenceStep := best.stepIndex, Hints := hints })
    match sub.1 with
    | .ok resolved =>
      if resolved.length > 0 then
        .next { st with
          servers := resolved
          serverLabels := if nextLabels.length > 0 then nextLabels else st.serverLabels
          result := sub.2.result
          world := sub.2.world }
      else broken
    | .error _ => broken
  else
    .next { st with
      servers := nextServers
      serverLabels := if nextLabels.length > 0 then nextLabels else st.serverLabels
      result := result
      world := w }

/-- The decision tree of the hop, from `resp := best.resp` to the end of the loop body. -/
def decideHop {W : Type} (t : Tracer W) (qtype : Nat) (st : HopState W)
    (result : model.TraceResult) (w : W) (best : response) : HopOutcome W :=
  match best.resp with
  | none =>
    .done (finish result
      { Kind := analyze.OutcomeServfailTimeout, Summary := "empty response from nameserver",
        EvidenceStep := best.stepIndex, Hints := ["retry with --transport tcp"] })
  | some resp =>
    if resp.Rcode == dns.RcodeNameError && resp.Authoritative then
      .done (finish result
        { Kind := analyze.OutcomeNXDOMAIN, Summary := "authoritative NXDOMAIN",
          EvidenceStep := best.stepIndex, Hints := [] })
    else
      let rest : HopOutcome W :=
        if resp.Rcode == dns.RcodeServerFailure || resp.Rcode == dns.RcodeRefused then
          .done (finish result
            { Kind := analyze.OutcomeServfailTimeout, Summary := dns.RcodeToString resp.Rcode,
              EvidenceStep := best.stepIndex, Hints := ["check authoritative server health"] })
        else .next { st with result := result, world := w }
      if resp.Rcode == dns.RcodeSuccess then
        if hasAnswerType resp qtype && resp.Authoritative then
          .done (finish result
            { Kind := analyze.OutcomeSuccess, Summary := "authoritative answer returned",
              EvidenceStep := best.stepIndex, Hints := [] })
        else
          match firstCNAME resp with
          | some cname =>
            if st.visited.contains cname.2 then
              .done (finish result
                { Kind := analyze.OutcomeServfailTimeout, Summary := "CNAME loop detected",
                  EvidenceStep := best.stepIndex, Hints := ["verify CNAME chain"] })
            else
              .next { st with
                visited := cname.2 :: st.visited
                name := dns.Fqdn cname.2
                result := result
                world := w }
          | none =>
            match firstDNAME resp with
            | some dname =>
              match applyDNAME st.name dname.1.Name dname.2 with
              | .error e =>
                .done (finish result
                  { Kind := analyze.OutcomeServfailTimeout, Summary := e,
                    EvidenceStep := best.stepIndex, Hints := [] })
              | .ok newName =>
                if st.visited.contains newName then
                  .done (finish result
                    { Kind := analyze.OutcomeServfailTimeout, Summary := "DNAME loop detected",
                      EvidenceStep := best.stepIndex, Hints := ["verify DNAME chain"] })
                else
                  .next { st with
                    visited := newName :: st.visited
                    name := dns.Fqdn newName
                    result := result
                    world := w }
            | none =>
              if resp.Authoritative && hasSOA resp && !hasAnswerType resp qtype then
                .done (finish result
                  { Kind := analyze.OutcomeNODATA, Summary := "authoritative no data for RRtype",
                    EvidenceStep := best.stepIndex, Hints := [] })
              else if hasDelegation resp then followDelegation t st result w best resp
              else if !resp.Authoritative then
                .done (finish result
                  { Kind := analyze.OutcomeLameDelegation,
                    Summary := "nameserver not authoritative for zone",
                    EvidenceStep := best.stepIndex,
                    Hints := ["verify NS delegation and authoritative configuration"] })
              else rest
      else rest

/-- The response `selectBest` picks at a hop, before the decision tree runs. -/
def chosen {W : Type} (t : Tracer W) (qtype : Nat) (st : HopState W) : Option response :=
  selectBest
    (queryServers t st.servers st.name qtype { result := st.result, world := st.world }
      t.config.Verbose st.serverLabels).1 qtype

/-- The result, the world and the chosen response with which the decision tree of
the hop runs: in non-verbose mode the aggregated step has been appended and the
response carries its index, in verbose mode they are as `queryServers` left them. -/
def hopInput {W : Type} (t : Tracer W) (qtype : Nat) (st : HopState W) (best : response) :
    Env W × response :=
  let q := queryServers t st.servers st.name qtype { result := st.result, world := st.world }
    t.config.Verbose st.serverLabels
  if !t.config.Verbose then
    let a := aggregate st.name qtype st.serverLabels q.1 best q.2.result
    ({ result := a.1, world := q.2.world }, a.2)
  else (q.2, best)

/-- One iteration of the hop loop of `Tracer.Trace`. -/
def hopStep {W : Type} (t : Tracer W) (qtype : Nat) (st : HopState W) : HopOutcome W :=
  let q := queryServers t st.servers st.name qtype { result := st.result, world := st.world }
    t.config.Verbose st.serverLabels
  match selectBest q.1 qtype with
  | none =>
    .done (finish q.2.result
      { Kind := analyze.OutcomeServfailTimeout,
        Summary := "no reachable nameservers for delegation",
        EvidenceStep := latestStepIndex q.2.result.TraceSteps,
        Hints := ["check network reachability or nameserver availability"] })
  | some best =>
    match best.err with
    | some e =>
      .done (finish q.2.result
        { Kind := analyze.OutcomeServfailTimeout, Summary := e.msg,
          EvidenceStep := best.stepIndex,
          Hints := ["retry with --transport tcp", "verify nameserver reachability"] })
    | none =>
      let inp := hopInput t qtype st best
      decideHop t qtype st inp.1.result inp.1.world inp.2

/-- The hop loop `for hop := 0; hop < t.config.MaxHops; hop++` and what follows it. -/
def traceLoop {W : Type} (t : Tracer W) (qtype : Nat) : Nat → HopState W → model.TraceResult
  | 0, st =>
    finish st.result
      { Kind := analyze.OutcomeServfailTimeout, Summary := "max hops exceeded",
        EvidenceStep := latestStepIndex st.result.TraceSteps,
        Hints := ["increase --max-hops", "check for CNAME loops"] }
  | hops + 1, st =>
    match hopStep t qtype st with
    | .done result => result
    | .next st2 => traceLoop t qtype hops st2

/-- The loop variables of `Tracer.Trace` before the first hop. -/
def initialState {W : Type} (t : Tracer W) (w : W) (fqdn : String) : HopState W :=
  { name := dns.Fqdn fqdn
    servers := t.rootHints
    serverLabels := DefaultRootHintNames
    visited := []
    result := model.TraceResult.zero
    world := w }

/-- How a call of `Tracer.Trace` starts: an unknown rrtype and a hop count that is not
positive return before any query, and otherwise the first hop calls `queryServers` for
the root hints.  A call that gets past it goes on to its end: with a positive capacity
every later `queryServers` runs, and with capacity 0 and no root hints the first hop
ends the trace. -/
def TraceStart {W : Type} (t : Tracer W) (rrtype : String) : Start :=
  match dns.StringToType (strings.ToUpper rrtype) with
  | none => .runs
  | some _ => if t.config.MaxHops ≤ 0 then .runs else queryServersStart t t.rootHints

/-- What a call of `Tracer.Trace` returns once it has started (`TraceStart` is `runs`):
the error for an unknown rrtype, else the result of the hop loop. -/
def Trace {W : Type} (t : Tracer W) (w : W) (fqdn rrtype : String) :
    Except String model.TraceResult :=
  match dns.StringToType (strings.ToUpper rrtype) with
  | none => .error ("unsupported rrtype: " ++ rrtype)
  | some qtype => .ok (traceLoop t qtype t.config.MaxHops.toNat (initialState t w fqdn))

end trace

/-! ## internal/dnsclient: server normalization -/

namespace strings

/-- Go `strings.HasPrefix`. -/
def HasPrefix (s pre : String) : Bool :=
  pre.data.isPrefixOf s.data

/-- Whether the second list occurs in the first as a contiguous block. -/
def containsChars : List Char → List Char → Bool
  | [], sub => sub.isPrefixOf []
  | c :: cs, sub => sub.isPrefixOf (c :: cs) || containsChars cs sub

/-- Go `strings.Contains`. -/
def Contains (s substr : String) : Bool :=
  containsChars s.data substr.data

/-- Go `strings.IndexByte`, for an ASCII byte: the first position of the character. -/
def IndexByte : List Char → Char → Option Nat
  | [], _ => none
  | x :: xs, c => if x = c then some 0 else (IndexByte xs c).map (· + 1)

/-- Go `strings.LastIndexByte`, for an ASCII byte: the last position of the character. -/
def LastIndexByte : List Char → Char → Option Nat
  | [], _ => none
  | x :: xs, c =>
    match LastIndexByte xs c with
    | some i => some (i + 1)
    | none => if x = c then some 0 else none

end strings

namespace net

/-- The two closing checks of `net.SplitHostPort`: no `[` from position `j` on and
no `]` from position `k` on. -/
def checkBrackets (hostport : List Char) (j k i : Nat) (host : List Char) :
    Except String (String × String) :=
  if (strings.IndexByte (hostport.drop j) '[').isSome then .error "unexpected '[' in address"
  else if (strings.IndexByte (hostport.drop k) ']').isSome then
    .error "unexpected ']' in address"
  else .ok (⟨host⟩, ⟨hostport.drop (i + 1)⟩)

/-- Go `net.SplitHostPort`.  Positions count characters; every position the function
compares is that of one of the ASCII characters `:`, `[`, `]`, so the comparisons
come out as on bytes.  The error is the reason, without the address. -/
def SplitHostPort (hostport : String) : Except String (String × String) :=
  match strings.LastIndexByte hostport.data ':' with
  | none => .error "missing port in address"
  | some i =>
    if hostport.data.head? = some '[' then
      match strings.IndexByte hostport.data ']' with
      | none => .error "missing ']' in address"
      | some close =>
        if close + 1 = hostport.data.length then .error "missing port in address"
        else if close + 1 = i then
          checkBrackets hostport.data 1 (close + 1) i ((hostport.data.take close).drop 1)
        else if hostport.data.get? (close + 1) = some ':' then
          .error "too many colons in address"
        else .error "missing port in address"
    else
      let host := hostport.data.take i
      if (strings.IndexByte host ':').isSome then .error "too many colons in address"
      else checkBrackets hostport.data 0 0 i host

end net

namespace dnsclient

/-- The function `NormalizeServer` of client.go, branch by branch. -/
def NormalizeServer (server : String) : String :=
  if server = "" then server
  else if strings.HasPrefix server "[" then
    if strings.Contains server "]:" then server
    else server ++ ":53"
  else
    match net.SplitHostPort server with
    | .ok _ => server
    | .error _ =>
      if strings.Contains server ":" then "[" ++ server ++ "]:53"
      else server ++ ":53"

end dnsclient

/-! ## internal/dnsclient: the client -/

namespace dnsclient

def ModeUDP : String := "udp"

def ModeTCP : String := "tcp"

def ModeAuto : String := "auto"

/-- The options of the client; the logger does not enter what the client returns. -/
structure Options where
  DNSSEC : Bool
  Mode : String
  Timeout : Int
  Retries : Int
  EDNS0Size : Nat
  deriving DecidableEq, Repr

/-- The request message, as far as `BuildQuery` and the ladder set it. -/
structure Query where
  Name : String
  Qtype : Nat
  RecursionDesired : Bool
  EDNS0Size : Nat
  DNSSEC : Bool
  deriving DecidableEq, Repr

/-- What `Transport.Exchange` returns: response, rtt, error. -/
structure Reply where
  resp : Option dns.Msg
  rtt : Int
  err : Option GoError
  deriving DecidableEq, Repr

/-- The client: its options and its two transports, each a transition of the world. -/
structure Client (W : Type) where
  opts : Options
  udp : W → String → Query → Reply × W
  tcp : W → String → Query → Reply × W

/-- The transport of mock.go. -/
def MockTransport {W : Type} (Responder : Option (String → Query → Reply)) :
    W → String → Query → Reply × W :=
  fun w server msg =>
    match Responder with
    | none => ({ resp := none, rtt := 0, err := none }, w)
    | some f => (f server msg, w)

def NewWithTransports {W : Type} (opts : Options)
    (udp tcp : W → String → Query → Reply × W) : Client W :=
  let opts := if opts.Timeout = 0 then { opts with Timeout := 2000000000 } else opts
  let opts := if opts.Retries = 0 then { opts with Retries := 1 } else opts
  let opts := if opts.EDNS0Size = 0 then { opts with EDNS0Size := 1232 } else opts
  let opts := if opts.Mode = "" then { opts with Mode := ModeAuto } else opts
  { opts := opts, udp := udp, tcp := tcp }

def BuildQuery {W : Type} (c : Client W) (name : String) (qtype : Nat) : Query :=
  { Name := dns.Fqdn name, Qtype := qtype, RecursionDesired := false,
    EDNS0Size := c.opts.EDNS0Size, DNSSEC := c.opts.DNSSEC }

/-- The loop `for i := 0; i < c.opts.Retries; i++` of `exchangeWithRetries` with the
iterations that remain and `lastErr`, and what follows the loop.  The context is
seen through `ctx.Err()`, read off the world. -/
def retryLoop {W : Type} (ctx : W → Option GoError)
    (transport : W → String → Query → Reply × W) (server : String) (msg : Query) :
    Nat → Option GoError → W → Reply × W
  | 0, lastErr, w =>
    let lastErr :=
      match lastErr with
      | none => (⟨"dns exchange failed", false⟩ : GoError)
      | some e => e
    ({ resp := none, rtt := 0, err := some lastErr }, w)
  | n + 1, _, w =>
    match ctx w with
    | some e => ({ resp := none, rtt := 0, err := some e }, w)
    | none =>
      let x := transport w server msg
      match x.1.err with
      | none => ({ resp := x.1.resp, rtt := x.1.rtt, err := none }, x.2)
      | some e => retryLoop ctx transport server msg n (some e) x.2

def exchangeWithRetries {W : Type} (c : Client W) (ctx : W → Option GoError)
    (transport : W → String → Query → Reply × W) (w : W) (server : String) (msg : Query) :
    Reply × W :=
  retryLoop ctx transport server msg c.opts.Retries.toNat none w

def Exchange {W : Type} (c : Client W) (ctx : W → Option GoError) (w : W)
    (server : String) (msg : Query) : trace.Exchanged × W :=
  let server := NormalizeServer server
  if c.opts.Mode = ModeTCP then
    let x := exchangeWithRetries c ctx c.tcp w server msg
    ({ resp := x.1.resp, rtt := x.1.rtt, transport := "tcp", err := x.1.err }, x.2)
  else if c.opts.Mode = ModeUDP then
    let x := exchangeWithRetries c ctx c.udp w server msg
    ({ resp := x.1.resp, rtt := x.1.rtt, transport := "udp", err := x.1.err }, x.2)
  else if c.opts.Mode = ModeAuto then
    let x := exchangeWithRetries c ctx c.udp w server msg
    let truncated :=
      match x.1.resp with
      | some m => m.Truncated
      | none => false
    if x.1.err.isNone && x.1.resp.isSome && truncated then
      let y := exchangeWithRetries c ctx c.tcp x.2 server msg
      ({ resp := y.1.resp, rtt := y.1.rtt, transport := "tcp", err := y.1.err }, y.2)
    else ({ resp := x.1.resp, rtt := x.1.rtt, transport := "udp", err := x.1.err }, x.2)
  else
    ({ resp := none, rtt := 0, transport := "",
       err := some ⟨"unsupported transport mode: " ++ c.opts.Mode, false⟩ }, w)

/-- The client as the tracer uses it, `client.Exchange(ctx, srv, client.BuildQuery(name,
qtype))`, and as the ladder uses it, with `RecursionDesired` set: the exchange for the
fully qualified name that `BuildQuery` puts into the question. -/
def exchangeFor {W : Type} (c : Client W) (ctx : W → Option GoError) (rd : Bool) :
    W → String → String → Nat → trace.Exchanged × W :=
  fun w server qname qtype =>
    Exchange c ctx w server
      { Name := qname, Qtype := qtype, RecursionDesired := rd,
        EDNS0Size := c.opts.EDNS0Size, DNSSEC := c.opts.DNSSEC }

end dnsclient

/-! ## internal/ladder: the resolver loop -/

namespace ladder

/-- The loop `for i, resolver := range resolvers` of `ladder.Trace`.  The client is
seen through `client.Exchange(ctxReq, resolver, query)` for the query built from
`fqdn` and `qtype`, as a transition of the world. -/
def resolverLoop {W : Type} (exchange : W → String → String → Nat → trace.Exchanged × W)
    (fqdn : String) (qtype : Nat) :
    List String → Nat → model.TraceResult → W → model.TraceResult × W
  | [], _, result, w => (result, w)
  | resolver :: rest, i, result, w =>
    let resolver := dnsclient.NormalizeServer resolver
    let x := exchange w resolver (dns.Fqdn fqdn) qtype
    let st := ladderStep (i : Int) resolver fqdn qtype x.1.resp x.1.rtt x.1.transport x.1.err
    resolverLoop exchange fqdn qtype rest (i + 1)
      { result with
        TraceSteps := result.TraceSteps ++ [st.1]
        Timings := result.Timings ++ [st.2] }
      x.2

/-- The function `ladder.Trace`: the two configuration errors, the resolver loop from
the empty result, and the diagnosis of `diagnoseLadder`.  Timeout and logger of the
configuration do not enter the result. -/
def Trace {W : Type} (exchange : W → String → String → Nat → trace.Exchanged × W) (w : W)
    (resolvers : List String) (fqdn rrtype : String) : Except String model.TraceResult :=
  match dns.StringToType (strings.ToUpper rrtype) with
  | none => .error ("unsupported rrtype: " ++ rrtype)
  | some qtype =>
    if resolvers.length == 0 then .error "no resolvers configured"
    else
      let result :=
        (resolverLoop exchange fqdn qtype resolvers 0 model.TraceResult.zero w).1
      .ok { result with Diagnosis := diagnoseLadder result }

end ladder

/-! ## internal/ladder: resolver discovery -/

namespace strings

/-- Go `unicode.IsSpace`. -/
def isSpace (c : Char) : Bool :=
  let n := c.toNat
  n == 9 || n == 10 || n == 11 || n == 12 || n == 13 || n == 32 || n == 0x85 || n == 0xA0
    || n == 0x1680 || (0x2000 ≤ n && n ≤ 0x200A) || n == 0x2028 || n == 0x2029
    || n == 0x202F || n == 0x205F || n == 0x3000

/-- Go `strings.TrimSpace`. -/
def TrimSpace (s : String) : String :=
  ⟨((s.data.dropWhile isSpace).reverse.dropWhile isSpace).reverse⟩

/-- The scan of `strings.Fields`, with the characters of the field under way. -/
def fieldsFrom : List Char → List Char → List String
  | [], cur => if cur.isEmpty then [] else [⟨cur⟩]
  | c :: cs, cur =>
    if isSpace c then
      if cur.isEmpty then fieldsFrom cs [] else ⟨cur⟩ :: fieldsFrom cs []
    else fieldsFrom cs (cur ++ [c])

/-- Go `strings.Fields`. -/
def Fields (s : String) : List String :=
  fieldsFrom s.data []

end strings

namespace ladder

def DefaultPublicResolvers : List String :=
  ["1.1.1.1", "1.0.0.1", "8.8.8.8", "8.8.4.4", "9.9.9.9"]

/-- The loop `for scanner.Scan()` of `loadResolvers`, over the lines the scanner
yields, with the resolvers found so far. -/
def scanLoop : List String → List String → List String
  | [], resolvers => resolvers
  | text :: rest, resolvers =>
    let line := strings.TrimSpace text
    if line = "" || strings.HasPrefix line "#" || strings.HasPrefix line ";" then
      scanLoop rest resolvers
    else
      let fields := strings.Fields line
      if fields.length < 2 then scanLoop rest resolvers
      else if strings.ToLower (fields.getD 0 "") = "nameserver" then
        scanLoop rest (resolvers ++ [fields.getD 1 ""])
      else scanLoop rest resolvers

/-- The function `loadResolvers`, of the file as `os.Open` and the scanner give it:
an error, or its lines. -/
def loadResolvers (file : Except GoError (List String)) : Except GoError (List String) :=
  match file with
  | .error e => .error e
  | .ok lines => .ok (scanLoop lines [])

/-- The loop of `uniqueResolvers`, with the keys seen and the output so far. -/
def uniqueLoop : List String → List String → List String → List String
  | [], _, out => out
  | resolver :: rest, seen, out =>
    let resolver := strings.TrimSpace resolver
    if resolver = "" then uniqueLoop rest seen out
    else
      let key := strings.ToLower resolver
      if seen.contains key then uniqueLoop rest seen out
      else uniqueLoop rest (key :: seen) (out ++ [resolver])

def uniqueResolvers (resolvers : List String) : List String :=
  uniqueLoop resolvers [] []

/-- The function `DefaultResolverChain`, of what `/etc/resolv.conf` gives. -/
def DefaultResolverChain (file : Except GoError (List String)) :
    Except GoError (List String) :=
  match loadResolvers file with
  | .error e => .error e
  | .ok systemResolvers => .ok (uniqueResolvers (systemResolvers ++ DefaultPublicResolvers))

end ladder

/-! ## The notions the specification is worded in -/

open trace in
/-- The key `(rank, rtt, server)` of the first response is lexicographically
at most the key of the second. -/
def keyLe (qtype : Nat) (b r : trace.response) : Prop :=
  order qtype b < order qtype r ∨
    (order qtype b = order qtype r ∧
      (b.rtt < r.rtt ∨ (b.rtt = r.rtt ∧ b.server ≤ r.server)))

open trace in
/-- The rank table of the specification, read off a message. -/
def specRank (qtype : Nat) (m : dns.Msg) : Nat :=
  if m.Authoritative = true ∧ m.Rcode = dns.RcodeSuccess ∧
      (∃ rr ∈ m.Answer, rr.Hdr.Rrtype = qtype) then 0
  else if m.Authoritative = true ∧ m.Rcode = dns.RcodeSuccess then 1
  else if m.Authoritative = true then 2
  else if ∃ rr ∈ m.Ns, isNS rr = true then 3
  else if m.Rcode = dns.RcodeNameError then 4
  else 5

/-- The position of the first step that satisfies `p`. -/
def firstIndex (p : model.TraceStep → Bool) : List model.TraceStep → Option Nat
  | [] => none
  | s :: rest => if p s then some 0 else (firstIndex p rest).map (· + 1)

/-- An error-free step with a non-empty answer list. -/
def answerStep (s : model.TraceStep) : Bool :=
  s.Error == "" && !s.Answers.isEmpty

/-- A step whose rcode is NXDOMAIN. -/
def nxStep (s : model.TraceStep) : Bool :=
  s.Rcode == "NXDOMAIN"

/-- A NOERROR step with no answers. -/
def noDataStep (s : model.TraceStep) : Bool :=
  s.Rcode == "NOERROR" && s.Answers.isEmpty

/-- A step that has an exchange error or the rcode SERVFAIL or REFUSED. -/
def failStep (s : model.TraceStep) : Bool :=
  s.Error != "" || s.Rcode == "SERVFAIL" || s.Rcode == "REFUSED"

/-- The value a first-seen variable of the ladder scan holds over a list whose
first step has index `k`, when it held `start` before. -/
def firstSeen (start : Int) (found : Option Nat) (k : Nat) : Int :=
  if start = -1 then
    match found with
    | some i => ((k + i : Nat) : Int)
    | none => -1
  else start

/-- The diagnosis of the ladder as the specification words it: the first answer,
else the first NXDOMAIN, else the first NOERROR without answers, else the first
failure, else no resolver responses. -/
def ladderVerdict (steps : List model.TraceStep) : model.Diagnosis :=
  match firstIndex answerStep steps with
  | some i =>
    { Classification := "SUCCESS", Summary := "resolver returned answer",
      EvidenceSteps := [(i : Int)], Hints := [] }
  | none =>
    match firstIndex nxStep steps with
    | some i =>
      { Classification := "NXDOMAIN", Summary := "resolver returned NXDOMAIN",
        EvidenceSteps := [(i : Int)], Hints := [] }
    | none =>
      match firstIndex noDataStep steps with
      | some i =>
        { Classification := "NODATA", Summary := "resolver returned NOERROR without data",
          EvidenceSteps := [(i : Int)], Hints := [] }
      | none =>
        match firstIndex failStep steps with
        | some i =>
          { Classification := "SERVFAIL_TIMEOUT", Summary := "resolver failure or timeout",
            EvidenceSteps := [(i : Int)], Hints := [] }
        | none =>
          { Classification := "SERVFAIL_TIMEOUT", Summary := "no resolver responses",
            EvidenceSteps := [], Hints := [] }

/-- An error-free step whose rcode is NXDOMAIN. -/
def nxStepClean (s : model.TraceStep) : Bool :=
  s.Error == "" && s.Rcode == "NXDOMAIN"

/-- An error-free NOERROR step with no answers. -/
def noDataStepClean (s : model.TraceStep) : Bool :=
  s.Error == "" && s.Rcode == "NOERROR" && s.Answers.isEmpty

/-- The diagnosis of the ladder with the NXDOMAIN and NODATA steps taken among the
error-free ones: the first error-free step with answers, else the first error-free
NXDOMAIN step, else the first error-free NOERROR step without answers, else the first
failure, else no resolver responses. -/
def ladderVerdictErrorFree (steps : List model.TraceStep) : model.Diagnosis :=
  match firstIndex answerStep steps with
  | some i =>
    { Classification := "SUCCESS", Summary := "resolver returned answer",
      EvidenceSteps := [(i : Int)], Hints := [] }
  | none =>
    match firstIndex nxStepClean steps with
    | some i =>
      { Classification := "NXDOMAIN", Summary := "resolver returned NXDOMAIN",
        EvidenceSteps := [(i : Int)], Hints := [] }
    | none =>
      match firstIndex noDataStepClean steps with
      | some i =>
        { Classification := "NODATA", Summary := "resolver returned NOERROR without data",
          EvidenceSteps := [(i : Int)], Hints := [] }
      | none =>
        match firstIndex failStep steps with
        | some i =>
          { Classification := "SERVFAIL_TIMEOUT", Summary := "resolver failure or timeout",
            EvidenceSteps := [(i : Int)], Hints := [] }
        | none =>
          { Classification := "SERVFAIL_TIMEOUT", Summary := "no resolver responses",
            EvidenceSteps := [], Hints := [] }

/-- A step that came back with both an exchange error and the rcode NXDOMAIN. -/
def erroredNxdomainStep : model.TraceStep :=
  { Index := 0, Server := "1.1.1.1:53", ServerName := "", QueryName := "example.com.",
    QueryType := "A", Transport := "udp", Rcode := "NXDOMAIN", Authoritative := false,
    Answers := [], NS := [], SOA := "", RTT := 0, Error := "boom", Note := "" }

open trace in
/-- The steps that the resolver loop of `ladder.Trace` appends, from index `i` on,
for the exchanges with a list of normalized resolvers. -/
def ladderStepsFrom (fqdn : String) (qtype : Nat) :
    Nat → List (String × Exchanged) → List model.TraceStep
  | _, [] => []
  | i, (resolver, x) :: rest =>
    (ladder.ladderStep (i : Int) resolver fqdn qtype x.resp x.rtt x.transport x.err).1
      :: ladderStepsFrom fqdn qtype (i + 1) rest

/-- The steps of `TestLadderTraceUsesResolversInOrder`: an authoritative NXDOMAIN
with an SOA from 1.1.1.1, then an answer from 8.8.8.8. -/
def ladderTestSteps : List model.TraceStep :=
  ladderStepsFrom "example.com" dns.TypeA 0
    [ ("1.1.1.1:53",
        { resp := some
            { Authoritative := true, Truncated := false, Rcode := dns.RcodeNameError,
              Answer := [], Ns := [⟨⟨"example.com.", dns.TypeSOA, 1, 60⟩, .SOA "" "" 0 0 0 0 0⟩],
              Extra := [] },
          rtt := 10000000, transport := "udp", err := none }),
      ("8.8.8.8:53",
        { resp := some
            { Authoritative := true, Truncated := false, Rcode := dns.RcodeSuccess,
              Answer := [⟨⟨"example.com.", dns.TypeA, 1, 60⟩, .A "203.0.113.10"⟩],
              Ns := [], Extra := [] },
          rtt := 12000000, transport := "udp", err := none }) ]

open trace in
/-- The step at position `i` of the result is the one recorded for the response
`b` to the query for `name`: it carries the index `i`, the server and transport of
`b`, and, for a response with a message and no error, its rcode and
authoritative flag and no error text. -/
def stepRecordedAt (res : model.TraceResult) (i : Int) (name : String) (b : trace.response) : Prop :=
  ∃ n : Nat, i = (n : Int) ∧ ∃ s, res.TraceSteps[n]? = some s ∧ s.Index = (n : Int) ∧
    s.Server = b.server ∧ s.QueryName = name ∧ s.Transport = b.transport ∧
    (b.err = none → ∀ m, b.resp = some m →
      s.Error = "" ∧ s.Rcode = dns.RcodeToString m.Rcode ∧ s.Authoritative = m.Authoritative)

/-- Spec 4.4.6: a name is in-bailiwick of a zone when, in canonical form
(lowercase, trailing dot), it ends with the zone. -/
def inBailiwick (zone name : String) : Bool :=
  strings.HasSuffix (strings.ToLower (dns.Fqdn name)) (strings.ToLower (dns.Fqdn zone))

/-- The list without its repetitions, the first occurrence of each string kept. -/
def dedupFirst : List String → List String
  | [] => []
  | x :: xs => x :: (dedupFirst xs).filter (fun y => y != x)

/-- The addresses of a lookup, none when it failed. -/
def okOrNil (r : Except String (List String)) : List String :=
  match r with
  | .ok l => l
  | .error _ => []

open trace in
/-- The sub-trace a hop of `Tracer.Trace` starts for one nameserver name and one
address type: `resolveHost` at depth 0, recording as the tracer is configured. -/
def subHost {W : Type} (t : Tracer W) (name : String) (qtype : Nat) (env : Env W) :
    Except String (List String) × Env W :=
  resolveHost t (fun ns e2 => resolveNameserverAddresses t 4 ns e2 1 t.config.Verbose)
    name qtype env t.config.Verbose

open trace in
/-- The endpoints resolved for a list of names: for each name in turn its A
endpoints and then its AAAA endpoints, a failed lookup contributing none. -/
def endpointsInOrder {W : Type}
    (host : String → Nat → Env W → Except String (List String) × Env W) :
    List String → Env W → List String
  | [], _ => []
  | name :: names, env =>
    okOrNil (host name dns.TypeA env).1
      ++ okOrNil (host name dns.TypeAAAA (host name dns.TypeA env).2).1
      ++ endpointsInOrder host names (host name dns.TypeAAAA (host name dns.TypeA env).2).2

open trace in
/-- The chosen response reaches the delegation branch of the hop: NOERROR, not an
authoritative answer of the queried type, no CNAME and no DNAME in the answer, not
the NODATA case, and an NS record in Authority. -/
def reachesDelegation (r : dns.Msg) (qtype : Nat) : Bool :=
  r.Rcode == dns.RcodeSuccess && !(hasAnswerType r qtype && r.Authoritative)
    && (firstCNAME r).isNone && (firstDNAME r).isNone
    && !(r.Authoritative && hasSOA r && !hasAnswerType r qtype)
    && hasDelegation r

/-- The hints of a broken delegation, from the two halves of the bailiwick split. -/
def brokenHints (split : List String × List String) : List String :=
  (if split.1.length > 0 then ["missing glue records for in-bailiwick nameservers"] else [])
    ++ (if split.2.length > 0 then ["unable to resolve out-of-bailiwick nameserver addresses"]
        else [])

/-- A CNAME record as it comes off the wire. -/
def cnameRR (owner target : String) : dns.RR :=
  ⟨⟨owner, dns.TypeCNAME, 1, 60⟩, .CNAME target⟩

/-- The message of an authoritative server that answers with the given records. -/
def answerMsg (answer : List dns.RR) : dns.Msg :=
  { Authoritative := true, Truncated := false, Rcode := dns.RcodeSuccess,
    Answer := answer, Ns := [], Extra := [] }

open trace in
/-- A network without state: every exchange is answered by `f server name qtype`. -/
def pureNet (f : String → String → Nat → Exchanged) :
    Unit → String → String → Nat → Exchanged × Unit :=
  fun _ server name qtype => (f server name qtype, ())

open trace in
/-- A server that answers `www.example.com.` with its alias, and any other name
with the alias chain from `www.example.com.` on: first the alias that led to
`edge.example.com.`, then the alias of `edge.example.com.` itself. -/
def chainEchoNet : Unit → String → String → Nat → Exchanged × Unit :=
  pureNet (fun _ name _ =>
    if name = "www.example.com." then
      { resp := some (answerMsg [cnameRR "www.example.com." "edge.example.com."]),
        rtt := 8000000, transport := "udp", err := none }
    else
      { resp := some (answerMsg [cnameRR "www.example.com." "edge.example.com.",
          cnameRR "edge.example.com." "cdn.example.net."]),
        rtt := 8000000, transport := "udp", err := none })

open trace in
def chainEchoTracer : Tracer Unit :=
  { NewTracer chainEchoNet
      { MaxHops := 5, MaxTime := 1000000000, Parallelism := 2, Verbose := false } with
    rootHints := ["192.0.2.53:53"] }

open trace in
/-- The state in which the second hop of the trace of `www.example.com` starts. -/
def chainEchoSecondHop : HopState Unit :=
  match hopStep chainEchoTracer dns.TypeA (initialState chainEchoTracer () "www.example.com") with
  | .next st => st
  | .done _ => initialState chainEchoTracer () "www.example.com"

open trace in
/-- The response carries glue: an A or AAAA record in Additional whose owner is,
up to letter case, the target of an NS record in Authority. -/
def hasGlue (r : dns.Msg) : Bool :=
  r.Extra.any (fun rr =>
    (match rr.Data with
      | .A _ => true
      | .AAAA _ => true
      | _ => false)
    && (nsStrings r.Ns).any (fun ns => strings.ToLower ns == strings.ToLower rr.Hdr.Name))

open trace in
/-- A non-authoritative NOERROR referral (empty Answer, an NS record in Authority)
that carries glue. -/
def isGlueReferral (r : dns.Msg) : Bool :=
  !r.Authoritative && r.Rcode == dns.RcodeSuccess && r.Answer.isEmpty
    && hasDelegation r && hasGlue r

open trace in
/-- The state in which hop `i` (counted from 0) of the hop loop starts, when the
loop gets that far. -/
def hopAt {W : Type} (t : Tracer W) (qtype : Nat) : Nat → HopState W → Option (HopState W)
  | 0, st => some st
  | i + 1, st =>
    match hopStep t qtype st with
    | .next st2 => hopAt t qtype i st2
    | .done _ => none

/-- An NS record as it comes off the wire. -/
def nsRR (owner ns : String) : dns.RR :=
  ⟨⟨owner, dns.TypeNS, 1, 60⟩, .NS ns⟩

/-- An A record as it comes off the wire. -/
def aRR (owner ip : String) : dns.RR :=
  ⟨⟨owner, dns.TypeA, 1, 60⟩, .A ip⟩

/-- The message of a server that refers to the given NS records with the given glue. -/
def referralMsg (ns extra : List dns.RR) : dns.Msg :=
  { Authoritative := false, Truncated := false, Rcode := dns.RcodeSuccess,
    Answer := [], Ns := ns, Extra := extra }

open trace in
/-- The failed exchange of the mock transport. -/
def failedExchange (msg : String) : Exchanged :=
  { resp := none, rtt := 0, transport := "udp", err := some ⟨msg, false⟩ }

open trace in
/-- The responder of `TestTraceDelegationSuccess`: the root refers to `com.`, its
server to `example.com.`, whose server answers `api.example.com.`. -/
def threeHopNet : Unit → String → String → Nat → Exchanged × Unit :=
  pureNet (fun server name qtype =>
    if server = "1.1.1.1:53" then
      { resp := some (referralMsg [nsRR "com." "ns1.com."] [aRR "ns1.com." "192.0.2.1"]),
        rtt := 10000000, transport := "udp", err := none }
    else if server = "192.0.2.1:53" then
      { resp := some (referralMsg [nsRR "example.com." "ns1.example.com."]
          [aRR "ns1.example.com." "192.0.2.53"]),
        rtt := 12000000, transport := "udp", err := none }
    else if server = "192.0.2.53:53" then
      if name ≠ "api.example.com." then failedExchange "unexpected qname"
      else
        { resp := some (answerMsg [⟨⟨name, qtype, 1, 60⟩, .A "203.0.113.10"⟩]),
          rtt := 8000000, transport := "udp", err := none }
    else failedExchange "unexpected server")

open trace in
def threeHopTracer : Tracer Unit :=
  { NewTracer threeHopNet
      { MaxHops := 5, MaxTime := 1000000000, Parallelism := 2, Verbose := false } with
    rootHints := ["1.1.1.1:53"] }

open trace in
/-- The responder of `TestTraceFollowsCNAME`: the delegation of the three-hop test,
whose last server answers `www.example.com.` with an alias to `edge.example.com.`
and `edge.example.com.` with an address. -/
def cnameTestNet : Unit → String → String → Nat → Exchanged × Unit :=
  pureNet (fun server name _ =>
    if server = "1.1.1.1:53" then
      { resp := some (referralMsg [nsRR "com." "ns1.com."] [aRR "ns1.com." "192.0.2.1"]),
        rtt := 10000000, transport := "udp", err := none }
    else if server = "192.0.2.1:53" then
      { resp := some (referralMsg [nsRR "example.com." "ns1.example.com."]
          [aRR "ns1.example.com." "192.0.2.53"]),
        rtt := 12000000, transport := "udp", err := none }
    else if server = "192.0.2.53:53" then
      if name = "www.example.com." then
        { resp := some (answerMsg [cnameRR "www.example.com." "edge.example.com."]),
          rtt := 8000000, transport := "udp", err := none }
      else if name = "edge.example.com." then
        { resp := some (answerMsg [aRR "edge.example.com." "203.0.113.20"]),
          rtt := 8000000, transport := "udp", err := none }
      else failedExchange "unexpected qname"
    else failedExchange "unexpected server")

open trace in
def cnameTestTracer : Tracer Unit :=
  { NewTracer cnameTestNet
      { MaxHops := 5, MaxTime := 1000000000, Parallelism := 2, Verbose := false } with
    rootHints := ["1.1.1.1:53"] }

open trace in
/-- The state in which the third hop of the CNAME test starts. -/
def cnameTestThirdHop : HopState Unit :=
  (hopAt cnameTestTracer dns.TypeA 2 (initialState cnameTestTracer () "www.example.com")).getD
    (initialState cnameTestTracer () "www.example.com")

/-- A response chosen at a hop of the fixtures below: a message from one server over UDP. -/
def udpResponse (server : String) (m : dns.Msg) (rtt stepIndex : Int) : trace.response :=
  { server := server, resp := some m, rtt := rtt, transport := "udp", err := none,
    stepIndex := stepIndex }

/-- An authoritative NXDOMAIN with the SOA of the zone. -/
def nxdomainMsg : dns.Msg :=
  { Authoritative := true, Truncated := false, Rcode := dns.RcodeNameError, Answer := [],
    Ns := [⟨⟨"example.com.", dns.TypeSOA, 1, 60⟩,
      .SOA "ns1.example.com." "admin.example.com." 1 7200 900 1209600 300⟩],
    Extra := [] }

open trace in
/-- A tracer, verbose, whose two root servers answer every query with that NXDOMAIN. -/
def nxTracer : Tracer Unit :=
  { NewTracer (pureNet (fun _ _ _ =>
        { resp := some nxdomainMsg, rtt := 5000000, transport := "udp", err := none }))
      { MaxHops := 5, MaxTime := 1000000000, Parallelism := 2, Verbose := true } with
    rootHints := ["192.0.2.1:53", "192.0.2.2:53"] }

/-- An authoritative NOERROR without answers whose Authority holds the SOA of the
zone and NS records as well. -/
def nodataMsg : dns.Msg :=
  { Authoritative := true, Truncated := false, Rcode := dns.RcodeSuccess, Answer := [],
    Ns := [nsRR "example.com." "ns1.example.com.",
      ⟨⟨"example.com.", dns.TypeSOA, 1, 60⟩,
        .SOA "ns1.example.com." "admin.example.com." 1 7200 900 1209600 300⟩],
    Extra := [] }

open trace in
def nodataTracer : Tracer Unit :=
  { NewTracer (pureNet (fun _ _ _ =>
        { resp := some nodataMsg, rtt := 5000000, transport := "udp", err := none }))
      { MaxHops := 5, MaxTime := 1000000000, Parallelism := 2, Verbose := false } with
    rootHints := ["192.0.2.1:53"] }

/-- A referral to `example.com.` without glue, one nameserver inside the zone and
one outside it. -/
def gluelessMsg : dns.Msg :=
  referralMsg [nsRR "example.com." "ns1.example.com.", nsRR "example.com." "ns1.other.net."] []

open trace in
/-- A root server that refers `www.example.com.` without glue and cannot be
reached for any other name. -/
def brokenTracer : Tracer Unit :=
  { NewTracer (pureNet (fun _ name _ =>
        if name = "www.example.com." then
          { resp := some gluelessMsg, rtt := 5000000, transport := "udp", err := none }
        else failedExchange "timeout"))
      { MaxHops := 5, MaxTime := 1000000000, Parallelism := 2, Verbose := false } with
    rootHints := ["192.0.2.1:53"] }

open trace in
/-- A root server that refers `www.example.com.` without glue and answers the
address of the nameserver outside the zone itself. -/
def resolvableTracer : Tracer Unit :=
  { NewTracer (pureNet (fun _ name qtype =>
        if name = "www.example.com." then
          { resp := some gluelessMsg, rtt := 5000000, transport := "udp", err := none }
        else if name = "ns1.other.net." ∧ qtype = dns.TypeA then
          { resp := some (answerMsg [aRR "ns1.other.net." "192.0.2.7",
              aRR "ns1.other.net." "192.0.2.7", aRR "ns1.other.net." "192.0.2.8"]),
            rtt := 5000000, transport := "udp", err := none }
        else failedExchange "timeout"))
      { MaxHops := 5, MaxTime := 1000000000, Parallelism := 2, Verbose := false } with
    rootHints := ["192.0.2.1:53"] }

open trace in
/-- Root servers that answer `a.example.` with an alias to `b.example.` and every
other name with an alias to `a.example.`. -/
def aliasLoopTracer : Tracer Unit :=
  { NewTracer (pureNet (fun _ name _ =>
        if name = "a.example." then
          { resp := some (answerMsg [cnameRR "a.example." "b.example."]),
            rtt := 5000000, transport := "udp", err := none }
        else
          { resp := some (answerMsg [cnameRR name "a.example."]),
            rtt := 5000000, transport := "udp", err := none }))
      { MaxHops := 5, MaxTime := 1000000000, Parallelism := 2, Verbose := false } with
    rootHints := ["192.0.2.1:53", "192.0.2.2:53"] }

/-- The canonical form of a name: lowercase, with the trailing dot. -/
def canonicalName (n : String) : String :=
  strings.ToLower (dns.Fqdn n)

/-- The rcode of the message is none of NOERROR, NXDOMAIN, SERVFAIL and REFUSED. -/
def otherRcode (r : dns.Msg) : Bool :=
  r.Rcode != dns.RcodeSuccess && r.Rcode != dns.RcodeNameError
    && r.Rcode != dns.RcodeServerFailure && r.Rcode != dns.RcodeRefused

/-- A FORMERR response. -/
def formerrMsg : dns.Msg :=
  { Authoritative := false, Truncated := false, Rcode := dns.RcodeFormatError, Answer := [],
    Ns := [], Extra := [] }

open trace in
/-- A server, the world counting its exchanges, that answers its first query with
FORMERR and every later one with an address. -/
def flakyNet : Nat → String → String → Nat → Exchanged × Nat :=
  fun w _ name qtype =>
    if w = 0 then
      ({ resp := some formerrMsg, rtt := 5000000, transport := "udp", err := none }, w + 1)
    else
      ({ resp := some (answerMsg [⟨⟨name, qtype, 1, 60⟩, .A "203.0.113.10"⟩]),
         rtt := 5000000, transport := "udp", err := none }, w + 1)

open trace in
def flakyTracer : Tracer Nat :=
  { NewTracer flakyNet
      { MaxHops := 5, MaxTime := 1000000000, Parallelism := 2, Verbose := false } with
    rootHints := ["192.0.2.1:53"] }

open trace in
/-- A root server that answers every query with FORMERR, traced for three hops. -/
def formerrTracer : Tracer Unit :=
  { NewTracer (pureNet (fun _ _ _ =>
        { resp := some formerrMsg, rtt := 5000000, transport := "udp", err := none }))
      { MaxHops := 3, MaxTime := 1000000000, Parallelism := 2, Verbose := false } with
    rootHints := ["192.0.2.1:53"] }

/-- The steps and timings of a result are in step: `steps[i].index = i`, as many
timings as steps, and `timings[i].step_index = i`. -/
def stepsOK (r : model.TraceResult) : Prop :=
  (∀ (i : Nat) s, r.TraceSteps[i]? = some s → s.Index = (i : Int)) ∧
  r.Timings.length = r.TraceSteps.length ∧
  (∀ (i : Nat) tm, r.Timings[i]? = some tm → tm.StepIndex = (i : Int))

/-- The well-formedness of a result: steps and timings in step, and every evidence
step a valid index into the steps. -/
def wellFormed (r : model.TraceResult) : Prop :=
  stepsOK r ∧ ∀ e ∈ r.Diagnosis.EvidenceSteps, 0 ≤ e ∧ e < (r.TraceSteps.length : Int)

open trace in
/-- The result a hop leaves behind: the returned result, or the result carried
on to the next hop. -/
def outcomeResult {W : Type} (o : HopOutcome W) : model.TraceResult :=
  match o with
  | .done res => res
  | .next st => st.result

open trace in
/-- The tracer of the broken-delegation fixture, in verbose mode. -/
def verboseBrokenTracer : Tracer Unit :=
  { brokenTracer with config := { brokenTracer.config with Verbose := true } }

/-- Each first-seen index of the ladder scan is -1 or a step index below `n`. -/
def firstsInRange (n : Int) (f : ladder.Firsts) : Prop :=
  (f.firstAnswer = -1 ∨ (0 ≤ f.firstAnswer ∧ f.firstAnswer < n)) ∧
  (f.firstNX = -1 ∨ (0 ≤ f.firstNX ∧ f.firstNX < n)) ∧
  (f.firstNoData = -1 ∨ (0 ≤ f.firstNoData ∧ f.firstNoData < n)) ∧
  (f.firstServfail = -1 ∨ (0 ≤ f.firstServfail ∧ f.firstServfail < n))

/-- A NOERROR response without the authoritative bit, without answer and without
Authority. -/
def lameMsg : dns.Msg :=
  { Authoritative := false, Truncated := false, Rcode := dns.RcodeSuccess, Answer := [],
    Ns := [], Extra := [] }

open trace in
/-- A root server that answers every query with that response. -/
def lameTracer : Tracer Unit :=
  { NewTracer (pureNet (fun _ _ _ =>
        { resp := some lameMsg, rtt := 5000000, transport := "udp", err := none }))
      { MaxHops := 5, MaxTime := 1000000000, Parallelism := 2, Verbose := false } with
    rootHints := ["192.0.2.1:53"] }

open trace in
/-- Two root servers, neither of which can be reached. -/
def unreachableTracer : Tracer Unit :=
  { NewTracer (pureNet (fun _ _ _ => failedExchange "timeout"))
      { MaxHops := 5, MaxTime := 1000000000, Parallelism := 2, Verbose := false } with
    rootHints := ["192.0.2.1:53", "192.0.2.2:53"] }

open dnsclient in
/-- A transport that counts its calls in a second component of the world. -/
def counted {W : Type} (tr : W → String → Query → Reply × W) :
    W × Nat → String → Query → Reply × (W × Nat) :=
  fun w server msg => ((tr w.1 server msg).1, ((tr w.1 server msg).2, w.2 + 1))

open dnsclient in
/-- The world after `k` calls of the transport for the same server and message. -/
def worldBefore {W : Type} (tr : W → String → Query → Reply × W) (server : String)
    (msg : Query) : Nat → W → W
  | 0, w => w
  | k + 1, w => worldBefore tr server msg k (tr w server msg).2

open dnsclient in
/-- What call number `k` (from 0) of the transport returns. -/
def replyAt {W : Type} (tr : W → String → Query → Reply × W) (server : String)
    (msg : Query) (k : Nat) (w : W) : Reply :=
  (tr (worldBefore tr server msg k w) server msg).1

open dnsclient in
/-- Attempts `0 .. k-1` all run with the context alive and fail. -/
def attemptsFail {W : Type} (ctx : W → Option GoError)
    (tr : W → String → Query → Reply × W) (server : String) (msg : Query) (k : Nat) (w : W) :
    Prop :=
  ∀ i, i < k → ctx (worldBefore tr server msg i w) = none ∧
    (replyAt tr server msg i w).err ≠ none

open dnsclient in
/-- The client with both transports counting their calls. -/
def countedClient {W : Type} (c : Client W) : Client (W × Nat) :=
  { opts := c.opts, udp := counted c.udp, tcp := counted c.tcp }

/-- A response with the TC bit set and nothing else. -/
def truncatedMsg : dns.Msg :=
  { Authoritative := false, Truncated := true, Rcode := dns.RcodeSuccess, Answer := [],
    Ns := [], Extra := [] }

open dnsclient in
/-- The client of `TestAutoFallbackToTCPOnTruncation`: auto mode, a server that
truncates over UDP and answers over TCP. -/
def fallbackClient : Client Unit :=
  NewWithTransports
    { DNSSEC := false, Mode := ModeAuto, Timeout := 500000000, Retries := 0, EDNS0Size := 0 }
    (MockTransport (some (fun _ _ => { resp := some truncatedMsg, rtt := 1000000, err := none })))
    (MockTransport (some (fun _ q =>
      { resp := some
          { Authoritative := true, Truncated := false, Rcode := dns.RcodeSuccess,
            Answer := [⟨⟨q.Name, dns.TypeA, 1, 60⟩, .A "192.0.2.10"⟩], Ns := [], Extra := [] },
        rtt := 2000000, err := none })))

open dnsclient in
/-- A transport, the world counting its calls, that fails twice with a timeout and
then answers SERVFAIL. -/
def twiceFailing : Nat → String → Query → Reply × Nat :=
  fun w _ _ =>
    if w < 2 then ({ resp := none, rtt := 0, err := some ⟨"i/o timeout", true⟩ }, w + 1)
    else
      ({ resp := some
            { Authoritative := false, Truncated := false, Rcode := dns.RcodeServerFailure,
              Answer := [], Ns := [], Extra := [] },
          rtt := 3000000, err := none }, w + 1)

open dnsclient in
/-- A client with three attempts per exchange. -/
def threeTries : Client Nat :=
  NewWithTransports
    { DNSSEC := false, Mode := ModeUDP, Timeout := 0, Retries := 3, EDNS0Size := 0 }
    twiceFailing twiceFailing

open trace in
/-- An exchange oracle that logs, in a second component of the world, the servers
it is asked to query. -/
def logged {W : Type} (exchange : W → String → String → Nat → Exchanged × W) :
    W × List String → String → String → Nat → Exchanged × (W × List String) :=
  fun w server name qtype =>
    ((exchange w.1 server name qtype).1, ((exchange w.1 server name qtype).2, w.2 ++ [server]))

/-- An ordinary NODATA answer of a resolver: NOERROR, no Answer, and the SOA of the
zone as the only record of Authority. -/
def soaOnlyMsg : dns.Msg :=
  { Authoritative := false, Truncated := false, Rcode := dns.RcodeSuccess, Answer := [],
    Ns := [⟨⟨"example.com.", dns.TypeSOA, 1, 60⟩,
      .SOA "ns1.example.com." "admin.example.com." 1 7200 900 1209600 300⟩],
    Extra := [] }

open dnsclient in
/-- A client whose transport mode is none of udp, tcp, auto. -/
def quicClient : Client Unit :=
  NewWithTransports
    { DNSSEC := false, Mode := "quic", Timeout := 0, Retries := 0, EDNS0Size := 0 }
    (MockTransport none) (MockTransport none)

open trace dnsclient in
/-- The tracer built on that client, with one root server. -/
def quicTracer : Tracer Unit :=
  { NewTracer (exchangeFor quicClient (fun _ => none) false)
      { MaxHops := 5, MaxTime := 1000000000, Parallelism := 2, Verbose := false } with
    rootHints := ["192.0.2.1:53"] }

open trace in
/-- The number of hops of the hop loop that are executed, out of `n`. -/
def hopsExecuted {W : Type} (t : Tracer W) (qtype : Nat) : Nat → HopState W → Nat
  | 0, _ => 0
  | n + 1, st =>
    match hopStep t qtype st with
    | .done _ => 1
    | .next st2 => 1 + hopsExecuted t qtype n st2

open trace in
/-- Whether the hop loop stops, within `n` hops, at a hop where `selectBest` chooses
no response. -/
def stopsUnreachable {W : Type} (t : Tracer W) (qtype : Nat) : Nat → HopState W → Bool
  | 0, _ => false
  | n + 1, st =>
    match chosen t qtype st with
    | none => true
    | some _ =>
      match hopStep t qtype st with
      | .done _ => false
      | .next st2 => stopsUnreachable t qtype n st2

/-- A hexadecimal digit. -/
def isHexDigit (c : Char) : Bool :=
  c.isDigit || (97 ≤ c.toNat && c.toNat ≤ 102) || (65 ≤ c.toNat && c.toNat ≤ 70)

/-- The shape of a bare IPv4 address: decimal digits and dots, at least one
character.  Every dotted quad has this shape. -/
def ipv4Shape (x : String) : Bool :=
  !x.data.isEmpty && x.data.all (fun c => c.isDigit || c == '.')

/-- The shape of a port: decimal digits, at least one. -/
def portShape (p : String) : Bool :=
  !p.data.isEmpty && p.data.all Char.isDigit

/-- The shape of an IPv6 literal without brackets: hexadecimal digits, colons and
the dots of an embedded IPv4 address, with two colons or more.  Every IPv6 address
in text form has this shape. -/
def ipv6Shape (x : String) : Bool :=
  x.data.all (fun c => isHexDigit c || c == ':' || c == '.') && decide (2 ≤ x.data.count ':')

/-- The input shapes `NormalizeServer` is specified for: a bare IPv4 address,
`ipv4:port`, a bare IPv6 literal, `[ipv6]` and `[ipv6]:port`. -/
def recognizedShape (x : String) : Prop :=
  ipv4Shape x = true ∨
  (∃ a p, x = a ++ ":" ++ p ∧ ipv4Shape a = true ∧ portShape p = true) ∨
  ipv6Shape x = true ∨
  (∃ y, x = "[" ++ y ++ "]" ∧ ipv6Shape y = true) ∨
  (∃ y p, x = "[" ++ y ++ "]:" ++ p ∧ ipv6Shape y = true ∧ portShape p = true)

/-- The address a line of the resolver file contributes: its second field, when
its first field is `nameserver` in any letter case. -/
def nameserverOf (line : String) : Option String :=
  match strings.Fields line with
  | f0 :: f1 :: _ => if strings.ToLower f0 = "nameserver" then some f1 else none
  | _ => none

/-- The address a line of the resolver file contributes when the keyword is read
to the letter: its second field, when its first field is `nameserver`. -/
def nameserverLine (line : String) : Option String :=
  match strings.Fields line with
  | f0 :: f1 :: _ => if f0 = "nameserver" then some f1 else none
  | _ => none

/-- The list with, of the entries that have the same key, only the first kept. -/
def keepFirstBy (key : String → String) : List String → List String
  | [] => []
  | x :: xs => x :: (keepFirstBy key xs).filter (fun y => key y != key x)

open trace in
/-- What the exchanges of the ladder return, resolver by resolver, in order. -/
def ladderExchanges {W : Type} (exchange : W → String → String → Nat → Exchanged × W)
    (fqdn : String) (qtype : Nat) : List String → W → List Exchanged
  | [], _ => []
  | r :: rest, w =>
    (exchange w (dnsclient.NormalizeServer r) (dns.Fqdn fqdn) qtype).1
      :: ladderExchanges exchange fqdn qtype rest
          (exchange w (dnsclient.NormalizeServer r) (dns.Fqdn fqdn) qtype).2

open trace in
/-- How the step and the timing of a ladder exchange show whether it failed: the
timing is flagged exactly when the exchange returned an error, and the step of a
failed exchange carries the error text and nothing of a response. -/
def failureShown (x : Exchanged) (s : model.TraceStep) (tm : model.Timing) : Prop :=
  (tm.TimedOut = true ↔ x.err ≠ none) ∧
  (∀ e, x.err = some e →
    s.Error = e.msg ∧ s.Rcode = "" ∧ s.Answers = [] ∧ s.NS = [] ∧ s.SOA = "" ∧ s.Note = "")

open trace in
/-- Two resolvers: `1.1.1.1` answers NXDOMAIN, every other one refuses the
connection. -/
def refusingNet : Unit → String → String → Nat → Exchanged × Unit :=
  pureNet (fun server _ _ =>
    if server = "1.1.1.1:53" then
      { resp := some nxdomainMsg, rtt := 10000000, transport := "udp", err := none }
    else failedExchange "connection refused")

/-- The step that the ladder records at index `i` for a resolver answering FORMERR. -/
def formerrStepAt (i : Int) : model.TraceStep :=
  (ladder.ladderStep i "9.9.9.9:53" "example.com" dns.TypeA (some formerrMsg) 10000000 "udp"
    none).1

open trace in
/-- Root servers that answer `a.example.` with an alias to `B.example.`, `B.example.`
with an alias to `b.example.`, and every other name with an address. -/
def caseAliasTracer : Tracer Unit :=
  { NewTracer (pureNet (fun _ name _ =>
        if name = "a.example." then
          { resp := some (answerMsg [cnameRR "a.example." "B.example."]),
            rtt := 5000000, transport := "udp", err := none }
        else if name = "B.example." then
          { resp := some (answerMsg [cnameRR "B.example." "b.example."]),
            rtt := 5000000, transport := "udp", err := none }
        else
          { resp := some (answerMsg [aRR name "203.0.113.7"]),
            rtt := 5000000, transport := "udp", err := none }))
      { MaxHops := 5, MaxTime := 1000000000, Parallelism := 2, Verbose := false } with
    rootHints := ["192.0.2.1:53", "192.0.2.2:53"] }

open trace in
/-- The state in which the second hop of the trace of `a.example` starts. -/
def caseAliasSecondHop : HopState Unit :=
  (hopAt caseAliasTracer dns.TypeA 1 (initialState caseAliasTracer () "a.example")).getD
    (initialState caseAliasTracer () "a.example")

/-- A NOERROR response without the authoritative bit that carries an address for
`www.example.com.`, as a cache would give it. -/
def cachedAnswerMsg : dns.Msg :=
  { Authoritative := false, Truncated := false, Rcode := dns.RcodeSuccess,
    Answer := [aRR "www.example.com." "203.0.113.10"], Ns := [], Extra := [] }

open trace in
/-- A root server that answers every query with that response. -/
def cachedAnswerTracer : Tracer Unit :=
  { NewTracer (pureNet (fun _ _ _ =>
        { resp := some cachedAnswerMsg, rtt := 5000000, transport := "udp", err := none }))
      { MaxHops := 5, MaxTime := 1000000000, Parallelism := 2, Verbose := false } with
    rootHints := ["192.0.2.1:53"] }

open trace in
/-- The responses of the fall-through hops: NXDOMAIN without the authoritative bit, or
authoritative NOERROR with no answer of the queried type, no CNAME and no DNAME in the
answer, and neither an SOA nor an NS record in Authority. -/
def fallsThrough (r : dns.Msg) (qtype : Nat) : Bool :=
  (r.Rcode == dns.RcodeNameError && !r.Authoritative) ||
  (r.Authoritative && r.Rcode == dns.RcodeSuccess &&
    r.Answer.all (fun rr => rr.Hdr.Rrtype != qtype &&
      (match rr.Data with
        | .CNAME _ => false
        | .DNAME _ => false
        | _ => true)) &&
    r.Ns.all (fun rr => !isSOA rr && !isNS rr))

open trace in
/-- A response without its step index. -/
def withoutIndex (r : response) : response :=
  { r with stepIndex := 0 }

/-- An NXDOMAIN response without the authoritative bit. -/
def cachedNxdomainMsg : dns.Msg :=
  { Authoritative := false, Truncated := false, Rcode := dns.RcodeNameError, Answer := [],
    Ns := [], Extra := [] }

open trace in
/-- A root server that answers every query with that response. -/
def cachedNxdomainTracer : Tracer Unit :=
  { NewTracer (pureNet (fun _ _ _ =>
        { resp := some cachedNxdomainMsg, rtt := 5000000, transport := "udp", err := none }))
      { MaxHops := 5, MaxTime := 1000000000, Parallelism := 2, Verbose := false } with
    rootHints := ["192.0.2.1:53"] }

/-- A referral whose nameserver target and glue owner differ in the case of a letter
outside ASCII. -/
def accentedGlueMsg : dns.Msg :=
  referralMsg [nsRR "example." "NS.É.example."] [aRR "ns.é.example." "192.0.2.9"]

open trace in
/-- Root servers that answer `a.example.` with its alias to `b.example.`, and every
other name with that alias followed by the address of `b.example.`. -/
def aliasAnswerTracer : Tracer Unit :=
  { NewTracer (pureNet (fun _ name _ =>
        if name = "a.example." then
          { resp := some (answerMsg [cnameRR "a.example." "b.example."]),
            rtt := 5000000, transport := "udp", err := none }
        else
          { resp := some (answerMsg [cnameRR "a.example." "b.example.",
              aRR "b.example." "203.0.113.7"]),
            rtt := 5000000, transport := "udp", err := none }))
      { MaxHops := 5, MaxTime := 1000000000, Parallelism := 2, Verbose := false } with
    rootHints := ["192.0.2.1:53", "192.0.2.2:53"] }

open trace in
/-- The state in which the second hop of the trace of `a.example` starts. -/
def aliasAnswerSecondHop : HopState Unit :=
  (hopAt aliasAnswerTracer dns.TypeA 1 (initialState aliasAnswerTracer () "a.example")).getD
    (initialState aliasAnswerTracer () "a.example")

/-- An authoritative NOERROR response without answers whose Authority names a
nameserver outside the zone, without glue, and holds the SOA of the zone. -/
def authoritativeReferralMsg : dns.Msg :=
  { Authoritative := true, Truncated := false, Rcode := dns.RcodeSuccess, Answer := [],
    Ns := [nsRR "example.com." "ns1.other.net.",
      ⟨⟨"example.com.", dns.TypeSOA, 1, 60⟩,
        .SOA "ns1.other.net." "admin.example.com." 1 7200 900 1209600 300⟩],
    Extra := [] }

open trace in
/-- A root server that answers `www.example.com.` with that response and answers the
address of the nameserver itself. -/
def authoritativeReferralTracer : Tracer Unit :=
  { NewTracer (pureNet (fun _ name qtype =>
        if name = "www.example.com." then
          { resp := some authoritativeReferralMsg, rtt := 5000000, transport := "udp",
            err := none }
        else if name = "ns1.other.net." ∧ qtype = dns.TypeA then
          { resp := some (answerMsg [aRR "ns1.other.net." "192.0.2.7"]),
            rtt := 5000000, transport := "udp", err := none }
        else failedExchange "timeout"))
      { MaxHops := 5, MaxTime := 1000000000, Parallelism := 2, Verbose := false } with
    rootHints := ["192.0.2.1:53"] }

open trace in
/-- A tracer made by `NewTracer` from a configuration whose parallelism is -1. -/
def negativeParallelismTracer : Tracer Unit :=
  NewTracer refusingNet
    { MaxHops := 5, MaxTime := 1000000000, Parallelism := -1, Verbose := false }

/-! # Theorems -/

open strings dns model analyze trace

/-! ## The order of Go strings -/

theorem char_lt_iff (a b : Char) : a.toNat < b.toNat ↔ a < b := by
  rfl

theorem char_eq_of_not_lt {a b : Char} (h1 : ¬ a.toNat < b.toNat) (h2 : ¬ b.toNat < a.toNat) :
    a = b := by
  rw [char_lt_iff] at h1 h2
  exact le_antisymm (not_lt.mp h2) (not_lt.mp h1)

theorem ltChars_iff (l₁ l₂ : List Char) : strings.ltChars l₁ l₂ = true ↔ l₁ < l₂ := by
  induction l₁ generalizing l₂ with
  | nil =>
    cases l₂ with
    | nil => simp [strings.ltChars]
    | cons b bs => simp [strings.ltChars, List.nil_lt_cons]
  | cons a as ih =>
    cases l₂ with
    | nil => simp [strings.ltChars]
    | cons b bs =>
      unfold strings.ltChars
      by_cases h1 : a.toNat < b.toNat
      · simp only [h1, if_true, true_iff]
        exact List.Lex.rel ((char_lt_iff a b).mp h1)
      · by_cases h2 : b.toNat < a.toNat
        · simp only [h1, h2, if_false, if_true, Bool.false_eq_true, false_iff]
          intro h
          have h2' := (char_lt_iff b a).mp h2
          cases h with
          | cons h' => exact lt_irrefl _ h2'
          | rel h' => exact lt_asymm h' h2'
        · simp only [h1, h2, if_false]
          have hab : a = b := char_eq_of_not_lt h1 h2
          subst hab
          rw [ih bs]
          exact List.Lex.cons_iff.symm

/-- The comparison the model uses for Go `a < b` is the order of `String`. -/
theorem Less_iff (a b : String) : strings.Less a b = true ↔ a < b := by
  unfold strings.Less
  rw [ltChars_iff, String.lt_iff_toList_lt]
  rfl

/-! ## selectBest -/

theorem keyLe_refl (qtype : Nat) (b : response) : keyLe qtype b b :=
  Or.inr ⟨rfl, Or.inr ⟨rfl, le_refl _⟩⟩

theorem keyLe_trans {qtype : Nat} {a b c : response} (h1 : keyLe qtype a b)
    (h2 : keyLe qtype b c) : keyLe qtype a c := by
  unfold keyLe at *
  rcases h1 with h1 | ⟨e1, h1⟩
  · rcases h2 with h2 | ⟨e2, _⟩
    · exact Or.inl (lt_trans h1 h2)
    · exact Or.inl (e2 ▸ h1)
  · rcases h2 with h2 | ⟨e2, h2⟩
    · exact Or.inl (e1 ▸ h2)
    · refine Or.inr ⟨e1.trans e2, ?_⟩
      rcases h1 with h1 | ⟨r1, s1⟩
      · rcases h2 with h2 | ⟨r2, _⟩
        · exact Or.inl (lt_trans h1 h2)
        · exact Or.inl (r2 ▸ h1)
      · rcases h2 with h2 | ⟨r2, s2⟩
        · exact Or.inl (r1 ▸ h2)
        · exact Or.inr ⟨r1.trans r2, le_trans s1 s2⟩

/-- One comparison of `selectBest` keeps the response with the smaller key. -/
theorem pickBetter_cases (qtype : Nat) (best r : response) :
    (pickBetter qtype best r = r ∧ keyLe qtype r best) ∨
    (pickBetter qtype best r = best ∧ keyLe qtype best r) := by
  by_cases h1 : order qtype r < order qtype best
  · exact Or.inl ⟨by simp [pickBetter, h1], Or.inl h1⟩
  · by_cases h2 : order qtype r = order qtype best
    · by_cases h3 : r.rtt < best.rtt
      · exact Or.inl ⟨by simp [pickBetter, h2, h3], Or.inr ⟨h2, Or.inl h3⟩⟩
      · by_cases h4 : r.rtt = best.rtt
        · by_cases h5 : strings.Less r.server best.server = true
          · exact Or.inl ⟨by simp [pickBetter, h2, h4, h5],
              Or.inr ⟨h2, Or.inr ⟨h4, le_of_lt ((Less_iff _ _).mp h5)⟩⟩⟩
          · have h6 : ¬ r.server < best.server := fun h => h5 ((Less_iff _ _).mpr h)
            exact Or.inr ⟨by simp [pickBetter, h2, h4, h5],
              Or.inr ⟨h2.symm, Or.inr ⟨h4.symm, not_lt.mp h6⟩⟩⟩
        · have h6 : best.rtt < r.rtt := lt_of_le_of_ne (not_lt.mp h3) (Ne.symm h4)
          exact Or.inr ⟨by simp [pickBetter, h2, h3, h4], Or.inr ⟨h2.symm, Or.inl h6⟩⟩
    · have h6 : order qtype best < order qtype r := lt_of_le_of_ne (not_lt.mp h1) (Ne.symm h2)
      exact Or.inr ⟨by simp [pickBetter, h1, h2], Or.inl h6⟩

/-- The comparison loop ends on an element of the list with the least key. -/
theorem foldl_pickBetter (qtype : Nat) (rest : List response) (first : response) :
    rest.foldl (pickBetter qtype) first ∈ first :: rest ∧
    ∀ r ∈ first :: rest, keyLe qtype (rest.foldl (pickBetter qtype) first) r := by
  induction rest generalizing first with
  | nil =>
    simp only [List.foldl_nil, List.mem_singleton, true_and]
    intro r hr
    subst hr
    exact keyLe_refl _ _
  | cons x xs ih =>
    simp only [List.foldl_cons]
    obtain ⟨hm, hle⟩ := ih (pickBetter qtype first x)
    have hfx : keyLe qtype (pickBetter qtype first x) first ∧
        keyLe qtype (pickBetter qtype first x) x ∧
        (pickBetter qtype first x = first ∨ pickBetter qtype first x = x) := by
      rcases pickBetter_cases qtype first x with ⟨e, h⟩ | ⟨e, h⟩
      · rw [e]; exact ⟨h, keyLe_refl _ _, Or.inr rfl⟩
      · rw [e]; exact ⟨keyLe_refl _ _, h, Or.inl rfl⟩
    constructor
    · rcases List.mem_cons.mp hm with h | h
      · rcases hfx.2.2 with e | e
        · rw [h, e]; exact List.mem_cons_self _ _
        · rw [h, e]; exact List.mem_cons_of_mem _ (List.mem_cons_self _ _)
      · exact List.mem_cons_of_mem _ (List.mem_cons_of_mem _ h)
    · intro r hr
      have hp := hle (pickBetter qtype first x) (List.mem_cons_self _ _)
      rcases List.mem_cons.mp hr with h | h
      · rw [h]; exact keyLe_trans hp hfx.1
      · rcases List.mem_cons.mp h with h | h
        · rw [h]; exact keyLe_trans hp hfx.2.1
        · exact hle r (List.mem_cons_of_mem _ h)

/-- The closure `order` computes the rank table of the specification. -/
theorem order_eq_specRank (qtype : Nat) (r : response) (m : dns.Msg) (h : r.resp = some m) :
    order qtype r = specRank qtype m := by
  unfold order specRank hasAnswerType hasDelegation
  rw [h]
  simp only [Bool.and_eq_true, beq_iff_eq, List.any_eq_true]
  split_ifs <;> first | rfl | (exfalso; simp_all)

/-- What `selectBest` returns, for every response list and query type. -/
theorem selectBest_valid_least (responses : List response) (qtype : Nat) :
    (selectBest responses qtype = none ↔
      ∀ r ∈ responses, ¬ (r.err = none ∧ r.resp ≠ none)) ∧
    (∀ b, selectBest responses qtype = some b →
      b ∈ responses ∧ b.err = none ∧ b.resp ≠ none ∧
      ∀ r ∈ responses, r.err = none → r.resp ≠ none → keyLe qtype b r) := by
  have hvalid : ∀ r : response, (r.err.isNone && r.resp.isSome) = true ↔
      (r.err = none ∧ r.resp ≠ none) := by
    intro r
    cases r.err <;> cases r.resp <;> simp
  unfold selectBest
  cases hv : responses.filter (fun r => r.err.isNone && r.resp.isSome) with
  | nil =>
    simp only [true_iff, reduceCtorEq, false_implies, implies_true, and_true]
    intro r hr hrv
    have : r ∈ responses.filter (fun r => r.err.isNone && r.resp.isSome) :=
      List.mem_filter.mpr ⟨hr, (hvalid r).mpr hrv⟩
    rw [hv] at this
    exact List.not_mem_nil _ this
  | cons first rest =>
    have hmemv : ∀ r, r ∈ first :: rest ↔ r ∈ responses ∧ (r.err = none ∧ r.resp ≠ none) := by
      intro r
      rw [← hv, List.mem_filter, hvalid]
    obtain ⟨hm, hle⟩ := foldl_pickBetter qtype rest first
    constructor
    · simp only [reduceCtorEq, false_iff, not_forall]
      exact ⟨first, ((hmemv first).mp (List.mem_cons_self _ _)).1,
        not_not.mpr ((hmemv first).mp (List.mem_cons_self _ _)).2⟩
    · intro b hb
      simp only [Option.some.injEq] at hb
      subst hb
      obtain ⟨h1, h2, h3⟩ := (hmemv _).mp hm
      exact ⟨h1, h2, h3, fun r hr e1 e2 => hle r ((hmemv r).mpr ⟨hr, e1, e2⟩)⟩

/-- C2: `selectBest` returns nothing exactly when no response is valid (no error
and a message); otherwise it returns a valid response of the list whose key
`(rank, rtt, server)` is lexicographically at most the key of every valid
response, the rank being the one of the specification's table. -/
theorem selectBest_returns_least_key (responses : List response) (qtype : Nat) :
    (selectBest responses qtype = none ↔
      ∀ r ∈ responses, ¬ (r.err = none ∧ r.resp ≠ none)) ∧
    (∀ b, selectBest responses qtype = some b →
      b ∈ responses ∧ b.err = none ∧ b.resp ≠ none ∧
      ∀ r ∈ responses, r.err = none → r.resp ≠ none → keyLe qtype b r) ∧
    (∀ (r : response) (m : dns.Msg), r.resp = some m → order qtype r = specRank qtype m) :=
  ⟨(selectBest_valid_least responses qtype).1, (selectBest_valid_least responses qtype).2,
    fun r m h => order_eq_specRank qtype r m h⟩

/-! ## The ladder classifier -/

theorem firstIndex_some {p : model.TraceStep → Bool} :
    ∀ {l : List model.TraceStep} {i : Nat}, firstIndex p l = some i →
      ∃ h : i < l.length, p (l.get ⟨i, h⟩) = true ∧
        ∀ j (hj : j < i), p (l.get ⟨j, lt_trans hj h⟩) = false := by
  intro l
  induction l with
  | nil => intro i h; simp [firstIndex] at h
  | cons s rest ih =>
    intro i h
    unfold firstIndex at h
    by_cases hp : p s = true
    · simp only [hp, if_true, Option.some.injEq] at h
      subst h
      exact ⟨by simp, by simpa using hp, fun j hj => absurd hj (Nat.not_lt_zero j)⟩
    · rw [if_neg hp] at h
      cases hr : firstIndex p rest with
      | none => rw [hr] at h; simp at h
      | some i2 =>
        rw [hr] at h
        simp only [Option.map_some', Option.some.injEq] at h
        subst h
        obtain ⟨hlt, hpi, hbefore⟩ := ih hr
        refine ⟨by simp; omega, by simpa using hpi, ?_⟩
        intro j hj
        cases j with
        | zero => simpa using hp
        | succ j2 =>
          have := hbefore j2 (by omega)
          simpa using this

theorem firstIndex_none {p : model.TraceStep → Bool} : ∀ {l : List model.TraceStep},
    firstIndex p l = none ↔ ∀ s ∈ l, p s = false := by
  intro l
  induction l with
  | nil => simp [firstIndex]
  | cons s rest ih =>
    unfold firstIndex
    by_cases hp : p s = true
    · simp [hp]
    · simp [hp, ih]

theorem firstSeen_step (start : Int) (found : Option Nat) (k : Nat) (hit : Bool) :
    firstSeen (if hit then (if start = -1 then (k : Int) else start) else start) found (k + 1)
      = firstSeen start (if hit then some 0 else found.map (· + 1)) k := by
  unfold firstSeen
  cases hit
  · cases found <;> simp
    · split_ifs <;> first | rfl | omega
  · by_cases h : start = -1
    · have hk : ¬ ((k : Int) = -1) := by omega
      simp [h, hk]
    · simp [h]

/-- One iteration of the scan, variable by variable. -/
theorem scanStep_fields (f : ladder.Firsts) (s : model.TraceStep) :
    ladder.scanStep f s =
      { firstAnswer := if answerStep s then (if f.firstAnswer = -1 then s.Index else f.firstAnswer)
          else f.firstAnswer
        firstNX := if nxStepClean s then (if f.firstNX = -1 then s.Index else f.firstNX)
          else f.firstNX
        firstNoData := if noDataStepClean s then
            (if f.firstNoData = -1 then s.Index else f.firstNoData)
          else f.firstNoData
        firstServfail := if failStep s then
            (if f.firstServfail = -1 then s.Index else f.firstServfail)
          else f.firstServfail } := by
  obtain ⟨fa, fx, fn, fs⟩ := f
  unfold ladder.scanStep answerStep nxStepClean noDataStepClean failStep ladder.hasAnswer
  by_cases he : s.Error = ""
  · by_cases h1 : s.Rcode = "NXDOMAIN"
    · cases ha : s.Answers <;> simp [he, h1, ha] <;> split_ifs <;> simp_all
    · by_cases h2 : s.Rcode = "NOERROR"
      · cases ha : s.Answers <;> simp [he, h2, ha] <;> split_ifs <;> simp_all
      · by_cases h3 : s.Rcode = "SERVFAIL"
        · cases ha : s.Answers <;> simp [he, h3, ha] <;> split_ifs <;> simp_all
        · by_cases h4 : s.Rcode = "REFUSED"
          · cases ha : s.Answers <;> simp [he, h4, ha] <;> split_ifs <;> simp_all
          · cases ha : s.Answers <;> simp [he, h1, h2, h3, h4, ha]
            split_ifs <;> simp_all
  · simp [he]
    split_ifs <;> simp_all

/-- The four first-seen variables after the scan of a list whose indices count up from `k`. -/
theorem scan_fold (l : List model.TraceStep) : ∀ (k : Nat) (f : ladder.Firsts),
    (∀ i (h : i < l.length), (l.get ⟨i, h⟩).Index = ((k + i : Nat) : Int)) →
    l.foldl ladder.scanStep f =
      { firstAnswer := firstSeen f.firstAnswer (firstIndex answerStep l) k
        firstNX := firstSeen f.firstNX (firstIndex nxStepClean l) k
        firstNoData := firstSeen f.firstNoData (firstIndex noDataStepClean l) k
        firstServfail := firstSeen f.firstServfail (firstIndex failStep l) k } := by
  induction l with
  | nil =>
    intro k f _
    obtain ⟨fa, fx, fn, fs⟩ := f
    simp only [List.foldl_nil, firstIndex, firstSeen]
    congr 1 <;> split_ifs <;> simp_all
  | cons s rest ih =>
    intro k f hidx
    have h0 : s.Index = (k : Int) := by
      have := hidx 0 (by simp)
      simpa using this
    have hrest : ∀ i (h : i < rest.length),
        (rest.get ⟨i, h⟩).Index = ((k + 1 + i : Nat) : Int) := by
      intro i h
      have := hidx (i + 1) (by simp; omega)
      simp only [List.get_eq_getElem, List.getElem_cons_succ] at this
      simp only [List.get_eq_getElem]
      rw [this]
      congr 1
      omega
    rw [List.foldl_cons, ih (k + 1) (ladder.scanStep f s) hrest]
    simp only [firstIndex]
    rw [← firstSeen_step f.firstAnswer, ← firstSeen_step f.firstNX,
      ← firstSeen_step f.firstNoData, ← firstSeen_step f.firstServfail]
    rw [scanStep_fields f s, h0]

/-- The steps the resolver loop builds are ladder steps: they carry their position
as index, and a step with an exchange error has no rcode. -/
theorem ladderStepsFrom_shape (fqdn : String) (qtype : Nat) :
    ∀ (xs : List (String × Exchanged)) (k : Nat),
      (∀ i (h : i < (ladderStepsFrom fqdn qtype k xs).length),
        ((ladderStepsFrom fqdn qtype k xs).get ⟨i, h⟩).Index = ((k + i : Nat) : Int)) ∧
      (∀ s ∈ ladderStepsFrom fqdn qtype k xs, s.Error ≠ "" → s.Rcode = "") := by
  intro xs
  induction xs with
  | nil =>
    intro k
    exact ⟨fun i h => absurd h (by simp [ladderStepsFrom]), fun s hs => by
      simp [ladderStepsFrom] at hs⟩
  | cons x rest ih =>
    intro k
    obtain ⟨resolver, e⟩ := x
    obtain ⟨h1, h2⟩ := ih (k + 1)
    constructor
    · intro i h
      cases i with
      | zero =>
        simp only [ladderStepsFrom, List.get_eq_getElem, List.getElem_cons_zero, Nat.add_zero]
        unfold ladder.ladderStep
        cases e.err <;> cases e.resp <;> rfl
      | succ j =>
        have := h1 j (by simpa [ladderStepsFrom] using h)
        simp only [ladderStepsFrom, List.get_eq_getElem, List.getElem_cons_succ] at this ⊢
        rw [this]
        congr 1
        omega
    · intro s hs
      simp only [ladderStepsFrom, List.mem_cons] at hs
      rcases hs with hs | hs
      · subst hs
        unfold ladder.ladderStep
        cases e.err <;> cases e.resp <;> simp
      · exact h2 s hs

/-- Two tests that agree on the steps of a list find the same first index. -/
theorem firstIndex_congr {p q : model.TraceStep → Bool} :
    ∀ (l : List model.TraceStep), (∀ s ∈ l, p s = q s) → firstIndex p l = firstIndex q l := by
  intro l
  induction l with
  | nil => intro _; rfl
  | cons s rest ih =>
    intro h
    unfold firstIndex
    rw [h s (List.mem_cons_self _ _), ih (fun x hx => h x (List.mem_cons_of_mem _ hx))]

/-- On steps that have no rcode when they have an error, the verdict of the claim is the
one among the error-free steps. -/
theorem ladderVerdict_of_shape (steps : List model.TraceStep)
    (hshape : ∀ s ∈ steps, s.Error ≠ "" → s.Rcode = "") :
    ladderVerdictErrorFree steps = ladderVerdict steps := by
  have h1 : firstIndex nxStepClean steps = firstIndex nxStep steps := by
    apply firstIndex_congr
    intro s hs
    unfold nxStepClean nxStep
    by_cases he : s.Error = ""
    · simp [he]
    · simp [he, hshape s hs he]
  have h2 : firstIndex noDataStepClean steps = firstIndex noDataStep steps := by
    apply firstIndex_congr
    intro s hs
    unfold noDataStepClean noDataStep
    by_cases he : s.Error = ""
    · simp [he]
    · simp [he, hshape s hs he]
  unfold ladderVerdictErrorFree ladderVerdict
  rw [h1, h2]

/-- The counterexample to C3: a single step with index 0 that carries both an exchange
error and the rcode NXDOMAIN is diagnosed as a failure, where the first NXDOMAIN step
is claimed to decide. -/
theorem errored_nxdomain_step_counterexample :
    erroredNxdomainStep.Index = 0 ∧
    ladderVerdict [erroredNxdomainStep] =
      { Classification := "NXDOMAIN", Summary := "resolver returned NXDOMAIN",
        EvidenceSteps := [0], Hints := [] } ∧
    ladder.diagnoseLadder { TraceResult.zero with TraceSteps := [erroredNxdomainStep] } =
      { Classification := "SERVFAIL_TIMEOUT", Summary := "resolver failure or timeout",
        EvidenceSteps := [0], Hints := [] } := by
  refine ⟨by decide, by decide, by decide⟩

/-- C3: on every list of ladder steps with `steps[i].index = i`, `ladder.diagnoseLadder`
is SUCCESS with the index of the first error-free step that has answers; else NXDOMAIN
with the index of the first error-free NXDOMAIN step; else NODATA with the index of the
first error-free NOERROR step without answers; else SERVFAIL_TIMEOUT with the index of
the first step with an exchange error or rcode SERVFAIL/REFUSED; else SERVFAIL_TIMEOUT
"no resolver responses" with no evidence.  On the lists in which a step with an
exchange error has no rcode, as the ladder builds them, "error-free" can be left out
of the NXDOMAIN and the NODATA clause. -/
theorem diagnoseLadder_first_seen_priority (steps : List model.TraceStep)
    (d : model.Diagnosis) (tm : List model.Timing)
    (hidx : ∀ i (h : i < steps.length), (steps.get ⟨i, h⟩).Index = (i : Int)) :
    ladder.diagnoseLadder { TraceSteps := steps, Diagnosis := d, Timings := tm }
      = ladderVerdictErrorFree steps ∧
    ((∀ s ∈ steps, s.Error ≠ "" → s.Rcode = "") →
      ladder.diagnoseLadder { TraceSteps := steps, Diagnosis := d, Timings := tm }
        = ladderVerdict steps) := by
  have hmain : ladder.diagnoseLadder { TraceSteps := steps, Diagnosis := d, Timings := tm }
      = ladderVerdictErrorFree steps := by
    have hfold := scan_fold steps 0 ⟨-1, -1, -1, -1⟩ (by intro i h; rw [hidx i h]; simp)
    unfold ladder.diagnoseLadder ladderVerdictErrorFree
    simp only [hfold, firstSeen, Nat.zero_add, if_true]
    cases firstIndex answerStep steps with
    | some i =>
      have : (i : Int) ≥ 0 := Int.natCast_nonneg i
      simp [analyze.Diagnose, this]
    | none =>
      cases firstIndex nxStepClean steps with
      | some i =>
        have : (i : Int) ≥ 0 := Int.natCast_nonneg i
        simp [analyze.Diagnose, this]
      | none =>
        cases firstIndex noDataStepClean steps with
        | some i =>
          have : (i : Int) ≥ 0 := Int.natCast_nonneg i
          simp [analyze.Diagnose, this]
        | none =>
          cases firstIndex failStep steps with
          | some i =>
            have : (i : Int) ≥ 0 := Int.natCast_nonneg i
            simp [analyze.Diagnose, this]
          | none => simp [analyze.Diagnose]
  exact ⟨hmain, fun hshape => hmain.trans (ladderVerdict_of_shape steps hshape)⟩

/-- C3 on the ladder test: NXDOMAIN at 1.1.1.1 and an answer at 8.8.8.8 give
SUCCESS with evidence step 1. -/
theorem diagnoseLadder_first_seen_priority_witness :
    ladder.diagnoseLadder { TraceSteps := ladderTestSteps, Diagnosis := ⟨"", "", [], []⟩, Timings := [] }
      = { Classification := "SUCCESS", Summary := "resolver returned answer",
          EvidenceSteps := [1], Hints := [] } :=
  (diagnoseLadder_first_seen_priority ladderTestSteps ⟨"", "", [], []⟩ []
    (by decide)).1.trans (by decide)

/-! ## The outcome classifier -/

/-- C4: `Diagnose` copies kind, summary and hints, and the evidence steps are
the evidence step alone when it is not negative, else empty. -/
theorem Diagnose_copies_outcome (o : Outcome) :
    (Diagnose o).Classification = o.Kind ∧
    (Diagnose o).Summary = o.Summary ∧
    (Diagnose o).Hints = o.Hints ∧
    (Diagnose o).EvidenceSteps = (if o.EvidenceStep ≥ 0 then [o.EvidenceStep] else []) := by
  refine ⟨rfl, rfl, rfl, ?_⟩
  unfold Diagnose
  split_ifs <;> simp

/-! ## One hop of the tracer -/

theorem chosen_valid {W : Type} (t : Tracer W) (qtype : Nat) (st : HopState W) (b : response)
    (hb : chosen t qtype st = some b) : b.err = none ∧ ∃ r, b.resp = some r := by
  unfold chosen at hb
  obtain ⟨_, h2, h3, _⟩ := (selectBest_valid_least _ qtype).2 b hb
  exact ⟨h2, Option.ne_none_iff_exists'.mp h3⟩

theorem hopStep_of_chosen {W : Type} (t : Tracer W) (qtype : Nat) (st : HopState W) (b : response)
    (hb : chosen t qtype st = some b) :
    hopStep t qtype st =
      decideHop t qtype st (hopInput t qtype st b).1.result (hopInput t qtype st b).1.world
        (hopInput t qtype st b).2 := by
  have hv := (chosen_valid t qtype st b hb).1
  unfold chosen at hb
  unfold hopStep
  simp only [hb, hv]

theorem hopInput_resp {W : Type} (t : Tracer W) (qtype : Nat) (st : HopState W) (b : response) :
    (hopInput t qtype st b).2.resp = b.resp := by
  unfold hopInput aggregate
  cases t.config.Verbose <;> simp

theorem hopInput_stepIndex {W : Type} (t : Tracer W) (qtype : Nat) (st : HopState W) (b : response) :
    (hopInput t qtype st b).2 = { b with stepIndex := (hopInput t qtype st b).2.stepIndex } := by
  unfold hopInput aggregate
  cases t.config.Verbose <;> simp

theorem decideHop_nxdomain {W : Type} (t : Tracer W) (qtype : Nat) (st : HopState W)
    (result : model.TraceResult) (w : W) (best : response) (r : Msg)
    (hr : best.resp = some r) (h1 : r.Rcode = RcodeNameError) (h2 : r.Authoritative = true) :
    decideHop t qtype st result w best =
      .done (finish result
        { Kind := analyze.OutcomeNXDOMAIN, Summary := "authoritative NXDOMAIN",
          EvidenceStep := best.stepIndex, Hints := [] }) := by
  unfold decideHop
  simp [hr, h1, h2]

theorem decideHop_servfail {W : Type} (t : Tracer W) (qtype : Nat) (st : HopState W)
    (result : model.TraceResult) (w : W) (best : response) (r : Msg)
    (hr : best.resp = some r) (h1 : r.Rcode = RcodeServerFailure ∨ r.Rcode = RcodeRefused) :
    decideHop t qtype st result w best =
      .done (finish result
        { Kind := analyze.OutcomeServfailTimeout, Summary := RcodeToString r.Rcode,
          EvidenceStep := best.stepIndex, Hints := ["check authoritative server health"] }) := by
  unfold decideHop
  rcases h1 with h1 | h1 <;> simp [hr, h1]

theorem decideHop_nodata {W : Type} (t : Tracer W) (qtype : Nat) (st : HopState W)
    (result : model.TraceResult) (w : W) (best : response) (r : Msg)
    (hr : best.resp = some r) (h0 : r.Rcode = RcodeSuccess) (h1 : r.Authoritative = true)
    (h2 : hasSOA r = true) (h3 : hasAnswerType r qtype = false)
    (h4 : firstCNAME r = none) (h5 : firstDNAME r = none) :
    decideHop t qtype st result w best =
      .done (finish result
        { Kind := analyze.OutcomeNODATA, Summary := "authoritative no data for RRtype",
          EvidenceStep := best.stepIndex, Hints := [] }) := by
  unfold decideHop
  simp [hr, h0, h1, h2, h3, h4, h5]

theorem buildStep_fields (i : Int) (name : String) (qtype : Nat) (b : response)
    (labels : List (String × String)) :
    (buildStep i name qtype b labels).Index = i ∧
    (buildStep i name qtype b labels).Server = b.server ∧
    (buildStep i name qtype b labels).QueryName = name ∧
    (buildStep i name qtype b labels).Transport = b.transport ∧
    (b.err = none → ∀ m, b.resp = some m →
      (buildStep i name qtype b labels).Error = "" ∧
      (buildStep i name qtype b labels).Rcode = RcodeToString m.Rcode ∧
      (buildStep i name qtype b labels).Authoritative = m.Authoritative) := by
  unfold buildStep
  cases he : b.err <;> cases hm : b.resp <;> simp

theorem buildStep_stepIndex (i : Int) (name : String) (qtype : Nat) (b : response) (k : Int)
    (labels : List (String × String)) :
    buildStep i name qtype { b with stepIndex := k } labels = buildStep i name qtype b labels := by
  unfold buildStep
  rfl

theorem recordResponses_prefix (name : String) (qtype : Nat) (labels : List (String × String)) :
    ∀ (rs : List response) (result : model.TraceResult),
      ∃ ext, (recordResponses name qtype labels rs result).2.TraceSteps
        = result.TraceSteps ++ ext ∧ ext.length = rs.length := by
  intro rs
  induction rs with
  | nil => intro result; exact ⟨[], by simp [recordResponses]⟩
  | cons r rest ih =>
    intro result
    unfold recordResponses
    obtain ⟨ext, hext, hlen⟩ := ih
      { result with
        TraceSteps := result.TraceSteps ++
          [buildStep (result.TraceSteps.length : Int) name qtype r labels]
        Timings := result.Timings ++ [buildTiming (result.TraceSteps.length : Int) r] }
    refine ⟨buildStep (result.TraceSteps.length : Int) name qtype r labels :: ext, ?_, ?_⟩
    · simp only [hext, List.append_assoc, List.singleton_append]
    · simp [hlen]

theorem recordResponses_steps (name : String) (qtype : Nat) (labels : List (String × String)) :
    ∀ (rs : List response) (result : model.TraceResult),
      ∀ r ∈ (recordResponses name qtype labels rs result).1,
        ∃ n : Nat, r.stepIndex = (n : Int) ∧ result.TraceSteps.length ≤ n ∧
          (recordResponses name qtype labels rs result).2.TraceSteps[n]?
            = some (buildStep (n : Int) name qtype r labels) := by
  intro rs
  induction rs with
  | nil => intro result r hr; simp [recordResponses] at hr
  | cons x rest ih =>
    intro result r hr
    unfold recordResponses at hr ⊢
    simp only [List.mem_cons] at hr
    rcases hr with hr | hr
    · subst hr
      refine ⟨result.TraceSteps.length, rfl, le_refl _, ?_⟩
      obtain ⟨ext, hext, _⟩ := recordResponses_prefix name qtype labels rest
        { result with
          TraceSteps := result.TraceSteps ++
            [buildStep (result.TraceSteps.length : Int) name qtype x labels]
          Timings := result.Timings ++ [buildTiming (result.TraceSteps.length : Int) x] }
      simp only [hext, buildStep_stepIndex]
      rw [List.append_assoc, List.getElem?_append_right (le_refl _)]
      simp
    · obtain ⟨n, h1, h2, h3⟩ := ih _ r hr
      refine ⟨n, h1, ?_, h3⟩
      simp only [List.length_append, List.length_singleton] at h2
      omega

theorem chosen_mem {W : Type} (t : Tracer W) (qtype : Nat) (st : HopState W) (b : response)
    (hb : chosen t qtype st = some b) :
    b ∈ (queryServers t st.servers st.name qtype { result := st.result, world := st.world }
      t.config.Verbose st.serverLabels).1 := by
  unfold chosen at hb
  exact ((selectBest_valid_least _ qtype).2 b hb).1

theorem aggregate_steps (name : String) (qtype : Nat) (labels : List (String × String))
    (responses : List response) (best : response) (result : model.TraceResult) :
    ∃ s, (aggregate name qtype labels responses best result).1.TraceSteps
          = result.TraceSteps ++ [s] ∧
      (aggregate name qtype labels responses best result).2
          = { best with stepIndex := (result.TraceSteps.length : Int) } ∧
      s.Index = (result.TraceSteps.length : Int) ∧ s.Server = best.server ∧
      s.QueryName = name ∧ s.Transport = best.transport ∧
      (best.err = none → ∀ m, best.resp = some m →
        s.Error = "" ∧ s.Rcode = RcodeToString m.Rcode ∧ s.Authoritative = m.Authoritative) := by
  have hf := buildStep_fields (result.TraceSteps.length : Int) name qtype best labels
  unfold aggregate
  cases hm : best.resp with
  | none =>
    refine ⟨_, rfl, rfl, hf.1, hf.2.1, hf.2.2.1, hf.2.2.2.1, ?_⟩
    intro _ m h; cases h
  | some m =>
    have hf2 := hf.2.2.2.2
    rw [hm] at hf2
    refine ⟨_, rfl, rfl, ?_⟩
    dsimp only
    split_ifs <;> exact ⟨hf.1, hf.2.1, hf.2.2.1, hf.2.2.2.1, hf2⟩

theorem hopInput_evidence {W : Type} (t : Tracer W) (qtype : Nat) (st : HopState W) (b : response)
    (hb : chosen t qtype st = some b) :
    stepRecordedAt (hopInput t qtype st b).1.result (hopInput t qtype st b).2.stepIndex st.name b
      ∧ (st.result.TraceSteps.length : Int) ≤ (hopInput t qtype st b).2.stepIndex := by
  have hmem := chosen_mem t qtype st b hb
  unfold hopInput
  unfold queryServers at hmem ⊢
  cases hv : t.config.Verbose
  · simp only [Bool.not_false, if_true]
    obtain ⟨s, h1, h2, h3, h4, h5, h6, h7⟩ := aggregate_steps st.name qtype st.serverLabels
      (exchangeAll t st.name qtype st.servers st.world).1 b st.result
    rw [h2]
    exact ⟨⟨st.result.TraceSteps.length, rfl, s, by rw [h1]; simp, h3, h4, h5, h6, h7⟩, le_refl _⟩
  · rw [hv] at hmem
    simp only [Bool.not_true, Bool.false_eq_true, if_false] at hmem ⊢
    obtain ⟨n, h1, h2, h3⟩ := recordResponses_steps st.name qtype st.serverLabels _ _ b hmem
    have hf := buildStep_fields (n : Int) st.name qtype b st.serverLabels
    refine ⟨⟨n, h1, _, h3, hf⟩, ?_⟩
    rw [h1]
    exact_mod_cast h2

theorem RR_String_ne_empty (rr : RR) : rr.String ≠ "" := by
  intro h
  have := congrArg String.length h
  simp only [RR.String, String.length_append] at this
  have h1 : ("\t" : String).length = 1 := rfl
  have h0 : ("" : String).length = 0 := rfl
  omega

theorem hasSOA_iff (r : Msg) : hasSOA r = true ↔ ∃ rr ∈ r.Ns, isSOA rr = true := by
  unfold hasSOA soaString
  cases hf : r.Ns.find? isSOA with
  | none =>
    have := List.find?_eq_none.mp hf
    simp only [bne_self_eq_false, Bool.false_eq_true, false_iff, not_exists, not_and]
    intro rr hrr
    exact this rr hrr
  | some rr =>
    have h1 := List.find?_some hf
    have h2 := List.mem_of_find?_eq_some hf
    simp only [bne_iff_ne, ne_eq, RR_String_ne_empty, not_false_eq_true, true_iff]
    exact ⟨rr, h2, h1⟩

theorem firstCNAME_none_iff (r : Msg) :
    firstCNAME r = none ↔ ∀ rr ∈ r.Answer, ∀ tgt, rr.Data ≠ .CNAME tgt := by
  unfold firstCNAME
  rw [List.findSome?_eq_none_iff]
  constructor
  · intro h rr hrr tgt hd
    have := h rr hrr
    rw [hd] at this
    simp at this
  · intro h rr hrr
    have := h rr hrr
    cases hd : rr.Data <;> simp_all

theorem firstDNAME_none_iff (r : Msg) :
    firstDNAME r = none ↔ ∀ rr ∈ r.Answer, ∀ tgt, rr.Data ≠ .DNAME tgt := by
  unfold firstDNAME
  rw [List.findSome?_eq_none_iff]
  constructor
  · intro h rr hrr tgt hd
    have := h rr hrr
    rw [hd] at this
    simp at this
  · intro h rr hrr
    have := h rr hrr
    cases hd : rr.Data <;> simp_all

theorem hasAnswerType_false_iff (r : Msg) (qtype : Nat) :
    hasAnswerType r qtype = false ↔ ∀ rr ∈ r.Answer, rr.Hdr.Rrtype ≠ qtype := by
  unfold hasAnswerType
  simp [List.any_eq_false]

theorem stepRecordedAt_finish (res : model.TraceResult) (o : analyze.Outcome) (i : Int)
    (name : String) (b : response) (h : stepRecordedAt res i name b) :
    stepRecordedAt (finish res o) i name b := h

theorem stepRecordedAt_stepIndex (res : model.TraceResult) (i k : Int)
    (name : String) (b : response) (h : stepRecordedAt res i name b) :
    stepRecordedAt res i name { b with stepIndex := k } := h

/-- The evidence of a stop decided on the chosen response. -/
theorem finish_evidence {W : Type} (t : Tracer W) (qtype : Nat) (st : HopState W) (b : response)
    (hb : chosen t qtype st = some b) (kind summary : String) (hints : List String) :
    ∃ i, (finish (hopInput t qtype st b).1.result
        { Kind := kind, Summary := summary, EvidenceStep := (hopInput t qtype st b).2.stepIndex,
          Hints := hints }).Diagnosis.EvidenceSteps = [i] ∧
      stepRecordedAt (finish (hopInput t qtype st b).1.result
        { Kind := kind, Summary := summary, EvidenceStep := (hopInput t qtype st b).2.stepIndex,
          Hints := hints }) i st.name b := by
  obtain ⟨hrec, hle⟩ := hopInput_evidence t qtype st b hb
  refine ⟨(hopInput t qtype st b).2.stepIndex, ?_, hrec⟩
  obtain ⟨n, hn, _⟩ := hrec
  simp [finish, analyze.Diagnose, hn]

theorem traceLoop_done {W : Type} (t : Tracer W) (qtype : Nat) (st : HopState W) (res : model.TraceResult)
    (h : hopStep t qtype st = .done res) (hops : Nat) :
    traceLoop t qtype (hops + 1) st = res := by
  simp [traceLoop, h]

/-- C9: when the response chosen at a hop is an authoritative NXDOMAIN the trace
stops at that hop with classification NXDOMAIN; when its rcode is SERVFAIL or
REFUSED, authoritative or not, it stops with SERVFAIL_TIMEOUT and the rcode name as
summary; in both cases `evidence_steps` is the index of the step recorded for that
response at that hop. -/
theorem trace_terminal_rcodes {W : Type} (t : Tracer W) (qtype : Nat) (st : HopState W) (b : response)
    (r : Msg) (hb : chosen t qtype st = some b) (hr : b.resp = some r) :
    (r.Rcode = RcodeNameError ∧ r.Authoritative = true →
      ∃ res, hopStep t qtype st = .done res ∧
        (∀ hops, traceLoop t qtype (hops + 1) st = res) ∧
        res.Diagnosis.Classification = "NXDOMAIN" ∧
        ∃ i, res.Diagnosis.EvidenceSteps = [i] ∧ stepRecordedAt res i st.name b) ∧
    (r.Rcode = RcodeServerFailure ∨ r.Rcode = RcodeRefused →
      ∃ res, hopStep t qtype st = .done res ∧
        (∀ hops, traceLoop t qtype (hops + 1) st = res) ∧
        res.Diagnosis.Classification = "SERVFAIL_TIMEOUT" ∧
        res.Diagnosis.Summary = RcodeToString r.Rcode ∧
        (r.Rcode = RcodeServerFailure → res.Diagnosis.Summary = "SERVFAIL") ∧
        (r.Rcode = RcodeRefused → res.Diagnosis.Summary = "REFUSED") ∧
        ∃ i, res.Diagnosis.EvidenceSteps = [i] ∧ stepRecordedAt res i st.name b) := by
  have hstep := hopStep_of_chosen t qtype st b hb
  have hr2 : (hopInput t qtype st b).2.resp = some r := by rw [hopInput_resp, hr]
  constructor
  · rintro ⟨h1, h2⟩
    rw [decideHop_nxdomain t qtype st _ _ _ r hr2 h1 h2] at hstep
    exact ⟨_, hstep, traceLoop_done t qtype st _ hstep, rfl,
      finish_evidence t qtype st b hb _ _ _⟩
  · intro h1
    rw [decideHop_servfail t qtype st _ _ _ r hr2 h1] at hstep
    refine ⟨_, hstep, traceLoop_done t qtype st _ hstep, rfl, rfl, ?_, ?_,
      finish_evidence t qtype st b hb _ _ _⟩
    · intro h; simp [finish, analyze.Diagnose, h, RcodeToString]
    · intro h; simp [finish, analyze.Diagnose, h, RcodeToString]

/-- C10: when the response chosen at a hop is authoritative NOERROR with an SOA in
Authority, no answer of the queried type and no CNAME or DNAME in Answer, the trace
stops with NODATA, whatever else Authority holds (NS records included). -/
theorem trace_nodata {W : Type} (t : Tracer W) (qtype : Nat) (st : HopState W) (b : response)
    (r : Msg) (hb : chosen t qtype st = some b) (hr : b.resp = some r)
    (hauth : r.Authoritative = true) (hrc : r.Rcode = RcodeSuccess)
    (hsoa : ∃ rr ∈ r.Ns, isSOA rr = true)
    (hans : ∀ rr ∈ r.Answer, rr.Hdr.Rrtype ≠ qtype)
    (hcd : ∀ rr ∈ r.Answer, ∀ tgt, rr.Data ≠ .CNAME tgt ∧ rr.Data ≠ .DNAME tgt) :
    ∃ res, hopStep t qtype st = .done res ∧
      (∀ hops, traceLoop t qtype (hops + 1) st = res) ∧
      res.Diagnosis.Classification = "NODATA" := by
  have hstep := hopStep_of_chosen t qtype st b hb
  have hr2 : (hopInput t qtype st b).2.resp = some r := by rw [hopInput_resp, hr]
  rw [decideHop_nodata t qtype st _ _ _ r hr2 hrc hauth ((hasSOA_iff r).mpr hsoa)
    ((hasAnswerType_false_iff r qtype).mpr hans)
    ((firstCNAME_none_iff r).mpr (fun rr h tgt => (hcd rr h tgt).1))
    ((firstDNAME_none_iff r).mpr (fun rr h tgt => (hcd rr h tgt).2))] at hstep
  exact ⟨_, hstep, traceLoop_done t qtype st _ hstep, rfl⟩

/-! ## Delegations without glue -/

theorem Fqdn_ne_empty (s : String) : Fqdn s ≠ "" := by
  unfold Fqdn
  split_ifs with h
  · intro hs
    rw [hs] at h
    simp [IsFqdn] at h
  · intro hs
    have := congrArg String.length hs
    simp only [String.length_append] at this
    have h1 : (".": String).length = 1 := rfl
    have h0 : ("" : String).length = 0 := rfl
    omega

theorem nsZone_of_ne_empty (zone : String) (hz : zone ≠ "") (l : List RR) :
    nsZone zone l = zone := by
  induction l with
  | nil => rfl
  | cons rr rest ih =>
    unfold nsZone
    cases rr.Data <;> simp [hz, ih]

theorem nsZone_ne_empty (l : List RR) (h : l.any isNS = true) : nsZone "" l ≠ "" := by
  induction l with
  | nil => simp at h
  | cons rr rest ih =>
    unfold nsZone
    cases hd : rr.Data with
    | NS n =>
      simp only [if_true]
      rw [nsZone_of_ne_empty _ (Fqdn_ne_empty _)]
      exact Fqdn_ne_empty _
    | _ =>
      simp only
      apply ih
      simpa [isNS, hd] using h

theorem uniqueStringsFrom_eq (l : List String) : ∀ seen : List String,
    uniqueStringsFrom seen l = (dedupFirst l).filter (fun y => !seen.contains y) := by
  induction l with
  | nil => intro seen; rfl
  | cons v vs ih =>
    intro seen
    unfold uniqueStringsFrom dedupFirst
    by_cases hv : seen.contains v = true
    · simp only [hv, if_true, List.filter_cons, Bool.not_true, Bool.false_eq_true, if_false]
      rw [ih seen, List.filter_filter]
      apply List.filter_congr
      intro y _
      by_cases hy : seen.contains y = true
      · have hy2 : y ∈ seen := by simpa using hy
        simp [hy2]
      · have : y ≠ v := by
          intro e; rw [e] at hy; exact hy hv
        simp [hy, this]
    · simp only [hv, if_false, List.filter_cons, Bool.not_false, if_true, Bool.false_eq_true]
      rw [ih (v :: seen), List.filter_filter]
      congr 1
      apply List.filter_congr
      intro y _
      by_cases hyv : y = v
      · simp [hyv]
      · simp [hyv, List.contains_cons, Bool.not_or]

theorem uniqueStrings_eq_dedupFirst (l : List String) : uniqueStrings l = dedupFirst l := by
  unfold uniqueStrings
  rw [uniqueStringsFrom_eq]
  simp

theorem mem_dedupFirst (l : List String) (x : String) : x ∈ dedupFirst l ↔ x ∈ l := by
  induction l with
  | nil => simp [dedupFirst]
  | cons v vs ih =>
    unfold dedupFirst
    by_cases h : x = v
    · simp [h]
    · simp [h, List.mem_filter, ih]

theorem dedupFirst_nodup (l : List String) : (dedupFirst l).Nodup := by
  induction l with
  | nil => simp [dedupFirst]
  | cons v vs ih =>
    unfold dedupFirst
    rw [List.nodup_cons]
    exact ⟨by simp [List.mem_filter], ih.filter _⟩

theorem dedupFirst_eq_nil (l : List String) : dedupFirst l = [] ↔ l = [] := by
  cases l <;> simp [dedupFirst]

theorem gatherAddresses_eq {W : Type} (host : String → Nat → Env W → Except String (List String) × Env W) :
    ∀ (names acc : List String) (env : Env W),
      (gatherAddresses host names acc env).1 = acc ++ endpointsInOrder host names env := by
  intro names
  induction names with
  | nil => intro acc env; simp [gatherAddresses, endpointsInOrder]
  | cons n ns ih =>
    intro acc env
    unfold gatherAddresses endpointsInOrder
    simp only [ih]
    cases h1 : (host n TypeA env).1 <;>
      cases h2 : (host n TypeAAAA (host n TypeA env).2).1 <;>
      simp [okOrNil, h1, h2]

/-- More fuel than the depth limit leaves does not change the result. -/
theorem resolveNameserverAddresses_fuel {W : Type} (t : Tracer W) :
    ∀ (fuel depth : Nat), 5 ≤ fuel + depth →
      ∀ (names : List String) (env : Env W) (record : Bool),
        resolveNameserverAddresses t (fuel + 1) names env depth record
          = resolveNameserverAddresses t fuel names env depth record := by
  intro fuel
  induction fuel with
  | zero =>
    intro depth h names env record
    have hd : depth > 4 := by omega
    simp [resolveNameserverAddresses, hd]
  | succ fuel ih =>
    intro depth h names env record
    rw [resolveNameserverAddresses]
    conv_rhs => rw [resolveNameserverAddresses]
    have hfun : (fun ns e2 => resolveNameserverAddresses t (fuel + 1) ns e2 (depth + 1) record)
        = (fun ns e2 => resolveNameserverAddresses t fuel ns e2 (depth + 1) record) := by
      funext ns e2
      exact ih (depth + 1) (by omega) ns e2 record
    simp only [hfun]

theorem resolveNameserverAddresses_top {W : Type} (t : Tracer W) (names : List String) (env : Env W) :
    (resolveNameserverAddresses t 5 names env 0 t.config.Verbose).1 =
      if dedupFirst (endpointsInOrder (subHost t) names env) = [] then
        .error "unable to resolve nameserver addresses"
      else .ok (dedupFirst (endpointsInOrder (subHost t) names env)) := by
  unfold resolveNameserverAddresses
  simp only [gt_iff_lt, show ¬ (4 < 0) by omega, if_false, Nat.zero_add]
  have hg := gatherAddresses_eq (subHost t) names [] env
  simp only [List.nil_append] at hg
  unfold subHost at hg
  rw [uniqueStrings_eq_dedupFirst]
  unfold subHost
  rw [hg]
  split_ifs with h1 h2 h2
  · rfl
  · simp at h1; exact absurd h1 h2
  · simp at h1; exact absurd h2 h1
  · rfl

theorem reachesDelegation_iff (r : Msg) (qtype : Nat) :
    reachesDelegation r qtype = true ↔
      r.Rcode = RcodeSuccess ∧ (hasAnswerType r qtype && r.Authoritative) = false ∧
      firstCNAME r = none ∧ firstDNAME r = none ∧
      (r.Authoritative && hasSOA r && !hasAnswerType r qtype) = false ∧
      hasDelegation r = true := by
  unfold reachesDelegation
  simp only [Bool.and_eq_true, beq_iff_eq, Bool.not_eq_true', Option.isNone_iff_eq_none]
  tauto

theorem decideHop_delegation {W : Type} (t : Tracer W) (qtype : Nat) (st : HopState W)
    (result : model.TraceResult) (w : W) (best : response) (r : Msg)
    (hr : best.resp = some r) (href : reachesDelegation r qtype = true) :
    decideHop t qtype st result w best = followDelegation t st result w best r := by
  obtain ⟨h0, h1, h2, h3, h4, h5⟩ := (reachesDelegation_iff r qtype).mp href
  unfold decideHop
  simp only [hr, h0, h1, h2, h3, h4, h5]
  simp

theorem followDelegation_noglue {W : Type} (t : Tracer W) (st : HopState W)
    (result : model.TraceResult) (w : W) (best : response) (r : Msg)
    (hglue : extractGlueServers r = []) :
    (endpointsInOrder (subHost t) (splitBailiwick (nsNamesAndZone r).1 (nsNamesAndZone r).2).2
        { result := result, world := w } = [] →
      ∃ res0, followDelegation t st result w best r =
        .done (finish res0
          { Kind := analyze.OutcomeBrokenDelegation, Summary := "delegation without glue",
            EvidenceStep := best.stepIndex,
            Hints := brokenHints (splitBailiwick (nsNamesAndZone r).1 (nsNamesAndZone r).2) })) ∧
    (endpointsInOrder (subHost t) (splitBailiwick (nsNamesAndZone r).1 (nsNamesAndZone r).2).2
        { result := result, world := w } ≠ [] →
      ∃ res0 w0, followDelegation t st result w best r =
        .next { st with
          servers := dedupFirst (endpointsInOrder (subHost t)
            (splitBailiwick (nsNamesAndZone r).1 (nsNamesAndZone r).2).2
            { result := result, world := w })
          serverLabels :=
            if (extractGlueLabels r).length > 0 then extractGlueLabels r else st.serverLabels
          result := res0
          world := w0 }) := by
  have hbh : ∀ sp : List String × List String,
      ((if sp.2.length > 0 then
          (if sp.1.length > 0 then
              ([] : List String) ++ ["missing glue records for in-bailiwick nameservers"]
            else []) ++ ["unable to resolve out-of-bailiwick nameserver addresses"]
        else
          (if sp.1.length > 0 then
              ([] : List String) ++ ["missing glue records for in-bailiwick nameservers"]
            else [])) = brokenHints sp) := by
    intro sp
    unfold brokenHints
    split_ifs <;> simp
  unfold followDelegation
  simp only [hglue, List.length_nil, beq_self_eq_true, if_true, hbh]
  generalize (splitBailiwick (nsNamesAndZone r).1 (nsNamesAndZone r).2) = sp
  by_cases hout : sp.2.length > 0
  · simp only [hout, if_true]
    have htop := resolveNameserverAddresses_top t sp.2 { result := result, world := w }
    constructor
    · intro he
      rw [he] at htop
      simp only [dedupFirst, if_true] at htop
      rw [htop]
      exact ⟨_, rfl⟩
    · intro hne
      have hd : dedupFirst (endpointsInOrder (subHost t) sp.2 { result := result, world := w })
          ≠ [] := fun h => hne ((dedupFirst_eq_nil _).mp h)
      rw [if_neg hd] at htop
      rw [htop]
      have hl : (dedupFirst (endpointsInOrder (subHost t) sp.2
          { result := result, world := w })).length > 0 :=
        List.length_pos.mpr hd
      simp only [hl, if_true]
      exact ⟨_, _, rfl⟩
  · have hnil : sp.2 = [] := by
      cases h : sp.2 with
      | nil => rfl
      | cons a l => rw [h] at hout; simp at hout
    simp only [hout, if_false, hnil, endpointsInOrder, List.length_nil, gt_iff_lt, lt_self_iff_false,
      ne_eq, not_true_eq_false, false_implies, and_true]
    intro _
    exact ⟨_, rfl⟩

/-- The loop of `splitBailiwick` as two selections from the canonical names. -/
theorem splitLoop_eq (zone : String) : ∀ (names inB outB : List String),
    splitLoop zone names inB outB =
      (inB ++ (names.map (fun ns => ToLower (Fqdn ns))).filter (fun n => HasSuffix n zone),
       outB ++ (names.map (fun ns => ToLower (Fqdn ns))).filter
         (fun n => !HasSuffix n zone)) := by
  intro names
  induction names with
  | nil => intro inB outB; simp [splitLoop]
  | cons ns rest ih =>
    intro inB outB
    unfold splitLoop
    by_cases h : HasSuffix (ToLower (Fqdn ns)) zone = true
    · simp [h, ih]
    · simp [h, ih]

theorem splitBailiwick_filter (nsNames : List String) (zone : String) :
    splitBailiwick nsNames zone =
      if zone = "" then ([], nsNames)
      else
        ((nsNames.map (fun ns => ToLower (Fqdn ns))).filter
            (fun n => HasSuffix n (ToLower (Fqdn zone))),
         (nsNames.map (fun ns => ToLower (Fqdn ns))).filter
            (fun n => !HasSuffix n (ToLower (Fqdn zone)))) := by
  unfold splitBailiwick
  split_ifs
  · rfl
  · rw [splitLoop_eq]; simp

theorem splitBailiwick_in (nsNames : List String) (zone : String) (hz : zone ≠ "") :
    ((splitBailiwick nsNames zone).1.length > 0 ↔ ∃ n ∈ nsNames, inBailiwick zone n = true) ∧
    ((splitBailiwick nsNames zone).2.length > 0 ↔ ∃ n ∈ nsNames, inBailiwick zone n = false) := by
  rw [splitBailiwick_filter]
  unfold inBailiwick
  simp only [hz, if_false, gt_iff_lt, List.length_pos, ne_eq, List.filter_eq_nil_iff,
    List.mem_map, not_forall, forall_exists_index, and_imp, forall_apply_eq_imp_iff₂,
    Bool.not_eq_true, Bool.not_eq_true', Classical.not_imp, Bool.not_eq_false, exists_prop,
    and_self]

theorem nsNames_ne_nil (r : Msg) (h : hasDelegation r = true) : (nsNamesAndZone r).1 ≠ [] := by
  unfold nsNamesAndZone
  rw [uniqueStrings_eq_dedupFirst]
  intro he
  have h1 := (dedupFirst_eq_nil _).mp he
  simp only [List.map_eq_nil_iff] at h1
  unfold hasDelegation at h
  obtain ⟨rr, hrr, hns⟩ := List.any_eq_true.mp h
  unfold nsStrings at h1
  have : ∀ x ∈ r.Ns, (match x.Data with | .NS n => some n | _ => none) = none :=
    List.filterMap_eq_nil_iff.mp h1
  have h2 := this rr hrr
  unfold isNS at hns
  cases hd : rr.Data <;> simp_all

theorem brokenHints_ne_nil (nsNames : List String) (zone : String) (hn : nsNames ≠ []) :
    brokenHints (splitBailiwick nsNames zone) ≠ [] := by
  rw [splitBailiwick_filter]
  unfold brokenHints
  cases nsNames with
  | nil => exact absurd rfl hn
  | cons n ns =>
    by_cases hz : zone = ""
    · simp [hz]
    · simp only [hz, if_false, List.map_cons, List.filter_cons]
      cases HasSuffix (ToLower (Fqdn n)) (ToLower (Fqdn zone)) <;> simp

/-- C7: when the response chosen at a hop reaches the delegation branch with no
glue, and no address is obtained for any out-of-bailiwick NS name (also when there is
none), the trace stops with BROKEN_DELEGATION; its hints contain the missing-glue
hint exactly when some NS name is in-bailiwick and the unable-to-resolve hint exactly
when some NS name is out-of-bailiwick, and are never empty. -/
theorem trace_broken_delegation {W : Type} (t : Tracer W) (qtype : Nat) (st : HopState W) (b : response)
    (r : Msg) (hb : chosen t qtype st = some b) (hr : b.resp = some r)
    (href : reachesDelegation r qtype = true) (hglue : extractGlueServers r = [])
    (hres : endpointsInOrder (subHost t)
      (splitBailiwick (nsNamesAndZone r).1 (nsNamesAndZone r).2).2 (hopInput t qtype st b).1 = []) :
    ∃ res, hopStep t qtype st = .done res ∧
      (∀ hops, traceLoop t qtype (hops + 1) st = res) ∧
      res.Diagnosis.Classification = "BROKEN_DELEGATION" ∧
      ("missing glue records for in-bailiwick nameservers" ∈ res.Diagnosis.Hints ↔
        ∃ n ∈ (nsNamesAndZone r).1, inBailiwick (nsNamesAndZone r).2 n = true) ∧
      ("unable to resolve out-of-bailiwick nameserver addresses" ∈ res.Diagnosis.Hints ↔
        ∃ n ∈ (nsNamesAndZone r).1, inBailiwick (nsNamesAndZone r).2 n = false) ∧
      res.Diagnosis.Hints ≠ [] := by
  have hstep := hopStep_of_chosen t qtype st b hb
  have hr2 : (hopInput t qtype st b).2.resp = some r := by rw [hopInput_resp, hr]
  rw [decideHop_delegation t qtype st _ _ _ r hr2 href] at hstep
  obtain ⟨res0, hfd⟩ := (followDelegation_noglue t st (hopInput t qtype st b).1.result
    (hopInput t qtype st b).1.world (hopInput t qtype st b).2 r hglue).1 hres
  rw [hfd] at hstep
  have hdel := ((reachesDelegation_iff r qtype).mp href).2.2.2.2.2
  have hz : (nsNamesAndZone r).2 ≠ "" := nsZone_ne_empty r.Ns hdel
  obtain ⟨hin, hout⟩ := splitBailiwick_in (nsNamesAndZone r).1 (nsNamesAndZone r).2 hz
  refine ⟨_, hstep, traceLoop_done t qtype st _ hstep, rfl, ?_, ?_, ?_⟩
  · rw [← hin]
    simp only [finish, analyze.Diagnose, brokenHints]
    split_ifs <;> simp_all
  · rw [← hout]
    simp only [finish, analyze.Diagnose, brokenHints]
    split_ifs <;> simp_all
  · exact brokenHints_ne_nil _ _ (nsNames_ne_nil r hdel)

/-- C8: when the response chosen at a hop is a referral that reaches the delegation
branch (so not an authoritative response with an SOA in Authority, which is NODATA),
has no glue, and the sub-traces for its out-of-bailiwick NS names obtain at least one
address, the hop produces no diagnosis, the query name is unchanged, and the server
list of the next hop is the de-duplicated union (first occurrence kept) of the A and
AAAA endpoints resolved for those names, in order. -/
theorem trace_glueless_resolved {W : Type} (t : Tracer W) (qtype : Nat) (st : HopState W) (b : response)
    (r : Msg) (hb : chosen t qtype st = some b) (hr : b.resp = some r)
    (href : reachesDelegation r qtype = true) (hglue : extractGlueServers r = [])
    (hres : endpointsInOrder (subHost t)
      (splitBailiwick (nsNamesAndZone r).1 (nsNamesAndZone r).2).2 (hopInput t qtype st b).1 ≠ []) :
    ∃ st2, hopStep t qtype st = .next st2 ∧
      (∀ hops, traceLoop t qtype (hops + 1) st = traceLoop t qtype hops st2) ∧
      st2.name = st.name ∧
      st2.servers = dedupFirst (endpointsInOrder (subHost t)
        (splitBailiwick (nsNamesAndZone r).1 (nsNamesAndZone r).2).2 (hopInput t qtype st b).1) ∧
      st2.visited = st.visited := by
  have hstep := hopStep_of_chosen t qtype st b hb
  have hr2 : (hopInput t qtype st b).2.resp = some r := by rw [hopInput_resp, hr]
  rw [decideHop_delegation t qtype st _ _ _ r hr2 href] at hstep
  obtain ⟨res0, w0, hfd⟩ := (followDelegation_noglue t st (hopInput t qtype st b).1.result
    (hopInput t qtype st b).1.world (hopInput t qtype st b).2 r hglue).2 hres
  rw [hfd] at hstep
  exact ⟨_, hstep, fun hops => by simp [traceLoop, hstep], rfl, rfl, rfl⟩

/-! ## Aliases and loops -/

theorem decideHop_cname {W : Type} (t : Tracer W) (qtype : Nat) (st : HopState W)
    (result : model.TraceResult) (w : W) (best : response) (r : Msg)
    (hr : best.resp = some r) (hrc : r.Rcode = RcodeSuccess)
    (hna : ¬ (hasAnswerType r qtype = true ∧ r.Authoritative = true))
    (hdr : RR_Header) (tgt : String) (hc : firstCNAME r = some (hdr, tgt)) :
    decideHop t qtype st result w best =
      if st.visited.contains tgt then
        .done (finish result
          { Kind := analyze.OutcomeServfailTimeout, Summary := "CNAME loop detected",
            EvidenceStep := best.stepIndex, Hints := ["verify CNAME chain"] })
      else
        .next { st with
          visited := tgt :: st.visited
          name := Fqdn tgt
          result := result
          world := w } := by
  have hna2 : (hasAnswerType r qtype && r.Authoritative) = false := by
    cases h1 : hasAnswerType r qtype <;> cases h2 : r.Authoritative <;> simp_all
  unfold decideHop
  simp only [hr, hrc, hna2, hc]
  simp

theorem decideHop_dname {W : Type} (t : Tracer W) (qtype : Nat) (st : HopState W)
    (result : model.TraceResult) (w : W) (best : response) (r : Msg)
    (hr : best.resp = some r) (hrc : r.Rcode = RcodeSuccess)
    (hna : ¬ (hasAnswerType r qtype = true ∧ r.Authoritative = true))
    (hc : firstCNAME r = none)
    (hdr : RR_Header) (tgt : String) (hd : firstDNAME r = some (hdr, tgt))
    (newName : String) (ha : applyDNAME st.name hdr.Name tgt = .ok newName) :
    decideHop t qtype st result w best =
      if st.visited.contains newName then
        .done (finish result
          { Kind := analyze.OutcomeServfailTimeout, Summary := "DNAME loop detected",
            EvidenceStep := best.stepIndex, Hints := ["verify DNAME chain"] })
      else
        .next { st with
          visited := newName :: st.visited
          name := Fqdn newName
          result := result
          world := w } := by
  have hna2 : (hasAnswerType r qtype && r.Authoritative) = false := by
    cases h1 : hasAnswerType r qtype <;> cases h2 : r.Authoritative <;> simp_all
  unfold decideHop
  simp only [hr, hrc, hna2, hc, hd, ha]
  simp

/-- C5, as amended: when the response chosen at a hop is NOERROR, is not an
authoritative answer of the queried type, and the first CNAME record of its Answer
has a target that is not yet in `visited`, the hop produces no diagnosis, the target
is added to `visited`, and the next hop queries the fully-qualified target with the
same query type at the same servers with the same labels, whether or not the
response was authoritative. -/
theorem trace_cname_chase {W : Type} (t : Tracer W) (qtype : Nat) (st : HopState W) (b : response)
    (r : Msg) (hdr : RR_Header) (tgt : String)
    (hb : chosen t qtype st = some b) (hr : b.resp = some r)
    (hrc : r.Rcode = RcodeSuccess)
    (hna : ¬ (hasAnswerType r qtype = true ∧ r.Authoritative = true))
    (hc : firstCNAME r = some (hdr, tgt)) (hv : tgt ∉ st.visited) :
    ∃ st2, hopStep t qtype st = .next st2 ∧
      (∀ hops, traceLoop t qtype (hops + 1) st = traceLoop t qtype hops st2) ∧
      (∀ x, x ∈ st2.visited ↔ x = tgt ∨ x ∈ st.visited) ∧
      st2.name = Fqdn tgt ∧ st2.servers = st.servers ∧ st2.serverLabels = st.serverLabels ∧
      (∀ env record,
        queryServers t st2.servers st2.name qtype env record st2.serverLabels
          = queryServers t st.servers (Fqdn tgt) qtype env record st.serverLabels) := by
  have hstep := hopStep_of_chosen t qtype st b hb
  have hr2 : (hopInput t qtype st b).2.resp = some r := by rw [hopInput_resp, hr]
  rw [decideHop_cname t qtype st _ _ _ r hr2 hrc hna hdr tgt hc] at hstep
  have hv2 : st.visited.contains tgt = false := by simpa using hv
  simp only [hv2, Bool.false_eq_true, if_false] at hstep
  exact ⟨_, hstep, fun hops => by simp [traceLoop, hstep], fun x => by simp, rfl, rfl, rfl,
    fun _ _ => rfl⟩

theorem cnameOnly_facts (r : Msg) (hdr : RR_Header) (tgt : String) (qtype : Nat)
    (ha : r.Answer = [⟨hdr, .CNAME tgt⟩]) (ht : hdr.Rrtype = TypeCNAME)
    (hq : qtype ≠ TypeCNAME) :
    ¬ (hasAnswerType r qtype = true ∧ r.Authoritative = true) ∧
    firstCNAME r = some (hdr, tgt) := by
  constructor
  · rintro ⟨h, _⟩
    unfold hasAnswerType at h
    rw [ha] at h
    simp only [List.any_cons, List.any_nil, Bool.or_false, beq_iff_eq] at h
    exact hq (h.symm.trans ht)
  · unfold firstCNAME
    rw [ha]
    rfl

/-- C6: loop detection uses one `visited` set for the whole trace.  When the response
chosen at a hop is NOERROR and is not an authoritative answer of the queried type: if
the target of its first CNAME is already in `visited` the trace stops with
SERVFAIL_TIMEOUT "CNAME loop detected"; if it has no CNAME and its DNAME-derived name
is already in `visited` the trace stops with SERVFAIL_TIMEOUT "DNAME loop detected"; a
CNAME chase and a DNAME chase both insert into that same set; and for a query type
other than CNAME and servers that answer `A` with an alias to `B` and `B` with an
alias to `A` (`A ≠ B`), the loop is reported at the third hop. -/
theorem trace_loop_detection {W : Type} (t : Tracer W) (qtype : Nat) :
    -- a CNAME target already visited
    (∀ (st : HopState W) (b : response) (r : Msg) (hdr : RR_Header) (tgt : String),
      chosen t qtype st = some b → b.resp = some r → r.Rcode = RcodeSuccess →
      ¬ (hasAnswerType r qtype = true ∧ r.Authoritative = true) →
      firstCNAME r = some (hdr, tgt) → tgt ∈ st.visited →
      ∃ res, hopStep t qtype st = .done res ∧
        (∀ hops, traceLoop t qtype (hops + 1) st = res) ∧
        res.Diagnosis.Classification = "SERVFAIL_TIMEOUT" ∧
        res.Diagnosis.Summary = "CNAME loop detected") ∧
    -- a DNAME-derived name already visited
    (∀ (st : HopState W) (b : response) (r : Msg) (hdr : RR_Header) (tgt newName : String),
      chosen t qtype st = some b → b.resp = some r → r.Rcode = RcodeSuccess →
      ¬ (hasAnswerType r qtype = true ∧ r.Authoritative = true) →
      firstCNAME r = none → firstDNAME r = some (hdr, tgt) →
      applyDNAME st.name hdr.Name tgt = .ok newName → newName ∈ st.visited →
      ∃ res, hopStep t qtype st = .done res ∧
        (∀ hops, traceLoop t qtype (hops + 1) st = res) ∧
        res.Diagnosis.Classification = "SERVFAIL_TIMEOUT" ∧
        res.Diagnosis.Summary = "DNAME loop detected") ∧
    -- both kinds of step insert into the one set that both checks read
    (∀ (st : HopState W) (b : response) (r : Msg) (hdr : RR_Header) (tgt : String),
      chosen t qtype st = some b → b.resp = some r → r.Rcode = RcodeSuccess →
      ¬ (hasAnswerType r qtype = true ∧ r.Authoritative = true) →
      firstCNAME r = some (hdr, tgt) → tgt ∉ st.visited →
      ∃ st2, hopStep t qtype st = .next st2 ∧ st2.visited = tgt :: st.visited) ∧
    (∀ (st : HopState W) (b : response) (r : Msg) (hdr : RR_Header) (tgt newName : String),
      chosen t qtype st = some b → b.resp = some r → r.Rcode = RcodeSuccess →
      ¬ (hasAnswerType r qtype = true ∧ r.Authoritative = true) →
      firstCNAME r = none → firstDNAME r = some (hdr, tgt) →
      applyDNAME st.name hdr.Name tgt = .ok newName → newName ∉ st.visited →
      ∃ st2, hopStep t qtype st = .next st2 ∧ st2.visited = newName :: st.visited) ∧
    -- A -> B -> A is reported at the third hop
    (∀ (A B : String) (st : HopState W),
      qtype ≠ TypeCNAME → A ≠ B →
      (∀ s : HopState W, s.name = Fqdn A → s.servers = t.rootHints →
        ∃ b r hdr, chosen t qtype s = some b ∧ b.resp = some r ∧ r.Rcode = RcodeSuccess ∧
          r.Answer = [⟨hdr, .CNAME B⟩] ∧ hdr.Rrtype = TypeCNAME) →
      (∀ s : HopState W, s.name = Fqdn B → s.servers = t.rootHints →
        ∃ b r hdr, chosen t qtype s = some b ∧ b.resp = some r ∧ r.Rcode = RcodeSuccess ∧
          r.Answer = [⟨hdr, .CNAME A⟩] ∧ hdr.Rrtype = TypeCNAME) →
      st.name = Fqdn A → st.servers = t.rootHints → st.visited = [] →
      ∃ s1 s2 res, hopStep t qtype st = .next s1 ∧ hopStep t qtype s1 = .next s2 ∧
        hopStep t qtype s2 = .done res ∧
        (∀ hops, traceLoop t qtype (hops + 3) st = res) ∧
        res.Diagnosis.Classification = "SERVFAIL_TIMEOUT" ∧
        res.Diagnosis.Summary = "CNAME loop detected") := by
  refine ⟨?_, ?_, ?_, ?_, ?_⟩
  · intro st b r hdr tgt hb hr hrc hna hc hv
    have hstep := hopStep_of_chosen t qtype st b hb
    have hr2 : (hopInput t qtype st b).2.resp = some r := by rw [hopInput_resp, hr]
    rw [decideHop_cname t qtype st _ _ _ r hr2 hrc hna hdr tgt hc] at hstep
    have hv2 : st.visited.contains tgt = true := by simpa using hv
    simp only [hv2, if_true] at hstep
    exact ⟨_, hstep, traceLoop_done t qtype st _ hstep, rfl, rfl⟩
  · intro st b r hdr tgt newName hb hr hrc hna hc hd ha hv
    have hstep := hopStep_of_chosen t qtype st b hb
    have hr2 : (hopInput t qtype st b).2.resp = some r := by rw [hopInput_resp, hr]
    rw [decideHop_dname t qtype st _ _ _ r hr2 hrc hna hc hdr tgt hd newName ha] at hstep
    have hv2 : st.visited.contains newName = true := by simpa using hv
    simp only [hv2, if_true] at hstep
    exact ⟨_, hstep, traceLoop_done t qtype st _ hstep, rfl, rfl⟩
  · intro st b r hdr tgt hb hr hrc hna hc hv
    have hstep := hopStep_of_chosen t qtype st b hb
    have hr2 : (hopInput t qtype st b).2.resp = some r := by rw [hopInput_resp, hr]
    rw [decideHop_cname t qtype st _ _ _ r hr2 hrc hna hdr tgt hc] at hstep
    have hv2 : st.visited.contains tgt = false := by simpa using hv
    simp only [hv2, Bool.false_eq_true, if_false] at hstep
    exact ⟨_, hstep, rfl⟩
  · intro st b r hdr tgt newName hb hr hrc hna hc hd ha hv
    have hstep := hopStep_of_chosen t qtype st b hb
    have hr2 : (hopInput t qtype st b).2.resp = some r := by rw [hopInput_resp, hr]
    rw [decideHop_dname t qtype st _ _ _ r hr2 hrc hna hc hdr tgt hd newName ha] at hstep
    have hv2 : st.visited.contains newName = false := by simpa using hv
    simp only [hv2, Bool.false_eq_true, if_false] at hstep
    exact ⟨_, hstep, rfl⟩
  · intro A B st hq hAB hA hB hname hsrv hvis
    -- first hop: A answers with the alias B
    obtain ⟨b1, r1, hdr1, hb1, hr1, hrc1, ha1, ht1⟩ := hA st hname hsrv
    obtain ⟨hna1, hc1⟩ := cnameOnly_facts r1 hdr1 B qtype ha1 ht1 hq
    have hstep1 := hopStep_of_chosen t qtype st b1 hb1
    have hr1b : (hopInput t qtype st b1).2.resp = some r1 := by rw [hopInput_resp, hr1]
    rw [decideHop_cname t qtype st _ _ _ r1 hr1b hrc1 hna1 hdr1 B hc1] at hstep1
    simp only [hvis, List.contains_nil, Bool.false_eq_true, if_false] at hstep1
    have key1 : ∃ s1, hopStep t qtype st = .next s1 ∧ s1.name = Fqdn B ∧
        s1.servers = t.rootHints ∧ s1.visited = [B] :=
      ⟨_, hstep1, rfl, hsrv, by simp [hvis]⟩
    obtain ⟨s1, hs1, hn1, hsv1, hv1⟩ := key1
    -- second hop: B answers with the alias A
    obtain ⟨b2, r2, hdr2, hb2, hr2, hrc2, ha2, ht2⟩ := hB s1 hn1 hsv1
    obtain ⟨hna2, hc2⟩ := cnameOnly_facts r2 hdr2 A qtype ha2 ht2 hq
    have hstep2 := hopStep_of_chosen t qtype s1 b2 hb2
    have hr2b := (hopInput_resp t qtype s1 b2).trans hr2
    rw [decideHop_cname t qtype s1 _ _ _ r2 hr2b hrc2 hna2 hdr2 A hc2] at hstep2
    have hnot : s1.visited.contains A = false := by
      rw [hv1]; simp [hAB]
    simp only [hnot, Bool.false_eq_true, if_false] at hstep2
    have key2 : ∃ s2, hopStep t qtype s1 = .next s2 ∧ s2.name = Fqdn A ∧
        s2.servers = t.rootHints ∧ s2.visited = [A, B] :=
      ⟨_, hstep2, rfl, hsv1, by simp [hv1]⟩
    obtain ⟨s2, hs2, hn2, hsv2, hv2⟩ := key2
    -- third hop: A answers with the alias B again, which has been visited
    obtain ⟨b3, r3, hdr3, hb3, hr3, hrc3, ha3, ht3⟩ := hA s2 hn2 hsv2
    obtain ⟨hna3, hc3⟩ := cnameOnly_facts r3 hdr3 B qtype ha3 ht3 hq
    have hstep3 := hopStep_of_chosen t qtype s2 b3 hb3
    have hr3b := (hopInput_resp t qtype s2 b3).trans hr3
    rw [decideHop_cname t qtype s2 _ _ _ r3 hr3b hrc3 hna3 hdr3 B hc3] at hstep3
    have hin : s2.visited.contains B = true := by
      rw [hv2]; simp
    simp only [hin, if_true] at hstep3
    refine ⟨s1, s2, _, hs1, hs2, hstep3, ?_, rfl, rfl⟩
    intro hops
    simp only [traceLoop, hs1, hs2, hstep3]

/-! ## Referrals with glue and the delegation chain -/

theorem insertSorted_ne_nil (x : String) (l : List String) : insertSorted x l ≠ [] := by
  cases l with
  | nil => simp [insertSorted]
  | cons y ys =>
    unfold insertSorted
    split_ifs <;> simp

theorem SortStrings_eq_nil (l : List String) : SortStrings l = [] ↔ l = [] := by
  cases l with
  | nil => simp [SortStrings]
  | cons x xs =>
    simp only [SortStrings, List.foldr_cons, reduceCtorEq, iff_false]
    exact insertSorted_ne_nil _ _

theorem extractGlueServers_ne_nil (r : Msg) (h : hasGlue r = true) :
    extractGlueServers r ≠ [] := by
  unfold extractGlueServers
  intro he
  have h1 := (SortStrings_eq_nil _).mp he
  rw [uniqueStrings_eq_dedupFirst] at h1
  have h2 := (dedupFirst_eq_nil _).mp h1
  have h3 := List.filterMap_eq_nil_iff.mp h2
  unfold hasGlue at h
  obtain ⟨rr, hrr, hg⟩ := List.any_eq_true.mp h
  have h4 := h3 rr hrr
  simp only [Bool.and_eq_true, List.any_eq_true, beq_iff_eq] at hg
  obtain ⟨hty, ns, hns, hlow⟩ := hg
  have hc : ((nsStrings r.Ns).map ToLower).contains (ToLower rr.Hdr.Name) = true := by
    simp only [List.contains_iff_exists_mem_beq, List.mem_map, beq_iff_eq]
    exact ⟨ToLower ns, ⟨ns, hns, rfl⟩, hlow.symm⟩
  unfold glueEndpoint at h4
  cases hd : rr.Data <;> simp_all

theorem followDelegation_glue {W : Type} (t : Tracer W) (st : HopState W)
    (result : model.TraceResult) (w : W) (best : response) (r : Msg)
    (hglue : extractGlueServers r ≠ []) :
    followDelegation t st result w best r =
      .next { st with
        servers := extractGlueServers r
        serverLabels :=
          if (extractGlueLabels r).length > 0 then extractGlueLabels r else st.serverLabels
        result := result
        world := w } := by
  unfold followDelegation
  have : ((extractGlueServers r).length == 0) = false := by
    simp [hglue]
  simp only [this, Bool.false_eq_true, if_false]

theorem isGlueReferral_reaches (r : Msg) (qtype : Nat) (h : isGlueReferral r = true) :
    reachesDelegation r qtype = true ∧ hasGlue r = true := by
  unfold isGlueReferral at h
  simp only [Bool.and_eq_true, Bool.not_eq_true', beq_iff_eq, List.isEmpty_iff] at h
  obtain ⟨⟨⟨⟨ha, hrc⟩, hans⟩, hdel⟩, hg⟩ := h
  refine ⟨?_, hg⟩
  rw [reachesDelegation_iff]
  refine ⟨hrc, by simp [ha], ?_, ?_, by simp [ha], hdel⟩
  · simp [firstCNAME, hans]
  · simp [firstDNAME, hans]

theorem hopInput_nonverbose {W : Type} (t : Tracer W) (qtype : Nat) (st : HopState W) (b : response)
    (hv : t.config.Verbose = false) :
    (hopInput t qtype st b).1.result.TraceSteps.length = st.result.TraceSteps.length + 1 ∧
    (hopInput t qtype st b).1.result.Timings.length = st.result.Timings.length + 1 ∧
    (hopInput t qtype st b).2.stepIndex = (st.result.TraceSteps.length : Int) := by
  unfold hopInput queryServers aggregate
  simp [hv]

/-- A glue referral sends the hop loop on to the glue endpoints, with the name kept. -/
theorem hopStep_glue_referral {W : Type} (t : Tracer W) (qtype : Nat) (st : HopState W) (b : response)
    (r : Msg) (hb : chosen t qtype st = some b) (hr : b.resp = some r)
    (href : isGlueReferral r = true) :
    ∃ st2, hopStep t qtype st = .next st2 ∧ st2.servers = extractGlueServers r ∧
      st2.name = st.name ∧ st2.visited = st.visited ∧
      st2.result = (hopInput t qtype st b).1.result := by
  obtain ⟨h1, h2⟩ := isGlueReferral_reaches r qtype href
  have hstep := hopStep_of_chosen t qtype st b hb
  have hr2 : (hopInput t qtype st b).2.resp = some r := by rw [hopInput_resp, hr]
  rw [decideHop_delegation t qtype st _ _ _ r hr2 h1,
    followDelegation_glue t st _ _ _ r (extractGlueServers_ne_nil r h2)] at hstep
  exact ⟨_, hstep, rfl, rfl, rfl, rfl⟩

theorem decideHop_success {W : Type} (t : Tracer W) (qtype : Nat) (st : HopState W)
    (result : model.TraceResult) (w : W) (best : response) (r : Msg)
    (hr : best.resp = some r) (hrc : r.Rcode = RcodeSuccess) (ha : r.Authoritative = true)
    (hans : hasAnswerType r qtype = true) :
    decideHop t qtype st result w best =
      .done (finish result
        { Kind := analyze.OutcomeSuccess, Summary := "authoritative answer returned",
          EvidenceStep := best.stepIndex, Hints := [] }) := by
  unfold decideHop
  simp [hr, hrc, ha, hans]

/-- A chain of `k` glue referrals and then an authoritative answer, from any state. -/
theorem chain_from {W : Type} (t : Tracer W) (qtype : Nat) (hv : t.config.Verbose = false) :
    ∀ (k : Nat) (st : HopState W),
      (∀ i, i < k → ∃ s b r, hopAt t qtype i st = some s ∧ chosen t qtype s = some b ∧
        b.resp = some r ∧ isGlueReferral r = true) →
      (∃ s b r, hopAt t qtype k st = some s ∧ chosen t qtype s = some b ∧ b.resp = some r ∧
        r.Authoritative = true ∧ r.Rcode = RcodeSuccess ∧ hasAnswerType r qtype = true) →
      ∀ hops, k < hops →
        (traceLoop t qtype hops st).Diagnosis.Classification = "SUCCESS" ∧
        (traceLoop t qtype hops st).TraceSteps.length = st.result.TraceSteps.length + k + 1 ∧
        (traceLoop t qtype hops st).Diagnosis.EvidenceSteps
          = [((st.result.TraceSteps.length + k : Nat) : Int)] := by
  intro k
  induction k with
  | zero =>
    intro st _ hans hops hh
    obtain ⟨s, b, r, hs, hb, hr, ha, hrc, hat⟩ := hans
    simp only [hopAt, Option.some.injEq] at hs
    subst hs
    obtain ⟨n, rfl⟩ : ∃ n, hops = n + 1 := ⟨hops - 1, by omega⟩
    have hstep := hopStep_of_chosen t qtype st b hb
    have hr2 : (hopInput t qtype st b).2.resp = some r := by rw [hopInput_resp, hr]
    rw [decideHop_success t qtype st _ _ _ r hr2 hrc ha hat] at hstep
    rw [traceLoop_done t qtype st _ hstep n]
    obtain ⟨h1, _, h3⟩ := hopInput_nonverbose t qtype st b hv
    refine ⟨rfl, ?_, ?_⟩
    · simpa [finish] using h1
    · simp [finish, analyze.Diagnose, h3]
  | succ k ih =>
    intro st href hans hops hh
    obtain ⟨s, b, r, hs, hb, hr, hg⟩ := href 0 (by omega)
    simp only [hopAt, Option.some.injEq] at hs
    subst hs
    obtain ⟨st2, hstep, _, _, _, hres⟩ := hopStep_glue_referral t qtype st b r hb hr hg
    obtain ⟨n, rfl⟩ : ∃ n, hops = n + 1 := ⟨hops - 1, by omega⟩
    have hlen : st2.result.TraceSteps.length = st.result.TraceSteps.length + 1 := by
      rw [hres]; exact (hopInput_nonverbose t qtype st b hv).1
    have hshift : ∀ i, hopAt t qtype (i + 1) st = hopAt t qtype i st2 := by
      intro i
      simp only [hopAt, hstep]
    have := ih st2
      (fun i hi => by
        obtain ⟨s, b, r, h1, h2⟩ := href (i + 1) (by omega)
        exact ⟨s, b, r, (hshift i) ▸ h1, h2⟩)
      (by
        obtain ⟨s, b, r, h1, h2⟩ := hans
        exact ⟨s, b, r, (hshift k) ▸ h1, h2⟩)
      n (by omega)
    simp only [traceLoop, hstep]
    rw [hlen] at this
    obtain ⟨h1, h2, h3⟩ := this
    refine ⟨h1, by rw [h2]; omega, ?_⟩
    rw [h3]
    congr 2
    omega

theorem hopAt_succ {W : Type} (t : Tracer W) (qtype : Nat) :
    ∀ (i : Nat) (st s s2 : HopState W), hopAt t qtype i st = some s →
      hopStep t qtype s = .next s2 → hopAt t qtype (i + 1) st = some s2 := by
  intro i
  induction i with
  | zero =>
    intro st s s2 h1 h2
    simp only [hopAt, Option.some.injEq] at h1
    subst h1
    simp only [hopAt, h2]
  | succ i ih =>
    intro st s s2 h1 h2
    unfold hopAt at h1 ⊢
    cases hs : hopStep t qtype st with
    | done res => rw [hs] at h1; cases h1
    | next st1 =>
      rw [hs] at h1
      exact ih st1 s s2 h1 h2

/-- C1: non-verbose `Tracer.Trace`, for every `k` with `1 ≤ k ≤ MaxHops` and every
responder: if at each of the hops `1 .. k-1` the response chosen by `selectBest` is
a non-authoritative NOERROR referral with glue, and at hop `k` it is authoritative
NOERROR with an answer of the queried type, then `Trace` returns SUCCESS with exactly
`k` steps and `evidence_steps = [k-1]`; and each of those hops is followed by a hop
that queries the same name at the glue endpoints extracted from its response. -/
theorem trace_delegation_chain {W : Type} (t : Tracer W) (w : W) (fqdn rrtype : String) (qtype k : Nat)
    (hq : StringToType (ToUpper rrtype) = some qtype)
    (hv : t.config.Verbose = false) (hk1 : 1 ≤ k) (hk : (k : Int) ≤ t.config.MaxHops)
    (href : ∀ i, i + 1 < k → ∃ s b r,
      hopAt t qtype i (initialState t w fqdn) = some s ∧ chosen t qtype s = some b ∧
      b.resp = some r ∧ isGlueReferral r = true)
    (hans : ∃ s b r, hopAt t qtype (k - 1) (initialState t w fqdn) = some s ∧
      chosen t qtype s = some b ∧ b.resp = some r ∧
      r.Authoritative = true ∧ r.Rcode = RcodeSuccess ∧ hasAnswerType r qtype = true) :
    (∃ res, Trace t w fqdn rrtype = .ok res ∧
      res.Diagnosis.Classification = "SUCCESS" ∧
      res.TraceSteps.length = k ∧
      res.Diagnosis.EvidenceSteps = [(k : Int) - 1]) ∧
    (∀ i, i + 1 < k → ∃ s s2 b r,
      hopAt t qtype i (initialState t w fqdn) = some s ∧
      hopAt t qtype (i + 1) (initialState t w fqdn) = some s2 ∧
      chosen t qtype s = some b ∧ b.resp = some r ∧
      s2.servers = extractGlueServers r ∧ s2.name = s.name) := by
  have hops : k - 1 < t.config.MaxHops.toNat := by omega
  obtain ⟨h1, h2, h3⟩ := chain_from t qtype hv (k - 1) (initialState t w fqdn)
    (fun i hi => href i (by omega)) hans t.config.MaxHops.toNat hops
  constructor
  · refine ⟨_, by simp [Trace, hq], h1, ?_, ?_⟩
    · rw [h2]; simp [initialState, model.TraceResult.zero]; omega
    · rw [h3]; simp [initialState, model.TraceResult.zero]; omega
  · intro i hi
    obtain ⟨s, b, r, hs, hb, hr, hg⟩ := href i hi
    obtain ⟨s2, hstep, hsv, hn, _, _⟩ := hopStep_glue_referral t qtype s b r hb hr hg
    exact ⟨s, s2, b, r, hs, hopAt_succ t qtype i _ s s2 hs hstep, hb, hr, hsv, hn⟩

/-- C1 on the three-hop test (`k = 3`): SUCCESS, three steps, evidence step 2. -/
theorem trace_delegation_chain_witness :
    ∃ res, Trace threeHopTracer () "api.example.com" "A" = .ok res ∧
      res.Diagnosis.Classification = "SUCCESS" ∧
      res.TraceSteps.length = 3 ∧
      res.Diagnosis.EvidenceSteps = [(3 : Int) - 1] :=
  (trace_delegation_chain threeHopTracer () "api.example.com" "A" TypeA 3 rfl rfl
    (by decide) (by decide)
    (fun i hi => by
      have hi2 : i = 0 ∨ i = 1 := by omega
      rcases hi2 with rfl | rfl
      · exact ⟨_, _, _, rfl, rfl, rfl, rfl⟩
      · exact ⟨_, _, _, rfl, rfl, rfl, rfl⟩)
    ⟨_, _, _, rfl, rfl, rfl, rfl, rfl, rfl⟩).1

/-! ## The claims on concrete responders -/

/-- C9 on a verbose trace whose root servers answer NXDOMAIN. -/
theorem trace_terminal_rcodes_witness :
    ∃ res, hopStep nxTracer TypeA (initialState nxTracer () "nope.example.com") = .done res ∧
      res.Diagnosis.Classification = "NXDOMAIN" ∧
      ∃ i, res.Diagnosis.EvidenceSteps = [i] ∧
        stepRecordedAt res i "nope.example.com." (udpResponse "192.0.2.1:53" nxdomainMsg 5000000 0) := by
  obtain ⟨res, h1, _, h2, h3⟩ :=
    (trace_terminal_rcodes nxTracer TypeA (initialState nxTracer () "nope.example.com")
      (udpResponse "192.0.2.1:53" nxdomainMsg 5000000 0) nxdomainMsg rfl rfl).1 ⟨rfl, rfl⟩
  exact ⟨res, h1, h2, h3⟩

/-- C10 on a response whose Authority holds NS records besides the SOA. -/
theorem trace_nodata_witness :
    ∃ res, hopStep nodataTracer TypeTXT (initialState nodataTracer () "www.example.com")
        = .done res ∧
      (∀ hops, traceLoop nodataTracer TypeTXT (hops + 1)
        (initialState nodataTracer () "www.example.com") = res) ∧
      res.Diagnosis.Classification = "NODATA" :=
  trace_nodata nodataTracer TypeTXT (initialState nodataTracer () "www.example.com")
    (udpResponse "192.0.2.1:53" nodataMsg 5000000 0) nodataMsg rfl rfl rfl rfl
    (by decide) (by decide) (by simp [nodataMsg])

/-- C7 on a glue-less referral whose outside nameserver cannot be resolved. -/
theorem trace_broken_delegation_witness :
    ∃ res, hopStep brokenTracer TypeA (initialState brokenTracer () "www.example.com")
        = .done res ∧
      res.Diagnosis.Classification = "BROKEN_DELEGATION" ∧
      res.Diagnosis.Hints ≠ [] := by
  obtain ⟨res, h1, _, h2, _, _, h3⟩ :=
    trace_broken_delegation brokenTracer TypeA (initialState brokenTracer () "www.example.com")
      (udpResponse "192.0.2.1:53" gluelessMsg 5000000 0) gluelessMsg rfl rfl rfl rfl rfl
  exact ⟨res, h1, h2, h3⟩

/-- C8 on a glue-less referral whose outside nameserver resolves to two addresses,
one of them listed twice. -/
theorem trace_glueless_resolved_witness :
    ∃ st2, hopStep resolvableTracer TypeA (initialState resolvableTracer () "www.example.com")
        = .next st2 ∧
      st2.name = "www.example.com." ∧ st2.servers = ["192.0.2.7:53", "192.0.2.8:53"] := by
  obtain ⟨st2, h1, _, h2, h3, _⟩ :=
    trace_glueless_resolved resolvableTracer TypeA
      (initialState resolvableTracer () "www.example.com")
      (udpResponse "192.0.2.1:53" gluelessMsg 5000000 0) gluelessMsg rfl rfl rfl rfl (by decide)
  exact ⟨st2, h1, h2, h3⟩

/-- C5 on the CNAME test: the third hop follows `www.example.com.` to
`edge.example.com.` at the same server, and the trace ends in SUCCESS. -/
theorem trace_cname_chase_witness :
    (∃ st2, hopStep cnameTestTracer TypeA cnameTestThirdHop = .next st2 ∧
      st2.name = "edge.example.com." ∧ st2.servers = ["192.0.2.53:53"] ∧
      st2.serverLabels = cnameTestThirdHop.serverLabels) ∧
    (Trace cnameTestTracer () "www.example.com" "A").toOption.map
      (fun res => res.Diagnosis.Classification) = some "SUCCESS" := by
  obtain ⟨st2, h1, _, _, h2, h3, h4, _⟩ :=
    trace_cname_chase cnameTestTracer TypeA cnameTestThirdHop
      (udpResponse "192.0.2.53:53" (answerMsg [cnameRR "www.example.com." "edge.example.com."])
        8000000 0)
      (answerMsg [cnameRR "www.example.com." "edge.example.com."])
      ⟨"www.example.com.", TypeCNAME, 1, 60⟩ "edge.example.com." rfl rfl rfl (by decide) rfl
      (by decide)
  exact ⟨⟨st2, h1, h2, h3, h4⟩, by decide⟩

/-- C5 as stated fails: at the second hop of this trace the chosen response is
NOERROR, is not an authoritative answer of type A, and its Answer contains a CNAME
whose target `cdn.example.net.` is not in `visited`; yet the hop does not go on: the
first CNAME of the Answer targets the visited `edge.example.com.`, and the trace
ends with "CNAME loop detected". -/
theorem cname_chase_any_record_counterexample :
    hopStep chainEchoTracer TypeA (initialState chainEchoTracer () "www.example.com")
      = .next chainEchoSecondHop ∧
    ∃ b r, chosen chainEchoTracer TypeA chainEchoSecondHop = some b ∧ b.resp = some r ∧
      r.Rcode = RcodeSuccess ∧
      ¬ (hasAnswerType r TypeA = true ∧ r.Authoritative = true) ∧
      (∃ rr ∈ r.Answer, ∃ tgt, rr.Data = .CNAME tgt ∧ tgt ∉ chainEchoSecondHop.visited) ∧
      (¬ ∃ st2, hopStep chainEchoTracer TypeA chainEchoSecondHop = .next st2) ∧
      (Trace chainEchoTracer () "www.example.com" "A").toOption.map
        (fun res => res.Diagnosis.Summary) = some "CNAME loop detected" := by
  refine ⟨rfl,
    udpResponse "192.0.2.53:53" (answerMsg [cnameRR "www.example.com." "edge.example.com.",
        cnameRR "edge.example.com." "cdn.example.net."]) 8000000 0,
    answerMsg [cnameRR "www.example.com." "edge.example.com.",
        cnameRR "edge.example.com." "cdn.example.net."], rfl, rfl, rfl, by decide,
    ⟨cnameRR "edge.example.com." "cdn.example.net.", by decide, "cdn.example.net.", rfl,
      by decide⟩, ?_, by decide⟩
  rintro ⟨st2, h⟩
  have hd : hopStep chainEchoTracer TypeA chainEchoSecondHop =
      .done (match hopStep chainEchoTracer TypeA chainEchoSecondHop with
        | .done res => res
        | .next _ => model.TraceResult.zero) := rfl
  rw [hd] at h
  cases h

/-- C6 on servers that alias `a.example.` to `b.example.` and back: two hops go
on and the third reports the loop. -/
theorem trace_loop_detection_witness :
    ∃ s1 s2 res,
      hopStep aliasLoopTracer TypeA (initialState aliasLoopTracer () "a.example") = .next s1 ∧
      hopStep aliasLoopTracer TypeA s1 = .next s2 ∧
      hopStep aliasLoopTracer TypeA s2 = .done res ∧
      (∀ hops, traceLoop aliasLoopTracer TypeA (hops + 3)
        (initialState aliasLoopTracer () "a.example") = res) ∧
      res.Diagnosis.Classification = "SERVFAIL_TIMEOUT" ∧
      res.Diagnosis.Summary = "CNAME loop detected" :=
  (trace_loop_detection aliasLoopTracer TypeA).2.2.2.2 "a.example." "b.example."
    (initialState aliasLoopTracer () "a.example") (by decide) (by decide)
    (fun s hn hs =>
      ⟨udpResponse "192.0.2.1:53" (answerMsg [cnameRR "a.example." "b.example."]) 5000000 0,
        answerMsg [cnameRR "a.example." "b.example."], ⟨"a.example.", TypeCNAME, 1, 60⟩,
        by unfold chosen queryServers; rw [hn, hs]; rfl, rfl, rfl, rfl, rfl⟩)
    (fun s hn hs =>
      ⟨udpResponse "192.0.2.1:53" (answerMsg [cnameRR "b.example." "a.example."]) 5000000 0,
        answerMsg [cnameRR "b.example." "a.example."], ⟨"b.example.", TypeCNAME, 1, 60⟩,
        by unfold chosen queryServers; rw [hn, hs]; rfl, rfl, rfl, rfl, rfl⟩)
    rfl rfl rfl

/-! ## Lame delegations, unreachable hops, termination and depth -/

/-- A NOERROR response without the authoritative bit, without answer and without
delegation ends the decision tree with LAME_DELEGATION. -/
theorem decideHop_lame {W : Type} (t : Tracer W) (qtype : Nat) (st : HopState W)
    (result : model.TraceResult) (w : W) (best : response) (r : Msg)
    (hr : best.resp = some r) (hrc : r.Rcode = RcodeSuccess) (ha : r.Authoritative = false)
    (hans : r.Answer = []) (hns : hasDelegation r = false) :
    decideHop t qtype st result w best =
      .done (finish result
        { Kind := analyze.OutcomeLameDelegation,
          Summary := "nameserver not authoritative for zone",
          EvidenceStep := best.stepIndex,
          Hints := ["verify NS delegation and authoritative configuration"] }) := by
  unfold decideHop
  simp [hr, hrc, ha, hns, hasAnswerType, firstCNAME, firstDNAME, hans]

/-- C11: when the response chosen at a hop is NOERROR, non-authoritative, has no
answer and no NS record in Authority, the hop returns, so the trace stops there,
with classification LAME_DELEGATION and the hint "verify NS delegation and
authoritative configuration". -/
theorem trace_lame_delegation {W : Type} (t : Tracer W) (qtype : Nat) (st : HopState W) (b : response)
    (r : Msg) (hb : chosen t qtype st = some b) (hr : b.resp = some r)
    (hrc : r.Rcode = RcodeSuccess) (ha : r.Authoritative = false)
    (hans : r.Answer = []) (hns : ∀ rr ∈ r.Ns, isNS rr = false) :
    ∃ res, hopStep t qtype st = .done res ∧
      (∀ hops, traceLoop t qtype (hops + 1) st = res) ∧
      res.Diagnosis.Classification = "LAME_DELEGATION" ∧
      res.Diagnosis.Hints = ["verify NS delegation and authoritative configuration"] := by
  have hstep := hopStep_of_chosen t qtype st b hb
  have hr2 : (hopInput t qtype st b).2.resp = some r := by rw [hopInput_resp, hr]
  have hd : hasDelegation r = false := by
    unfold hasDelegation
    rw [List.any_eq_false]
    intro rr hrr
    simp [hns rr hrr]
  rw [decideHop_lame t qtype st _ _ _ r hr2 hrc ha hans hd] at hstep
  exact ⟨_, hstep, traceLoop_done t qtype st _ hstep, rfl, rfl⟩

/-- C13: when every response of a hop is an error or has no message, `selectBest`
returns nothing and the trace stops at that hop with classification
SERVFAIL_TIMEOUT, summary "no reachable nameservers for delegation" and hints
exactly ["check network reachability or nameserver availability"]. -/
theorem trace_unreachable_hop {W : Type} (t : Tracer W) (qtype : Nat) (st : HopState W)
    (hall : ∀ r ∈ (queryServers t st.servers st.name qtype
        { result := st.result, world := st.world } t.config.Verbose st.serverLabels).1,
      r.err ≠ none ∨ r.resp = none) :
    chosen t qtype st = none ∧
    ∃ res, hopStep t qtype st = .done res ∧
      (∀ hops, traceLoop t qtype (hops + 1) st = res) ∧
      res.Diagnosis.Classification = "SERVFAIL_TIMEOUT" ∧
      res.Diagnosis.Summary = "no reachable nameservers for delegation" ∧
      res.Diagnosis.Hints = ["check network reachability or nameserver availability"] := by
  have hnone : selectBest (queryServers t st.servers st.name qtype
      { result := st.result, world := st.world } t.config.Verbose st.serverLabels).1 qtype
      = none := by
    rw [(selectBest_valid_least _ qtype).1]
    intro r hr ⟨h1, h2⟩
    rcases hall r hr with h | h
    · exact h h1
    · exact h2 h
  have hstep : hopStep t qtype st = .done (finish
      (queryServers t st.servers st.name qtype { result := st.result, world := st.world }
        t.config.Verbose st.serverLabels).2.result
      { Kind := analyze.OutcomeServfailTimeout,
        Summary := "no reachable nameservers for delegation",
        EvidenceStep := latestStepIndex (queryServers t st.servers st.name qtype
          { result := st.result, world := st.world } t.config.Verbose
          st.serverLabels).2.result.TraceSteps,
        Hints := ["check network reachability or nameserver availability"] }) := by
    unfold hopStep
    simp only [hnone]
  exact ⟨hnone, _, hstep, traceLoop_done t qtype st _ hstep, rfl, rfl, rfl⟩

/-- The hop loop ends at the first hop that decides, or after all its hops. -/
theorem traceLoop_cases {W : Type} (t : Tracer W) (qtype : Nat) :
    ∀ (n : Nat) (st : HopState W),
      (∃ i s res, i < n ∧ hopAt t qtype i st = some s ∧ hopStep t qtype s = .done res ∧
        traceLoop t qtype n st = res) ∨
      (∃ s, hopAt t qtype n st = some s ∧
        traceLoop t qtype n st = finish s.result
          { Kind := analyze.OutcomeServfailTimeout, Summary := "max hops exceeded",
            EvidenceStep := latestStepIndex s.result.TraceSteps,
            Hints := ["increase --max-hops", "check for CNAME loops"] }) := by
  intro n
  induction n with
  | zero => intro st; exact Or.inr ⟨st, rfl, rfl⟩
  | succ n ih =>
    intro st
    cases hs : hopStep t qtype st with
    | done res =>
      exact Or.inl ⟨0, st, res, by omega, rfl, hs, traceLoop_done t qtype st res hs n⟩
    | next st2 =>
      have hl : traceLoop t qtype (n + 1) st = traceLoop t qtype n st2 := by
        simp [traceLoop, hs]
      have hh : ∀ i, hopAt t qtype (i + 1) st = hopAt t qtype i st2 := by
        intro i; simp [hopAt, hs]
      rcases ih st2 with ⟨i, s, res, hi, h1, h2, h3⟩ | ⟨s, h1, h2⟩
      · exact Or.inl ⟨i + 1, s, res, by omega, (hh i).trans h1, h2, hl.trans h3⟩
      · exact Or.inr ⟨s, (hh n).trans h1, hl.trans h2⟩

/-- The suffix test of `strings.HasSuffix` as a decomposition of the string. -/
theorem HasSuffix_iff (s suffix : String) :
    HasSuffix s suffix = true ↔ ∃ p : String, s = p ++ suffix := by
  unfold HasSuffix
  rw [List.isSuffixOf_iff_suffix]
  constructor
  · rintro ⟨l, hl⟩
    exact ⟨⟨l⟩, by apply String.ext; simp [hl]⟩
  · rintro ⟨p, hp⟩
    exact ⟨p.data, by rw [hp]; simp⟩

/-- Trimming a suffix leaves what stands before it. -/
theorem TrimSuffix_append (p suffix : String) : TrimSuffix (p ++ suffix) suffix = p := by
  unfold TrimSuffix
  rw [if_pos ((HasSuffix_iff _ _).mpr ⟨p, rfl⟩)]
  apply String.ext
  simp

/-- C17: `applyDNAME name owner target` returns an error exactly when the fully
qualified owner is not a suffix of the fully qualified name; and when
`Fqdn name = p ++ Fqdn owner` it returns `p ++ Fqdn target`. -/
theorem applyDNAME_spec (name owner target : String) :
    ((∃ e, applyDNAME name owner target = .error e) ↔
      ¬ ∃ p : String, Fqdn name = p ++ Fqdn owner) ∧
    (∀ p : String, Fqdn name = p ++ Fqdn owner →
      applyDNAME name owner target = .ok (p ++ Fqdn target)) := by
  unfold applyDNAME
  by_cases h : HasSuffix (Fqdn name) (Fqdn owner) = true
  · have hex := (HasSuffix_iff _ _).mp h
    simp only [h, Bool.not_true, Bool.false_eq_true, if_false, reduceCtorEq, exists_false,
      false_iff, not_not]
    refine ⟨hex, ?_⟩
    intro p hp
    rw [hp, TrimSuffix_append]
  · have hex : ¬ ∃ p : String, Fqdn name = p ++ Fqdn owner :=
      fun hx => h ((HasSuffix_iff _ _).mpr hx)
    simp only [h, Bool.not_false, if_true, Except.error.injEq, exists_eq', true_iff]
    exact ⟨hex, fun p hp => absurd ⟨p, hp⟩ hex⟩

/-- Fuel beyond what the depth limit leaves room for changes nothing. -/
theorem resolveNameserverAddresses_enough {W : Type} (t : Tracer W) (depth : Nat) :
    ∀ (k fuel : Nat), 5 ≤ fuel + depth →
      ∀ (names : List String) (env : Env W) (record : Bool),
        resolveNameserverAddresses t (fuel + k) names env depth record
          = resolveNameserverAddresses t fuel names env depth record := by
  intro k
  induction k with
  | zero => intro fuel _ names env record; rfl
  | succ k ih =>
    intro fuel h names env record
    rw [← Nat.add_assoc, resolveNameserverAddresses_fuel t (fuel + k) depth (by omega)]
    exact ih fuel h names env record

/-- C20: `resolveNameserverAddresses` called with a depth greater than 4 fails with
"nameserver resolution depth exceeded" for every name list, with the result and
the world as it got them, so without a query; at a depth of at most 4 it runs
`resolveHost` with the nested resolution one level deeper; and the fuel of the model
is never what stops it, once fuel plus depth reaches 5. -/
theorem resolveNameserverAddresses_depth_limit {W : Type} (t : Tracer W) :
    (∀ (fuel depth : Nat) (names : List String) (env : Env W) (record : Bool), depth > 4 →
      resolveNameserverAddresses t fuel names env depth record
        = (.error "nameserver resolution depth exceeded", env)) ∧
    (∀ (fuel depth : Nat) (names : List String) (env : Env W) (record : Bool), depth ≤ 4 →
      resolveNameserverAddresses t (fuel + 1) names env depth record
        = (if (uniqueStrings (gatherAddresses
              (fun name qtype e =>
                resolveHost t
                  (fun ns e2 => resolveNameserverAddresses t fuel ns e2 (depth + 1) record)
                  name qtype e record) names [] env).1).length == 0 then
            (.error "unable to resolve nameserver addresses",
              (gatherAddresses
                (fun name qtype e =>
                  resolveHost t
                    (fun ns e2 => resolveNameserverAddresses t fuel ns e2 (depth + 1) record)
                    name qtype e record) names [] env).2)
          else
            (.ok (uniqueStrings (gatherAddresses
              (fun name qtype e =>
                resolveHost t
                  (fun ns e2 => resolveNameserverAddresses t fuel ns e2 (depth + 1) record)
                  name qtype e record) names [] env).1),
              (gatherAddresses
                (fun name qtype e =>
                  resolveHost t
                    (fun ns e2 => resolveNameserverAddresses t fuel ns e2 (depth + 1) record)
                    name qtype e record) names [] env).2))) ∧
    (∀ (k fuel depth : Nat) (names : List String) (env : Env W) (record : Bool),
      5 ≤ fuel + depth →
      resolveNameserverAddresses t (fuel + k) names env depth record
        = resolveNameserverAddresses t fuel names env depth record) := by
  refine ⟨?_, ?_, ?_⟩
  · intro fuel depth names env record hd
    cases fuel with
    | zero => rfl
    | succ f => simp [resolveNameserverAddresses, hd]
  · intro fuel depth names env record hd
    have : ¬ depth > 4 := by omega
    rw [resolveNameserverAddresses]
    simp only [this, if_false]
  · intro k fuel depth names env record h
    exact resolveNameserverAddresses_enough t depth k fuel h names env record

/-- What `Trace` returns once it has started: the error for an unknown rrtype, or a
result that is either the one a hop before hop `MaxHops` returned, or, when all
`MaxHops` hops went on, SERVFAIL_TIMEOUT with summary "max hops exceeded" and the
hints "increase --max-hops" and "check for CNAME loops".  The fuel of the nested
sub-traces, 5 at the top, is never what stops them. -/
theorem Trace_returns {W : Type} (t : Tracer W) (w : W) (fqdn rrtype : String) :
    (Trace t w fqdn rrtype = .error ("unsupported rrtype: " ++ rrtype) ∨
      ∃ qtype res, StringToType (ToUpper rrtype) = some qtype ∧ Trace t w fqdn rrtype = .ok res ∧
        ((∃ i s, i < t.config.MaxHops.toNat ∧
            hopAt t qtype i (initialState t w fqdn) = some s ∧ hopStep t qtype s = .done res) ∨
         (∃ s, hopAt t qtype t.config.MaxHops.toNat (initialState t w fqdn) = some s ∧
            res.TraceSteps = s.result.TraceSteps ∧
            res.Diagnosis.Classification = "SERVFAIL_TIMEOUT" ∧
            res.Diagnosis.Summary = "max hops exceeded" ∧
            res.Diagnosis.Hints = ["increase --max-hops", "check for CNAME loops"]))) ∧
    (∀ (k : Nat) (names : List String) (env : Env W),
      resolveNameserverAddresses t (5 + k) names env 0 t.config.Verbose
        = resolveNameserverAddresses t 5 names env 0 t.config.Verbose) := by
  constructor
  · unfold Trace
    cases hq : StringToType (ToUpper rrtype) with
    | none => exact Or.inl rfl
    | some qtype =>
      right
      refine ⟨qtype, _, rfl, rfl, ?_⟩
      rcases traceLoop_cases t qtype t.config.MaxHops.toNat (initialState t w fqdn) with
        ⟨i, s, res, hi, h1, h2, h3⟩ | ⟨s, h1, h2⟩
      · exact Or.inl ⟨i, s, hi, h1, h3 ▸ h2⟩
      · right
        refine ⟨s, h1, ?_, ?_, ?_, ?_⟩ <;> rw [h2] <;> rfl
  · intro k names env
    exact resolveNameserverAddresses_enough t 0 k 5 (by omega) names env t.config.Verbose

/-! ## The bailiwick split and the glue endpoints -/

/-- C18: for a non-empty zone the two lists of `splitBailiwick` are the canonical
forms (lowercase, trailing dot) of the input names, in input order, that end with
the canonical form of the zone, and those that do not; no name is in both, and
together they are as many as the input names. -/
theorem splitBailiwick_partition (nsNames : List String) (zone : String) (hz : zone ≠ "") :
    (splitBailiwick nsNames zone).1
      = (nsNames.map canonicalName).filter (fun n => HasSuffix n (canonicalName zone)) ∧
    (splitBailiwick nsNames zone).2
      = (nsNames.map canonicalName).filter (fun n => !HasSuffix n (canonicalName zone)) ∧
    (∀ x, x ∈ (splitBailiwick nsNames zone).1 ↔
      ∃ n ∈ nsNames, x = canonicalName n ∧ ∃ p : String, canonicalName n = p ++ canonicalName zone) ∧
    (∀ x, x ∈ (splitBailiwick nsNames zone).2 ↔
      ∃ n ∈ nsNames, x = canonicalName n ∧
        ¬ ∃ p : String, canonicalName n = p ++ canonicalName zone) ∧
    (∀ x, ¬ (x ∈ (splitBailiwick nsNames zone).1 ∧ x ∈ (splitBailiwick nsNames zone).2)) ∧
    (splitBailiwick nsNames zone).1.length + (splitBailiwick nsNames zone).2.length
      = nsNames.length := by
  rw [splitBailiwick_filter]
  simp only [hz, if_false]
  have hc : (fun ns => ToLower (Fqdn ns)) = canonicalName := rfl
  have hcz : ToLower (Fqdn zone) = canonicalName zone := rfl
  rw [hc, hcz]
  refine ⟨rfl, rfl, ?_, ?_, ?_, ?_⟩
  · intro x
    simp only [List.mem_filter, List.mem_map, HasSuffix_iff]
    constructor
    · rintro ⟨⟨n, hn, rfl⟩, hp⟩
      exact ⟨n, hn, rfl, hp⟩
    · rintro ⟨n, hn, rfl, hp⟩
      exact ⟨⟨n, hn, rfl⟩, hp⟩
  · intro x
    simp only [List.mem_filter, List.mem_map, Bool.not_eq_true', ← Bool.not_eq_true,
      HasSuffix_iff]
    constructor
    · rintro ⟨⟨n, hn, rfl⟩, hp⟩
      exact ⟨n, hn, rfl, hp⟩
    · rintro ⟨n, hn, rfl, hp⟩
      exact ⟨⟨n, hn, rfl⟩, hp⟩
  · intro x
    simp only [List.mem_filter, Bool.not_eq_true']
    rintro ⟨⟨_, h1⟩, ⟨_, h2⟩⟩
    rw [h1] at h2
    cases h2
  · have := List.length_eq_length_filter_add
      (l := nsNames.map canonicalName) (fun n => HasSuffix n (canonicalName zone))
    simp only [List.length_map] at this
    omega

/-- Insertion into an ascending list, in the order of `String`. -/
theorem insertSorted_eq (x : String) (l : List String) :
    insertSorted x l = List.orderedInsert (· ≤ ·) x l := by
  induction l with
  | nil => rfl
  | cons y ys ih =>
    unfold insertSorted
    rw [List.orderedInsert]
    by_cases h : Less y x = true
    · have h2 : ¬ x ≤ y := not_le.mpr ((Less_iff y x).mp h)
      simp only [h, if_true, h2, if_false, ih]
    · have h2 : x ≤ y := not_lt.mp (fun hlt => h ((Less_iff y x).mpr hlt))
      simp [h, h2]

/-- The sort of the model is insertion sort in the order of `String`. -/
theorem SortStrings_eq (l : List String) : SortStrings l = List.insertionSort (· ≤ ·) l := by
  induction l with
  | nil => rfl
  | cons x xs ih =>
    have : SortStrings (x :: xs) = insertSorted x (SortStrings xs) := rfl
    rw [this, ih, insertSorted_eq, List.insertionSort]

/-- When a record of Additional contributes an endpoint, and which. -/
theorem glueEndpoint_eq_some (nsNames : List String) (rr : RR) (e : String) :
    glueEndpoint nsNames rr = some e ↔
      ((∃ ip, rr.Data = .A ip ∧ e = ip ++ ":53") ∨
        (∃ ip6, rr.Data = .AAAA ip6 ∧ e = "[" ++ ip6 ++ "]:53")) ∧
      ToLower rr.Hdr.Name ∈ nsNames := by
  unfold glueEndpoint
  cases hd : rr.Data <;> simp [eq_comm]
  all_goals (constructor <;> (intro h; exact ⟨h.2, h.1⟩))

/-- The names `nsStrings` returns are the targets of the NS records. -/
theorem mem_nsStrings (rrs : List RR) (tgt : String) :
    tgt ∈ nsStrings rrs ↔ ∃ ns ∈ rrs, ns.Data = .NS tgt := by
  unfold nsStrings
  simp only [List.mem_filterMap]
  constructor
  · rintro ⟨rr, hrr, h⟩
    cases hd : rr.Data <;> simp_all
    exact ⟨rr, hrr, hd⟩
  · rintro ⟨rr, hrr, h⟩
    exact ⟨rr, hrr, by simp [h]⟩

/-- C19: the result of `extractGlueServers` is sorted in ascending order and has no
duplicates, and an endpoint is in it exactly when Additional has an A record with
address `ip` and the endpoint is `ip:53`, or an AAAA record with address `ip6` and
the endpoint is `[ip6]:53`, whose owner name equals, up to letter case, the target
of an NS record in Authority. -/
theorem extractGlueServers_spec (r : Msg) :
    List.Sorted (· ≤ ·) (extractGlueServers r) ∧
    (extractGlueServers r).Nodup ∧
    (∀ e, e ∈ extractGlueServers r ↔
      ∃ rr ∈ r.Extra,
        ((∃ ip, rr.Data = .A ip ∧ e = ip ++ ":53") ∨
          (∃ ip6, rr.Data = .AAAA ip6 ∧ e = "[" ++ ip6 ++ "]:53")) ∧
        ∃ ns ∈ r.Ns, ∃ tgt, ns.Data = .NS tgt ∧ ToLower rr.Hdr.Name = ToLower tgt) := by
  unfold extractGlueServers
  rw [SortStrings_eq, uniqueStrings_eq_dedupFirst]
  refine ⟨List.sorted_insertionSort _ _, ?_, ?_⟩
  · exact (List.perm_insertionSort _ _).nodup_iff.mpr (dedupFirst_nodup _)
  · intro e
    rw [(List.perm_insertionSort _ _).mem_iff, mem_dedupFirst, List.mem_filterMap]
    constructor
    · rintro ⟨rr, hrr, h⟩
      obtain ⟨h1, h2⟩ := (glueEndpoint_eq_some _ rr e).mp h
      obtain ⟨tgt, htgt, heq⟩ := List.mem_map.mp h2
      obtain ⟨ns, hns, hd⟩ := (mem_nsStrings r.Ns tgt).mp htgt
      exact ⟨rr, hrr, h1, ns, hns, tgt, hd, heq.symm⟩
    · rintro ⟨rr, hrr, h1, ns, hns, tgt, hd, heq⟩
      refine ⟨rr, hrr, (glueEndpoint_eq_some _ rr e).mpr ⟨h1, ?_⟩⟩
      exact List.mem_map.mpr ⟨tgt, (mem_nsStrings r.Ns tgt).mpr ⟨ns, hns, hd⟩, heq.symm⟩

/-- C18 on three names, two of them inside `example.com.` in other letter case. -/
theorem splitBailiwick_partition_witness :
    (splitBailiwick ["NS1.Example.com", "ns1.other.net.", "ns2.example.COM."] "Example.com").1
        = ["ns1.example.com.", "ns2.example.com."] ∧
    (splitBailiwick ["NS1.Example.com", "ns1.other.net.", "ns2.example.COM."] "Example.com").2
        = ["ns1.other.net."] :=
  ⟨(splitBailiwick_partition ["NS1.Example.com", "ns1.other.net.", "ns2.example.COM."]
      "Example.com" (by decide)).1.trans (by decide),
    (splitBailiwick_partition ["NS1.Example.com", "ns1.other.net.", "ns2.example.COM."]
      "Example.com" (by decide)).2.1.trans (by decide)⟩

/-! ## Other rcodes -/

/-- A response with another rcode falls through the decision tree. -/
theorem decideHop_other {W : Type} (t : Tracer W) (qtype : Nat) (st : HopState W)
    (result : model.TraceResult) (w : W) (best : response) (r : Msg)
    (hr : best.resp = some r) (ho : otherRcode r = true) :
    decideHop t qtype st result w best = .next { st with result := result, world := w } := by
  unfold otherRcode at ho
  simp only [Bool.and_eq_true, bne_iff_ne, ne_eq] at ho
  obtain ⟨⟨⟨h0, h3⟩, h2⟩, h5⟩ := ho
  unfold decideHop
  simp [hr, h0, h3, h2, h5]

/-- The hop loop from a state it reaches is the rest of the loop. -/
theorem traceLoop_from_hopAt {W : Type} (t : Tracer W) (qtype : Nat) (n : Nat) :
    ∀ (j : Nat) (st0 s : HopState W), hopAt t qtype j st0 = some s →
      traceLoop t qtype (j + n) st0 = traceLoop t qtype n s := by
  intro j
  induction j with
  | zero =>
    intro st0 s h
    simp only [hopAt, Option.some.injEq] at h
    subst h
    simp
  | succ j ih =>
    intro st0 s h
    unfold hopAt at h
    cases hs : hopStep t qtype st0 with
    | done res => rw [hs] at h; cases h
    | next st1 =>
      rw [hs] at h
      have : j + 1 + n = (j + n) + 1 := by omega
      rw [this]
      simp only [traceLoop, hs]
      exact ih st1 s h

/-- A hop whose chosen response has another rcode goes on with name, servers and
visited names as they were. -/
theorem hopStep_other {W : Type} (t : Tracer W) (qtype : Nat) (st : HopState W) (b : response) (r : Msg)
    (hb : chosen t qtype st = some b) (hr : b.resp = some r) (ho : otherRcode r = true) :
    ∃ st2, hopStep t qtype st = .next st2 ∧ st2.name = st.name ∧ st2.servers = st.servers ∧
      st2.serverLabels = st.serverLabels ∧ st2.visited = st.visited := by
  have hstep := hopStep_of_chosen t qtype st b hb
  have hr2 : (hopInput t qtype st b).2.resp = some r := by rw [hopInput_resp, hr]
  rw [decideHop_other t qtype st _ _ _ r hr2 ho] at hstep
  exact ⟨_, hstep, rfl, rfl, rfl, rfl⟩

/-- Hops whose chosen responses all have another rcode use up the loop. -/
theorem other_chain {W : Type} (t : Tracer W) (qtype : Nat) :
    ∀ (n : Nat) (st : HopState W),
      (∀ i, i < n → ∃ s b r, hopAt t qtype i st = some s ∧ chosen t qtype s = some b ∧
        b.resp = some r ∧ otherRcode r = true) →
      ∃ s, hopAt t qtype n st = some s ∧
        traceLoop t qtype n st = finish s.result
          { Kind := analyze.OutcomeServfailTimeout, Summary := "max hops exceeded",
            EvidenceStep := latestStepIndex s.result.TraceSteps,
            Hints := ["increase --max-hops", "check for CNAME loops"] } := by
  intro n
  induction n with
  | zero => intro st _; exact ⟨st, rfl, rfl⟩
  | succ n ih =>
    intro st hall
    obtain ⟨s, b, r, hs, hb, hr, ho⟩ := hall 0 (by omega)
    simp only [hopAt, Option.some.injEq] at hs
    subst hs
    obtain ⟨st2, hstep, _⟩ := hopStep_other t qtype st b r hb hr ho
    have hh : ∀ i, hopAt t qtype (i + 1) st = hopAt t qtype i st2 := by
      intro i; simp [hopAt, hstep]
    obtain ⟨s, h1, h2⟩ := ih st2 (fun i hi => by
      obtain ⟨s, b, r, h1, h2⟩ := hall (i + 1) (by omega)
      exact ⟨s, b, r, (hh i) ▸ h1, h2⟩)
    exact ⟨s, (hh n).trans h1, by simp only [traceLoop, hstep]; exact h2⟩

/-- C12: when the response chosen at a hop the trace reaches, and at every hop after
it up to `MaxHops`, has an rcode other than NOERROR, NXDOMAIN, SERVFAIL and REFUSED,
the classification of the trace is SERVFAIL_TIMEOUT, with summary "max hops
exceeded": each of these hops produces no diagnosis and leaves name, servers and
visited names as they were. -/
theorem trace_other_rcodes {W : Type} (t : Tracer W) (w : W) (fqdn rrtype : String) (qtype j n : Nat)
    (st : HopState W)
    (hq : StringToType (ToUpper rrtype) = some qtype)
    (hreach : hopAt t qtype j (initialState t w fqdn) = some st)
    (hjn : j + n = t.config.MaxHops.toNat)
    (hall : ∀ i, i < n → ∃ s b r, hopAt t qtype i st = some s ∧ chosen t qtype s = some b ∧
      b.resp = some r ∧ otherRcode r = true) :
    (∃ res, Trace t w fqdn rrtype = .ok res ∧
      res.Diagnosis.Classification = "SERVFAIL_TIMEOUT" ∧
      res.Diagnosis.Summary = "max hops exceeded") ∧
    (∀ i, i < n → ∃ s s2, hopAt t qtype i st = some s ∧ hopStep t qtype s = .next s2 ∧
      s2.name = s.name ∧ s2.servers = s.servers ∧ s2.visited = s.visited) := by
  constructor
  · obtain ⟨s, _, h2⟩ := other_chain t qtype n st hall
    have h3 := traceLoop_from_hopAt t qtype n j _ st hreach
    rw [hjn] at h3
    have h4 : Trace t w fqdn rrtype = .ok (traceLoop t qtype t.config.MaxHops.toNat
        (initialState t w fqdn)) := by simp [Trace, hq]
    refine ⟨_, h4, ?_, ?_⟩ <;> rw [h3, h2] <;> rfl
  · intro i hi
    obtain ⟨s, b, r, hs, hb, hr, ho⟩ := hall i hi
    obtain ⟨s2, hstep, h1, h2, _, h4⟩ := hopStep_other t qtype s b r hb hr ho
    exact ⟨s, s2, hs, hstep, h1, h2, h4⟩

/-- C12 on a root server that answers every query with FORMERR, for three hops. -/
theorem trace_other_rcodes_witness :
    ∃ res, Trace formerrTracer () "www.example.com" "A" = .ok res ∧
      res.Diagnosis.Classification = "SERVFAIL_TIMEOUT" ∧
      res.Diagnosis.Summary = "max hops exceeded" :=
  (trace_other_rcodes formerrTracer () "www.example.com" "A" TypeA 0 3
    (initialState formerrTracer () "www.example.com") rfl rfl rfl
    (fun i hi => by
      have hi2 : i = 0 ∨ i = 1 ∨ i = 2 := by omega
      rcases hi2 with rfl | rfl | rfl
      · exact ⟨_, _, _, rfl, rfl, rfl, rfl⟩
      · exact ⟨_, _, _, rfl, rfl, rfl, rfl⟩
      · exact ⟨_, _, _, rfl, rfl, rfl, rfl⟩)).1

/-- C12, against the claim: the response chosen at the first hop is a FORMERR, the
server answers the repeated query, and the trace is classified SUCCESS. -/
theorem other_rcode_then_answer_counterexample :
    (∃ b r, chosen flakyTracer TypeA (initialState flakyTracer 0 "www.example.com") = some b ∧
      b.resp = some r ∧ r.Rcode = RcodeFormatError ∧ otherRcode r = true) ∧
    (Trace flakyTracer 0 "www.example.com" "A").toOption.map
      (fun res => res.Diagnosis.Classification) = some "SUCCESS" :=
  ⟨⟨_, _, rfl, rfl, rfl, rfl⟩, by decide⟩

/-- A reflexive and transitive relation between results that `queryServers` respects
is respected by the loop of `resolveHost`. -/
theorem resolveHostLoop_rel {W : Type} (t : Tracer W) (R : TraceResult → TraceResult → Prop)
    (record : Bool) (htrans : ∀ a b c, R a b → R b c → R a c)
    (hq : ∀ servers name qtype (env : Env W) labels,
      R env.result (queryServers t servers name qtype env record labels).2.result)
    (hrefl : ∀ a, R a a)
    (nested : List String → Env W → Except String (List String) × Env W)
    (hn : ∀ ns e, R e.result (nested ns e).2.result) (qtype : Nat) :
    ∀ (hops : Nat) (st : SubState) (env : Env W),
      R env.result (resolveHostLoop t nested qtype record hops st env).2.result := by
  intro hops
  induction hops with
  | zero => intro st env; exact hrefl _
  | succ hops ih =>
    intro st env
    have h1 := hq st.servers st.name qtype env st.serverLabels
    unfold resolveHostLoop
    simp only []
    repeat' split
    all_goals first
      | exact h1
      | exact htrans _ _ _ h1 (ih _ _)
      | exact htrans _ _ _ h1 (hn _ _)
      | exact htrans _ _ _ (htrans _ _ _ h1 (hn _ _)) (ih _ _)

/-- Such a relation is respected by the loop over the nameserver names. -/
theorem gatherAddresses_rel {W : Type} (R : TraceResult → TraceResult → Prop)
    (htrans : ∀ a b c, R a b → R b c → R a c) (hrefl : ∀ a, R a a)
    (host : String → Nat → Env W → Except String (List String) × Env W)
    (hh : ∀ name qtype e, R e.result (host name qtype e).2.result) :
    ∀ (names acc : List String) (env : Env W),
      R env.result (gatherAddresses host names acc env).2.result := by
  intro names
  induction names with
  | nil => intro acc env; exact hrefl _
  | cons n ns ih =>
    intro acc env
    unfold gatherAddresses
    exact htrans _ _ _ (htrans _ _ _ (hh n TypeA env) (hh n TypeAAAA _)) (ih _ _)

/-- Such a relation is respected by `resolveNameserverAddresses`. -/
theorem resolveNameserverAddresses_rel {W : Type} (t : Tracer W) (R : TraceResult → TraceResult → Prop)
    (record : Bool) (htrans : ∀ a b c, R a b → R b c → R a c)
    (hq : ∀ servers name qtype (env : Env W) labels,
      R env.result (queryServers t servers name qtype env record labels).2.result)
    (hrefl : ∀ a, R a a) :
    ∀ (fuel : Nat) (names : List String) (env : Env W) (depth : Nat),
      R env.result (resolveNameserverAddresses t fuel names env depth record).2.result := by
  intro fuel
  induction fuel with
  | zero => intro names env depth; exact hrefl _
  | succ fuel ih =>
    intro names env depth
    unfold resolveNameserverAddresses
    have hg := gatherAddresses_rel R htrans hrefl
      (fun name qtype e =>
        resolveHost t (fun ns e2 => resolveNameserverAddresses t fuel ns e2 (depth + 1) record)
          name qtype e record)
      (fun name qtype e => by
        unfold resolveHost
        exact resolveHostLoop_rel t R record htrans hq hrefl _
          (fun ns e2 => ih ns e2 (depth + 1)) qtype _ _ _)
      names [] env
    simp only []
    repeat' split
    all_goals first
      | exact hrefl _
      | exact hg

/-- Without recording, `queryServers` leaves the result as it is. -/
theorem queryServers_norecord {W : Type} (t : Tracer W) (servers : List String) (name : String)
    (qtype : Nat) (env : Env W) (labels : List (String × String)) :
    (queryServers t servers name qtype env false labels).2.result = env.result := by
  unfold queryServers
  simp

/-- Without recording, a sub-trace leaves the result as it is. -/
theorem subtrace_norecord {W : Type} (t : Tracer W) (fuel : Nat) (names : List String) (env : Env W)
    (depth : Nat) :
    (resolveNameserverAddresses t fuel names env depth false).2.result = env.result :=
  (resolveNameserverAddresses_rel t (fun a b => b = a) false
    (fun _ _ _ h1 h2 => h2.trans h1)
    (fun servers name qtype env labels => queryServers_norecord t servers name qtype env labels)
    (fun _ => rfl) fuel names env depth)

/-- The delegation branch either goes on with a result the sub-trace left, or returns
a result the sub-trace left with a diagnosis whose evidence is the chosen response. -/
theorem followDelegation_elim {W : Type} (t : Tracer W) (R : TraceResult → TraceResult → Prop)
    (htrans : ∀ a b c, R a b → R b c → R a c)
    (hq : ∀ servers name qtype (env : Env W) labels,
      R env.result (queryServers t servers name qtype env t.config.Verbose labels).2.result)
    (hrefl : ∀ a, R a a)
    (st : HopState W) (result : TraceResult) (w : W) (best : response) (resp : Msg)
    (P : HopOutcome W → Prop)
    (hnext : ∀ st2 : HopState W, R result st2.result → P (.next st2))
    (hdone : ∀ r o, R result r → o.EvidenceStep = best.stepIndex → P (.done (finish r o))) :
    P (followDelegation t st result w best resp) := by
  have hsub := resolveNameserverAddresses_rel t R t.config.Verbose htrans hq hrefl
  unfold followDelegation
  simp only []
  by_cases hg : ((extractGlueServers resp).length == 0) = true
  · simp only [hg, if_true]
    generalize splitBailiwick (nsNamesAndZone resp).1 (nsNamesAndZone resp).2 = sp
    by_cases hout : sp.2.length > 0
    · simp only [hout, if_true]
      have h := hsub 5 sp.2 { result := result, world := w } 0
      revert h
      generalize resolveNameserverAddresses t 5 sp.2 { result := result, world := w } 0
        t.config.Verbose = sub
      intro h
      obtain ⟨s1, s2⟩ := sub
      cases s1 with
      | ok resolved =>
        simp only []
        split
        · exact hnext _ h
        · exact hdone _ _ h rfl
      | error e => exact hdone _ _ h rfl
    · simp only [hout, if_false]
      split
      · exact hnext _ (hrefl _)
      · exact hdone _ _ (hrefl _) rfl
  · simp only [hg]
    exact hnext _ (hrefl _)

/-- The decision tree of a hop either goes on with a result the sub-trace left, or
returns such a result with a diagnosis whose evidence is the chosen response. -/
theorem decideHop_elim {W : Type} (t : Tracer W) (R : TraceResult → TraceResult → Prop)
    (htrans : ∀ a b c, R a b → R b c → R a c)
    (hq : ∀ servers name qtype (env : Env W) labels,
      R env.result (queryServers t servers name qtype env t.config.Verbose labels).2.result)
    (hrefl : ∀ a, R a a)
    (qtype : Nat) (st : HopState W) (result : TraceResult) (w : W) (best : response)
    (P : HopOutcome W → Prop)
    (hnext : ∀ st2 : HopState W, R result st2.result → P (.next st2))
    (hdone : ∀ r o, R result r → o.EvidenceStep = best.stepIndex → P (.done (finish r o))) :
    P (decideHop t qtype st result w best) := by
  have hfd := fun resp =>
    followDelegation_elim t R htrans hq hrefl st result w best resp P hnext hdone
  unfold decideHop
  simp only []
  repeat' split
  all_goals first
    | exact hfd _
    | exact hnext _ (hrefl _)
    | exact hdone _ _ (hrefl _) rfl

/-! ## What the sub-traces leave in the result -/

/-- In non-verbose mode the decision tree of a hop runs on a result with exactly one
step and one timing more than the hop started with, those of the chosen response. -/
theorem hopInput_nonverbose_steps {W : Type} (t : Tracer W) (qtype : Nat) (st : HopState W) (b : response)
    (hv : t.config.Verbose = false) :
    ∃ s, (hopInput t qtype st b).1.result.TraceSteps = st.result.TraceSteps ++ [s] ∧
      (hopInput t qtype st b).1.result.Timings
        = st.result.Timings ++ [buildTiming (st.result.TraceSteps.length : Int) b] ∧
      s.Index = (st.result.TraceSteps.length : Int) ∧ s.QueryName = st.name ∧
      s.Server = b.server := by
  obtain ⟨s, h1, _, h3, h4, h5, _⟩ := aggregate_steps st.name qtype st.serverLabels
    (queryServers t st.servers st.name qtype { result := st.result, world := st.world }
      false st.serverLabels).1 b st.result
  refine ⟨s, ?_, ?_, h3, h5, h4⟩
  · unfold hopInput
    simp only [hv, Bool.not_false, if_true, queryServers_norecord]
    exact h1
  · unfold hopInput
    simp only [hv, Bool.not_false, if_true, queryServers_norecord]
    rfl

/-- In non-verbose mode a hop leaves the steps and timings it started with, plus the
one aggregated step and timing of the chosen response when there is one. -/
theorem hopStep_nonverbose_steps {W : Type} (t : Tracer W) (qtype : Nat) (st : HopState W)
    (hv : t.config.Verbose = false) :
    (chosen t qtype st = none ∧ ∃ res, hopStep t qtype st = .done res ∧
      res.TraceSteps = st.result.TraceSteps ∧ res.Timings = st.result.Timings) ∨
    (∃ b s, chosen t qtype st = some b ∧
      (outcomeResult (hopStep t qtype st)).TraceSteps = st.result.TraceSteps ++ [s] ∧
      (outcomeResult (hopStep t qtype st)).Timings
        = st.result.Timings ++ [buildTiming (st.result.TraceSteps.length : Int) b] ∧
      s.Index = (st.result.TraceSteps.length : Int) ∧ s.QueryName = st.name ∧
      s.Server = b.server) := by
  cases hc : chosen t qtype st with
  | none =>
    left
    refine ⟨rfl, ?_⟩
    unfold chosen at hc
    unfold hopStep
    simp only [hc]
    refine ⟨_, rfl, ?_, ?_⟩
    · show (queryServers t st.servers st.name qtype _ t.config.Verbose _).2.result.TraceSteps = _
      rw [hv, queryServers_norecord]
    · show (queryServers t st.servers st.name qtype _ t.config.Verbose _).2.result.Timings = _
      rw [hv, queryServers_norecord]
  | some b =>
    right
    obtain ⟨s, h1, h2, h3, h4, h5⟩ := hopInput_nonverbose_steps t qtype st b hv
    refine ⟨b, s, rfl, ?_⟩
    rw [hopStep_of_chosen t qtype st b hc]
    refine decideHop_elim t (fun a c => c = a) (fun _ _ _ h1 h2 => h2.trans h1)
      (fun servers name qtype env labels => by
        rw [hv]; exact queryServers_norecord t servers name qtype env labels)
      (fun _ => rfl) qtype st _ _ _
      (fun o => (outcomeResult o).TraceSteps = st.result.TraceSteps ++ [s] ∧
        (outcomeResult o).Timings
          = st.result.Timings ++ [buildTiming (st.result.TraceSteps.length : Int) b] ∧
        s.Index = (st.result.TraceSteps.length : Int) ∧ s.QueryName = st.name ∧
        s.Server = b.server) ?_ ?_
    · intro st2 hst2
      simp only [outcomeResult]
      rw [hst2]
      exact ⟨h1, h2, h3, h4, h5⟩
    · intro r o hr _
      simp only [outcomeResult, finish]
      rw [hr]
      exact ⟨h1, h2, h3, h4, h5⟩

/-- In non-verbose mode every step of the result of the hop loop was there when the
loop started or is the one aggregated step of a hop of the loop. -/
theorem traceLoop_nonverbose_steps {W : Type} (t : Tracer W) (qtype : Nat)
    (hv : t.config.Verbose = false) :
    ∀ (n : Nat) (st : HopState W) (i : Nat) (s : TraceStep),
      (traceLoop t qtype n st).TraceSteps[i]? = some s →
      st.result.TraceSteps[i]? = some s ∨
      ∃ k sk b, i = st.result.TraceSteps.length + k ∧ k < n ∧ hopAt t qtype k st = some sk ∧
        chosen t qtype sk = some b ∧ s.Index = (i : Int) ∧ s.QueryName = sk.name ∧
        s.Server = b.server := by
  intro n
  induction n with
  | zero =>
    intro st i s h
    left
    exact h
  | succ n ih =>
    intro st i s h
    rcases hopStep_nonverbose_steps t qtype st hv with ⟨_, res, h1, h2, _⟩ | ⟨b, s0, hb, h1, _, h3, h4, h5⟩
    · left
      rw [traceLoop_done t qtype st res h1 n, h2] at h
      exact h
    · have key : ∀ r : TraceResult, r.TraceSteps = st.result.TraceSteps ++ [s0] →
          r.TraceSteps[i]? = some s → st.result.TraceSteps[i]? = some s ∨
            (i = st.result.TraceSteps.length ∧ s = s0) := by
        intro r hr hi
        rw [hr] at hi
        by_cases hlt : i < st.result.TraceSteps.length
        · left
          rw [List.getElem?_append_left hlt] at hi
          exact hi
        · right
          have hge : st.result.TraceSteps.length ≤ i := Nat.le_of_not_lt hlt
          rw [List.getElem?_append_right hge] at hi
          have hz : i - st.result.TraceSteps.length = 0 := by
            by_contra hne
            obtain ⟨m, hm⟩ := Nat.exists_eq_succ_of_ne_zero hne
            rw [hm] at hi
            simp at hi
          rw [hz] at hi
          simp only [List.getElem?_cons_zero, Option.some.injEq] at hi
          exact ⟨by omega, hi.symm⟩
      have zero : i = st.result.TraceSteps.length ∧ s = s0 →
          ∃ k sk b, i = st.result.TraceSteps.length + k ∧ k < n + 1 ∧
            hopAt t qtype k st = some sk ∧
            chosen t qtype sk = some b ∧ s.Index = (i : Int) ∧ s.QueryName = sk.name ∧
            s.Server = b.server := by
        rintro ⟨hi, hs⟩
        subst hs
        exact ⟨0, st, b, by simpa using hi, Nat.succ_pos n, rfl, hb, by rw [h3, hi], h4, h5⟩
      cases hs : hopStep t qtype st with
      | done res =>
        rw [traceLoop_done t qtype st res hs n] at h
        rw [hs] at h1
        rcases key res h1 h with hl | hr
        · exact Or.inl hl
        · exact Or.inr (zero hr)
      | next st2 =>
        rw [hs] at h1
        simp only [outcomeResult] at h1
        have htl : traceLoop t qtype (n + 1) st = traceLoop t qtype n st2 := by
          simp [traceLoop, hs]
        rw [htl] at h
        rcases ih st2 i s h with hl | ⟨k, sk, b2, hk1, hkn, hk2, hk3, hk4, hk5, hk6⟩
        · rcases key st2.result h1 hl with hl2 | hr
          · exact Or.inl hl2
          · exact Or.inr (zero hr)
        · right
          refine ⟨k + 1, sk, b2, ?_, Nat.succ_lt_succ hkn, ?_, hk3, hk4, hk5, hk6⟩
          · rw [hk1, h1]
            simp
            omega
          · simp only [hopAt, hs]
            exact hk2

set_option maxRecDepth 100000 in
/-- C16, against the claim: in verbose mode the queries of a sub-trace are recorded.
The root refers `www.example.com.` without glue; the one top-level hop ends the trace,
and the result has three steps and three timings, two of them for the queries for
the address of `ns1.other.net.`. -/
theorem subtrace_recorded_verbose_counterexample :
    verboseBrokenTracer.config.Verbose = true ∧
    ∃ res, Trace verboseBrokenTracer () "www.example.com" "A" = .ok res ∧
      hopStep verboseBrokenTracer TypeA (initialState verboseBrokenTracer () "www.example.com")
        = .done res ∧
      res.TraceSteps.map (fun s => s.QueryName)
        = ["www.example.com.", "ns1.other.net.", "ns1.other.net."] ∧
      res.TraceSteps.map (fun s => s.QueryType) = ["A", "A", "AAAA"] ∧
      res.Timings.length = 3 ∧
      (resolveNameserverAddresses verboseBrokenTracer 5 ["ns1.other.net."]
        { result := TraceResult.zero, world := () } 0 true).2.result.TraceSteps.length = 2 := by
  refine ⟨rfl, _, rfl, ?_, ?_, ?_, ?_, ?_⟩
  · rfl
  · decide
  · decide
  · decide
  · decide

/-- C16: in non-verbose mode the queries made while resolving nameserver addresses
append nothing to the result: `resolveNameserverAddresses` and `resolveHost` return the
result they were given; a hop leaves the steps and timings it started with, plus the
one aggregated step and timing for the response chosen at that hop when there is
one; and step `i` of the result of a trace is the aggregated step of top-level hop
`i`, for the name queried and the server chosen at that hop. -/
theorem subtrace_not_recorded_nonverbose {W : Type} (t : Tracer W) (hv : t.config.Verbose = false) :
    (∀ fuel names (env : Env W) depth,
      (resolveNameserverAddresses t fuel names env depth t.config.Verbose).2.result
        = env.result) ∧
    (∀ fuel name qtype (env : Env W) depth,
      (resolveHost t
        (fun ns e => resolveNameserverAddresses t fuel ns e depth t.config.Verbose)
        name qtype env t.config.Verbose).2.result = env.result) ∧
    (∀ qtype (st : HopState W),
      (chosen t qtype st = none ∧ ∃ res, hopStep t qtype st = .done res ∧
        res.TraceSteps = st.result.TraceSteps ∧ res.Timings = st.result.Timings) ∨
      (∃ b s, chosen t qtype st = some b ∧
        (outcomeResult (hopStep t qtype st)).TraceSteps = st.result.TraceSteps ++ [s] ∧
        (outcomeResult (hopStep t qtype st)).Timings
          = st.result.Timings ++ [buildTiming (st.result.TraceSteps.length : Int) b] ∧
        s.Index = (st.result.TraceSteps.length : Int) ∧ s.QueryName = st.name ∧
        s.Server = b.server)) ∧
    (∀ w fqdn rrtype qtype res, StringToType (ToUpper rrtype) = some qtype →
      Trace t w fqdn rrtype = .ok res →
      ∀ i s, res.TraceSteps[i]? = some s →
        i < t.config.MaxHops.toNat ∧
        ∃ sk b, hopAt t qtype i (initialState t w fqdn) = some sk ∧
          chosen t qtype sk = some b ∧ s.Index = (i : Int) ∧ s.QueryName = sk.name ∧
          s.Server = b.server) := by
  refine ⟨?_, ?_, ?_, ?_⟩
  · intro fuel names env depth
    rw [hv]
    exact subtrace_norecord t fuel names env depth
  · intro fuel name qtype env depth
    rw [hv]
    unfold resolveHost
    exact resolveHostLoop_rel t (fun a c => c = a) false (fun _ _ _ h1 h2 => h2.trans h1)
      (fun servers name qtype env labels => queryServers_norecord t servers name qtype env labels)
      (fun _ => rfl) _ (fun ns e => subtrace_norecord t fuel ns e depth) qtype _ _ _
  · intro qtype st
    exact hopStep_nonverbose_steps t qtype st hv
  · intro w fqdn rrtype qtype res hq hres i s hi
    unfold Trace at hres
    rw [hq] at hres
    simp only [Except.ok.injEq] at hres
    subst hres
    rcases traceLoop_nonverbose_steps t qtype hv _ _ i s hi with h | ⟨k, sk, b, h1, hk, h2, h3, h4, h5, h6⟩
    · simp [initialState, TraceResult.zero] at h
    · have hik : i = k := by simpa [initialState, TraceResult.zero] using h1
      subst hik
      exact ⟨hk, sk, b, h2, h3, h4, h5, h6⟩

/-- C16 on the broken-delegation fixture, which is not verbose. -/
theorem subtrace_not_recorded_nonverbose_witness :
    brokenTracer.config.Verbose = false ∧
    (resolveNameserverAddresses brokenTracer 5 ["ns1.other.net."]
      { result := TraceResult.zero, world := () } 0 brokenTracer.config.Verbose).2.result
        = TraceResult.zero :=
  ⟨rfl, (subtrace_not_recorded_nonverbose brokenTracer rfl).1 5 ["ns1.other.net."]
    { result := TraceResult.zero, world := () } 0⟩

/-! ## Well-formed results -/

/-- Appending a step and a timing that carry the next index keeps steps and timings
in step. -/
theorem stepsOK_append (r r2 : TraceResult) (s : TraceStep) (tm : Timing)
    (h : stepsOK r) (hs : r2.TraceSteps = r.TraceSteps ++ [s])
    (ht : r2.Timings = r.Timings ++ [tm])
    (hsi : s.Index = (r.TraceSteps.length : Int))
    (hti : tm.StepIndex = (r.TraceSteps.length : Int)) : stepsOK r2 := by
  obtain ⟨h1, h2, h3⟩ := h
  refine ⟨?_, ?_, ?_⟩
  · intro i x hi
    rw [hs] at hi
    by_cases hlt : i < r.TraceSteps.length
    · rw [List.getElem?_append_left hlt] at hi
      exact h1 i x hi
    · have hge : r.TraceSteps.length ≤ i := Nat.le_of_not_lt hlt
      rw [List.getElem?_append_right hge] at hi
      cases hd : i - r.TraceSteps.length with
      | zero =>
        rw [hd] at hi
        simp only [List.getElem?_cons_zero, Option.some.injEq] at hi
        subst hi
        rw [hsi]
        omega
      | succ m => rw [hd] at hi; simp at hi
  · rw [hs, ht]
    simp [h2]
  · intro i x hi
    rw [ht] at hi
    by_cases hlt : i < r.Timings.length
    · rw [List.getElem?_append_left hlt] at hi
      exact h3 i x hi
    · have hge : r.Timings.length ≤ i := Nat.le_of_not_lt hlt
      rw [List.getElem?_append_right hge] at hi
      cases hd : i - r.Timings.length with
      | zero =>
        rw [hd] at hi
        simp only [List.getElem?_cons_zero, Option.some.injEq] at hi
        subst hi
        rw [hti]
        omega
      | succ m => rw [hd] at hi; simp at hi

/-- The recording loop of `queryServers` keeps steps and timings in step and drops
no step. -/
theorem recordResponses_ok (name : String) (qtype : Nat) (labels : List (String × String)) :
    ∀ (rs : List response) (result : TraceResult),
      (stepsOK result → stepsOK (recordResponses name qtype labels rs result).2) ∧
      result.TraceSteps.length
        ≤ (recordResponses name qtype labels rs result).2.TraceSteps.length := by
  intro rs
  induction rs with
  | nil => intro result; exact ⟨fun h => h, le_refl _⟩
  | cons r rest ih =>
    intro result
    unfold recordResponses
    simp only []
    obtain ⟨ih1, ih2⟩ := ih
      { result with
        TraceSteps := result.TraceSteps ++
          [buildStep (result.TraceSteps.length : Int) name qtype r labels]
        Timings := result.Timings ++ [buildTiming (result.TraceSteps.length : Int) r] }
    constructor
    · intro h
      apply ih1
      exact stepsOK_append result _ _ _ h rfl rfl
        (buildStep_fields (result.TraceSteps.length : Int) name qtype r labels).1 rfl
    · refine le_trans ?_ ih2
      simp

/-- The relation between the result before and after a piece of the trace: steps and
timings stay in step, and no step is dropped. -/
theorem queryServers_ok {W : Type} (t : Tracer W) (record : Bool) (servers : List String) (name : String)
    (qtype : Nat) (env : Env W) (labels : List (String × String)) :
    (stepsOK env.result →
      stepsOK (queryServers t servers name qtype env record labels).2.result) ∧
    env.result.TraceSteps.length
      ≤ (queryServers t servers name qtype env record labels).2.result.TraceSteps.length := by
  unfold queryServers
  cases record
  · exact ⟨fun h => h, le_refl _⟩
  · exact recordResponses_ok name qtype labels _ env.result

/-- The aggregated step of a hop keeps steps and timings in step. -/
theorem aggregate_ok (name : String) (qtype : Nat) (labels : List (String × String))
    (responses : List response) (best : response) (result : TraceResult) :
    (stepsOK result → stepsOK (aggregate name qtype labels responses best result).1) ∧
    result.TraceSteps.length
      ≤ (aggregate name qtype labels responses best result).1.TraceSteps.length := by
  obtain ⟨s, h1, _, h3, _⟩ := aggregate_steps name qtype labels responses best result
  constructor
  · intro h
    exact stepsOK_append result _ s (buildTiming (result.TraceSteps.length : Int) best) h h1
      (by unfold aggregate; rfl) h3 rfl
  · rw [h1]
    simp

/-- The index `latestStepIndex` returns is that of the last step, or -1 without
steps. -/
theorem latestStepIndex_valid (r : TraceResult) (h : stepsOK r) :
    latestStepIndex r.TraceSteps = -1 ∨
      (0 ≤ latestStepIndex r.TraceSteps ∧
        latestStepIndex r.TraceSteps < (r.TraceSteps.length : Int)) := by
  unfold latestStepIndex
  cases hl : r.TraceSteps.getLast? with
  | none => exact Or.inl rfl
  | some s =>
    right
    simp only []
    rw [List.getLast?_eq_getElem?] at hl
    have hlen : r.TraceSteps.length - 1 < r.TraceSteps.length := by
      by_contra hc
      rw [List.getElem?_eq_none (by omega)] at hl
      cases hl
    have := h.1 (r.TraceSteps.length - 1) s hl
    rw [this]
    omega

/-- The evidence steps of a diagnosis: the evidence step of the outcome when it is
not negative. -/
theorem Diagnose_evidence (o : Outcome) :
    (Diagnose o).EvidenceSteps = (if o.EvidenceStep ≥ 0 then [o.EvidenceStep] else []) := by
  unfold Diagnose
  split_ifs <;> simp

/-- A result with steps and timings in step and a diagnosis whose evidence is -1 or
a valid index is well formed. -/
theorem finish_wellFormed (r : TraceResult) (o : Outcome) (h : stepsOK r)
    (he : o.EvidenceStep = -1 ∨
      (0 ≤ o.EvidenceStep ∧ o.EvidenceStep < (r.TraceSteps.length : Int))) :
    wellFormed (finish r o) := by
  refine ⟨h, ?_⟩
  intro e hmem
  have hd := Diagnose_evidence o
  simp only [finish] at hmem
  rw [hd] at hmem
  split_ifs at hmem with hge
  · simp only [List.mem_singleton] at hmem
    subst hmem
    rcases he with he | he
    · omega
    · exact he
  · cases hmem

/-- A hop that starts with steps and timings in step hands such a result on to the
next hop, or returns a well-formed result. -/
theorem hopStep_wellFormed {W : Type} (t : Tracer W) (qtype : Nat) (st : HopState W)
    (h : stepsOK st.result) :
    (∀ st2, hopStep t qtype st = .next st2 → stepsOK st2.result) ∧
    (∀ res, hopStep t qtype st = .done res → wellFormed res) := by
  have hq := queryServers_ok t t.config.Verbose st.servers st.name qtype
    { result := st.result, world := st.world } st.serverLabels
  cases hc : chosen t qtype st with
  | none =>
    have hs : hopStep t qtype st = .done (finish
        (queryServers t st.servers st.name qtype { result := st.result, world := st.world }
          t.config.Verbose st.serverLabels).2.result
        { Kind := analyze.OutcomeServfailTimeout,
          Summary := "no reachable nameservers for delegation",
          EvidenceStep := latestStepIndex
            (queryServers t st.servers st.name qtype { result := st.result, world := st.world }
              t.config.Verbose st.serverLabels).2.result.TraceSteps,
          Hints := ["check network reachability or nameserver availability"] }) := by
      unfold chosen at hc
      unfold hopStep
      simp only [hc]
    rw [hs]
    constructor
    · intro st2 h2
      cases h2
    · intro res h2
      simp only [HopOutcome.done.injEq] at h2
      subst h2
      exact finish_wellFormed _ _ (hq.1 h) (latestStepIndex_valid _ (hq.1 h))
  | some b =>
    rw [hopStep_of_chosen t qtype st b hc]
    obtain ⟨⟨n, hn, s, hs1, _⟩, _⟩ := hopInput_evidence t qtype st b hc
    have hin : stepsOK (hopInput t qtype st b).1.result := by
      unfold hopInput
      cases hv : t.config.Verbose
      · simp only [Bool.not_false, if_true]
        rw [hv] at hq
        exact (aggregate_ok _ _ _ _ _ _).1 (hq.1 h)
      · simp only [Bool.not_true, Bool.false_eq_true, if_false]
        rw [hv] at hq
        exact hq.1 h
    have hlt : n < (hopInput t qtype st b).1.result.TraceSteps.length := by
      by_contra hge
      rw [List.getElem?_eq_none (Nat.le_of_not_lt hge)] at hs1
      cases hs1
    refine decideHop_elim t
      (fun a c => (stepsOK a → stepsOK c) ∧ a.TraceSteps.length ≤ c.TraceSteps.length)
      (fun _ _ _ h1 h2 => ⟨fun x => h2.1 (h1.1 x), le_trans h1.2 h2.2⟩)
      (fun servers name qtype env labels =>
        queryServers_ok t t.config.Verbose servers name qtype env labels)
      (fun _ => ⟨fun x => x, le_refl _⟩) qtype st _ _ _
      (fun o => (∀ st2, o = .next st2 → stepsOK st2.result) ∧
        (∀ res, o = .done res → wellFormed res)) ?_ ?_
    · intro st2 hr
      constructor
      · intro st3 h3
        simp only [HopOutcome.next.injEq] at h3
        subst h3
        exact hr.1 hin
      · intro res h3
        cases h3
    · intro r o hr ho
      constructor
      · intro st3 h3
        cases h3
      · intro res h3
        simp only [HopOutcome.done.injEq] at h3
        subst h3
        refine finish_wellFormed r o (hr.1 hin) (Or.inr ?_)
        rw [ho, hn]
        have := hr.2
        omega

/-- The hop loop returns a well-formed result when it starts with steps and timings
in step. -/
theorem traceLoop_wellFormed {W : Type} (t : Tracer W) (qtype : Nat) :
    ∀ (n : Nat) (st : HopState W), stepsOK st.result → wellFormed (traceLoop t qtype n st) := by
  intro n
  induction n with
  | zero =>
    intro st h
    exact finish_wellFormed _ _ h (latestStepIndex_valid _ h)
  | succ n ih =>
    intro st h
    obtain ⟨h1, h2⟩ := hopStep_wellFormed t qtype st h
    cases hs : hopStep t qtype st with
    | done res =>
      rw [traceLoop_done t qtype st res hs n]
      exact h2 res hs
    | next st2 =>
      have : traceLoop t qtype (n + 1) st = traceLoop t qtype n st2 := by
        simp [traceLoop, hs]
      rw [this]
      exact ih st2 (h1 st2 hs)

/-- The result without steps has steps and timings in step. -/
theorem stepsOK_zero : stepsOK TraceResult.zero := by
  refine ⟨?_, rfl, ?_⟩
  · intro i s h
    simp [TraceResult.zero] at h
  · intro i s h
    simp [TraceResult.zero] at h

/-- The resolver loop of the ladder keeps steps and timings in step when it numbers
the next step with the number of steps so far. -/
theorem resolverLoop_ok {W : Type} (exchange : W → String → String → Nat → Exchanged × W)
    (fqdn : String) (qtype : Nat) :
    ∀ (resolvers : List String) (i : Nat) (result : TraceResult) (w : W),
      stepsOK result → i = result.TraceSteps.length →
      stepsOK (ladder.resolverLoop exchange fqdn qtype resolvers i result w).1 := by
  intro resolvers
  induction resolvers with
  | nil => intro i result w h _; exact h
  | cons r rest ih =>
    intro i result w h hi
    unfold ladder.resolverLoop
    simp only []
    apply ih
    · refine stepsOK_append result _ _ _ h rfl rfl ?_ ?_
      · rw [← hi]
        unfold ladder.ladderStep
        simp only []
        repeat' split
        all_goals rfl
      · rw [← hi]
        unfold ladder.ladderStep
        simp only []
        repeat' split
        all_goals rfl
    · simp [hi]

/-- One iteration of the ladder scan keeps the first-seen indices in range. -/
theorem scanStep_inRange (n : Int) (f : ladder.Firsts) (s : TraceStep)
    (hf : firstsInRange n f) (hs : 0 ≤ s.Index ∧ s.Index < n) :
    firstsInRange n (ladder.scanStep f s) := by
  obtain ⟨h1, h2, h3, h4⟩ := hf
  unfold ladder.scanStep
  simp only []
  repeat' split
  all_goals exact ⟨by first | exact h1 | exact Or.inr hs, by first | exact h2 | exact Or.inr hs,
    by first | exact h3 | exact Or.inr hs, by first | exact h4 | exact Or.inr hs⟩

/-- The ladder scan keeps the first-seen indices in range. -/
theorem scan_inRange (n : Int) : ∀ (l : List TraceStep) (f : ladder.Firsts),
    firstsInRange n f → (∀ s ∈ l, 0 ≤ s.Index ∧ s.Index < n) →
    firstsInRange n (l.foldl ladder.scanStep f) := by
  intro l
  induction l with
  | nil => intro f hf _; exact hf
  | cons s rest ih =>
    intro f hf hl
    simp only [List.foldl_cons]
    exact ih _ (scanStep_inRange n f s hf (hl s (List.mem_cons_self _ _)))
      (fun x hx => hl x (List.mem_cons_of_mem _ hx))

/-- The evidence of the ladder diagnosis of a result with steps in step is a valid
index. -/
theorem diagnoseLadder_evidence (r : TraceResult) (h : stepsOK r) :
    ∀ e ∈ (ladder.diagnoseLadder r).EvidenceSteps, 0 ≤ e ∧ e < (r.TraceSteps.length : Int) := by
  have hr : firstsInRange (r.TraceSteps.length : Int)
      (r.TraceSteps.foldl ladder.scanStep
        { firstAnswer := -1, firstNX := -1, firstNoData := -1, firstServfail := -1 }) := by
    apply scan_inRange
    · exact ⟨Or.inl rfl, Or.inl rfl, Or.inl rfl, Or.inl rfl⟩
    · intro s hs
      obtain ⟨i, hi, hget⟩ := List.getElem_of_mem hs
      have := h.1 i s (by rw [List.getElem?_eq_getElem hi, hget])
      rw [this]
      omega
  intro e he
  unfold ladder.diagnoseLadder at he
  simp only [] at he
  revert hr he
  generalize r.TraceSteps.foldl ladder.scanStep
    { firstAnswer := -1, firstNX := -1, firstNoData := -1, firstServfail := -1 } = f
  rintro ⟨h1, h2, h3, h4⟩ he
  split_ifs at he with c1 c2 c3 c4
  all_goals
    rw [Diagnose_evidence] at he
    simp only [] at he
    split_ifs at he
    all_goals first
      | exact absurd he (List.not_mem_nil _)
      | (rw [List.mem_singleton] at he
         subst he
         omega)

/-- C15: every result that `Tracer.Trace` (verbose or not) or `ladder.Trace` returns
is well formed: `steps[i].index = i`, there are as many timings as steps,
`timings[i].step_index = i`, and every evidence step is a valid index into the steps.
`Tracer.Trace` returns a result unless the rrtype is unknown, `ladder.Trace` unless
the rrtype is unknown or there is no resolver. -/
theorem trace_results_well_formed {W V : Type} (t : Tracer W) (w : W) (fqdn rrtype : String)
    (exchange : V → String → String → Nat → Exchanged × V) (v : V)
    (resolvers : List String) (lname lrrtype : String) :
    (Trace t w fqdn rrtype = .error ("unsupported rrtype: " ++ rrtype) ∨
      ∃ res, Trace t w fqdn rrtype = .ok res ∧
        (∀ (i : Nat) s, res.TraceSteps[i]? = some s → s.Index = (i : Int)) ∧
        res.Timings.length = res.TraceSteps.length ∧
        (∀ (i : Nat) tm, res.Timings[i]? = some tm → tm.StepIndex = (i : Int)) ∧
        (∀ e ∈ res.Diagnosis.EvidenceSteps, 0 ≤ e ∧ e < (res.TraceSteps.length : Int))) ∧
    (ladder.Trace exchange v resolvers lname lrrtype
        = .error ("unsupported rrtype: " ++ lrrtype) ∨
      ladder.Trace exchange v resolvers lname lrrtype = .error "no resolvers configured" ∨
      ∃ res, ladder.Trace exchange v resolvers lname lrrtype = .ok res ∧
        (∀ (i : Nat) s, res.TraceSteps[i]? = some s → s.Index = (i : Int)) ∧
        res.Timings.length = res.TraceSteps.length ∧
        (∀ (i : Nat) tm, res.Timings[i]? = some tm → tm.StepIndex = (i : Int)) ∧
        (∀ e ∈ res.Diagnosis.EvidenceSteps, 0 ≤ e ∧ e < (res.TraceSteps.length : Int))) := by
  constructor
  · unfold Trace
    cases hq : StringToType (ToUpper rrtype) with
    | none => exact Or.inl rfl
    | some qtype =>
      right
      obtain ⟨⟨h1, h2, h3⟩, h4⟩ := traceLoop_wellFormed t qtype t.config.MaxHops.toNat
        (initialState t w fqdn) stepsOK_zero
      exact ⟨_, rfl, h1, h2, h3, h4⟩
  · unfold ladder.Trace
    cases hq : StringToType (ToUpper lrrtype) with
    | none => exact Or.inl rfl
    | some qtype =>
      right
      simp only []
      by_cases hl : (resolvers.length == 0) = true
      · left
        rw [if_pos hl]
      · right
        rw [if_neg hl]
        have hok := resolverLoop_ok exchange lname qtype resolvers 0 TraceResult.zero v
          stepsOK_zero rfl
        obtain ⟨h1, h2, h3⟩ := hok
        exact ⟨_, rfl, h1, h2, h3, diagnoseLadder_evidence _ ⟨h1, h2, h3⟩⟩

/-- C11 on a root server that answers NOERROR without the authoritative bit, without
answer and without Authority. -/
theorem trace_lame_delegation_witness :
    ∃ res, hopStep lameTracer TypeA (initialState lameTracer () "www.example.com") = .done res ∧
      res.Diagnosis.Classification = "LAME_DELEGATION" ∧
      res.Diagnosis.Hints = ["verify NS delegation and authoritative configuration"] := by
  obtain ⟨res, h1, _, h2, h3⟩ :=
    trace_lame_delegation lameTracer TypeA (initialState lameTracer () "www.example.com")
      (udpResponse "192.0.2.1:53" lameMsg 5000000 0) lameMsg rfl rfl rfl rfl rfl
      (by simp [lameMsg])
  exact ⟨res, h1, h2, h3⟩

/-- C13 on two root servers that both time out. -/
theorem trace_unreachable_hop_witness :
    chosen unreachableTracer TypeA (initialState unreachableTracer () "www.example.com") = none ∧
    ∃ res, hopStep unreachableTracer TypeA (initialState unreachableTracer () "www.example.com")
        = .done res ∧
      res.Diagnosis.Classification = "SERVFAIL_TIMEOUT" ∧
      res.Diagnosis.Hints = ["check network reachability or nameserver availability"] := by
  obtain ⟨h0, res, h1, _, h2, _, h3⟩ :=
    trace_unreachable_hop unreachableTracer TypeA
      (initialState unreachableTracer () "www.example.com") (by decide)
  exact ⟨h0, res, h1, h2, h3⟩

/-- C17 on `www.old.example` under the DNAME of `old.example` to `new.example`. -/
theorem applyDNAME_spec_witness :
    Fqdn "www.old.example" = "www." ++ Fqdn "old.example" ∧
    applyDNAME "www.old.example" "old.example" "new.example" = .ok "www.new.example." :=
  ⟨by decide,
    ((applyDNAME_spec "www.old.example" "old.example" "new.example").2 "www."
      (by decide)).trans (congrArg Except.ok (by decide))⟩

/-- C20 at depth 5, with fuel to spare. -/
theorem resolveNameserverAddresses_depth_limit_witness :
    5 > 4 ∧
    resolveNameserverAddresses brokenTracer 7 ["ns1.other.net."]
        { result := TraceResult.zero, world := () } 5 false
      = (.error "nameserver resolution depth exceeded",
          { result := TraceResult.zero, world := () }) :=
  ⟨by decide,
    (resolveNameserverAddresses_depth_limit brokenTracer).1 7 5 ["ns1.other.net."]
      { result := TraceResult.zero, world := () } false (by decide)⟩

/-! ## The choice of the best response does not depend on the order -/

/-- Two responses whose keys are each at most the other have the same server. -/
theorem keyLe_antisymm (qtype : Nat) (a b : response)
    (h1 : keyLe qtype a b) (h2 : keyLe qtype b a) : a.server = b.server := by
  unfold keyLe at h1 h2
  rcases h1 with h1 | ⟨e1, h1⟩
  · rcases h2 with h2 | ⟨e2, _⟩
    · omega
    · omega
  · rcases h2 with h2 | ⟨_, h2⟩
    · omega
    · rcases h1 with h1 | ⟨r1, s1⟩
      · rcases h2 with h2 | ⟨r2, _⟩
        · omega
        · omega
      · rcases h2 with h2 | ⟨_, s2⟩
        · omega
        · exact le_antisymm s1 s2

/-- The note of the aggregated step counts the responses, whatever their order. -/
theorem summarizeResponses_perm (l1 l2 : List response) (hperm : l1.Perm l2) :
    summarizeResponses l1 = summarizeResponses l2 := by
  unfold summarizeResponses
  simp only [hperm.length_eq, (hperm.filter _).length_eq]

/-- C29: for response lists that are permutations of each other and whose server
endpoints are pairwise distinct, `selectBest` returns the same response, whole, for
every query type; and the aggregated step and timing built for it are the same. -/
theorem selectBest_order_independent (l1 l2 : List response) (qtype : Nat)
    (hperm : l1.Perm l2) (hnodup : (l1.map (fun r => r.server)).Nodup) :
    selectBest l1 qtype = selectBest l2 qtype ∧
    ∀ name labels best result,
      aggregate name qtype labels l1 best result = aggregate name qtype labels l2 best result := by
  refine ⟨?_, fun name labels best result => by
    unfold aggregate
    rw [summarizeResponses_perm l1 l2 hperm]⟩
  obtain ⟨n1, s1⟩ := selectBest_valid_least l1 qtype
  obtain ⟨n2, s2⟩ := selectBest_valid_least l2 qtype
  cases h1 : selectBest l1 qtype with
  | none =>
    symm
    rw [n2]
    intro r hr
    exact (n1.mp h1) r (hperm.mem_iff.mpr hr)
  | some b1 =>
    obtain ⟨m1, e1, r1, least1⟩ := s1 b1 h1
    cases h2 : selectBest l2 qtype with
    | none =>
      exact absurd ⟨e1, r1⟩ ((n2.mp h2) b1 (hperm.mem_iff.mp m1))
    | some b2 =>
      obtain ⟨m2, e2, r2, least2⟩ := s2 b2 h2
      have hs : b1.server = b2.server :=
        keyLe_antisymm qtype b1 b2 (least1 b2 (hperm.mem_iff.mpr m2) e2 r2)
          (least2 b1 (hperm.mem_iff.mp m1) e1 r1)
      have : b1 = b2 :=
        List.inj_on_of_nodup_map hnodup m1 (hperm.mem_iff.mpr m2) hs
      rw [this]

/-- C29 on two responses of equal rank and rtt, listed in either order. -/
theorem selectBest_order_independent_witness :
    selectBest [udpResponse "192.0.2.2:53" nxdomainMsg 5000000 0,
        udpResponse "192.0.2.1:53" nxdomainMsg 5000000 0] TypeA
      = selectBest [udpResponse "192.0.2.1:53" nxdomainMsg 5000000 0,
        udpResponse "192.0.2.2:53" nxdomainMsg 5000000 0] TypeA :=
  (selectBest_order_independent _ _ TypeA (List.Perm.swap _ _ _) (by decide)).1

/-! ## The client: retries and transport fallback -/

open dnsclient

/-- The retry loop over a counting transport, from any point of the loop: the count
grows by at most the iterations that remain; the first attempt that succeeds ends
the loop; a context found cancelled ends it without a call; and when every attempt
fails the loop makes all its calls. -/
theorem retryLoop_counted {W : Type} (ctx : W → Option GoError) (tr : W → String → Query → Reply × W)
    (server : String) (msg : Query) :
    ∀ (n : Nat) (lastErr : Option GoError) (w : W) (c0 : Nat),
      (retryLoop (fun s => ctx s.1) (counted tr) server msg n lastErr (w, c0)).2.2 ≤ c0 + n ∧
      (∀ k, k < n → attemptsFail ctx tr server msg k w →
        ctx (worldBefore tr server msg k w) = none →
        (replyAt tr server msg k w).err = none →
        retryLoop (fun s => ctx s.1) (counted tr) server msg n lastErr (w, c0)
          = ({ resp := (replyAt tr server msg k w).resp, rtt := (replyAt tr server msg k w).rtt,
               err := none }, (worldBefore tr server msg (k + 1) w, c0 + (k + 1)))) ∧
      (∀ k, k < n → attemptsFail ctx tr server msg k w →
        ∀ e, ctx (worldBefore tr server msg k w) = some e →
        retryLoop (fun s => ctx s.1) (counted tr) server msg n lastErr (w, c0)
          = ({ resp := none, rtt := 0, err := some e },
              (worldBefore tr server msg k w, c0 + k))) ∧
      (0 < n → attemptsFail ctx tr server msg n w →
        retryLoop (fun s => ctx s.1) (counted tr) server msg n lastErr (w, c0)
          = ({ resp := none, rtt := 0, err := (replyAt tr server msg (n - 1) w).err },
              (worldBefore tr server msg n w, c0 + n))) ∧
      retryLoop ctx tr server msg n lastErr w
        = ((retryLoop (fun s => ctx s.1) (counted tr) server msg n lastErr (w, c0)).1,
           (retryLoop (fun s => ctx s.1) (counted tr) server msg n lastErr (w, c0)).2.1) := by
  intro n
  induction n with
  | zero =>
    intro lastErr w c0
    refine ⟨le_refl _, ?_, ?_, ?_, rfl⟩
    · intro k hk; omega
    · intro k hk; omega
    · intro h; omega
  | succ n ih =>
    intro lastErr w c0
    have shift : ∀ k, attemptsFail ctx tr server msg (k + 1) w →
        attemptsFail ctx tr server msg k (tr w server msg).2 := by
      intro k h i hi
      exact h (i + 1) (by omega)
    cases hc : ctx w with
    | some e0 =>
      have hrun : retryLoop (fun s => ctx s.1) (counted tr) server msg (n + 1) lastErr (w, c0)
          = ({ resp := none, rtt := 0, err := some e0 }, (w, c0)) := by
        simp only [retryLoop, hc]
      have hplain : retryLoop ctx tr server msg (n + 1) lastErr w
          = ({ resp := none, rtt := 0, err := some e0 }, w) := by
        simp only [retryLoop, hc]
      rw [hrun, hplain]
      refine ⟨by simp, ?_, ?_, ?_, rfl⟩
      · intro k hk hf hck hrk
        cases k with
        | zero => simp only [worldBefore] at hck; rw [hc] at hck; cases hck
        | succ k => have := (hf 0 (by omega)).1; simp only [worldBefore] at this
                    rw [hc] at this; cases this
      · intro k hk hf e hck
        cases k with
        | zero =>
          simp only [worldBefore] at hck
          rw [hc] at hck
          cases hck
          rfl
        | succ k => have := (hf 0 (by omega)).1; simp only [worldBefore] at this
                    rw [hc] at this; cases this
      · intro _ hf
        have := (hf 0 (by omega)).1
        simp only [worldBefore] at this
        rw [hc] at this
        cases this
    | none =>
      cases he : (tr w server msg).1.err with
      | none =>
        have hrun : retryLoop (fun s => ctx s.1) (counted tr) server msg (n + 1) lastErr (w, c0)
            = ({ resp := (tr w server msg).1.resp, rtt := (tr w server msg).1.rtt, err := none },
                ((tr w server msg).2, c0 + 1)) := by
          simp only [retryLoop, hc, counted, he]
        have hplain : retryLoop ctx tr server msg (n + 1) lastErr w
            = ({ resp := (tr w server msg).1.resp, rtt := (tr w server msg).1.rtt, err := none },
                (tr w server msg).2) := by
          simp only [retryLoop, hc, he]
        rw [hrun, hplain]
        refine ⟨by simp, ?_, ?_, ?_, rfl⟩
        · intro k hk hf hck hrk
          cases k with
          | zero => rfl
          | succ k =>
            have := (hf 0 (by omega)).2
            simp only [replyAt, worldBefore] at this
            exact absurd he this
        · intro k hk hf e hck
          cases k with
          | zero => simp only [worldBefore] at hck; rw [hc] at hck; cases hck
          | succ k =>
            have := (hf 0 (by omega)).2
            simp only [replyAt, worldBefore] at this
            exact absurd he this
        · intro _ hf
          have := (hf 0 (by omega)).2
          simp only [replyAt, worldBefore] at this
          exact absurd he this
      | some e1 =>
        have hrun : retryLoop (fun s => ctx s.1) (counted tr) server msg (n + 1) lastErr (w, c0)
            = retryLoop (fun s => ctx s.1) (counted tr) server msg n (some e1)
                ((tr w server msg).2, c0 + 1) := by
          simp only [retryLoop, hc, counted, he]
        have hplain : retryLoop ctx tr server msg (n + 1) lastErr w
            = retryLoop ctx tr server msg n (some e1) (tr w server msg).2 := by
          simp only [retryLoop, hc, he]
        obtain ⟨i1, i2, i3, i4, i5⟩ := ih (some e1) (tr w server msg).2 (c0 + 1)
        rw [hrun, hplain]
        refine ⟨by omega, ?_, ?_, ?_, i5⟩
        · intro k hk hf hck hrk
          cases k with
          | zero =>
            simp only [replyAt, worldBefore] at hrk
            rw [he] at hrk
            cases hrk
          | succ k =>
            have := i2 k (by omega) (shift k hf) hck hrk
            rw [this]
            simp only [worldBefore, replyAt]
            congr 2
            omega
        · intro k hk hf e hck
          cases k with
          | zero => simp only [worldBefore] at hck; rw [hc] at hck; cases hck
          | succ k =>
            have := i3 k (by omega) (shift k hf) e hck
            rw [this]
            simp only [worldBefore]
            congr 2
            omega
        · intro _ hf
          cases n with
          | zero =>
            simp only [retryLoop, replyAt, worldBefore, he]
          | succ m =>
            have := i4 (by omega) (shift (m + 1) hf)
            rw [this]
            simp only [worldBefore, replyAt, Nat.add_sub_cancel]
            congr 2
            omega

/-- C21: in auto mode, when the UDP exchange returns no error and a response with
the TC bit set, `Exchange` returns the response, rtt and error of the TCP exchange
made after it and reports "tcp"; otherwise it returns the result of the UDP
exchange, reports "udp", leaves the world as the UDP exchange left it, and does
not depend on the TCP transport. -/
theorem Exchange_auto_fallback {W : Type} (c : dnsclient.Client W) (ctx : W → Option GoError) (w : W)
    (server : String) (msg : Query) (hmode : c.opts.Mode = "auto") :
    (∀ m, (exchangeWithRetries c ctx c.udp w (NormalizeServer server) msg).1.err = none →
      (exchangeWithRetries c ctx c.udp w (NormalizeServer server) msg).1.resp = some m →
      m.Truncated = true →
      Exchange c ctx w server msg =
        ({ resp := (exchangeWithRetries c ctx c.tcp
              (exchangeWithRetries c ctx c.udp w (NormalizeServer server) msg).2
              (NormalizeServer server) msg).1.resp,
           rtt := (exchangeWithRetries c ctx c.tcp
              (exchangeWithRetries c ctx c.udp w (NormalizeServer server) msg).2
              (NormalizeServer server) msg).1.rtt,
           transport := "tcp",
           err := (exchangeWithRetries c ctx c.tcp
              (exchangeWithRetries c ctx c.udp w (NormalizeServer server) msg).2
              (NormalizeServer server) msg).1.err },
         (exchangeWithRetries c ctx c.tcp
            (exchangeWithRetries c ctx c.udp w (NormalizeServer server) msg).2
            (NormalizeServer server) msg).2)) ∧
    (¬ ((exchangeWithRetries c ctx c.udp w (NormalizeServer server) msg).1.err = none ∧
        ∃ m, (exchangeWithRetries c ctx c.udp w (NormalizeServer server) msg).1.resp = some m ∧
          m.Truncated = true) →
      Exchange c ctx w server msg =
        ({ resp := (exchangeWithRetries c ctx c.udp w (NormalizeServer server) msg).1.resp,
           rtt := (exchangeWithRetries c ctx c.udp w (NormalizeServer server) msg).1.rtt,
           transport := "udp",
           err := (exchangeWithRetries c ctx c.udp w (NormalizeServer server) msg).1.err },
         (exchangeWithRetries c ctx c.udp w (NormalizeServer server) msg).2) ∧
      ∀ tcp2, Exchange { c with tcp := tcp2 } ctx w server msg = Exchange c ctx w server msg) := by
  have hm1 : ¬ ModeAuto = ModeTCP := by decide
  have hm2 : ¬ ModeAuto = ModeUDP := by decide
  have hm3 : c.opts.Mode = ModeAuto := hmode
  constructor
  · intro m h1 h2 h3
    unfold Exchange
    simp only [hm1, hm2, hm3, if_false, if_true, h1, h2, h3, Option.isNone_none,
      Option.isSome_some, Bool.and_self]
  · intro hnot
    have hc : ∀ cl : dnsclient.Client W, cl.opts = c.opts → cl.udp = c.udp →
        Exchange cl ctx w server msg =
          ({ resp := (exchangeWithRetries c ctx c.udp w (NormalizeServer server) msg).1.resp,
             rtt := (exchangeWithRetries c ctx c.udp w (NormalizeServer server) msg).1.rtt,
             transport := "udp",
             err := (exchangeWithRetries c ctx c.udp w (NormalizeServer server) msg).1.err },
           (exchangeWithRetries c ctx c.udp w (NormalizeServer server) msg).2) := by
      intro cl ho hu
      have he : ∀ tr w2 s, exchangeWithRetries cl ctx tr w2 s msg
          = exchangeWithRetries c ctx tr w2 s msg := by
        intro tr w2 s
        unfold exchangeWithRetries
        rw [ho]
      unfold Exchange
      simp only [ho, hu, he, hm1, hm2, hm3, if_false, if_true]
      revert hnot
      generalize exchangeWithRetries c ctx c.udp w (NormalizeServer server) msg = x
      obtain ⟨⟨r, t, e⟩, w2⟩ := x
      intro hnot
      cases e with
      | some e => simp
      | none =>
        cases r with
        | none => simp
        | some m =>
          have : m.Truncated = false := by
            cases ht : m.Truncated
            · rfl
            · exact absurd ⟨rfl, m, rfl, ht⟩ hnot
          simp [this]
    refine ⟨hc c rfl rfl, ?_⟩
    intro tcp2
    rw [hc c rfl rfl, hc { c with tcp := tcp2 } rfl rfl]

/-- C21 on a server that truncates over UDP and answers over TCP: the answer of
the TCP transport comes back, reported as "tcp". -/
theorem Exchange_auto_fallback_witness :
    fallbackClient.opts.Mode = "auto" ∧
    (Exchange fallbackClient (fun _ => none) () "127.0.0.1:5353"
        (BuildQuery fallbackClient "example.com." TypeA)).1.transport = "tcp" ∧
    (Exchange fallbackClient (fun _ => none) () "127.0.0.1:5353"
        (BuildQuery fallbackClient "example.com." TypeA)).1.resp.map (fun m => m.Answer.length)
      = some 1 := by
  have h := (Exchange_auto_fallback fallbackClient (fun _ => none) () "127.0.0.1:5353"
    (BuildQuery fallbackClient "example.com." TypeA) rfl).1 truncatedMsg
    (by decide) (by decide) rfl
  refine ⟨rfl, ?_, ?_⟩
  · rw [h]
  · rw [h]
    decide

/-- C22: `exchangeWithRetries` with `Retries = n`, `n ≥ 1`, over a transport that
counts its calls: it makes at most `n` calls; the first attempt whose call returns
no error ends it after that call with the response and rtt of the call, whatever
the rcode; when all `n` attempts fail it returns the error of call `n - 1` after
exactly `n` calls; a context found cancelled before attempt `k` ends it with the
cancellation error after the `k` calls made so far; and counting changes nothing. -/
theorem exchangeWithRetries_retry_semantics {W : Type} (c : dnsclient.Client W) (n : Nat) (hn : 1 ≤ n)
    (hr : c.opts.Retries = (n : Int)) (ctx : W → Option GoError)
    (tr : W → String → Query → Reply × W) (w : W) (server : String) (msg : Query) :
    (exchangeWithRetries (countedClient c) (fun s => ctx s.1) (counted tr) (w, 0) server msg).2.2
      ≤ n ∧
    (∀ k, k < n → attemptsFail ctx tr server msg k w →
      ctx (worldBefore tr server msg k w) = none →
      (replyAt tr server msg k w).err = none →
      exchangeWithRetries (countedClient c) (fun s => ctx s.1) (counted tr) (w, 0) server msg
        = ({ resp := (replyAt tr server msg k w).resp, rtt := (replyAt tr server msg k w).rtt,
             err := none }, (worldBefore tr server msg (k + 1) w, k + 1))) ∧
    (attemptsFail ctx tr server msg n w →
      exchangeWithRetries (countedClient c) (fun s => ctx s.1) (counted tr) (w, 0) server msg
        = ({ resp := none, rtt := 0, err := (replyAt tr server msg (n - 1) w).err },
            (worldBefore tr server msg n w, n))) ∧
    (∀ k, k < n → attemptsFail ctx tr server msg k w →
      ∀ e, ctx (worldBefore tr server msg k w) = some e →
      exchangeWithRetries (countedClient c) (fun s => ctx s.1) (counted tr) (w, 0) server msg
        = ({ resp := none, rtt := 0, err := some e }, (worldBefore tr server msg k w, k))) ∧
    exchangeWithRetries c ctx tr w server msg
      = ((exchangeWithRetries (countedClient c) (fun s => ctx s.1) (counted tr) (w, 0)
            server msg).1,
         (exchangeWithRetries (countedClient c) (fun s => ctx s.1) (counted tr) (w, 0)
            server msg).2.1) := by
  have hto : c.opts.Retries.toNat = n := by rw [hr]; simp
  obtain ⟨h1, h2, h3, h4, h5⟩ := retryLoop_counted ctx tr server msg n none w 0
  unfold exchangeWithRetries
  simp only [countedClient, hto]
  refine ⟨by simpa using h1, ?_, ?_, ?_, h5⟩
  · intro k hk hf hc he
    simpa using h2 k hk hf hc he
  · intro hf
    simpa using h4 (by omega) hf
  · intro k hk hf e hc
    simpa using h3 k hk hf e hc

/-- C22 on a transport that times out twice and then answers SERVFAIL, with three
attempts: the SERVFAIL response comes back after three calls. -/
theorem exchangeWithRetries_retry_semantics_witness :
    (exchangeWithRetries (countedClient threeTries) (fun _ => none) (counted twiceFailing)
        (0, 0) "192.0.2.1:53" (BuildQuery threeTries "example.com." TypeA)).2.2 = 3 ∧
    (exchangeWithRetries (countedClient threeTries) (fun _ => none) (counted twiceFailing)
        (0, 0) "192.0.2.1:53" (BuildQuery threeTries "example.com." TypeA)).1.resp.map
      (fun m => m.Rcode) = some RcodeServerFailure := by
  have h := (exchangeWithRetries_retry_semantics threeTries 3 (by decide) rfl (fun _ => none)
    twiceFailing 0 "192.0.2.1:53" (BuildQuery threeTries "example.com." TypeA)).2.1 2
    (by decide)
    (fun i hi => by
      have : i = 0 ∨ i = 1 := by omega
      rcases this with rfl | rfl
      · exact ⟨rfl, by decide⟩
      · exact ⟨rfl, by decide⟩)
    rfl (by decide)
  rw [h]
  exact ⟨rfl, by decide⟩

/-! ## The ladder: every resolver is queried; the referral note -/

/-- The step and the timing of the ladder carry the index and the resolver they
are built for. -/
theorem ladderStep_server (i : Int) (resolver fqdn : String) (qtype : Nat)
    (resp : Option Msg) (rtt : Int) (transport : String) (err : Option GoError) :
    (ladder.ladderStep i resolver fqdn qtype resp rtt transport err).1.Server = resolver ∧
    (ladder.ladderStep i resolver fqdn qtype resp rtt transport err).2.Server = resolver := by
  unfold ladder.ladderStep
  cases err <;> cases resp <;> exact ⟨rfl, rfl⟩

/-- The resolver loop appends one step and one timing per resolver, for the
normalized resolver, queries the normalized resolvers in order, and is not changed
by logging. -/
theorem resolverLoop_steps {W : Type} (exchange : W → String → String → Nat → Exchanged × W)
    (fqdn : String) (qtype : Nat) :
    ∀ (resolvers : List String) (i : Nat) (result : TraceResult) (w : W) (log : List String),
      (ladder.resolverLoop exchange fqdn qtype resolvers i result w).1.TraceSteps.map
          (fun s => s.Server)
        = result.TraceSteps.map (fun s => s.Server) ++ resolvers.map NormalizeServer ∧
      (ladder.resolverLoop exchange fqdn qtype resolvers i result w).1.Timings.map
          (fun s => s.Server)
        = result.Timings.map (fun s => s.Server) ++ resolvers.map NormalizeServer ∧
      (ladder.resolverLoop (logged exchange) fqdn qtype resolvers i result (w, log)).2.2
        = log ++ resolvers.map NormalizeServer ∧
      (ladder.resolverLoop (logged exchange) fqdn qtype resolvers i result (w, log)).1
        = (ladder.resolverLoop exchange fqdn qtype resolvers i result w).1 := by
  intro resolvers
  induction resolvers with
  | nil => intro i result w log; simp [ladder.resolverLoop]
  | cons r rest ih =>
    intro i result w log
    unfold ladder.resolverLoop
    simp only []
    obtain ⟨h1, h2, h3, h4⟩ := ih (i + 1)
      { result with
        TraceSteps := result.TraceSteps ++
          [(ladder.ladderStep (i : Int) (NormalizeServer r) fqdn qtype
            (exchange w (NormalizeServer r) (Fqdn fqdn) qtype).1.resp
            (exchange w (NormalizeServer r) (Fqdn fqdn) qtype).1.rtt
            (exchange w (NormalizeServer r) (Fqdn fqdn) qtype).1.transport
            (exchange w (NormalizeServer r) (Fqdn fqdn) qtype).1.err).1]
        Timings := result.Timings ++
          [(ladder.ladderStep (i : Int) (NormalizeServer r) fqdn qtype
            (exchange w (NormalizeServer r) (Fqdn fqdn) qtype).1.resp
            (exchange w (NormalizeServer r) (Fqdn fqdn) qtype).1.rtt
            (exchange w (NormalizeServer r) (Fqdn fqdn) qtype).1.transport
            (exchange w (NormalizeServer r) (Fqdn fqdn) qtype).1.err).2] }
      (exchange w (NormalizeServer r) (Fqdn fqdn) qtype).2 (log ++ [NormalizeServer r])
    refine ⟨?_, ?_, ?_, ?_⟩
    · rw [h1]
      simp [(ladderStep_server _ _ _ _ _ _ _ _).1]
    · rw [h2]
      simp [(ladderStep_server _ _ _ _ _ _ _ _).2]
    · simp only [logged]
      rw [h3]
      simp
    · simp only [logged]
      rw [h4]

/-- C25: for a non-empty resolver list and a valid rrtype `ladder.Trace` returns a
result with one step and one timing per resolver, step `i` for the normalized
resolver `i`; and the servers it queries are the normalized resolvers, all of them
and in order, whatever they answer. -/
theorem ladder_queries_every_resolver {W : Type} (exchange : W → String → String → Nat → Exchanged × W)
    (w : W) (resolvers : List String) (fqdn rrtype : String) (qtype : Nat)
    (hne : resolvers ≠ []) (hq : StringToType (ToUpper rrtype) = some qtype) :
    (∃ res, ladder.Trace exchange w resolvers fqdn rrtype = .ok res ∧
      res.TraceSteps.length = resolvers.length ∧
      res.Timings.length = resolvers.length ∧
      (∀ (i : Nat) r, resolvers[i]? = some r →
        ∃ s, res.TraceSteps[i]? = some s ∧ s.Server = NormalizeServer r) ∧
      ladder.Trace (logged exchange) (w, []) resolvers fqdn rrtype = .ok res) ∧
    (ladder.resolverLoop (logged exchange) fqdn qtype resolvers 0 TraceResult.zero (w, [])).2.2
      = resolvers.map NormalizeServer := by
  obtain ⟨h1, h2, h3, h4⟩ :=
    resolverLoop_steps exchange fqdn qtype resolvers 0 TraceResult.zero w []
  have hl : ¬ (resolvers.length == 0) = true := by
    simp [hne]
  have hs : ((ladder.resolverLoop exchange fqdn qtype resolvers 0 TraceResult.zero w).1.TraceSteps.map
      (fun s => s.Server)) = resolvers.map NormalizeServer := by
    rw [h1]; simp [TraceResult.zero]
  have ht : ((ladder.resolverLoop exchange fqdn qtype resolvers 0 TraceResult.zero w).1.Timings.map
      (fun s => s.Server)) = resolvers.map NormalizeServer := by
    rw [h2]; simp [TraceResult.zero]
  refine ⟨⟨_, by unfold ladder.Trace; simp only [hq]; rw [if_neg hl], ?_, ?_, ?_, ?_⟩, ?_⟩
  · simpa using congrArg List.length hs
  · simpa using congrArg List.length ht
  · intro i r hi
    have := congrArg (fun l => l[i]?) hs
    simp only [List.getElem?_map, hi, Option.map_some'] at this
    cases hsi : (ladder.resolverLoop exchange fqdn qtype resolvers 0 TraceResult.zero w).1.TraceSteps[i]? with
    | none => rw [hsi] at this; cases this
    | some s =>
      rw [hsi] at this
      simp only [Option.map_some', Option.some.injEq] at this
      exact ⟨s, rfl, this⟩
  · unfold ladder.Trace
    simp only [hq]
    rw [if_neg hl, h4]
  · rw [h3]; simp

/-- C25 on the two resolvers of `TestLadderTraceUsesResolversInOrder`, the first of
which answers NXDOMAIN authoritatively. -/
theorem ladder_queries_every_resolver_witness :
    ∃ res, ladder.Trace
        (pureNet (fun server _ _ =>
          if server = "1.1.1.1:53" then
            { resp := some nxdomainMsg, rtt := 10000000, transport := "udp", err := none }
          else failedExchange "timeout"))
        () ["1.1.1.1", "8.8.8.8"] "example.com" "A" = .ok res ∧
      res.TraceSteps.length = 2 ∧ res.Timings.length = 2 := by
  obtain ⟨⟨res, h1, h2, h3, _⟩, _⟩ := ladder_queries_every_resolver
    (pureNet (fun server _ _ =>
      if server = "1.1.1.1:53" then
        { resp := some nxdomainMsg, rtt := 10000000, transport := "udp", err := none }
      else failedExchange "timeout"))
    () ["1.1.1.1", "8.8.8.8"] "example.com" "A" TypeA (by decide) (by decide)
  exact ⟨res, h1, h2, h3⟩

/-- C26, the code at the failing input: a response without exchange error that is
NOERROR, has no Answer and has only an SOA record in Authority, so no NS record,
gets the referral note. -/
theorem ladder_referral_note_soa_only :
    soaOnlyMsg.Rcode = RcodeSuccess ∧ soaOnlyMsg.Answer = [] ∧
    (∀ rr ∈ soaOnlyMsg.Ns, isNS rr = false) ∧
    ladder.nsStrings soaOnlyMsg.Ns = [] ∧
    (ladder.ladderStep 0 "1.1.1.1:53" "example.com" TypeA (some soaOnlyMsg) 5000000 "udp"
      none).1.Note = "referral (expected at delegation level)" := by
  refine ⟨rfl, rfl, by decide, by decide, by decide⟩

/-- What the ladder notes on a response received without exchange error: the
referral note exactly when the response is NOERROR with an empty Answer and a
non-empty Authority, whatever the records of Authority are. -/
theorem ladderStep_note (i : Int) (resolver fqdn : String) (qtype : Nat) (m : Msg) (rtt : Int)
    (transport : String) :
    (ladder.ladderStep i resolver fqdn qtype (some m) rtt transport none).1.Note
      = (if m.Rcode = RcodeSuccess ∧ m.Answer = [] ∧ m.Ns ≠ [] then
          "referral (expected at delegation level)" else "") := by
  unfold ladder.ladderStep ladder.isReferral
  simp only []
  by_cases h1 : m.Rcode = RcodeSuccess <;> by_cases h2 : m.Answer = [] <;>
    by_cases h3 : m.Ns = [] <;> simp [h1, h2, h3, List.length_pos]

/-! ## Configuration errors -/

/-- A client whose mode is none of udp, tcp, auto answers every exchange with the
error for the mode, without a call of a transport. -/
theorem Exchange_unsupported {W : Type} (c : Client W) (ctx : W → Option GoError) (w : W)
    (server : String) (msg : Query)
    (h1 : c.opts.Mode ≠ "udp") (h2 : c.opts.Mode ≠ "tcp") (h3 : c.opts.Mode ≠ "auto") :
    Exchange c ctx w server msg =
      ({ resp := none, rtt := 0, transport := "",
         err := some ⟨"unsupported transport mode: " ++ c.opts.Mode, false⟩ }, w) := by
  unfold Exchange
  have a1 : ¬ c.opts.Mode = ModeUDP := h1
  have a2 : ¬ c.opts.Mode = ModeTCP := h2
  have a3 : ¬ c.opts.Mode = ModeAuto := h3
  simp only [a1, a2, a3, if_false]

/-- When every exchange fails, every response of the fan-out carries an error. -/
theorem exchangeAll_failed {W : Type} (t : Tracer W) (name : String) (qtype : Nat)
    (hfail : ∀ w server qname q, (t.exchange w server qname q).1.err ≠ none) :
    ∀ (servers : List String) (w : W), ∀ r ∈ (exchangeAll t name qtype servers w).1,
      r.err ≠ none := by
  intro servers
  induction servers with
  | nil => intro w r hr; simp [exchangeAll] at hr
  | cons s rest ih =>
    intro w r hr
    unfold exchangeAll at hr
    simp only [List.mem_cons] at hr
    rcases hr with hr | hr
    · rw [hr]
      exact hfail w s (Fqdn name) qtype
    · exact ih _ r hr

/-- The recording loop keeps the errors of the responses. -/
theorem recordResponses_err (name : String) (qtype : Nat) (labels : List (String × String)) :
    ∀ (rs : List response) (result : TraceResult),
      (∀ r ∈ rs, r.err ≠ none) →
      ∀ r ∈ (recordResponses name qtype labels rs result).1, r.err ≠ none := by
  intro rs
  induction rs with
  | nil => intro result _ r hr; simp [recordResponses] at hr
  | cons x rest ih =>
    intro result h r hr
    unfold recordResponses at hr
    simp only [List.mem_cons] at hr
    rcases hr with hr | hr
    · rw [hr]
      exact h x (List.mem_cons_self _ _)
    · exact ih _ (fun y hy => h y (List.mem_cons_of_mem _ hy)) r hr

/-- A hop at which no response is chosen returns SERVFAIL_TIMEOUT. -/
theorem hopStep_no_choice {W : Type} (t : Tracer W) (qtype : Nat) (st : HopState W)
    (hc : chosen t qtype st = none) :
    ∃ res, hopStep t qtype st = .done res ∧
      res.Diagnosis.Classification = "SERVFAIL_TIMEOUT" ∧
      res.Diagnosis.Summary = "no reachable nameservers for delegation" := by
  unfold chosen at hc
  unfold hopStep
  simp only [hc]
  exact ⟨_, rfl, rfl, rfl⟩

/-- When every exchange fails no response is chosen at any hop. -/
theorem chosen_none_of_failed {W : Type} (t : Tracer W) (qtype : Nat) (st : HopState W)
    (hfail : ∀ w server qname q, (t.exchange w server qname q).1.err ≠ none) :
    chosen t qtype st = none := by
  unfold chosen
  rw [(selectBest_valid_least _ qtype).1]
  intro r hr hv
  have hall := exchangeAll_failed t st.name qtype hfail st.servers st.world
  unfold queryServers at hr
  cases hverb : t.config.Verbose
  · rw [hverb] at hr
    simp only [Bool.not_false, if_true] at hr
    exact hall r hr hv.1
  · rw [hverb] at hr
    simp only [Bool.not_true, Bool.false_eq_true, if_false] at hr
    exact recordResponses_err _ _ _ _ _ hall r hr hv.1

/-- The ladder records the error of a failed exchange in the step. -/
theorem resolverLoop_errors {W : Type} (exchange : W → String → String → Nat → Exchanged × W)
    (fqdn : String) (qtype : Nat) (e : GoError)
    (hfail : ∀ w server qname q, (exchange w server qname q).1.err = some e) :
    ∀ (resolvers : List String) (i : Nat) (result : TraceResult) (w : W),
      (∀ s ∈ result.TraceSteps, s.Error = e.msg) →
      ∀ s ∈ (ladder.resolverLoop exchange fqdn qtype resolvers i result w).1.TraceSteps,
        s.Error = e.msg := by
  intro resolvers
  induction resolvers with
  | nil => intro i result w h; exact h
  | cons r rest ih =>
    intro i result w h
    unfold ladder.resolverLoop
    simp only []
    apply ih
    intro s hs
    simp only [List.mem_append, List.mem_singleton] at hs
    rcases hs with hs | hs
    · exact h s hs
    · rw [hs]
      unfold ladder.ladderStep
      rw [hfail]

/-- C27, against the claim: a tracer given a client whose transport mode is "quic"
returns, for a valid rrtype, a result classified SERVFAIL_TIMEOUT and not an
error; so does the ladder, with the error of the mode in its step. -/
theorem unsupported_mode_counterexample :
    quicClient.opts.Mode = "quic" ∧
    (Trace quicTracer () "example.com" "A").toOption.map
      (fun res => (res.Diagnosis.Classification, res.Diagnosis.Summary))
      = some ("SERVFAIL_TIMEOUT", "no reachable nameservers for delegation") ∧
    (ladder.Trace (exchangeFor quicClient (fun _ => none) true) () ["1.1.1.1"] "example.com"
        "A").toOption.map
      (fun res => (res.Diagnosis.Classification, res.TraceSteps.map (fun s => s.Error)))
      = some ("SERVFAIL_TIMEOUT", ["unsupported transport mode: quic"]) := by
  refine ⟨rfl, ?_, ?_⟩
  · decide
  · decide

/-- C27: `Tracer.Trace` and `ladder.Trace` return an error, and so no diagnosis,
for an unknown rrtype, and `ladder.Trace` for an empty resolver list; a client whose
transport mode is none of udp, tcp, auto returns the error "unsupported
transport mode" from every `Exchange`, with no call of a transport, and the engines
record it like any failed exchange: with a valid rrtype the tracer returns a result
classified SERVFAIL_TIMEOUT and the ladder a result whose steps carry the error. -/
theorem configuration_errors {W : Type} (t : Tracer W) (w : W) (fqdn rrtype : String)
    (exchange : W → String → String → Nat → Exchanged × W) (resolvers : List String) :
    (StringToType (ToUpper rrtype) = none →
      Trace t w fqdn rrtype = .error ("unsupported rrtype: " ++ rrtype) ∧
      ladder.Trace exchange w resolvers fqdn rrtype
        = .error ("unsupported rrtype: " ++ rrtype)) ∧
    (StringToType (ToUpper rrtype) ≠ none →
      ladder.Trace exchange w [] fqdn rrtype = .error "no resolvers configured") ∧
    (∀ (c : Client W) (ctx : W → Option GoError),
      c.opts.Mode ≠ "udp" → c.opts.Mode ≠ "tcp" → c.opts.Mode ≠ "auto" →
      (∀ w2 server msg, Exchange c ctx w2 server msg =
        ({ resp := none, rtt := 0, transport := "",
           err := some ⟨"unsupported transport mode: " ++ c.opts.Mode, false⟩ }, w2)) ∧
      (StringToType (ToUpper rrtype) ≠ none → t.exchange = exchangeFor c ctx false →
        ∃ res, Trace t w fqdn rrtype = .ok res ∧
          res.Diagnosis.Classification = "SERVFAIL_TIMEOUT") ∧
      (StringToType (ToUpper rrtype) ≠ none → resolvers ≠ [] →
        ∃ res, ladder.Trace (exchangeFor c ctx true) w resolvers fqdn rrtype = .ok res ∧
          ∀ s ∈ res.TraceSteps, s.Error = "unsupported transport mode: " ++ c.opts.Mode)) := by
  refine ⟨?_, ?_, ?_⟩
  · intro hq
    unfold Trace ladder.Trace
    simp only [hq]
    exact ⟨trivial, trivial⟩
  · intro hq
    obtain ⟨qtype, hq⟩ := Option.ne_none_iff_exists'.mp hq
    unfold ladder.Trace
    simp only [hq]
    rfl
  · intro c ctx h1 h2 h3
    have hex := Exchange_unsupported c ctx
    refine ⟨fun w2 server msg => hex w2 server msg h1 h2 h3, ?_, ?_⟩
    · intro hq ht
      obtain ⟨qtype, hq⟩ := Option.ne_none_iff_exists'.mp hq
      have hfail : ∀ w2 server qname q, (t.exchange w2 server qname q).1.err ≠ none := by
        intro w2 server qname q
        rw [ht]
        unfold exchangeFor
        rw [hex w2 server _ h1 h2 h3]
        simp
      unfold Trace
      simp only [hq]
      refine ⟨_, rfl, ?_⟩
      cases hn : t.config.MaxHops.toNat with
      | zero => rfl
      | succ n =>
        obtain ⟨res, hs, hcl, _⟩ := hopStep_no_choice t qtype (initialState t w fqdn)
          (chosen_none_of_failed t qtype _ hfail)
        rw [traceLoop_done t qtype _ res hs n]
        exact hcl
    · intro hq hne
      obtain ⟨qtype, hq⟩ := Option.ne_none_iff_exists'.mp hq
      have hl : ¬ (resolvers.length == 0) = true := by simp [hne]
      unfold ladder.Trace
      simp only [hq]
      rw [if_neg hl]
      refine ⟨_, rfl, ?_⟩
      exact resolverLoop_errors (exchangeFor c ctx true) fqdn qtype
        ⟨"unsupported transport mode: " ++ c.opts.Mode, false⟩
        (fun w2 server qname q => by
          unfold exchangeFor
          rw [hex w2 server _ h1 h2 h3])
        resolvers 0 TraceResult.zero w (fun s hs => by simp [TraceResult.zero] at hs)

/-- C27 on the client whose mode is "quic". -/
theorem configuration_errors_witness :
    quicClient.opts.Mode ≠ "udp" ∧ quicClient.opts.Mode ≠ "tcp" ∧
    quicClient.opts.Mode ≠ "auto" ∧
    Exchange quicClient (fun _ => none) () "192.0.2.1:53"
        (BuildQuery quicClient "example.com" TypeA) =
      ({ resp := none, rtt := 0, transport := "",
         err := some ⟨"unsupported transport mode: quic", false⟩ }, ()) :=
  ⟨by decide, by decide, by decide,
    ((configuration_errors quicTracer () "example.com" "A"
      (exchangeFor quicClient (fun _ => none) true) ["1.1.1.1"]).2.2 quicClient (fun _ => none)
      (by decide) (by decide) (by decide)).1 () "192.0.2.1:53"
      (BuildQuery quicClient "example.com" TypeA)⟩

/-! ## One step per hop in non-verbose mode -/

/-- In non-verbose mode the steps and the timings of the result of the hop loop are
as many as the hops it executes, less one when it stops at a hop without a chosen
response. -/
theorem traceLoop_nonverbose_count {W : Type} (t : Tracer W) (qtype : Nat)
    (hv : t.config.Verbose = false) :
    ∀ (n : Nat) (st : HopState W),
      (traceLoop t qtype n st).TraceSteps.length
          + (if stopsUnreachable t qtype n st then 1 else 0)
        = st.result.TraceSteps.length + hopsExecuted t qtype n st ∧
      (traceLoop t qtype n st).Timings.length
          + (if stopsUnreachable t qtype n st then 1 else 0)
        = st.result.Timings.length + hopsExecuted t qtype n st := by
  intro n
  induction n with
  | zero =>
    intro st
    simp [traceLoop, stopsUnreachable, hopsExecuted, finish]
  | succ n ih =>
    intro st
    rcases hopStep_nonverbose_steps t qtype st hv with
      ⟨hc, res, h1, h2, h3⟩ | ⟨b, s0, hb, h1, h2, _⟩
    · rw [traceLoop_done t qtype st res h1 n]
      simp only [stopsUnreachable, hc, hopsExecuted, h1, h2, h3, if_true]
      exact ⟨trivial, trivial⟩
    · cases hs : hopStep t qtype st with
      | done res =>
        rw [hs] at h1 h2
        simp only [outcomeResult] at h1 h2
        rw [traceLoop_done t qtype st res hs n]
        simp only [stopsUnreachable, hb, hopsExecuted, hs, h1, h2, List.length_append,
          List.length_singleton]
        simp
      | next st2 =>
        rw [hs] at h1 h2
        simp only [outcomeResult] at h1 h2
        have htl : traceLoop t qtype (n + 1) st = traceLoop t qtype n st2 := by
          simp [traceLoop, hs]
        obtain ⟨i1, i2⟩ := ih st2
        rw [htl]
        simp only [stopsUnreachable, hb, hopsExecuted, hs]
        rw [i1, i2, h1, h2]
        simp only [List.length_append, List.length_singleton]
        constructor <;> omega

set_option maxRecDepth 100000 in
/-- C30, against the claim: in non-verbose mode, with two root servers that time
out, the one hop that is executed appends no step and no timing. -/
theorem unreachable_hop_no_step_counterexample :
    unreachableTracer.config.Verbose = false ∧
    hopsExecuted unreachableTracer TypeA unreachableTracer.config.MaxHops.toNat
      (initialState unreachableTracer () "www.example.com") = 1 ∧
    (Trace unreachableTracer () "www.example.com" "A").toOption.map
      (fun res => (res.TraceSteps.length, res.Timings.length)) = some (0, 0) := by
  refine ⟨rfl, ?_, ?_⟩
  · decide
  · decide

/-- C30: in non-verbose mode a hop at which `selectBest` chooses a response appends
exactly one step and one timing, those of the chosen response, and a hop at which
it chooses none ends the trace and appends nothing; so the steps, and the timings,
of the result are as many as the hops executed, less one when the trace stops at
a hop without a chosen response. -/
theorem nonverbose_one_step_per_hop {W : Type} (t : Tracer W) (hv : t.config.Verbose = false) :
    (∀ qtype (st : HopState W),
      (chosen t qtype st = none ∧ ∃ res, hopStep t qtype st = .done res ∧
        res.TraceSteps = st.result.TraceSteps ∧ res.Timings = st.result.Timings) ∨
      (∃ b s, chosen t qtype st = some b ∧
        (outcomeResult (hopStep t qtype st)).TraceSteps = st.result.TraceSteps ++ [s] ∧
        (outcomeResult (hopStep t qtype st)).Timings
          = st.result.Timings ++ [buildTiming (st.result.TraceSteps.length : Int) b] ∧
        s.Index = (st.result.TraceSteps.length : Int) ∧ s.QueryName = st.name ∧
        s.Server = b.server)) ∧
    (∀ w fqdn rrtype qtype res, StringToType (ToUpper rrtype) = some qtype →
      Trace t w fqdn rrtype = .ok res →
      res.TraceSteps.length
          + (if stopsUnreachable t qtype t.config.MaxHops.toNat (initialState t w fqdn)
              then 1 else 0)
        = hopsExecuted t qtype t.config.MaxHops.toNat (initialState t w fqdn) ∧
      res.Timings.length
          + (if stopsUnreachable t qtype t.config.MaxHops.toNat (initialState t w fqdn)
              then 1 else 0)
        = hopsExecuted t qtype t.config.MaxHops.toNat (initialState t w fqdn)) := by
  refine ⟨fun qtype st => hopStep_nonverbose_steps t qtype st hv, ?_⟩
  intro w fqdn rrtype qtype res hq hres
  unfold Trace at hres
  rw [hq] at hres
  simp only [Except.ok.injEq] at hres
  subst hres
  obtain ⟨h1, h2⟩ := traceLoop_nonverbose_count t qtype hv t.config.MaxHops.toNat
    (initialState t w fqdn)
  constructor
  · rw [h1]; simp [initialState, TraceResult.zero]
  · rw [h2]; simp [initialState, TraceResult.zero]

set_option maxRecDepth 100000 in
/-- C30 on the three-hop test: three hops, three steps, three timings. -/
theorem nonverbose_one_step_per_hop_witness :
    threeHopTracer.config.Verbose = false ∧
    hopsExecuted threeHopTracer TypeA threeHopTracer.config.MaxHops.toNat
      (initialState threeHopTracer () "api.example.com") = 3 ∧
    ∃ res, Trace threeHopTracer () "api.example.com" "A" = .ok res ∧
      res.TraceSteps.length = 3 ∧ res.Timings.length = 3 := by
  have h := (nonverbose_one_step_per_hop threeHopTracer rfl).2 () "api.example.com" "A" TypeA
    _ rfl rfl
  have hn : hopsExecuted threeHopTracer TypeA threeHopTracer.config.MaxHops.toNat
      (initialState threeHopTracer () "api.example.com") = 3 := by decide
  have hu : stopsUnreachable threeHopTracer TypeA threeHopTracer.config.MaxHops.toNat
      (initialState threeHopTracer () "api.example.com") = false := by decide
  rw [hn, hu] at h
  exact ⟨rfl, hn, _, rfl, by simpa using h.1, by simpa using h.2⟩

/-! ## Server normalization -/

/-- The first position of a character is none exactly when the character is absent. -/
theorem IndexByte_none_iff (c : Char) : ∀ l : List Char, IndexByte l c = none ↔ c ∉ l := by
  intro l
  induction l with
  | nil => simp [IndexByte]
  | cons x xs ih =>
    unfold IndexByte
    by_cases h : x = c
    · simp [h]
    · simp only [h, if_false, Option.map_eq_none', ih, List.mem_cons]
      constructor
      · rintro h2 (h3 | h3)
        · exact h h3.symm
        · exact h2 h3
      · intro h2 h3
        exact h2 (Or.inr h3)

/-- The first position of a character that stands after a prefix without it. -/
theorem IndexByte_append (c : Char) (b : List Char) :
    ∀ a : List Char, c ∉ a → IndexByte (a ++ c :: b) c = some a.length := by
  intro a
  induction a with
  | nil => intro _; simp [IndexByte]
  | cons x xs ih =>
    intro h
    simp only [List.mem_cons, not_or] at h
    have hx : ¬ x = c := fun e => h.1 e.symm
    show IndexByte (x :: (xs ++ c :: b)) c = some (xs.length + 1)
    simp only [IndexByte, hx, if_false, ih h.2, Option.map_some']

/-- The last position of a character is none exactly when the character is absent. -/
theorem LastIndexByte_none_iff (c : Char) :
    ∀ l : List Char, LastIndexByte l c = none ↔ c ∉ l := by
  intro l
  induction l with
  | nil => simp [LastIndexByte]
  | cons x xs ih =>
    unfold LastIndexByte
    cases hl : LastIndexByte xs c with
    | some i =>
      have : c ∈ xs := by
        by_contra hc
        rw [ih.mpr hc] at hl
        cases hl
      simp [this]
    | none =>
      have hc : c ∉ xs := ih.mp hl
      by_cases h : x = c
      · simp [h]
      · simp only [h, if_false, List.mem_cons, not_or, true_iff]
        exact ⟨fun e => h e.symm, hc⟩

/-- The last position of a character that stands before a suffix without it. -/
theorem LastIndexByte_append (c : Char) (b : List Char) (hb : c ∉ b) :
    ∀ a : List Char, LastIndexByte (a ++ c :: b) c = some a.length := by
  intro a
  induction a with
  | nil =>
    simp only [List.nil_append, LastIndexByte, (LastIndexByte_none_iff c b).mpr hb, if_true,
      List.length_nil]
  | cons x xs ih =>
    show LastIndexByte (x :: (xs ++ c :: b)) c = some (xs.length + 1)
    simp only [LastIndexByte, ih]

/-- A list in which the character occurs splits at its last occurrence. -/
theorem exists_last_occurrence (c : Char) :
    ∀ l : List Char, c ∈ l → ∃ a b, l = a ++ c :: b ∧ c ∉ b := by
  intro l
  induction l with
  | nil => intro h; cases h
  | cons x xs ih =>
    intro h
    by_cases hxs : c ∈ xs
    · obtain ⟨a, b, hab, hb⟩ := ih hxs
      exact ⟨x :: a, b, by rw [hab]; rfl, hb⟩
    · have hx : c = x := by
        rcases List.mem_cons.mp h with h | h
        · exact h
        · exact absurd h hxs
      exact ⟨[], xs, by rw [hx]; rfl, hxs⟩

/-- The block test of `strings.Contains` as an infix. -/
theorem containsChars_iff (sub : List Char) :
    ∀ l : List Char, containsChars l sub = true ↔ sub <:+: l := by
  intro l
  induction l with
  | nil =>
    unfold containsChars
    rw [List.isPrefixOf_iff_prefix]
    simp [List.infix_nil]
  | cons c cs ih =>
    unfold containsChars
    rw [Bool.or_eq_true, List.isPrefixOf_iff_prefix, ih, List.infix_cons_iff]

/-- A string contains a one-character string exactly when it has the character. -/
theorem Contains_single (s : String) (c : Char) :
    Contains s ⟨[c]⟩ = true ↔ c ∈ s.data := by
  unfold Contains
  rw [containsChars_iff]
  constructor
  · rintro ⟨a, b, h⟩
    rw [← h]
    simp
  · intro h
    obtain ⟨a, b, hab⟩ := List.append_of_mem h
    exact ⟨a, b, by rw [hab]; simp⟩

/-- A string starts with `[` exactly when that is its first character. -/
theorem HasPrefix_bracket (s : String) :
    HasPrefix s "[" = true ↔ s.data.head? = some '[' := by
  unfold HasPrefix
  rw [List.isPrefixOf_iff_prefix]
  cases hs : s.data with
  | nil => simp [show ("[" : String).data = ['['] from rfl]
  | cons x xs =>
    simp only [show ("[" : String).data = ['['] from rfl, List.head?_cons, Option.some.injEq]
    constructor
    · rintro ⟨t, ht⟩
      simp only [List.singleton_append, List.cons.injEq] at ht
      exact ht.1.symm
    · intro h
      exact ⟨xs, by rw [h]; rfl⟩

/-- A host and a port, neither with a colon or a bracket, joined by a colon, split
into that host and that port. -/
theorem SplitHostPort_host_port (a p : String)
    (ha : ':' ∉ a.data ∧ '[' ∉ a.data ∧ ']' ∉ a.data)
    (hp : ':' ∉ p.data ∧ '[' ∉ p.data ∧ ']' ∉ p.data) :
    net.SplitHostPort (a ++ ":" ++ p) = .ok (a, p) := by
  have hd : (a ++ ":" ++ p).data = a.data ++ ':' :: p.data := by
    simp [String.data_append]
  have hhead : ¬ (a.data ++ ':' :: p.data).head? = some '[' := by
    cases h : a.data with
    | nil => simp
    | cons x xs =>
      simp only [List.cons_append, List.head?_cons, Option.some.injEq]
      intro hx
      exact ha.2.1 (by rw [h, hx]; exact List.mem_cons_self _ _)
  have hno1 : '[' ∉ a.data ++ ':' :: p.data := by
    simp only [List.mem_append, List.mem_cons, not_or]
    exact ⟨ha.2.1, by decide, hp.2.1⟩
  have hno2 : ']' ∉ a.data ++ ':' :: p.data := by
    simp only [List.mem_append, List.mem_cons, not_or]
    exact ⟨ha.2.2, by decide, hp.2.2⟩
  unfold net.SplitHostPort
  rw [hd, LastIndexByte_append ':' p.data hp.1 a.data]
  simp only [hhead, if_false, List.take_left', (IndexByte_none_iff ':' a.data).mpr ha.1,
    Option.isSome_none, Bool.false_eq_true]
  unfold net.checkBrackets
  simp only [List.drop_zero, (IndexByte_none_iff '[' _).mpr hno1,
    (IndexByte_none_iff ']' _).mpr hno2, Option.isSome_none, Bool.false_eq_true, if_false]
  congr 2
  have : List.drop (a.data.length + 1) (a.data ++ ':' :: p.data) = p.data := by
    rw [List.drop_append_eq_append_drop]
    simp
  rw [this]

/-- A string without a colon does not split. -/
theorem SplitHostPort_no_colon (x : String) (h : ':' ∉ x.data) :
    ∃ e, net.SplitHostPort x = .error e := by
  unfold net.SplitHostPort
  rw [(LastIndexByte_none_iff ':' x.data).mpr h]
  exact ⟨_, rfl⟩

/-- A string without brackets and with two colons or more does not split. -/
theorem SplitHostPort_many_colons (x : String) (hb : '[' ∉ x.data)
    (hc : 2 ≤ x.data.count ':') : ∃ e, net.SplitHostPort x = .error e := by
  have hmem : ':' ∈ x.data := List.count_pos_iff.mp (by omega)
  obtain ⟨a, b, hab, hnb⟩ := exists_last_occurrence ':' x.data hmem
  have hca : ':' ∈ a := by
    rw [hab] at hc
    simp only [List.count_append, List.count_cons_self, List.count_eq_zero_of_not_mem hnb] at hc
    exact List.count_pos_iff.mp (by omega)
  have hhead : ¬ x.data.head? = some '[' := by
    intro hh
    cases hx : x.data with
    | nil => rw [hx] at hh; cases hh
    | cons y ys =>
      rw [hx] at hh
      simp only [List.head?_cons, Option.some.injEq] at hh
      exact hb (by rw [hx, hh]; exact List.mem_cons_self _ _)
  have hidx : (IndexByte a ':').isSome = true := by
    cases hi : IndexByte a ':' with
    | none => exact absurd hca ((IndexByte_none_iff ':' a).mp hi)
    | some i => rfl
  unfold net.SplitHostPort
  simp only [hhead, if_false]
  rw [hab, LastIndexByte_append ':' b hnb a]
  simp only [List.take_left', hidx, if_true]
  exact ⟨_, rfl⟩

/-- An address in brackets followed by a colon and a port, the port without colon
or bracket and the address without bracket, splits into that address and port. -/
theorem SplitHostPort_bracketed (x p : String)
    (hx : '[' ∉ x.data ∧ ']' ∉ x.data)
    (hp : ':' ∉ p.data ∧ '[' ∉ p.data ∧ ']' ∉ p.data) :
    net.SplitHostPort ("[" ++ x ++ "]:" ++ p) = .ok (x, p) := by
  have hd : ("[" ++ x ++ "]:" ++ p).data = '[' :: (x.data ++ ']' :: ':' :: p.data) := by
    simp [String.data_append]
  have hlast : LastIndexByte ('[' :: (x.data ++ ']' :: ':' :: p.data)) ':'
      = some (x.data.length + 2) := by
    have := LastIndexByte_append ':' p.data hp.1 ('[' :: (x.data ++ [']']))
    simpa using this
  have hfirst : IndexByte ('[' :: (x.data ++ ']' :: ':' :: p.data)) ']'
      = some (x.data.length + 1) := by
    have := IndexByte_append ']' (':' :: p.data) ('[' :: x.data)
      (by simp only [List.mem_cons, not_or]; exact ⟨by decide, hx.2⟩)
    simpa using this
  unfold net.SplitHostPort
  rw [hd, hlast]
  simp only [List.head?_cons, if_true, hfirst]
  have hlen : ¬ (x.data.length + 1 + 1 = ('[' :: (x.data ++ ']' :: ':' :: p.data)).length) := by
    simp only [List.length_cons, List.length_append]
    omega
  rw [if_neg hlen]
  unfold net.checkBrackets
  have hd1 : List.drop 1 ('[' :: (x.data ++ ']' :: ':' :: p.data))
      = x.data ++ ']' :: ':' :: p.data := rfl
  have hd2 : List.drop (x.data.length + 1 + 1) ('[' :: (x.data ++ ']' :: ':' :: p.data))
      = ':' :: p.data := by
    simp only [List.drop_succ_cons]
    rw [List.drop_append_eq_append_drop]
    simp
  have hd3 : List.drop (x.data.length + 2 + 1) ('[' :: (x.data ++ ']' :: ':' :: p.data))
      = p.data := by
    simp only [List.drop_succ_cons]
    rw [List.drop_append_eq_append_drop]
    simp
  have hh : List.drop 1 (List.take (x.data.length + 1) ('[' :: (x.data ++ ']' :: ':' :: p.data)))
      = x.data := by
    simp only [List.take_succ_cons, List.drop_succ_cons, List.drop_zero]
    exact List.take_left' rfl
  have hn1 : '[' ∉ x.data ++ ']' :: ':' :: p.data := by
    simp only [List.mem_append, List.mem_cons, not_or]
    exact ⟨hx.1, by decide, by decide, hp.2.1⟩
  have hn2 : ']' ∉ ':' :: p.data := by
    simp only [List.mem_cons, not_or]
    exact ⟨by decide, hp.2.2⟩
  rw [hd1, hd2, hd3, hh]
  simp only [(IndexByte_none_iff '[' _).mpr hn1, (IndexByte_none_iff ']' _).mpr hn2,
    Option.isSome_none, Bool.false_eq_true, if_false]

/-- The characters a bare IPv4 address does not have. -/
theorem ipv4Shape_chars (x : String) (h : ipv4Shape x = true) :
    x ≠ "" ∧ ':' ∉ x.data ∧ '[' ∉ x.data ∧ ']' ∉ x.data := by
  unfold ipv4Shape at h
  simp only [Bool.and_eq_true, Bool.not_eq_true', List.all_eq_true] at h
  obtain ⟨hne, hall⟩ := h
  refine ⟨?_, ?_, ?_, ?_⟩
  · intro hx
    rw [hx] at hne
    cases hne
  · intro hm; exact absurd (hall _ hm) (by decide)
  · intro hm; exact absurd (hall _ hm) (by decide)
  · intro hm; exact absurd (hall _ hm) (by decide)

/-- The characters a port does not have. -/
theorem portShape_chars (p : String) (h : portShape p = true) :
    ':' ∉ p.data ∧ '[' ∉ p.data ∧ ']' ∉ p.data := by
  unfold portShape at h
  simp only [Bool.and_eq_true, Bool.not_eq_true', List.all_eq_true] at h
  obtain ⟨_, hall⟩ := h
  refine ⟨?_, ?_, ?_⟩
  · intro hm; exact absurd (hall _ hm) (by decide)
  · intro hm; exact absurd (hall _ hm) (by decide)
  · intro hm; exact absurd (hall _ hm) (by decide)

/-- An IPv6 literal has no bracket and two colons or more. -/
theorem ipv6Shape_chars (x : String) (h : ipv6Shape x = true) :
    '[' ∉ x.data ∧ ']' ∉ x.data ∧ 2 ≤ x.data.count ':' := by
  unfold ipv6Shape at h
  simp only [Bool.and_eq_true, List.all_eq_true, decide_eq_true_eq] at h
  obtain ⟨hall, hc⟩ := h
  refine ⟨?_, ?_, hc⟩
  · intro hm; exact absurd (hall _ hm) (by decide)
  · intro hm; exact absurd (hall _ hm) (by decide)

/-- A string is empty exactly when it has no character. -/
theorem string_eq_empty_iff (s : String) : s = "" ↔ s.data = [] := by
  constructor
  · intro h; rw [h]
  · intro h; exact String.ext h

/-- A string without `[` does not start with it. -/
theorem HasPrefix_bracket_false (s : String) (h : '[' ∉ s.data) : HasPrefix s "[" = false := by
  cases hp : HasPrefix s "["
  · rfl
  · have := (HasPrefix_bracket s).mp hp
    cases hs : s.data with
    | nil => rw [hs] at this; cases this
    | cons y ys =>
      rw [hs] at this
      simp only [List.head?_cons, Option.some.injEq] at this
      exact absurd (by rw [hs, this]; exact List.mem_cons_self _ _) h

/-- A non-empty string without colon and without `[` gets the port 53. -/
theorem NormalizeServer_bare (x : String) (hne : x ≠ "") (hc : ':' ∉ x.data)
    (hb : '[' ∉ x.data) : NormalizeServer x = x ++ ":53" := by
  obtain ⟨e, he⟩ := SplitHostPort_no_colon x hc
  have hcont : Contains x ":" = false := by
    cases h : Contains x ":"
    · rfl
    · exact absurd ((Contains_single x ':').mp h) hc
  unfold NormalizeServer
  simp only [hne, if_false, HasPrefix_bracket_false x hb, Bool.false_eq_true, he, hcont]

/-- A host and a port joined by a colon are left as they are. -/
theorem NormalizeServer_host_port (a p : String)
    (ha : ':' ∉ a.data ∧ '[' ∉ a.data ∧ ']' ∉ a.data)
    (hp : ':' ∉ p.data ∧ '[' ∉ p.data ∧ ']' ∉ p.data) :
    NormalizeServer (a ++ ":" ++ p) = a ++ ":" ++ p := by
  have hne : a ++ ":" ++ p ≠ "" := by
    rw [Ne, string_eq_empty_iff]
    simp [String.data_append]
  have hb : '[' ∉ (a ++ ":" ++ p).data := by
    simp only [String.data_append, List.mem_append, not_or]
    exact ⟨⟨ha.2.1, by decide⟩, hp.2.1⟩
  unfold NormalizeServer
  simp only [hne, if_false, HasPrefix_bracket_false _ hb, Bool.false_eq_true,
    SplitHostPort_host_port a p ha hp]

/-- A string without `[` and with two colons or more is put in brackets and gets
the port 53. -/
theorem NormalizeServer_bare_v6 (x : String) (hb : '[' ∉ x.data)
    (hc : 2 ≤ x.data.count ':') : NormalizeServer x = "[" ++ x ++ "]:53" := by
  have hmem : ':' ∈ x.data := List.count_pos_iff.mp (by omega)
  have hne : x ≠ "" := by
    rw [Ne, string_eq_empty_iff]
    intro h
    rw [h] at hmem
    cases hmem
  obtain ⟨e, he⟩ := SplitHostPort_many_colons x hb hc
  have hcont : Contains x ":" = true := (Contains_single x ':').mpr hmem
  unfold NormalizeServer
  simp only [hne, if_false, HasPrefix_bracket_false x hb, Bool.false_eq_true, he, hcont, if_true]

/-- A string in brackets followed by a colon and anything is left as it is. -/
theorem NormalizeServer_bracketed_port (x p : String) :
    NormalizeServer ("[" ++ x ++ "]:" ++ p) = "[" ++ x ++ "]:" ++ p := by
  have hd : ("[" ++ x ++ "]:" ++ p).data = '[' :: (x.data ++ ']' :: ':' :: p.data) := by
    simp [String.data_append]
  have hne : "[" ++ x ++ "]:" ++ p ≠ "" := by
    rw [Ne, string_eq_empty_iff, hd]
    simp
  have hpre : HasPrefix ("[" ++ x ++ "]:" ++ p) "[" = true := by
    rw [HasPrefix_bracket, hd]
    rfl
  have hcont : Contains ("[" ++ x ++ "]:" ++ p) "]:" = true := by
    unfold Contains
    rw [containsChars_iff, hd]
    exact ⟨'[' :: x.data, p.data, by simp [show ("]:" : String).data = [']', ':'] from rfl]⟩
  unfold NormalizeServer
  simp only [hne, if_false, hpre, if_true, hcont]

/-- A string in brackets, without `]` inside, gets the port 53. -/
theorem NormalizeServer_bracketed (x : String) (hx : ']' ∉ x.data) :
    NormalizeServer ("[" ++ x ++ "]") = "[" ++ x ++ "]:53" := by
  have hd : ("[" ++ x ++ "]").data = ('[' :: x.data) ++ [']'] := by
    simp [String.data_append]
  have hne : "[" ++ x ++ "]" ≠ "" := by
    rw [Ne, string_eq_empty_iff, hd]
    simp
  have hpre : HasPrefix ("[" ++ x ++ "]") "[" = true := by
    rw [HasPrefix_bracket, hd]
    rfl
  have hcont : Contains ("[" ++ x ++ "]") "]:" = false := by
    cases h : Contains ("[" ++ x ++ "]") "]:"
    · rfl
    · exfalso
      unfold Contains at h
      rw [containsChars_iff, hd] at h
      obtain ⟨s, t, hst⟩ := h
      have hst2 : (s ++ [']']) ++ (':' :: t) = ('[' :: x.data) ++ [']'] := by
        rw [← hst]
        simp [show ("]:" : String).data = [']', ':'] from rfl]
      rcases List.append_eq_append_iff.mp hst2 with ⟨a2, h1, h2⟩ | ⟨c2, h1, h2⟩
      · have : ']' ∈ '[' :: x.data := by
          rw [h1]
          simp
        simp only [List.mem_cons, hx, or_false] at this
        exact absurd this (by decide)
      · cases c2 with
        | nil =>
          simp only [List.nil_append, List.cons.injEq] at h2
          exact absurd h2.1 (by decide)
        | cons y ys =>
          have := congrArg List.length h2
          simp at this
  unfold NormalizeServer
  simp only [hne, if_false, hpre, if_true, hcont, Bool.false_eq_true]
  apply String.ext
  simp [String.data_append]

/-- The port 53 written after a colon. -/
theorem append_port53 (x : String) : x ++ ":53" = x ++ ":" ++ "53" := by
  apply String.ext
  simp [String.data_append]

/-- The port 53 written after a closing bracket and a colon. -/
theorem append_bracket_port53 (x : String) : "[" ++ x ++ "]:53" = "[" ++ x ++ "]:" ++ "53" := by
  apply String.ext
  simp [String.data_append]

/-- C24: a bare IPv4 address gets the port 53; `ipv4:port` is returned unchanged;
an IPv6 literal without brackets is put in brackets and gets the port 53;
`[ipv6]:port` is returned unchanged; `[ipv6]` gets the port 53.  In each case the
output splits, by `net.SplitHostPort`, into the address and the port given, or 53. -/
theorem NormalizeServer_per_shape :
    (∀ x, ipv4Shape x = true →
      NormalizeServer x = x ++ ":53" ∧ net.SplitHostPort (NormalizeServer x) = .ok (x, "53")) ∧
    (∀ a p, ipv4Shape a = true → portShape p = true →
      NormalizeServer (a ++ ":" ++ p) = a ++ ":" ++ p ∧
      net.SplitHostPort (NormalizeServer (a ++ ":" ++ p)) = .ok (a, p)) ∧
    (∀ x, ipv6Shape x = true →
      NormalizeServer x = "[" ++ x ++ "]:53" ∧
      net.SplitHostPort (NormalizeServer x) = .ok (x, "53")) ∧
    (∀ x p, ipv6Shape x = true → portShape p = true →
      NormalizeServer ("[" ++ x ++ "]:" ++ p) = "[" ++ x ++ "]:" ++ p ∧
      net.SplitHostPort (NormalizeServer ("[" ++ x ++ "]:" ++ p)) = .ok (x, p)) ∧
    (∀ x, ipv6Shape x = true →
      NormalizeServer ("[" ++ x ++ "]") = "[" ++ x ++ "]:53" ∧
      net.SplitHostPort (NormalizeServer ("[" ++ x ++ "]")) = .ok (x, "53")) := by
  have h53 : portShape "53" = true := by decide
  refine ⟨?_, ?_, ?_, ?_, ?_⟩
  · intro x hx
    obtain ⟨hne, hc, hb, hb2⟩ := ipv4Shape_chars x hx
    have h := NormalizeServer_bare x hne hc hb
    refine ⟨h, ?_⟩
    rw [h, append_port53]
    exact SplitHostPort_host_port x "53" ⟨hc, hb, hb2⟩ (portShape_chars "53" h53)
  · intro a p ha hp
    obtain ⟨_, hc, hb, hb2⟩ := ipv4Shape_chars a ha
    have h := NormalizeServer_host_port a p ⟨hc, hb, hb2⟩ (portShape_chars p hp)
    refine ⟨h, ?_⟩
    rw [h]
    exact SplitHostPort_host_port a p ⟨hc, hb, hb2⟩ (portShape_chars p hp)
  · intro x hx
    obtain ⟨hb, hb2, hc⟩ := ipv6Shape_chars x hx
    have h := NormalizeServer_bare_v6 x hb hc
    refine ⟨h, ?_⟩
    rw [h, append_bracket_port53]
    exact SplitHostPort_bracketed x "53" ⟨hb, hb2⟩ (portShape_chars "53" h53)
  · intro x p hx hp
    obtain ⟨hb, hb2, _⟩ := ipv6Shape_chars x hx
    have h := NormalizeServer_bracketed_port x p
    refine ⟨h, ?_⟩
    rw [h]
    exact SplitHostPort_bracketed x p ⟨hb, hb2⟩ (portShape_chars p hp)
  · intro x hx
    obtain ⟨hb, hb2, _⟩ := ipv6Shape_chars x hx
    have h := NormalizeServer_bracketed x hb2
    refine ⟨h, ?_⟩
    rw [h, append_bracket_port53]
    exact SplitHostPort_bracketed x "53" ⟨hb, hb2⟩ (portShape_chars "53" h53)

/-- C24 on `1.1.1.1`, `2001:db8::1` and `[2001:db8::1]`. -/
theorem NormalizeServer_per_shape_witness :
    NormalizeServer "1.1.1.1" = "1.1.1.1:53" ∧
    NormalizeServer "2001:db8::1" = "[2001:db8::1]:53" ∧
    NormalizeServer "[2001:db8::1]" = "[2001:db8::1]:53" :=
  ⟨(NormalizeServer_per_shape.1 "1.1.1.1" (by decide)).1,
    (NormalizeServer_per_shape.2.2.1 "2001:db8::1" (by decide)).1,
    (NormalizeServer_per_shape.2.2.2.2 "2001:db8::1" (by decide)).1⟩

/-- C23: on every recognized input shape, a bare IPv4 address, `ipv4:port`, a bare
IPv6 literal, `[ipv6]` or `[ipv6]:port`, normalizing twice gives what normalizing
once gives. -/
theorem NormalizeServer_idempotent (x : String) (h : recognizedShape x) :
    NormalizeServer (NormalizeServer x) = NormalizeServer x := by
  have h53 := portShape_chars "53" (by decide)
  rcases h with h | ⟨a, p, rfl, ha, hp⟩ | h | ⟨y, rfl, hy⟩ | ⟨y, p, rfl, hy, hp⟩
  · obtain ⟨hne, hc, hb, hb2⟩ := ipv4Shape_chars x h
    rw [NormalizeServer_bare x hne hc hb, append_port53]
    exact NormalizeServer_host_port x "53" ⟨hc, hb, hb2⟩ h53
  · obtain ⟨_, hc, hb, hb2⟩ := ipv4Shape_chars a ha
    rw [NormalizeServer_host_port a p ⟨hc, hb, hb2⟩ (portShape_chars p hp)]
    exact NormalizeServer_host_port a p ⟨hc, hb, hb2⟩ (portShape_chars p hp)
  · obtain ⟨hb, _, hc⟩ := ipv6Shape_chars x h
    rw [NormalizeServer_bare_v6 x hb hc, append_bracket_port53]
    exact NormalizeServer_bracketed_port x "53"
  · obtain ⟨_, hb2, _⟩ := ipv6Shape_chars y hy
    rw [NormalizeServer_bracketed y hb2, append_bracket_port53]
    exact NormalizeServer_bracketed_port y "53"
  · rw [NormalizeServer_bracketed_port y p]
    exact NormalizeServer_bracketed_port y p

/-- C23 on the bare IPv6 literal `2001:db8::1`. -/
theorem NormalizeServer_idempotent_witness :
    recognizedShape "2001:db8::1" ∧
    NormalizeServer (NormalizeServer "2001:db8::1") = NormalizeServer "2001:db8::1" :=
  ⟨Or.inr (Or.inr (Or.inl (by decide))),
    NormalizeServer_idempotent "2001:db8::1" (Or.inr (Or.inr (Or.inl (by decide))))⟩

/-! ## Resolver discovery -/

/-- Leading white space does not change the fields. -/
theorem fieldsFrom_dropWhile : ∀ l : List Char,
    fieldsFrom (l.dropWhile isSpace) [] = fieldsFrom l [] := by
  intro l
  induction l with
  | nil => rfl
  | cons c cs ih =>
    by_cases hc : isSpace c = true
    · rw [List.dropWhile_cons_of_pos hc, ih]
      simp [fieldsFrom, hc]
    · rw [List.dropWhile_cons_of_neg hc]

/-- White space alone ends the field under way and starts no other. -/
theorem fieldsFrom_spaces : ∀ (sp cur : List Char), (∀ c ∈ sp, isSpace c = true) →
    fieldsFrom sp cur = fieldsFrom [] cur := by
  intro sp
  induction sp with
  | nil => intro cur _; rfl
  | cons c cs ih =>
    intro cur h
    have hc := h c (List.mem_cons_self _ _)
    have hcs : ∀ x ∈ cs, isSpace x = true := fun x hx => h x (List.mem_cons_of_mem _ hx)
    unfold fieldsFrom
    simp only [hc, if_true]
    cases cur with
    | nil => simpa [fieldsFrom] using ih [] hcs
    | cons y ys =>
      simp only [List.isEmpty_cons, Bool.false_eq_true, if_false]
      rw [ih [] hcs]
      simp [fieldsFrom]

/-- Trailing white space does not change the fields. -/
theorem fieldsFrom_append_spaces (sp : List Char) (h : ∀ c ∈ sp, isSpace c = true) :
    ∀ (l cur : List Char), fieldsFrom (l ++ sp) cur = fieldsFrom l cur := by
  intro l
  induction l with
  | nil => intro cur; exact fieldsFrom_spaces sp cur h
  | cons c cs ih =>
    intro cur
    show fieldsFrom (c :: (cs ++ sp)) cur = fieldsFrom (c :: cs) cur
    simp only [fieldsFrom, ih]

/-- A list is what remains after dropping trailing white space, then white space. -/
theorem exists_trailing_spaces (l : List Char) :
    ∃ sp, l = (l.reverse.dropWhile isSpace).reverse ++ sp ∧ ∀ c ∈ sp, isSpace c = true := by
  refine ⟨(l.reverse.takeWhile isSpace).reverse, ?_, ?_⟩
  · rw [← List.reverse_append, List.takeWhile_append_dropWhile, List.reverse_reverse]
  · intro c hc
    exact List.mem_takeWhile_imp (List.mem_reverse.mp hc)

/-- The fields of a line are those of the trimmed line. -/
theorem Fields_TrimSpace (s : String) : Fields (TrimSpace s) = Fields s := by
  unfold Fields TrimSpace
  simp only []
  obtain ⟨sp, hsp, hall⟩ := exists_trailing_spaces (s.data.dropWhile isSpace)
  rw [← fieldsFrom_dropWhile s.data]
  conv_rhs => rw [hsp]
  rw [fieldsFrom_append_spaces sp hall]

/-- A field under way is the start of the first field found. -/
theorem fieldsFrom_first : ∀ (l cur : List Char), cur ≠ [] →
    ∃ f rest, fieldsFrom l cur = f :: rest ∧ cur <+: f.data := by
  intro l
  induction l with
  | nil =>
    intro cur hcur
    refine ⟨⟨cur⟩, [], ?_, List.prefix_refl _⟩
    cases cur with
    | nil => exact absurd rfl hcur
    | cons y ys => rfl
  | cons c cs ih =>
    intro cur hcur
    unfold fieldsFrom
    by_cases hc : isSpace c = true
    · simp only [hc, if_true]
      refine ⟨⟨cur⟩, fieldsFrom cs [], ?_, List.prefix_refl _⟩
      cases cur with
      | nil => exact absurd rfl hcur
      | cons y ys => rfl
    · simp only [hc, if_false]
      obtain ⟨f, rest, h1, h2⟩ := ih (cur ++ [c]) (by simp)
      exact ⟨f, rest, h1, (List.prefix_append cur [c]).trans h2⟩

/-- Every field is non-empty and free of white space, and so is the field under way
when it is so to begin with. -/
theorem fieldsFrom_clean : ∀ (l cur : List Char), (∀ c ∈ cur, isSpace c = false) →
    ∀ f ∈ fieldsFrom l cur, f.data ≠ [] ∧ ∀ c ∈ f.data, isSpace c = false := by
  intro l
  induction l with
  | nil =>
    intro cur hcur f hf
    unfold fieldsFrom at hf
    cases cur with
    | nil => simp at hf
    | cons y ys =>
      simp only [List.isEmpty_cons, Bool.false_eq_true, if_false, List.mem_singleton] at hf
      rw [hf]
      exact ⟨by simp, hcur⟩
  | cons c cs ih =>
    intro cur hcur f hf
    unfold fieldsFrom at hf
    by_cases hc : isSpace c = true
    · simp only [hc, if_true] at hf
      cases cur with
      | nil =>
        simp only [List.isEmpty_nil, if_true] at hf
        exact ih [] (by simp) f hf
      | cons y ys =>
        simp only [List.isEmpty_cons, Bool.false_eq_true, if_false, List.mem_cons] at hf
        rcases hf with hf | hf
        · rw [hf]
          exact ⟨by simp, hcur⟩
        · exact ih [] (by simp) f hf
    · simp only [hc, if_false] at hf
      refine ih (cur ++ [c]) ?_ f hf
      intro x hx
      simp only [List.mem_append, List.mem_singleton] at hx
      rcases hx with hx | hx
      · exact hcur x hx
      · rw [hx]
        simpa using hc

/-- Trimming a non-empty string without white space changes nothing. -/
theorem TrimSpace_clean (f : String) (h : ∀ c ∈ f.data, isSpace c = false) :
    TrimSpace f = f := by
  have hd : ∀ l : List Char, (∀ c ∈ l, isSpace c = false) → l.dropWhile isSpace = l := by
    intro l hl
    cases l with
    | nil => rfl
    | cons y ys =>
      exact List.dropWhile_cons_of_neg (by simp [hl y (List.mem_cons_self _ _)])
  unfold TrimSpace
  apply String.ext
  simp only []
  rw [hd f.data h, hd f.data.reverse (fun c hc => h c (List.mem_reverse.mp hc)),
    List.reverse_reverse]

/-- A string starts with a one-character string exactly when that is its first
character. -/
theorem HasPrefix_single (s : String) (c : Char) :
    HasPrefix s ⟨[c]⟩ = true ↔ s.data.head? = some c := by
  unfold HasPrefix
  rw [List.isPrefixOf_iff_prefix]
  cases hs : s.data with
  | nil => simp
  | cons x xs =>
    simp only [List.head?_cons, Option.some.injEq]
    constructor
    · rintro ⟨t, ht⟩
      simp only [List.singleton_append, List.cons.injEq] at ht
      exact ht.1.symm
    · intro h
      exact ⟨xs, by rw [h]; rfl⟩

/-- A line that starts with a character that is not white space and that no
letter case turns into `n` contributes no address. -/
theorem nameserverOf_of_head (line : String) (c : Char) (hc : isSpace c = false)
    (hn : unicode.ToLower c ≠ 'n') (hh : line.data.head? = some c) : nameserverOf line = none := by
  cases hl : line.data with
  | nil => rw [hl] at hh; cases hh
  | cons x xs =>
    rw [hl] at hh
    simp only [List.head?_cons, Option.some.injEq] at hh
    subst hh
    obtain ⟨f, rest, h1, h2⟩ := fieldsFrom_first xs [x] (by simp)
    have hf : Fields line = f :: rest := by
      unfold Fields
      rw [hl]
      unfold fieldsFrom
      simp only [hc, Bool.false_eq_true, if_false, List.nil_append]
      exact h1
    have hne : ToLower f ≠ "nameserver" := by
      intro he
      obtain ⟨t, ht⟩ := h2
      have hd := congrArg String.data he
      unfold ToLower at hd
      simp only [] at hd
      rw [← ht] at hd
      simp only [List.singleton_append, List.map_cons] at hd
      have : unicode.ToLower x = 'n' := by
        have h0 := congrArg List.head? hd
        simpa using h0
      exact hn this
    unfold nameserverOf
    rw [hf]
    cases rest with
    | nil => rfl
    | cons f1 r => simp only [hne, if_false]

/-- One line of the resolver file in the loop of `loadResolvers`. -/
theorem scanLoop_cons (text : String) (rest acc : List String) :
    ladder.scanLoop (text :: rest) acc
      = ladder.scanLoop rest (acc ++ (nameserverOf text).toList) := by
  have hF := Fields_TrimSpace text
  conv_lhs => rw [ladder.scanLoop]
  simp only []
  by_cases h1 : TrimSpace text = ""
  · have : nameserverOf text = none := by
      unfold nameserverOf
      rw [← hF, h1]
      rfl
    simp [h1, this]
  · by_cases h2 : HasPrefix (TrimSpace text) "#" = true
    · have hh := (HasPrefix_single (TrimSpace text) '#').mp h2
      have hn : nameserverOf (TrimSpace text) = none :=
        nameserverOf_of_head _ '#' (by decide) (by decide) hh
      have : nameserverOf text = none := by
        unfold nameserverOf at hn ⊢
        rw [← hF]
        exact hn
      simp [h2, this]
    · by_cases h3 : HasPrefix (TrimSpace text) ";" = true
      · have hh := (HasPrefix_single (TrimSpace text) ';').mp h3
        have hn : nameserverOf (TrimSpace text) = none :=
          nameserverOf_of_head _ ';' (by decide) (by decide) hh
        have : nameserverOf text = none := by
          unfold nameserverOf at hn ⊢
          rw [← hF]
          exact hn
        simp [h3, this]
      · simp only [h1, h2, h3, decide_False, Bool.or_self, Bool.false_eq_true, if_false]
        unfold nameserverOf
        rw [hF]
        cases hfs : Fields text with
        | nil => simp
        | cons f0 r =>
          cases r with
          | nil => simp
          | cons f1 r2 =>
            by_cases hk : ToLower f0 = "nameserver"
            · simp [hk]
            · simp [hk]

/-- The loop of `loadResolvers` collects, in order, the addresses of the lines. -/
theorem scanLoop_eq : ∀ (lines acc : List String),
    ladder.scanLoop lines acc = acc ++ lines.filterMap nameserverOf := by
  intro lines
  induction lines with
  | nil => intro acc; simp [ladder.scanLoop]
  | cons text rest ih =>
    intro acc
    rw [scanLoop_cons, ih]
    cases h : nameserverOf text with
    | none => simp [List.filterMap_cons, h]
    | some a => simp [List.filterMap_cons, h]

/-- An address a line contributes is non-empty and trimmed. -/
theorem nameserverOf_clean (line a : String) (h : nameserverOf line = some a) :
    TrimSpace a = a ∧ a ≠ "" := by
  unfold nameserverOf at h
  cases hf : Fields line with
  | nil => rw [hf] at h; cases h
  | cons f0 r =>
    cases r with
    | nil => rw [hf] at h; cases h
    | cons f1 r2 =>
      rw [hf] at h
      simp only [] at h
      split_ifs at h
      simp only [Option.some.injEq] at h
      subst h
      have hm : f1 ∈ fieldsFrom line.data [] := by
        have : f1 ∈ Fields line := by rw [hf]; simp
        exact this
      obtain ⟨hne, hcl⟩ := fieldsFrom_clean line.data [] (by simp) f1 hm
      refine ⟨TrimSpace_clean f1 hcl, ?_⟩
      intro he
      rw [he] at hne
      exact hne rfl

/-- The loop of `uniqueResolvers` on trimmed, non-empty entries keeps the first
entry of each key that was not seen before. -/
theorem uniqueLoop_eq : ∀ (l seen out : List String),
    (∀ x ∈ l, TrimSpace x = x ∧ x ≠ "") →
    ladder.uniqueLoop l seen out
      = out ++ (keepFirstBy ToLower l).filter (fun y => !seen.contains (ToLower y)) := by
  intro l
  induction l with
  | nil => intro seen out _; simp [ladder.uniqueLoop, keepFirstBy]
  | cons v vs ih =>
    intro seen out h
    obtain ⟨hv1, hv2⟩ := h v (List.mem_cons_self _ _)
    have hvs : ∀ x ∈ vs, TrimSpace x = x ∧ x ≠ "" :=
      fun x hx => h x (List.mem_cons_of_mem _ hx)
    unfold ladder.uniqueLoop keepFirstBy
    simp only [hv1, hv2, if_false]
    by_cases hs : seen.contains (ToLower v) = true
    · simp only [hs, if_true, List.filter_cons, Bool.not_true, Bool.false_eq_true, if_false]
      rw [ih seen out hvs, List.filter_filter]
      congr 1
      apply List.filter_congr
      intro y _
      by_cases hy : seen.contains (ToLower y) = true
      · have hy2 : ToLower y ∈ seen := by simpa using hy
        simp [hy2]
      · have : ToLower y ≠ ToLower v := by
          intro e; rw [e] at hy; exact hy hs
        simp [hy, this]
    · simp only [hs, if_false, List.filter_cons, Bool.not_false, if_true, Bool.false_eq_true]
      rw [ih (ToLower v :: seen) (out ++ [v]) hvs, List.filter_filter]
      simp only [List.append_assoc, List.singleton_append]
      congr 2
      apply List.filter_congr
      intro y _
      by_cases hyv : ToLower y = ToLower v
      · simp [hyv]
      · simp [hyv, List.contains_cons, Bool.not_or]

/-- The entries kept are entries of the list, in the order of the list. -/
theorem keepFirstBy_sublist (key : String → String) :
    ∀ l : List String, (keepFirstBy key l).Sublist l := by
  intro l
  induction l with
  | nil => exact List.Sublist.slnil
  | cons x xs ih =>
    unfold keepFirstBy
    exact List.Sublist.cons₂ x ((List.filter_sublist _).trans ih)

/-- No two entries kept have the same key. -/
theorem keepFirstBy_nodup (key : String → String) :
    ∀ l : List String, ((keepFirstBy key l).map key).Nodup := by
  intro l
  induction l with
  | nil => simp [keepFirstBy]
  | cons x xs ih =>
    unfold keepFirstBy
    rw [List.map_cons, List.nodup_cons]
    constructor
    · simp only [List.mem_map, List.mem_filter, bne_iff_ne, ne_eq, not_exists, not_and]
      intro y hy he
      exact hy.2 he
    · exact (List.Sublist.map key (List.filter_sublist _)).nodup ih

/-- Every entry of the list has its key among the entries kept. -/
theorem keepFirstBy_covers (key : String → String) :
    ∀ (l : List String), ∀ x ∈ l, ∃ y ∈ keepFirstBy key l, key y = key x := by
  intro l
  induction l with
  | nil => intro x hx; cases hx
  | cons v vs ih =>
    intro x hx
    unfold keepFirstBy
    by_cases hk : key x = key v
    · exact ⟨v, List.mem_cons_self _ _, hk.symm⟩
    · rcases List.mem_cons.mp hx with hx | hx
      · exact absurd (by rw [hx]) hk
      · obtain ⟨y, hy, hyk⟩ := ih x hx
        refine ⟨y, List.mem_cons_of_mem _ (List.mem_filter.mpr ⟨hy, ?_⟩), hyk⟩
        simp only [bne_iff_ne, ne_eq]
        rw [hyk]
        exact hk

/-- C28, against the claim: the keyword is matched in any letter case, so the line
`NAMESERVER 1.1.1.1`, whose first field is not `nameserver`, contributes its
address; and entries that differ only in letter case count as duplicates, so of
`fe80::1` and `FE80::1` the chain keeps the first only. -/
theorem resolver_keyword_case_counterexample :
    (ladder.loadResolvers (.ok ["NAMESERVER 1.1.1.1"])).toOption = some ["1.1.1.1"] ∧
    ["NAMESERVER 1.1.1.1"].filterMap nameserverLine = [] ∧
    (ladder.DefaultResolverChain (.ok ["nameserver fe80::1", "nameserver FE80::1"])).toOption
      = some ["fe80::1", "1.1.1.1", "1.0.0.1", "8.8.8.8", "8.8.4.4", "9.9.9.9"] ∧
    dedupFirst (["fe80::1", "FE80::1"] ++ ladder.DefaultPublicResolvers)
      = ["fe80::1", "FE80::1", "1.1.1.1", "1.0.0.1", "8.8.8.8", "8.8.4.4", "9.9.9.9"] := by
  refine ⟨?_, ?_, ?_, ?_⟩
  · decide
  · decide
  · decide
  · decide

/-- C28: `loadResolvers` returns, in file order, the second field of every line
whose first field is `nameserver` in any letter case; blank lines and lines that
start with `#` or `;` contribute nothing; the default chain is that list followed
by the built-in fallbacks, with of the entries that are equal up to letter case
only the first kept: it has no repeated entry, keeps the order of the list, and
has every entry of the list up to letter case.  An error of the file is returned. -/
theorem resolver_discovery (lines : List String) :
    ladder.loadResolvers (.ok lines) = .ok (lines.filterMap nameserverOf) ∧
    (∀ line, (TrimSpace line = "" ∨ HasPrefix (TrimSpace line) "#" = true ∨
        HasPrefix (TrimSpace line) ";" = true) → nameserverOf line = none) ∧
    ladder.DefaultResolverChain (.ok lines)
      = .ok (keepFirstBy ToLower
          (lines.filterMap nameserverOf ++ ladder.DefaultPublicResolvers)) ∧
    (keepFirstBy ToLower (lines.filterMap nameserverOf ++ ladder.DefaultPublicResolvers)).Nodup ∧
    ((keepFirstBy ToLower
      (lines.filterMap nameserverOf ++ ladder.DefaultPublicResolvers)).map ToLower).Nodup ∧
    (keepFirstBy ToLower (lines.filterMap nameserverOf ++ ladder.DefaultPublicResolvers)).Sublist
      (lines.filterMap nameserverOf ++ ladder.DefaultPublicResolvers) ∧
    (∀ x ∈ lines.filterMap nameserverOf ++ ladder.DefaultPublicResolvers,
      ∃ y ∈ keepFirstBy ToLower
          (lines.filterMap nameserverOf ++ ladder.DefaultPublicResolvers),
        ToLower y = ToLower x) ∧
    (∀ e, ladder.loadResolvers (.error e) = .error e ∧
      ladder.DefaultResolverChain (.error e) = .error e) := by
  have hload : ladder.loadResolvers (.ok lines) = .ok (lines.filterMap nameserverOf) := by
    unfold ladder.loadResolvers
    simp only [scanLoop_eq, List.nil_append]
  have hclean : ∀ x ∈ lines.filterMap nameserverOf ++ ladder.DefaultPublicResolvers,
      TrimSpace x = x ∧ x ≠ "" := by
    intro x hx
    rcases List.mem_append.mp hx with hx | hx
    · obtain ⟨line, _, hl⟩ := List.mem_filterMap.mp hx
      exact nameserverOf_clean line x hl
    · have hd : ∀ y ∈ ladder.DefaultPublicResolvers, TrimSpace y = y ∧ y ≠ "" := by decide
      exact hd x hx
  refine ⟨hload, ?_, ?_, ?_, keepFirstBy_nodup ToLower _, keepFirstBy_sublist ToLower _,
    keepFirstBy_covers ToLower _, fun e => ⟨rfl, rfl⟩⟩
  · intro line h
    have hF := Fields_TrimSpace line
    rcases h with h | h | h
    · unfold nameserverOf
      rw [← hF, h]
      rfl
    · have hn := nameserverOf_of_head _ '#' (by decide) (by decide)
        ((HasPrefix_single (TrimSpace line) '#').mp h)
      unfold nameserverOf at hn ⊢
      rw [← hF]
      exact hn
    · have hn := nameserverOf_of_head _ ';' (by decide) (by decide)
        ((HasPrefix_single (TrimSpace line) ';').mp h)
      unfold nameserverOf at hn ⊢
      rw [← hF]
      exact hn
  · unfold ladder.DefaultResolverChain
    rw [hload]
    simp only []
    unfold ladder.uniqueResolvers
    rw [uniqueLoop_eq _ [] [] hclean]
    simp
  · exact List.Nodup.of_map ToLower (keepFirstBy_nodup ToLower _)

/-- C28 on the file of `TestLoadResolversFromFile`. -/
theorem resolver_discovery_witness :
    ladder.loadResolvers (.ok ["# test", "nameserver 1.1.1.1", "nameserver 8.8.8.8"])
      = .ok ["1.1.1.1", "8.8.8.8"] :=
  (resolver_discovery ["# test", "nameserver 1.1.1.1", "nameserver 8.8.8.8"]).1.trans
    (congrArg Except.ok (by decide))

/-! ## The ladder: failed exchanges -/

/-- The step and the timing the ladder builds for an exchange show whether it
failed. -/
theorem ladderStep_failureShown (i : Int) (resolver fqdn : String) (qtype : Nat)
    (x : Exchanged) :
    failureShown x
      (ladder.ladderStep i resolver fqdn qtype x.resp x.rtt x.transport x.err).1
      (ladder.ladderStep i resolver fqdn qtype x.resp x.rtt x.transport x.err).2 := by
  unfold failureShown ladder.ladderStep
  cases he : x.err with
  | none =>
    refine ⟨by simp, ?_⟩
    intro e h
    cases h
  | some e0 =>
    refine ⟨by simp, ?_⟩
    intro e h
    simp only [Option.some.injEq] at h
    subst h
    exact ⟨rfl, rfl, rfl, rfl, rfl, rfl⟩

/-- The resolver loop only appends to the steps and the timings. -/
theorem resolverLoop_prefix {W : Type} (exchange : W → String → String → Nat → Exchanged × W)
    (fqdn : String) (qtype : Nat) :
    ∀ (resolvers : List String) (i : Nat) (result : TraceResult) (w : W),
      ∃ e1 e2,
        (ladder.resolverLoop exchange fqdn qtype resolvers i result w).1.TraceSteps
          = result.TraceSteps ++ e1 ∧
        (ladder.resolverLoop exchange fqdn qtype resolvers i result w).1.Timings
          = result.Timings ++ e2 := by
  intro resolvers
  induction resolvers with
  | nil => intro i result w; exact ⟨[], [], by simp [ladder.resolverLoop]⟩
  | cons r rest ih =>
    intro i result w
    unfold ladder.resolverLoop
    simp only []
    obtain ⟨e1, e2, h1, h2⟩ := ih (i + 1)
      { result with
        TraceSteps := result.TraceSteps ++
          [(ladder.ladderStep (i : Int) (NormalizeServer r) fqdn qtype
            (exchange w (NormalizeServer r) (Fqdn fqdn) qtype).1.resp
            (exchange w (NormalizeServer r) (Fqdn fqdn) qtype).1.rtt
            (exchange w (NormalizeServer r) (Fqdn fqdn) qtype).1.transport
            (exchange w (NormalizeServer r) (Fqdn fqdn) qtype).1.err).1]
        Timings := result.Timings ++
          [(ladder.ladderStep (i : Int) (NormalizeServer r) fqdn qtype
            (exchange w (NormalizeServer r) (Fqdn fqdn) qtype).1.resp
            (exchange w (NormalizeServer r) (Fqdn fqdn) qtype).1.rtt
            (exchange w (NormalizeServer r) (Fqdn fqdn) qtype).1.transport
            (exchange w (NormalizeServer r) (Fqdn fqdn) qtype).1.err).2] }
      (exchange w (NormalizeServer r) (Fqdn fqdn) qtype).2
    exact ⟨[_] ++ e1, [_] ++ e2, by rw [h1, List.append_assoc], by rw [h2, List.append_assoc]⟩

/-- The step and the timing that the resolver loop appends for exchange `k` show
whether that exchange failed. -/
theorem resolverLoop_failureShown {W : Type} (exchange : W → String → String → Nat → Exchanged × W)
    (fqdn : String) (qtype : Nat) :
    ∀ (resolvers : List String) (i : Nat) (result : TraceResult) (w : W) (k : Nat)
      (x : Exchanged),
      (ladderExchanges exchange fqdn qtype resolvers w)[k]? = some x →
      ∃ s tm,
        (ladder.resolverLoop exchange fqdn qtype resolvers i result w).1.TraceSteps[
            result.TraceSteps.length + k]? = some s ∧
        (ladder.resolverLoop exchange fqdn qtype resolvers i result w).1.Timings[
            result.Timings.length + k]? = some tm ∧
        failureShown x s tm := by
  intro resolvers
  induction resolvers with
  | nil => intro i result w k x h; simp [ladderExchanges] at h
  | cons r rest ih =>
    intro i result w k x h
    unfold ladderExchanges at h
    unfold ladder.resolverLoop
    simp only []
    cases k with
    | zero =>
      simp only [List.getElem?_cons_zero, Option.some.injEq] at h
      subst h
      obtain ⟨e1, e2, h1, h2⟩ := resolverLoop_prefix exchange fqdn qtype rest (i + 1)
        { result with
          TraceSteps := result.TraceSteps ++
            [(ladder.ladderStep (i : Int) (NormalizeServer r) fqdn qtype
              (exchange w (NormalizeServer r) (Fqdn fqdn) qtype).1.resp
              (exchange w (NormalizeServer r) (Fqdn fqdn) qtype).1.rtt
              (exchange w (NormalizeServer r) (Fqdn fqdn) qtype).1.transport
              (exchange w (NormalizeServer r) (Fqdn fqdn) qtype).1.err).1]
          Timings := result.Timings ++
            [(ladder.ladderStep (i : Int) (NormalizeServer r) fqdn qtype
              (exchange w (NormalizeServer r) (Fqdn fqdn) qtype).1.resp
              (exchange w (NormalizeServer r) (Fqdn fqdn) qtype).1.rtt
              (exchange w (NormalizeServer r) (Fqdn fqdn) qtype).1.transport
              (exchange w (NormalizeServer r) (Fqdn fqdn) qtype).1.err).2] }
        (exchange w (NormalizeServer r) (Fqdn fqdn) qtype).2
      refine ⟨_, _, ?_, ?_, ladderStep_failureShown (i : Int) (NormalizeServer r) fqdn qtype
        (exchange w (NormalizeServer r) (Fqdn fqdn) qtype).1⟩
      · rw [h1, List.append_assoc, Nat.add_zero, List.getElem?_append_right (le_refl _)]
        simp
      · rw [h2, List.append_assoc, Nat.add_zero, List.getElem?_append_right (le_refl _)]
        simp
    | succ k =>
      simp only [List.getElem?_cons_succ] at h
      obtain ⟨s, tm, h1, h2, h3⟩ := ih (i + 1)
        { result with
          TraceSteps := result.TraceSteps ++
            [(ladder.ladderStep (i : Int) (NormalizeServer r) fqdn qtype
              (exchange w (NormalizeServer r) (Fqdn fqdn) qtype).1.resp
              (exchange w (NormalizeServer r) (Fqdn fqdn) qtype).1.rtt
              (exchange w (NormalizeServer r) (Fqdn fqdn) qtype).1.transport
              (exchange w (NormalizeServer r) (Fqdn fqdn) qtype).1.err).1]
          Timings := result.Timings ++
            [(ladder.ladderStep (i : Int) (NormalizeServer r) fqdn qtype
              (exchange w (NormalizeServer r) (Fqdn fqdn) qtype).1.resp
              (exchange w (NormalizeServer r) (Fqdn fqdn) qtype).1.rtt
              (exchange w (NormalizeServer r) (Fqdn fqdn) qtype).1.transport
              (exchange w (NormalizeServer r) (Fqdn fqdn) qtype).1.err).2] }
        (exchange w (NormalizeServer r) (Fqdn fqdn) qtype).2 k x h
      refine ⟨s, tm, ?_, ?_, h3⟩
      · simp only [List.length_append, List.length_singleton] at h1
        rw [← h1]
        congr 1
        omega
      · simp only [List.length_append, List.length_singleton] at h2
        rw [← h2]
        congr 1
        omega

/-- The ladder makes one exchange per resolver. -/
theorem ladderExchanges_length {W : Type} (exchange : W → String → String → Nat → Exchanged × W)
    (fqdn : String) (qtype : Nat) :
    ∀ (resolvers : List String) (w : W),
      (ladderExchanges exchange fqdn qtype resolvers w).length = resolvers.length := by
  intro resolvers
  induction resolvers with
  | nil => intro w; rfl
  | cons r rest ih => intro w; simp [ladderExchanges, ih]

/-- C36: in every result of `ladder.Trace`, for every exchange `i` of the ladder:
`timings[i].timed_out` is true exactly when the exchange returned an error, of any
kind; and when it did, `steps[i]` carries the error text and has empty rcode,
answers, ns, soa and note. -/
theorem ladder_timing_flag {W : Type} (exchange : W → String → String → Nat → Exchanged × W) (w : W)
    (resolvers : List String) (fqdn rrtype : String) (qtype : Nat) (res : TraceResult)
    (hq : StringToType (ToUpper rrtype) = some qtype)
    (hres : ladder.Trace exchange w resolvers fqdn rrtype = .ok res) :
    (ladderExchanges exchange fqdn qtype resolvers w).length = res.Timings.length ∧
    ∀ (i : Nat) (x : Exchanged),
      (ladderExchanges exchange fqdn qtype resolvers w)[i]? = some x →
      ∃ s tm, res.TraceSteps[i]? = some s ∧ res.Timings[i]? = some tm ∧
        (tm.TimedOut = true ↔ x.err ≠ none) ∧
        (∀ e, x.err = some e →
          s.Error = e.msg ∧ s.Rcode = "" ∧ s.Answers = [] ∧ s.NS = [] ∧ s.SOA = "" ∧
          s.Note = "") := by
  unfold ladder.Trace at hres
  simp only [hq] at hres
  split_ifs at hres with hl
  simp only [Except.ok.injEq] at hres
  subst hres
  have hne : resolvers ≠ [] := by
    intro h
    rw [h] at hl
    exact hl rfl
  constructor
  · obtain ⟨_, h2, _, _⟩ := resolverLoop_steps exchange fqdn qtype resolvers 0 TraceResult.zero w []
    have := congrArg List.length h2
    simp only [List.length_map, TraceResult.zero, List.length_nil, List.length_append,
      Nat.zero_add] at this
    rw [ladderExchanges_length]
    exact this.symm
  · intro i x hx
    obtain ⟨s, tm, h1, h2, h3⟩ :=
      resolverLoop_failureShown exchange fqdn qtype resolvers 0 TraceResult.zero w i x hx
    simp only [TraceResult.zero, List.length_nil, Nat.zero_add] at h1 h2
    exact ⟨s, tm, h1, h2, h3.1, h3.2⟩

/-- C36 on two resolvers, the first answering and the second failing with an error
that is no deadline expiry. -/
theorem ladder_timing_flag_witness :
    ∃ res s tm, ladder.Trace refusingNet () ["1.1.1.1", "8.8.8.8"] "example.com" "A" = .ok res ∧
      res.TraceSteps[1]? = some s ∧ res.Timings[1]? = some tm ∧
      tm.TimedOut = true ∧ s.Error = "connection refused" := by
  obtain ⟨_, h⟩ := ladder_timing_flag refusingNet () ["1.1.1.1", "8.8.8.8"] "example.com" "A"
    TypeA _ (by decide) rfl
  obtain ⟨s, tm, h1, h2, h3, h4⟩ := h 1 (failedExchange "connection refused") (by decide)
  exact ⟨_, s, tm, rfl, h1, h2, h3.mpr (by decide), (h4 _ rfl).1⟩

/-! ## The ladder: rcodes the scan does not know -/

/-- The scan skips a step without error and without answers whose rcode is none of the
four it knows. -/
theorem scanStep_skip (f : ladder.Firsts) (s : TraceStep) (he : s.Error = "")
    (ha : s.Answers = [])
    (hr : s.Rcode ≠ "NOERROR" ∧ s.Rcode ≠ "NXDOMAIN" ∧ s.Rcode ≠ "SERVFAIL" ∧ s.Rcode ≠ "REFUSED") :
    ladder.scanStep f s = f := by
  unfold ladder.scanStep ladder.hasAnswer
  simp [he, ha, hr.1, hr.2.1, hr.2.2.1, hr.2.2.2]

/-- A step without answers and with rcode SERVFAIL touches the fourth index only. -/
theorem scanStep_servfail (f : ladder.Firsts) (s : TraceStep) (ha : s.Answers = []) :
    ladder.scanStep f { s with Rcode := "SERVFAIL" } =
      if f.firstServfail = -1 then { f with firstServfail := s.Index } else f := by
  unfold ladder.scanStep ladder.hasAnswer
  by_cases he : s.Error = ""
  · simp [he, ha]
  · simp [he]

/-- The first three indices after a step depend on the first three before it only. -/
theorem scanStep_three (f g : ladder.Firsts) (s : TraceStep)
    (h : f.firstAnswer = g.firstAnswer ∧ f.firstNX = g.firstNX ∧ f.firstNoData = g.firstNoData) :
    (ladder.scanStep f s).firstAnswer = (ladder.scanStep g s).firstAnswer ∧
    (ladder.scanStep f s).firstNX = (ladder.scanStep g s).firstNX ∧
    (ladder.scanStep f s).firstNoData = (ladder.scanStep g s).firstNoData := by
  obtain ⟨fa, fx, fn, fs⟩ := f
  obtain ⟨ga, gx, gn, gs⟩ := g
  obtain ⟨h1, h2, h3⟩ := h
  simp only at h1 h2 h3
  subst h1 h2 h3
  unfold ladder.scanStep
  simp only []
  split_ifs <;> simp

theorem scan_three (l : List TraceStep) (f g : ladder.Firsts)
    (h : f.firstAnswer = g.firstAnswer ∧ f.firstNX = g.firstNX ∧ f.firstNoData = g.firstNoData) :
    (l.foldl ladder.scanStep f).firstAnswer = (l.foldl ladder.scanStep g).firstAnswer ∧
    (l.foldl ladder.scanStep f).firstNX = (l.foldl ladder.scanStep g).firstNX ∧
    (l.foldl ladder.scanStep f).firstNoData = (l.foldl ladder.scanStep g).firstNoData := by
  induction l generalizing f g with
  | nil => exact h
  | cons s l ih => exact ih _ _ (scanStep_three f g s h)

/-- With rcode SERVFAIL instead of its own, a step without answers leaves the same
first three indices. -/
theorem scanStep_replaced_three (f : ladder.Firsts) (s : TraceStep) (ha : s.Answers = [])
    (hr : s.Rcode ≠ "NOERROR" ∧ s.Rcode ≠ "NXDOMAIN" ∧ s.Rcode ≠ "SERVFAIL" ∧ s.Rcode ≠ "REFUSED") :
    (ladder.scanStep f { s with Rcode := "SERVFAIL" }).firstAnswer
        = (ladder.scanStep f s).firstAnswer ∧
    (ladder.scanStep f { s with Rcode := "SERVFAIL" }).firstNX = (ladder.scanStep f s).firstNX ∧
    (ladder.scanStep f { s with Rcode := "SERVFAIL" }).firstNoData
        = (ladder.scanStep f s).firstNoData := by
  rw [scanStep_servfail f s ha]
  by_cases he : s.Error = ""
  · rw [scanStep_skip f s he ha hr]
    split_ifs <;> exact ⟨rfl, rfl, rfl⟩
  · unfold ladder.scanStep
    simp [he]

/-- A step that carries an error is scanned the same way whatever its rcode. -/
theorem scanStep_error (f : ladder.Firsts) (s : TraceStep) (he : s.Error ≠ "") (rc : String) :
    ladder.scanStep f { s with Rcode := rc } = ladder.scanStep f s := by
  unfold ladder.scanStep
  simp only [ne_eq, he, not_false_eq_true, if_true]

/-- Once set, the index of the first failure stays. -/
theorem scanStep_servfail_keep (f : ladder.Firsts) (s : TraceStep) (h : f.firstServfail ≠ -1) :
    ladder.scanStep f s = { ladder.scanStep f s with firstServfail := f.firstServfail } ∧
    (ladder.scanStep f s).firstServfail ≠ -1 := by
  obtain ⟨fa, fx, fn, fs⟩ := f
  simp only at h
  unfold ladder.scanStep
  simp only [h, if_false]
  split_ifs <;> exact ⟨rfl, h⟩

theorem scan_servfail_keep (l : List TraceStep) (f : ladder.Firsts) (h : f.firstServfail ≠ -1) :
    (l.foldl ladder.scanStep f).firstServfail ≠ -1 := by
  induction l generalizing f with
  | nil => exact h
  | cons s l ih => exact ih _ (scanStep_servfail_keep f s h).2

/-- A failing step with a proper index sets the index of the first failure. -/
theorem scanStep_fail_sets (f : ladder.Firsts) (p : TraceStep) (hp : failStep p = true)
    (hi : p.Index ≠ -1) : (ladder.scanStep f p).firstServfail ≠ -1 := by
  by_cases h : f.firstServfail = -1
  · obtain ⟨fa, fx, fn, fs⟩ := f
    simp only at h
    subst h
    unfold failStep at hp
    unfold ladder.scanStep
    by_cases he : p.Error = ""
    · simp only [he, bne_self_eq_false, Bool.false_or, Bool.or_eq_true, beq_iff_eq] at hp
      rcases hp with hp | hp
      · simp [he, hp, hi]
        split_ifs <;> simp_all
      · simp [he, hp, hi]
        split_ifs <;> simp_all
    · simp [he, hi]
  · exact (scanStep_servfail_keep f p h).2

theorem scan_fail_sets (l : List TraceStep) (f : ladder.Firsts)
    (h : ∃ p ∈ l, failStep p = true ∧ p.Index ≠ -1) :
    (l.foldl ladder.scanStep f).firstServfail ≠ -1 := by
  induction l generalizing f with
  | nil =>
    obtain ⟨p, hp, _⟩ := h
    exact absurd hp (List.not_mem_nil _)
  | cons s l ih =>
    obtain ⟨p, hp, hf, hi⟩ := h
    rcases List.mem_cons.mp hp with rfl | hp
    · exact scan_servfail_keep l _ (scanStep_fail_sets f p hf hi)
    · exact ih _ ⟨p, hp, hf, hi⟩

/-- The classification of the ladder is a function of the first three indices, and so is
the whole diagnosis unless the classification is SERVFAIL_TIMEOUT. -/
theorem diagnoseLadder_three (r1 r2 : TraceResult)
    (h : (r1.TraceSteps.foldl ladder.scanStep ⟨-1, -1, -1, -1⟩).firstAnswer
          = (r2.TraceSteps.foldl ladder.scanStep ⟨-1, -1, -1, -1⟩).firstAnswer ∧
        (r1.TraceSteps.foldl ladder.scanStep ⟨-1, -1, -1, -1⟩).firstNX
          = (r2.TraceSteps.foldl ladder.scanStep ⟨-1, -1, -1, -1⟩).firstNX ∧
        (r1.TraceSteps.foldl ladder.scanStep ⟨-1, -1, -1, -1⟩).firstNoData
          = (r2.TraceSteps.foldl ladder.scanStep ⟨-1, -1, -1, -1⟩).firstNoData) :
    (ladder.diagnoseLadder r1).Classification = (ladder.diagnoseLadder r2).Classification ∧
    ((ladder.diagnoseLadder r2).Classification ≠ "SERVFAIL_TIMEOUT" →
      ladder.diagnoseLadder r1 = ladder.diagnoseLadder r2) := by
  unfold ladder.diagnoseLadder
  simp only []
  revert h
  generalize r1.TraceSteps.foldl ladder.scanStep ⟨-1, -1, -1, -1⟩ = f
  generalize r2.TraceSteps.foldl ladder.scanStep ⟨-1, -1, -1, -1⟩ = g
  obtain ⟨fa, fx, fn, fs⟩ := f
  obtain ⟨ga, gx, gn, gs⟩ := g
  rintro ⟨h1, h2, h3⟩
  simp only at h1 h2 h3
  subst h1 h2 h3
  simp only []
  split_ifs <;> simp [Diagnose]

/-- The counterexample to C32: a ladder whose only step is a FORMERR response has no
failure on record, and has one once the rcode of the step is replaced by SERVFAIL. -/
theorem ladder_formerr_counterexample :
    ((formerrStepAt 0).Error, (formerrStepAt 0).Answers, (formerrStepAt 0).Rcode)
      = ("", [], "FORMERR") ∧
    ladder.diagnoseLadder { TraceResult.zero with TraceSteps := [formerrStepAt 0] } =
      { Classification := "SERVFAIL_TIMEOUT", Summary := "no resolver responses",
        EvidenceSteps := [], Hints := [] } ∧
    ladder.diagnoseLadder { TraceResult.zero with
        TraceSteps := [{ formerrStepAt 0 with Rcode := "SERVFAIL" }] } =
      { Classification := "SERVFAIL_TIMEOUT", Summary := "resolver failure or timeout",
        EvidenceSteps := [0], Hints := [] } := by
  refine ⟨by decide, by decide, by decide⟩

/-- C32: in `diagnoseLadder`, a step without answers whose rcode is none of NOERROR,
NXDOMAIN, SERVFAIL and REFUSED is not counted as a failure: when it carries no error
the scan skips it, so the diagnosis is the one of the step list without it. Replacing
its rcode by SERVFAIL leaves the classification unchanged for every step list, and
leaves the whole diagnosis unchanged when the step carries an error, when the
classification is not SERVFAIL_TIMEOUT, or when an earlier step with an index other
than -1 is a failure. -/
theorem ladder_other_rcode_skipped (r : TraceResult) (pre post : List TraceStep) (s : TraceStep)
    (ha : s.Answers = [])
    (hr : s.Rcode ≠ "NOERROR" ∧ s.Rcode ≠ "NXDOMAIN" ∧ s.Rcode ≠ "SERVFAIL" ∧ s.Rcode ≠ "REFUSED") :
    (ladder.diagnoseLadder
        { r with TraceSteps := pre ++ { s with Rcode := "SERVFAIL" } :: post }).Classification
      = (ladder.diagnoseLadder { r with TraceSteps := pre ++ s :: post }).Classification ∧
    ((s.Error ≠ "" ∨
        (ladder.diagnoseLadder { r with TraceSteps := pre ++ s :: post }).Classification
          ≠ "SERVFAIL_TIMEOUT" ∨
        (∃ p ∈ pre, failStep p = true ∧ p.Index ≠ -1)) →
      ladder.diagnoseLadder { r with TraceSteps := pre ++ { s with Rcode := "SERVFAIL" } :: post }
        = ladder.diagnoseLadder { r with TraceSteps := pre ++ s :: post }) ∧
    (s.Error = "" →
      ladder.diagnoseLadder { r with TraceSteps := pre ++ post }
        = ladder.diagnoseLadder { r with TraceSteps := pre ++ s :: post }) := by
  have hthree := diagnoseLadder_three
    { r with TraceSteps := pre ++ { s with Rcode := "SERVFAIL" } :: post }
    { r with TraceSteps := pre ++ s :: post }
    (by
      simp only [List.foldl_append, List.foldl_cons]
      exact scan_three post _ _ (scanStep_replaced_three _ s ha hr))
  refine ⟨hthree.1, ?_, ?_⟩
  · rintro (he | hc | hp)
    · unfold ladder.diagnoseLadder
      simp only [List.foldl_append, List.foldl_cons]
      rw [scanStep_error _ s he]
    · exact hthree.2 hc
    · by_cases he : s.Error = ""
      · have hset := scan_fail_sets pre ⟨-1, -1, -1, -1⟩ hp
        unfold ladder.diagnoseLadder
        simp only [List.foldl_append, List.foldl_cons]
        rw [scanStep_servfail _ s ha, scanStep_skip _ s he ha hr, if_neg hset]
      · unfold ladder.diagnoseLadder
        simp only [List.foldl_append, List.foldl_cons]
        rw [scanStep_error _ s he]
  · intro he
    unfold ladder.diagnoseLadder
    simp only [List.foldl_append, List.foldl_cons]
    rw [scanStep_skip _ s he ha hr]

/-- C32 on a ladder of three steps: an NXDOMAIN answer, an answer with data and a
FORMERR answer. -/
theorem ladder_other_rcode_skipped_witness :
    ladder.diagnoseLadder { TraceResult.zero with
        TraceSteps := ladderTestSteps ++ [{ formerrStepAt 2 with Rcode := "SERVFAIL" }] }
      = ladder.diagnoseLadder { TraceResult.zero with
        TraceSteps := ladderTestSteps ++ [formerrStepAt 2] } ∧
    ladder.diagnoseLadder { TraceResult.zero with TraceSteps := ladderTestSteps ++ [] }
      = ladder.diagnoseLadder { TraceResult.zero with
        TraceSteps := ladderTestSteps ++ [formerrStepAt 2] } := by
  obtain ⟨_, h2, h3⟩ := ladder_other_rcode_skipped TraceResult.zero ladderTestSteps []
    (formerrStepAt 2) (by decide) (by decide)
  exact ⟨h2 (Or.inr (Or.inl (by decide))), h3 (by decide)⟩

/-! ## The key of the visited set -/

/-- The counterexample to C31: the second hop of the trace of `a.example` starts with
`B.example.` visited and gets an alias to `b.example.`, which has the same canonical
form; the hop reports no loop, adds `b.example.` to the set as a second entry, and the
trace ends with SUCCESS. -/
theorem visited_case_variant_counterexample :
    caseAliasSecondHop.visited = ["B.example."] ∧
    canonicalName "b.example." = canonicalName "B.example." ∧
    (∃ b r hdr, chosen caseAliasTracer TypeA caseAliasSecondHop = some b ∧ b.resp = some r ∧
      firstCNAME r = some (hdr, "b.example.")) ∧
    (∃ st2, hopStep caseAliasTracer TypeA caseAliasSecondHop = .next st2 ∧
      st2.visited = ["b.example.", "B.example."]) ∧
    (Trace caseAliasTracer () "a.example" "A").toOption.map
        (fun res => (res.Diagnosis.Classification, res.Diagnosis.Summary))
      = some ("SUCCESS", "authoritative answer returned") := by
  refine ⟨by decide, by decide, ⟨_, _, _, rfl, rfl, rfl⟩, ⟨_, rfl, rfl⟩, by decide⟩

/-- C31: loop detection is keyed by the target string as the response carries it.  When
the response chosen at a hop is NOERROR and is not an authoritative answer of the
queried type, a CNAME target (or, without a CNAME, a DNAME-derived name) that is in
`visited` as a string is reported as a loop (SERVFAIL_TIMEOUT "CNAME loop detected" /
"DNAME loop detected"), and one that equals no visited string, be it the case variant
of one, is followed and becomes a new entry of the set. -/
theorem visited_keyed_by_string {W : Type} (t : Tracer W) (qtype : Nat) (st : HopState W)
    (b : response) (r : Msg)
    (hb : chosen t qtype st = some b) (hr : b.resp = some r) (hrc : r.Rcode = RcodeSuccess)
    (hna : ¬ (hasAnswerType r qtype = true ∧ r.Authoritative = true)) :
    (∀ hdr tgt, firstCNAME r = some (hdr, tgt) →
      (tgt ∈ st.visited →
        ∃ res, hopStep t qtype st = .done res ∧
          res.Diagnosis.Classification = "SERVFAIL_TIMEOUT" ∧
          res.Diagnosis.Summary = "CNAME loop detected") ∧
      (tgt ∉ st.visited →
        ∃ st2, hopStep t qtype st = .next st2 ∧ st2.visited = tgt :: st.visited ∧
          st2.name = Fqdn tgt)) ∧
    (firstCNAME r = none → ∀ hdr tgt newName, firstDNAME r = some (hdr, tgt) →
      applyDNAME st.name hdr.Name tgt = .ok newName →
      (newName ∈ st.visited →
        ∃ res, hopStep t qtype st = .done res ∧
          res.Diagnosis.Classification = "SERVFAIL_TIMEOUT" ∧
          res.Diagnosis.Summary = "DNAME loop detected") ∧
      (newName ∉ st.visited →
        ∃ st2, hopStep t qtype st = .next st2 ∧ st2.visited = newName :: st.visited ∧
          st2.name = Fqdn newName)) := by
  have hstep := hopStep_of_chosen t qtype st b hb
  have hr2 : (hopInput t qtype st b).2.resp = some r := by rw [hopInput_resp, hr]
  constructor
  · intro hdr tgt hc
    rw [decideHop_cname t qtype st _ _ _ r hr2 hrc hna hdr tgt hc] at hstep
    constructor
    · intro hv
      have hv2 : st.visited.contains tgt = true := by simpa using hv
      rw [if_pos hv2] at hstep
      exact ⟨_, hstep, rfl, rfl⟩
    · intro hv
      have hv2 : ¬ st.visited.contains tgt = true := by simpa using hv
      rw [if_neg hv2] at hstep
      exact ⟨_, hstep, rfl, rfl⟩
  · intro hc hdr tgt newName hd ha
    rw [decideHop_dname t qtype st _ _ _ r hr2 hrc hna hc hdr tgt hd newName ha] at hstep
    constructor
    · intro hv
      have hv2 : st.visited.contains newName = true := by simpa using hv
      rw [if_pos hv2] at hstep
      exact ⟨_, hstep, rfl, rfl⟩
    · intro hv
      have hv2 : ¬ st.visited.contains newName = true := by simpa using hv
      rw [if_neg hv2] at hstep
      exact ⟨_, hstep, rfl, rfl⟩

/-- C31 at the third hop of the alias loop between `a.example.` and `b.example.`: the
target `b.example.` is in `visited` as that very string. -/
theorem visited_keyed_by_string_witness :
    ∃ res, hopStep aliasLoopTracer TypeA
        ((hopAt aliasLoopTracer TypeA 2 (initialState aliasLoopTracer () "a.example")).getD
          (initialState aliasLoopTracer () "a.example")) = .done res ∧
      res.Diagnosis.Classification = "SERVFAIL_TIMEOUT" ∧
      res.Diagnosis.Summary = "CNAME loop detected" :=
  ((visited_keyed_by_string aliasLoopTracer TypeA
      ((hopAt aliasLoopTracer TypeA 2 (initialState aliasLoopTracer () "a.example")).getD
        (initialState aliasLoopTracer () "a.example"))
      (udpResponse "192.0.2.1:53" (answerMsg [cnameRR "a.example." "b.example."]) 5000000 0)
      (answerMsg [cnameRR "a.example." "b.example."]) rfl rfl rfl (by decide)).1
    ⟨"a.example.", TypeCNAME, 1, 60⟩ "b.example." rfl).1 (by decide)

/-! ## The branches after the choice of a response -/

/-- The text of a DNAME error is not the summary of the empty-response branch. -/
theorem applyDNAME_error_text (name owner target e : String)
    (h : applyDNAME name owner target = .error e) : e ≠ "empty response from nameserver" := by
  unfold applyDNAME at h
  simp only [] at h
  split_ifs at h
  simp only [Except.error.injEq] at h
  subst h
  intro heq
  have hd := congrArg String.data heq
  simp only [String.data_append] at hd
  have hhead := congrArg List.head? hd
  simp at hhead

/-- The delegation branch goes on, or returns a diagnosis that is no SUCCESS and has
neither the summary nor the hint of an empty response. -/
theorem followDelegation_outcomes {W : Type} (t : Tracer W) (st : HopState W)
    (result : TraceResult) (w : W) (best : response) (resp : Msg) (P : HopOutcome W → Prop)
    (hnext : ∀ st2 : HopState W, P (.next st2))
    (hother : ∀ r o, o.Kind ≠ "SUCCESS" → o.Summary ≠ "empty response from nameserver" →
      "retry with --transport tcp" ∉ o.Hints → P (.done (finish r o))) :
    P (followDelegation t st result w best resp) := by
  unfold followDelegation
  simp only []
  repeat' split
  all_goals first
    | exact hnext _
    | exact hother _ _ (by dsimp only; decide) (by dsimp only; decide) (by dsimp only; decide)

/-- The text of the rcodes SERVFAIL and REFUSED is not the summary of the
empty-response branch. -/
theorem RcodeToString_fail_text (rc : Nat)
    (h : (rc == RcodeServerFailure || rc == RcodeRefused) = true) :
    RcodeToString rc ≠ "empty response from nameserver" := by
  simp only [Bool.or_eq_true, beq_iff_eq] at h
  rcases h with h | h <;> subst h <;> decide

/-- The decision tree on a response that has a message goes on, returns SUCCESS for an
authoritative NOERROR answer of the queried type, or returns a diagnosis that is no
SUCCESS and has neither the summary nor the hint of an empty response. -/
theorem decideHop_outcomes {W : Type} (t : Tracer W) (qtype : Nat) (st : HopState W)
    (result : TraceResult) (w : W) (best : response) (resp : Msg) (hr : best.resp = some resp)
    (P : HopOutcome W → Prop)
    (hnext : ∀ st2 : HopState W, P (.next st2))
    (hsucc : resp.Rcode = RcodeSuccess → hasAnswerType resp qtype = true →
      resp.Authoritative = true →
      P (.done (finish result
        { Kind := OutcomeSuccess, Summary := "authoritative answer returned",
          EvidenceStep := best.stepIndex, Hints := [] })))
    (hother : ∀ r o, o.Kind ≠ "SUCCESS" → o.Summary ≠ "empty response from nameserver" →
      "retry with --transport tcp" ∉ o.Hints → P (.done (finish r o))) :
    P (decideHop t qtype st result w best) := by
  have hfd := fun m => followDelegation_outcomes t st result w best m P hnext hother
  have hk : ∀ (r : TraceResult) (k s : String) (i : Int) (hs : List String), k ≠ "SUCCESS" →
      s ≠ "empty response from nameserver" → "retry with --transport tcp" ∉ hs →
      P (.done (finish r { Kind := k, Summary := s, EvidenceStep := i, Hints := hs })) :=
    fun r k s i hs h1 h2 h3 => hother r _ h1 h2 h3
  unfold decideHop
  simp only [hr]
  by_cases hnx : (resp.Rcode == RcodeNameError && resp.Authoritative) = true
  · rw [if_pos hnx]
    exact hk _ _ _ _ _ (by decide) (by decide) (by decide)
  · rw [if_neg hnx]
    have hrest : P (if (resp.Rcode == RcodeServerFailure || resp.Rcode == RcodeRefused) = true then
          HopOutcome.done (finish result
            { Kind := OutcomeServfailTimeout, Summary := RcodeToString resp.Rcode,
              EvidenceStep := best.stepIndex, Hints := ["check authoritative server health"] })
        else HopOutcome.next { st with result := result, world := w }) := by
      split
      · rename_i hf
        exact hk _ _ _ _ _ (by decide) (RcodeToString_fail_text _ hf) (by decide)
      · exact hnext _
    by_cases hrc : (resp.Rcode == RcodeSuccess) = true
    · rw [if_pos hrc]
      by_cases hans : (hasAnswerType resp qtype && resp.Authoritative) = true
      · rw [if_pos hans]
        simp only [Bool.and_eq_true] at hans
        exact hsucc (by simpa using hrc) hans.1 hans.2
      · rw [if_neg hans]
        repeat' split
        all_goals first
          | exact hfd _
          | exact hnext _
          | exact hrest
          | exact hk _ _ _ _ _ (by decide) (by decide) (by decide)
          | exact hk _ _ _ _ _ (by decide) (RcodeToString_fail_text _ (by assumption))
              (by decide)
          | exact hk _ _ _ _ _ (by decide) (applyDNAME_error_text _ _ _ _ (by assumption))
              (by simp)
    · rw [if_neg hrc]
      exact hrest

/-- A hop that returns has neither the summary nor the hint of the empty-response
branch, and not the hint of the exchange-error branch. -/
theorem hopStep_done_hints {W : Type} (t : Tracer W) (qtype : Nat) (st : HopState W)
    (res : TraceResult) (h : hopStep t qtype st = .done res) :
    res.Diagnosis.Summary ≠ "empty response from nameserver" ∧
    "retry with --transport tcp" ∉ res.Diagnosis.Hints := by
  cases hc : chosen t qtype st with
  | none =>
    unfold chosen at hc
    unfold hopStep at h
    simp only [hc, HopOutcome.done.injEq] at h
    subst h
    exact ⟨by dsimp only [finish, Diagnose]; decide, by dsimp only [finish, Diagnose]; decide⟩
  | some b =>
    obtain ⟨_, m, hm⟩ := chosen_valid t qtype st b hc
    rw [hopStep_of_chosen t qtype st b hc] at h
    have hm2 : (hopInput t qtype st b).2.resp = some m := by rw [hopInput_resp, hm]
    revert h
    apply decideHop_outcomes t qtype st _ _ _ m hm2
      (fun o => o = .done res → res.Diagnosis.Summary ≠ "empty response from nameserver" ∧
        "retry with --transport tcp" ∉ res.Diagnosis.Hints)
    · intro st2 h
      cases h
    · intro _ _ _ h
      simp only [HopOutcome.done.injEq] at h
      subst h
      exact ⟨by dsimp only [finish, Diagnose]; decide, by dsimp only [finish, Diagnose]; decide⟩
    · intro r o _ h2 h3 h
      simp only [HopOutcome.done.injEq] at h
      subst h
      exact ⟨h2, h3⟩

/-- The result of the hop loop has neither the summary nor the hint of the
empty-response branch. -/
theorem traceLoop_hints {W : Type} (t : Tracer W) (qtype : Nat) (n : Nat) (st : HopState W) :
    (traceLoop t qtype n st).Diagnosis.Summary ≠ "empty response from nameserver" ∧
    "retry with --transport tcp" ∉ (traceLoop t qtype n st).Diagnosis.Hints := by
  rcases traceLoop_cases t qtype n st with ⟨i, s, res, _, _, hstep, hres⟩ | ⟨s, _, hres⟩
  · rw [hres]
    exact hopStep_done_hints t qtype s res hstep
  · rw [hres]
    exact ⟨by dsimp only [finish, Diagnose]; decide, by dsimp only [finish, Diagnose]; decide⟩

/-- C35: the error branches after `selectBest` are unreachable.  Every response that
`selectBest` returns has no error and has a message; so no result of `Tracer.Trace`,
for any responder and configuration, has the summary "empty response from nameserver"
or the hint "retry with --transport tcp", and none is the result of the exchange-error
branch, whose summary is the text of the error. -/
theorem trace_error_branches_unreachable {W : Type} (t : Tracer W) :
    (∀ (responses : List response) (qtype : Nat) (b : response),
      selectBest responses qtype = some b → b.err = none ∧ ∃ m, b.resp = some m) ∧
    (∀ (w : W) (fqdn rrtype : String) (res : TraceResult),
      Trace t w fqdn rrtype = .ok res →
      res.Diagnosis.Summary ≠ "empty response from nameserver" ∧
      "retry with --transport tcp" ∉ res.Diagnosis.Hints ∧
      ∀ (r : TraceResult) (e : GoError) (i : Int),
        res ≠ finish r
          { Kind := OutcomeServfailTimeout, Summary := e.msg, EvidenceStep := i,
            Hints := ["retry with --transport tcp", "verify nameserver reachability"] }) := by
  constructor
  · intro responses qtype b hb
    obtain ⟨_, h2, h3, _⟩ := (selectBest_valid_least responses qtype).2 b hb
    exact ⟨h2, Option.ne_none_iff_exists'.mp h3⟩
  · intro w fqdn rrtype res h
    unfold Trace at h
    split at h
    · cases h
    · simp only [Except.ok.injEq] at h
      subst h
      obtain ⟨h1, h2⟩ := traceLoop_hints t _ t.config.MaxHops.toNat (initialState t w fqdn)
      refine ⟨h1, h2, ?_⟩
      intro r e i heq
      rw [heq] at h2
      exact h2 (List.mem_cons_self _ _)

/-- C35 on the responder whose servers all fail: the trace of `example.com` has a
result, and it carries neither the summary nor the hint. -/
theorem trace_error_branches_unreachable_witness :
    ∃ res, Trace unreachableTracer () "example.com" "A" = .ok res ∧
      res.Diagnosis.Summary ≠ "empty response from nameserver" ∧
      "retry with --transport tcp" ∉ res.Diagnosis.Hints :=
  ⟨_, rfl,
    ((trace_error_branches_unreachable unreachableTracer).2 () "example.com" "A" _ rfl).1,
    ((trace_error_branches_unreachable unreachableTracer).2 () "example.com" "A" _ rfl).2.1⟩

/-! ## SUCCESS comes from an authoritative answer -/

/-- The step built for a response with a message and no error lists the answer records
of the message. -/
theorem buildStep_answers (i : Int) (name : String) (qtype : Nat) (b : response)
    (labels : List (String × String)) (m : Msg) (he : b.err = none) (hm : b.resp = some m) :
    (buildStep i name qtype b labels).Error = "" ∧
    (buildStep i name qtype b labels).Rcode = RcodeToString m.Rcode ∧
    (buildStep i name qtype b labels).Authoritative = m.Authoritative ∧
    (buildStep i name qtype b labels).Answers = rrStrings m.Answer := by
  unfold buildStep
  simp [he, hm]

/-- The aggregated step of a hop lists the answer records of the chosen response. -/
theorem aggregate_answers (name : String) (qtype : Nat) (labels : List (String × String))
    (responses : List response) (best : response) (result : model.TraceResult) (m : Msg)
    (he : best.err = none) (hm : best.resp = some m) :
    ∃ s, (aggregate name qtype labels responses best result).1.TraceSteps
          = result.TraceSteps ++ [s] ∧
      (aggregate name qtype labels responses best result).2.stepIndex
          = (result.TraceSteps.length : Int) ∧
      s.Error = "" ∧ s.Rcode = RcodeToString m.Rcode ∧ s.Authoritative = m.Authoritative ∧
      s.Answers = rrStrings m.Answer := by
  have hf := buildStep_answers (result.TraceSteps.length : Int) name qtype best labels m he hm
  unfold aggregate
  rw [hm]
  refine ⟨_, rfl, rfl, ?_⟩
  dsimp only
  split_ifs <;> exact hf

/-- The step recorded for the response chosen at a hop, at the index the response
carries into the decision tree, shows its rcode, authoritative flag and answers. -/
theorem hopInput_answers {W : Type} (t : Tracer W) (qtype : Nat) (st : HopState W) (b : response)
    (m : Msg) (hb : chosen t qtype st = some b) (hm : b.resp = some m) :
    ∃ (n : Nat) (s : TraceStep), (hopInput t qtype st b).2.stepIndex = (n : Int) ∧
      (hopInput t qtype st b).1.result.TraceSteps[n]? = some s ∧
      s.Error = "" ∧ s.Rcode = RcodeToString m.Rcode ∧ s.Authoritative = m.Authoritative ∧
      s.Answers = rrStrings m.Answer := by
  have hmem := chosen_mem t qtype st b hb
  have he := (chosen_valid t qtype st b hb).1
  unfold hopInput
  unfold queryServers at hmem ⊢
  cases hv : t.config.Verbose
  · simp only [Bool.not_false, if_true]
    obtain ⟨s, h1, h2, h3⟩ := aggregate_answers st.name qtype st.serverLabels
      (exchangeAll t st.name qtype st.servers st.world).1 b st.result m he hm
    exact ⟨st.result.TraceSteps.length, s, h2, by rw [h1]; simp, h3⟩
  · rw [hv] at hmem
    simp only [Bool.not_true, Bool.false_eq_true, if_false] at hmem ⊢
    obtain ⟨n, h1, _, h3⟩ := recordResponses_steps st.name qtype st.serverLabels _ _ b hmem
    exact ⟨n, _, h1, h3, buildStep_answers (n : Int) st.name qtype b st.serverLabels m he hm⟩

/-- A hop that returns SUCCESS leaves, at the evidence step, the step of an
authoritative NOERROR response with answers. -/
theorem hopStep_success_evidence {W : Type} (t : Tracer W) (qtype : Nat) (st : HopState W)
    (res : TraceResult) (h : hopStep t qtype st = .done res)
    (hc : res.Diagnosis.Classification = "SUCCESS") :
    ∃ (n : Nat) (s : TraceStep), res.Diagnosis.EvidenceSteps = [(n : Int)] ∧
      res.TraceSteps[n]? = some s ∧ s.Authoritative = true ∧ s.Rcode = "NOERROR" ∧
      s.Error = "" ∧ s.Answers ≠ [] := by
  cases hch : chosen t qtype st with
  | none =>
    obtain ⟨res2, h2, h3, _⟩ := hopStep_no_choice t qtype st hch
    rw [h] at h2
    simp only [HopOutcome.done.injEq] at h2
    subst h2
    rw [h3] at hc
    exact absurd hc (by decide)
  | some b =>
    obtain ⟨_, m, hm⟩ := chosen_valid t qtype st b hch
    obtain ⟨n, s, hn, hs, h1, h2, h3, h4⟩ := hopInput_answers t qtype st b m hch hm
    rw [hopStep_of_chosen t qtype st b hch] at h
    have hm2 : (hopInput t qtype st b).2.resp = some m := by rw [hopInput_resp, hm]
    revert hc
    revert h
    apply decideHop_outcomes t qtype st _ _ _ m hm2
      (fun o => o = .done res → res.Diagnosis.Classification = "SUCCESS" →
        ∃ (n : Nat) (s : TraceStep), res.Diagnosis.EvidenceSteps = [(n : Int)] ∧
          res.TraceSteps[n]? = some s ∧ s.Authoritative = true ∧ s.Rcode = "NOERROR" ∧
          s.Error = "" ∧ s.Answers ≠ [])
    · intro st2 h
      cases h
    · intro hrc hans hauth h _
      simp only [HopOutcome.done.injEq] at h
      subst h
      refine ⟨n, s, ?_, hs, h3.trans hauth, ?_, h1, ?_⟩
      · show (Diagnose _).EvidenceSteps = _
        rw [Diagnose_evidence]
        simp only [hn]
        rw [if_pos (Int.natCast_nonneg n)]
      · rw [h2, hrc]
        rfl
      · rw [h4]
        unfold hasAnswerType at hans
        intro hnil
        unfold rrStrings at hnil
        rw [List.map_eq_nil_iff] at hnil
        rw [hnil] at hans
        simp at hans
    · intro r o hk _ _ h hc
      simp only [HopOutcome.done.injEq] at h
      subst h
      exact absurd hc hk

/-- A NOERROR response without the authoritative bit, without CNAME, DNAME and
delegation ends the decision tree with LAME_DELEGATION, whatever its answers. -/
theorem decideHop_lame_answer {W : Type} (t : Tracer W) (qtype : Nat) (st : HopState W)
    (result : model.TraceResult) (w : W) (best : response) (r : Msg)
    (hr : best.resp = some r) (hrc : r.Rcode = RcodeSuccess) (ha : r.Authoritative = false)
    (hc : firstCNAME r = none) (hd : firstDNAME r = none) (hns : hasDelegation r = false) :
    decideHop t qtype st result w best =
      .done (finish result
        { Kind := analyze.OutcomeLameDelegation,
          Summary := "nameserver not authoritative for zone",
          EvidenceStep := best.stepIndex,
          Hints := ["verify NS delegation and authoritative configuration"] }) := by
  unfold decideHop
  simp [hr, hrc, ha, hns, hc, hd]

/-- C33: `Tracer.Trace` reports SUCCESS only from an authoritative answer.  In every
result classified SUCCESS there is one evidence step, and the step at that index has
`authoritative = true`, rcode "NOERROR", no error and a non-empty answers list.  A hop
whose chosen response is NOERROR without the authoritative bit and carries an answer
of the queried type, no CNAME, no DNAME and no NS record in Authority returns
LAME_DELEGATION, and so does the trace from that hop. -/
theorem trace_success_only_authoritative {W : Type} (t : Tracer W) :
    (∀ (w : W) (fqdn rrtype : String) (res : TraceResult),
      Trace t w fqdn rrtype = .ok res → res.Diagnosis.Classification = "SUCCESS" →
      ∃ (n : Nat) (s : TraceStep), res.Diagnosis.EvidenceSteps = [(n : Int)] ∧
        res.TraceSteps[n]? = some s ∧ s.Authoritative = true ∧ s.Rcode = "NOERROR" ∧
        s.Error = "" ∧ s.Answers ≠ []) ∧
    (∀ (qtype : Nat) (st : HopState W) (b : response) (r : Msg),
      chosen t qtype st = some b → b.resp = some r → r.Rcode = RcodeSuccess →
      r.Authoritative = false → hasAnswerType r qtype = true →
      firstCNAME r = none → firstDNAME r = none → (∀ rr ∈ r.Ns, isNS rr = false) →
      ∃ res, hopStep t qtype st = .done res ∧
        (∀ hops, traceLoop t qtype (hops + 1) st = res) ∧
        res.Diagnosis.Classification = "LAME_DELEGATION") := by
  constructor
  · intro w fqdn rrtype res h hc
    unfold Trace at h
    split at h
    · cases h
    · simp only [Except.ok.injEq] at h
      rcases traceLoop_cases t _ t.config.MaxHops.toNat (initialState t w fqdn) with
        ⟨i, s, res2, _, _, hstep, hres⟩ | ⟨s, _, hres⟩
      · rw [hres] at h
        subst h
        exact hopStep_success_evidence t _ s _ hstep hc
      · rw [hres] at h
        subst h
        exact absurd hc (by dsimp only [finish, Diagnose]; decide)
  · intro qtype st b r hb hr hrc ha _ hc hd hns
    have hstep := hopStep_of_chosen t qtype st b hb
    have hr2 : (hopInput t qtype st b).2.resp = some r := by rw [hopInput_resp, hr]
    have hdel : hasDelegation r = false := by
      unfold hasDelegation
      rw [List.any_eq_false]
      intro rr hrr
      simp [hns rr hrr]
    rw [decideHop_lame_answer t qtype st _ _ _ r hr2 hrc ha hc hd hdel] at hstep
    exact ⟨_, hstep, traceLoop_done t qtype st _ hstep, rfl⟩

/-- C33 on the CNAME test, which ends with SUCCESS, and at the first hop of the
responder that answers without the authoritative bit. -/
theorem trace_success_only_authoritative_witness :
    (∃ (res : TraceResult) (n : Nat) (s : TraceStep),
      Trace cnameTestTracer () "www.example.com" "A" = .ok res ∧
      res.Diagnosis.EvidenceSteps = [(n : Int)] ∧ res.TraceSteps[n]? = some s ∧
      s.Authoritative = true ∧ s.Rcode = "NOERROR" ∧ s.Error = "" ∧ s.Answers ≠ []) ∧
    (∃ res, hopStep cachedAnswerTracer TypeA
        (initialState cachedAnswerTracer () "www.example.com") = .done res ∧
      res.Diagnosis.Classification = "LAME_DELEGATION") := by
  constructor
  · obtain ⟨n, s, h⟩ := (trace_success_only_authoritative cnameTestTracer).1 ()
      "www.example.com" "A" _ rfl (by decide)
    exact ⟨_, n, s, rfl, h⟩
  · obtain ⟨res, h1, _, h3⟩ := (trace_success_only_authoritative cachedAnswerTracer).2 TypeA
      (initialState cachedAnswerTracer () "www.example.com")
      (udpResponse "192.0.2.1:53" cachedAnswerMsg 5000000 0) cachedAnswerMsg
      rfl rfl rfl rfl (by decide) (by decide) (by decide) (by decide)
    exact ⟨res, h1, h3⟩

/-! ## Hops that fall through the decision tree -/

/-- A fall-through response leaves the decision tree without a diagnosis. -/
theorem decideHop_fall {W : Type} (t : Tracer W) (qtype : Nat) (st : HopState W)
    (result : model.TraceResult) (w : W) (best : response) (r : Msg)
    (hr : best.resp = some r) (hf : fallsThrough r qtype = true) :
    decideHop t qtype st result w best = .next { st with result := result, world := w } := by
  unfold fallsThrough at hf
  rw [Bool.or_eq_true] at hf
  rcases hf with hf | hf
  · simp only [Bool.and_eq_true, beq_iff_eq, Bool.not_eq_true'] at hf
    unfold decideHop
    simp [hr, hf.1, hf.2]
  · simp only [Bool.and_eq_true, beq_iff_eq, List.all_eq_true, bne_iff_ne, ne_eq,
      Bool.not_eq_true'] at hf
    obtain ⟨⟨⟨ha, hrc⟩, hans⟩, hns⟩ := hf
    have h1 : hasAnswerType r qtype = false := by
      unfold hasAnswerType
      rw [List.any_eq_false]
      intro rr hrr
      simpa using (hans rr hrr).1
    have h2 : firstCNAME r = none := by
      rw [firstCNAME_none_iff]
      intro rr hrr tgt hd
      have := (hans rr hrr).2
      rw [hd] at this
      cases this
    have h3 : firstDNAME r = none := by
      rw [firstDNAME_none_iff]
      intro rr hrr tgt hd
      have := (hans rr hrr).2
      rw [hd] at this
      cases this
    have h4 : hasSOA r = false := by
      cases h : hasSOA r
      · rfl
      · obtain ⟨rr, hrr, hs⟩ := (hasSOA_iff r).mp h
        rw [(hns rr hrr).1] at hs
        cases hs
    have h5 : hasDelegation r = false := by
      unfold hasDelegation
      rw [List.any_eq_false]
      intro rr hrr
      simp [(hns rr hrr).2]
    unfold decideHop
    simp [hr, ha, hrc, h1, h2, h3, h4, h5]

/-- Against a responder that answers each query the same way every time, the responses
of a fan-out do not depend on the world it starts in. -/
theorem exchangeAll_stateless {W : Type} (t : Tracer W)
    (hsame : ∀ w w2 server name q, (t.exchange w server name q).1 = (t.exchange w2 server name q).1)
    (name : String) (qtype : Nat) :
    ∀ (servers : List String) (w w2 : W),
      (exchangeAll t name qtype servers w).1 = (exchangeAll t name qtype servers w2).1 := by
  intro servers
  induction servers with
  | nil => intro w w2; rfl
  | cons srv rest ih =>
    intro w w2
    simp only [exchangeAll]
    rw [hsame w w2 srv (Fqdn name) qtype, ih (t.exchange w srv (Fqdn name) qtype).2
      (t.exchange w2 srv (Fqdn name) qtype).2]

/-- Recording the responses changes their step index only. -/
theorem recordResponses_withoutIndex (name : String) (qtype : Nat)
    (labels : List (String × String)) :
    ∀ (rs : List response) (result : TraceResult),
      (recordResponses name qtype labels rs result).1.map withoutIndex = rs.map withoutIndex := by
  intro rs
  induction rs with
  | nil => intro result; rfl
  | cons r rest ih =>
    intro result
    simp only [recordResponses, List.map_cons, ih]
    rfl

/-- The comparison of `selectBest` does not look at the step index. -/
theorem pickBetter_withoutIndex (qtype : Nat) (a b : response) :
    withoutIndex (pickBetter qtype a b) = pickBetter qtype (withoutIndex a) (withoutIndex b) := by
  unfold pickBetter
  have ho : ∀ x : response, order qtype (withoutIndex x) = order qtype x := fun _ => rfl
  have hr : ∀ x : response, (withoutIndex x).rtt = x.rtt := fun _ => rfl
  have hs : ∀ x : response, (withoutIndex x).server = x.server := fun _ => rfl
  simp only [ho, hr, hs]
  split_ifs <;> rfl

theorem foldl_pickBetter_withoutIndex (qtype : Nat) :
    ∀ (rest : List response) (first : response),
      withoutIndex (rest.foldl (pickBetter qtype) first)
        = (rest.map withoutIndex).foldl (pickBetter qtype) (withoutIndex first) := by
  intro rest
  induction rest with
  | nil => intro first; rfl
  | cons r rest ih =>
    intro first
    simp only [List.foldl_cons, List.map_cons]
    rw [ih, pickBetter_withoutIndex]

/-- The choice of `selectBest` does not look at the step index. -/
theorem selectBest_withoutIndex (rs : List response) (qtype : Nat) :
    (selectBest rs qtype).map withoutIndex = selectBest (rs.map withoutIndex) qtype := by
  unfold selectBest
  have hfilter : (rs.map withoutIndex).filter (fun r => r.err.isNone && r.resp.isSome)
      = (rs.filter (fun r => r.err.isNone && r.resp.isSome)).map withoutIndex := by
    rw [List.filter_map]
    rfl
  simp only [hfilter]
  cases rs.filter (fun r => r.err.isNone && r.resp.isSome) with
  | nil => rfl
  | cons first rest =>
    simp only [List.map_cons, Option.map_some']
    rw [foldl_pickBetter_withoutIndex]

/-- The response chosen at a hop, without its step index, is the choice among the
responses of the fan-out. -/
theorem chosen_withoutIndex {W : Type} (t : Tracer W) (qtype : Nat) (st : HopState W) :
    (chosen t qtype st).map withoutIndex
      = selectBest ((exchangeAll t st.name qtype st.servers st.world).1.map withoutIndex)
          qtype := by
  unfold chosen queryServers
  rw [selectBest_withoutIndex]
  cases t.config.Verbose
  · rfl
  · simp only [Bool.not_true, Bool.false_eq_true, if_false]
    rw [recordResponses_withoutIndex]

/-- Against a responder that answers each query the same way every time, two hops with
the same name and the same servers choose the same response, up to its step index. -/
theorem chosen_repeat {W : Type} (t : Tracer W)
    (hsame : ∀ w w2 server name q, (t.exchange w server name q).1 = (t.exchange w2 server name q).1)
    (qtype : Nat) (st st2 : HopState W) (hn : st2.name = st.name) (hs : st2.servers = st.servers)
    (b : response) (r : Msg) (hb : chosen t qtype st = some b) (hr : b.resp = some r) :
    ∃ b2, chosen t qtype st2 = some b2 ∧ b2.resp = some r := by
  have h1 := chosen_withoutIndex t qtype st
  have h2 := chosen_withoutIndex t qtype st2
  rw [hn, hs, exchangeAll_stateless t hsame st.name qtype st.servers st2.world st.world,
    ← h1, hb] at h2
  cases hc : chosen t qtype st2 with
  | none => rw [hc] at h2; cases h2
  | some b2 =>
    rw [hc] at h2
    simp only [Option.map_some', Option.some.injEq] at h2
    have := congrArg response.resp h2
    exact ⟨b2, rfl, this.trans hr⟩

/-- A hop whose chosen response falls through goes on with name, servers, labels and
visited names as they were. -/
theorem hopStep_fall {W : Type} (t : Tracer W) (qtype : Nat) (st : HopState W) (b : response)
    (r : Msg) (hb : chosen t qtype st = some b) (hr : b.resp = some r)
    (hf : fallsThrough r qtype = true) :
    ∃ st2, hopStep t qtype st = .next st2 ∧ st2.name = st.name ∧ st2.servers = st.servers ∧
      st2.serverLabels = st.serverLabels ∧ st2.visited = st.visited := by
  have hstep := hopStep_of_chosen t qtype st b hb
  have hr2 : (hopInput t qtype st b).2.resp = some r := by rw [hopInput_resp, hr]
  rw [decideHop_fall t qtype st _ _ _ r hr2 hf] at hstep
  exact ⟨_, hstep, rfl, rfl, rfl, rfl⟩

/-- Against a responder that answers each query the same way every time, a hop that
falls through is repeated as often as the loop goes on. -/
theorem fall_chain {W : Type} (t : Tracer W)
    (hsame : ∀ w w2 server name q, (t.exchange w server name q).1 = (t.exchange w2 server name q).1)
    (qtype : Nat) (r : Msg) (hf : fallsThrough r qtype = true) :
    ∀ (n : Nat) (st : HopState W) (b : response), chosen t qtype st = some b →
      b.resp = some r →
      ∃ s b2, hopAt t qtype n st = some s ∧ s.name = st.name ∧ s.servers = st.servers ∧
        s.serverLabels = st.serverLabels ∧ s.visited = st.visited ∧
        chosen t qtype s = some b2 ∧ b2.resp = some r := by
  intro n
  induction n with
  | zero =>
    intro st b hb hr
    exact ⟨st, b, rfl, rfl, rfl, rfl, rfl, hb, hr⟩
  | succ n ih =>
    intro st b hb hr
    obtain ⟨st2, hstep, h1, h2, h3, h4⟩ := hopStep_fall t qtype st b r hb hr hf
    obtain ⟨b2, hb2, hr2⟩ := chosen_repeat t hsame qtype st st2 h1 h2 b r hb hr
    obtain ⟨s, b3, k1, k2, k3, k4, k5, k6, k7⟩ := ih st2 b2 hb2 hr2
    refine ⟨s, b3, ?_, k2.trans h1, k3.trans h2, k4.trans h3, k5.trans h4, k6, k7⟩
    simp only [hopAt, hstep]
    exact k1

/-- A loop that gets as far as its last hop ends with "max hops exceeded", has executed
all its hops, and has not stopped at a hop without a chosen response. -/
theorem hopAt_full {W : Type} (t : Tracer W) (qtype : Nat) :
    ∀ (n : Nat) (st s : HopState W), hopAt t qtype n st = some s →
      traceLoop t qtype n st = finish s.result
          { Kind := analyze.OutcomeServfailTimeout, Summary := "max hops exceeded",
            EvidenceStep := latestStepIndex s.result.TraceSteps,
            Hints := ["increase --max-hops", "check for CNAME loops"] } ∧
      hopsExecuted t qtype n st = n ∧ stopsUnreachable t qtype n st = false := by
  intro n
  induction n with
  | zero =>
    intro st s h
    simp only [hopAt, Option.some.injEq] at h
    subst h
    exact ⟨rfl, rfl, rfl⟩
  | succ n ih =>
    intro st s h
    unfold hopAt at h
    cases hs : hopStep t qtype st with
    | done res => rw [hs] at h; cases h
    | next st2 =>
      rw [hs] at h
      obtain ⟨i1, i2, i3⟩ := ih st2 s h
      have hc : ∃ b, chosen t qtype st = some b := by
        cases hc : chosen t qtype st with
        | none =>
          obtain ⟨res, hd, _⟩ := hopStep_no_choice t qtype st hc
          rw [hs] at hd
          cases hd
        | some b => exact ⟨b, rfl⟩
      obtain ⟨b, hb⟩ := hc
      refine ⟨?_, ?_, ?_⟩
      · simp only [traceLoop, hs]
        exact i1
      · simp only [hopsExecuted, hs, i2]
        omega
      · simp only [stopsUnreachable, hb, hs]
        exact i3

/-- The state of a later hop, counted from a hop the loop reaches. -/
theorem hopAt_add {W : Type} (t : Tracer W) (qtype : Nat) (n : Nat) :
    ∀ (j : Nat) (st0 s : HopState W), hopAt t qtype j st0 = some s →
      hopAt t qtype (j + n) st0 = hopAt t qtype n s := by
  intro j
  induction j with
  | zero =>
    intro st0 s h
    simp only [hopAt, Option.some.injEq] at h
    subst h
    simp
  | succ j ih =>
    intro st0 s h
    unfold hopAt at h
    cases hs : hopStep t qtype st0 with
    | done res => rw [hs] at h; cases h
    | next st1 =>
      rw [hs] at h
      have : j + 1 + n = (j + n) + 1 := by omega
      rw [this]
      simp only [hopAt, hs]
      exact ih st1 s h

/-- C34: fall-through hops.  When the response chosen at a hop is NXDOMAIN without the
authoritative bit, or authoritative NOERROR with no answer of the queried type, no
CNAME or DNAME, no SOA and no NS in Authority, the hop produces no diagnosis and
leaves name, servers and visited names unchanged.  Against a responder that answers
each (server, name, type) query identically every time, every later hop of the loop
queries the same name at the same servers and chooses a response with the same
message, and the trace ends with SERVFAIL_TIMEOUT "max hops exceeded" after exactly
`MaxHops` hops, with exactly `MaxHops` steps in non-verbose mode. -/
theorem trace_fall_through {W : Type} (t : Tracer W) (qtype : Nat) :
    (∀ (st : HopState W) (b : response) (r : Msg),
      chosen t qtype st = some b → b.resp = some r → fallsThrough r qtype = true →
      ∃ st2, hopStep t qtype st = .next st2 ∧ st2.name = st.name ∧
        st2.servers = st.servers ∧ st2.visited = st.visited) ∧
    ((∀ w w2 server name q, (t.exchange w server name q).1 = (t.exchange w2 server name q).1) →
      ∀ (w : W) (fqdn rrtype : String) (j : Nat) (st : HopState W) (b : response) (r : Msg),
        StringToType (ToUpper rrtype) = some qtype →
        j ≤ t.config.MaxHops.toNat →
        hopAt t qtype j (initialState t w fqdn) = some st →
        chosen t qtype st = some b → b.resp = some r → fallsThrough r qtype = true →
        (∀ i, j ≤ i → i ≤ t.config.MaxHops.toNat →
          ∃ s b2, hopAt t qtype i (initialState t w fqdn) = some s ∧ s.name = st.name ∧
            s.servers = st.servers ∧ s.visited = st.visited ∧
            chosen t qtype s = some b2 ∧ b2.resp = some r) ∧
        ∃ res, Trace t w fqdn rrtype = .ok res ∧
          res.Diagnosis.Classification = "SERVFAIL_TIMEOUT" ∧
          res.Diagnosis.Summary = "max hops exceeded" ∧
          hopsExecuted t qtype t.config.MaxHops.toNat (initialState t w fqdn)
            = t.config.MaxHops.toNat ∧
          (t.config.Verbose = false → res.TraceSteps.length = t.config.MaxHops.toNat)) := by
  constructor
  · intro st b r hb hr hf
    obtain ⟨st2, h, h1, h2, _, h4⟩ := hopStep_fall t qtype st b r hb hr hf
    exact ⟨st2, h, h1, h2, h4⟩
  · intro hsame w fqdn rrtype j st b r hq hj hreach hb hr hf
    have hlater : ∀ i, j ≤ i →
        ∃ s b2, hopAt t qtype i (initialState t w fqdn) = some s ∧ s.name = st.name ∧
          s.servers = st.servers ∧ s.visited = st.visited ∧
          chosen t qtype s = some b2 ∧ b2.resp = some r := by
      intro i hi
      obtain ⟨s, b2, k1, k2, k3, _, k5, k6, k7⟩ := fall_chain t hsame qtype r hf (i - j) st b hb hr
      have hadd := hopAt_add t qtype (i - j) j _ st hreach
      rw [Nat.add_sub_cancel' hi] at hadd
      exact ⟨s, b2, hadd.trans k1, k2, k3, k5, k6, k7⟩
    refine ⟨fun i hi _ => hlater i hi, ?_⟩
    obtain ⟨s, _, hs, _⟩ := hlater t.config.MaxHops.toNat hj
    obtain ⟨f1, f2, f3⟩ := hopAt_full t qtype _ _ s hs
    have htrace : Trace t w fqdn rrtype = .ok (traceLoop t qtype t.config.MaxHops.toNat
        (initialState t w fqdn)) := by simp [Trace, hq]
    refine ⟨_, htrace, by rw [f1]; rfl, by rw [f1]; rfl, f2, ?_⟩
    intro hv
    have hcount := (traceLoop_nonverbose_count t qtype hv t.config.MaxHops.toNat
      (initialState t w fqdn)).1
    rw [f3, f2] at hcount
    simpa [initialState, TraceResult.zero] using hcount

set_option maxRecDepth 100000 in
/-- C34 on a root server that answers every query with NXDOMAIN without the
authoritative bit: five hops, five steps, "max hops exceeded". -/
theorem trace_fall_through_witness :
    ∃ res, Trace cachedNxdomainTracer () "www.example.com" "A" = .ok res ∧
      res.Diagnosis.Classification = "SERVFAIL_TIMEOUT" ∧
      res.Diagnosis.Summary = "max hops exceeded" ∧
      hopsExecuted cachedNxdomainTracer TypeA 5
        (initialState cachedNxdomainTracer () "www.example.com") = 5 ∧
      res.TraceSteps.length = 5 := by
  obtain ⟨res, h1, h2, h3, h4, h5⟩ := ((trace_fall_through cachedNxdomainTracer TypeA).2
    (fun _ _ _ _ _ => rfl) () "www.example.com" "A" 0
    (initialState cachedNxdomainTracer () "www.example.com")
    (udpResponse "192.0.2.1:53" cachedNxdomainMsg 5000000 0) cachedNxdomainMsg
    (by decide) (by decide) rfl rfl rfl (by decide)).2
  exact ⟨res, h1, h2, h3, h4, h5 rfl⟩

/-! ## Case mapping outside ASCII -/

/-- The case mapping follows the Unicode tables: capital and small e-acute, the Kelvin
sign and `k`, the dotted capital I and `i` fold together under `ToLower`, and the long
s becomes `S` under `ToUpper`, so an rrtype spelled with it is the record type SOA. -/
theorem case_mapping_unicode :
    ToLower "NS.É.Example." = "ns.é.example." ∧ ToLower "\u212A" = "k" ∧
    ToLower "\u0130" = "i" ∧ ToLower "\u017F" = "\u017F" ∧
    ToUpper "\u017Foa" = "SOA" ∧ ToUpper "\u00DF" = "\u00DF" ∧
    StringToType (ToUpper "\u017Foa") = some TypeSOA := by
  decide

/-- Glue, bailiwick and resolver keys on names that differ in the case of a letter
outside ASCII: the glue is extracted, the name is in the bailiwick of the zone, and the
second resolver is a duplicate of the first. -/
theorem case_folding_on_accented_names :
    extractGlueServers accentedGlueMsg = ["192.0.2.9:53"] ∧
    splitBailiwick ["ns.é.example."] "É.example."
      = (["ns.é.example."], []) ∧
    ladder.uniqueResolvers ["É.example", "é.example"] = ["É.example"] := by
  refine ⟨by decide, by decide, by decide⟩

/-! ## A visited target in an authoritative answer -/

/-- The counterexample to C6: the second hop of the trace of `a.example` starts with
`b.example.` visited and its chosen response carries a CNAME whose target is
`b.example.`; the response is an authoritative answer of the queried type, so the hop
returns SUCCESS and no loop is reported. -/
theorem visited_target_answered_counterexample :
    aliasAnswerSecondHop.visited = ["b.example."] ∧
    (∃ b r hdr, chosen aliasAnswerTracer TypeA aliasAnswerSecondHop = some b ∧
      b.resp = some r ∧ firstCNAME r = some (hdr, "b.example.") ∧
      "b.example." ∈ aliasAnswerSecondHop.visited) ∧
    (∃ res, hopStep aliasAnswerTracer TypeA aliasAnswerSecondHop = .done res ∧
      res.Diagnosis.Classification = "SUCCESS") ∧
    (Trace aliasAnswerTracer () "a.example" "A").toOption.map
        (fun res => (res.Diagnosis.Classification, res.Diagnosis.Summary))
      = some ("SUCCESS", "authoritative answer returned") := by
  refine ⟨by decide, ⟨_, _, _, rfl, rfl, rfl, by decide⟩, ⟨_, rfl, rfl⟩, by decide⟩

/-! ## A referral from an authoritative server -/

set_option maxRecDepth 100000 in
/-- The counterexample to C8: the response chosen at the first hop is a referral (NOERROR,
no Answer, an NS record in Authority) without glue, and the sub-trace resolves its
out-of-bailiwick nameserver to an address; the response is authoritative and carries an
SOA, so the hop returns NODATA instead of going on. -/
theorem authoritative_referral_counterexample :
    chosen authoritativeReferralTracer TypeA
        (initialState authoritativeReferralTracer () "www.example.com")
      = some (udpResponse "192.0.2.1:53" authoritativeReferralMsg 5000000 0) ∧
    authoritativeReferralMsg.Rcode = RcodeSuccess ∧ authoritativeReferralMsg.Answer = [] ∧
    hasDelegation authoritativeReferralMsg = true ∧
    extractGlueServers authoritativeReferralMsg = [] ∧
    endpointsInOrder (subHost authoritativeReferralTracer)
        (splitBailiwick (nsNamesAndZone authoritativeReferralMsg).1
          (nsNamesAndZone authoritativeReferralMsg).2).2
        (hopInput authoritativeReferralTracer TypeA
          (initialState authoritativeReferralTracer () "www.example.com")
          (udpResponse "192.0.2.1:53" authoritativeReferralMsg 5000000 0)).1
      = ["192.0.2.7:53"] ∧
    (∃ res, hopStep authoritativeReferralTracer TypeA
        (initialState authoritativeReferralTracer () "www.example.com") = .done res ∧
      res.Diagnosis.Classification = "NODATA") := by
  refine ⟨rfl, rfl, rfl, by decide, by decide, by decide, ⟨_, rfl, rfl⟩⟩

/-! ## The semaphore of the fan-out -/

/-- C14: `Trace` does not return for every configuration.  `NewTracer` replaces a
parallelism of 0 and keeps -1; with it the first call of `queryServers`, for the root
hints at the first hop, panics where it makes its semaphore, so the trace of a name
with a known rrtype panics before any query is sent. -/
theorem trace_negative_parallelism_panics :
    negativeParallelismTracer.config.Parallelism = -1 ∧
    negativeParallelismTracer.config.MaxHops = 5 ∧
    queryServersStart negativeParallelismTracer negativeParallelismTracer.rootHints
      = Start.panics ∧
    TraceStart negativeParallelismTracer "A" = Start.panics := by
  decide

end Dnstrace
